import Mathlib

/-!
# Shallow embedding of `ext/_minyaml.c`

The C extension turns the event stream of libyaml into Python objects.  The
embedding keeps the C names.  Stateful code is written in state-passing style:
the parser is the list of events still to be read, the builder registry is a
list of `MinYamlBuilders` records (the linked list of the source), and the alias
dictionary is an association list.  Every fallible function returns
`Except PyExc _`, the error being the Python exception class that the C code
sets before it returns `NULL`.

Library functions the C code calls (libc, PCRE, CPython) are modelled next to
their first use, each with a comment naming the routine it stands for.
-/

set_option autoImplicit false

namespace MinYaml

/-! ## Python objects -/

/-- Python exception classes set by the extension or by the CPython calls it
makes.  `Raised` is an exception of a user callable, `crash` stands for
undefined behaviour of the C code (a `NULL` pointer handed to `atoi`), and
`fuel` is no exception at all: it marks that the bound on the recursion of the
embedding was used up, which does not happen with the bound the entry points
choose. -/
inductive PyExc where
  | MemoryError
  | SyntaxError
  | RuntimeError
  | TypeError
  | ValueError
  | KeyError
  | AttributeError
  | Raised (name : String)
  | crash
  | fuel
deriving DecidableEq, Repr

/-- An IEEE-754 binary floating point value: a finite value is
`(-1)^neg * m * 2^e`.  The same carrier holds C `double` and C `float`
values; they differ in the precision the operations round to. -/
inductive c_double where
  | finite (neg : Bool) (m : Nat) (e : Int)
  | inf (neg : Bool)
  | nan
deriving DecidableEq, Repr

/-- Immutable Python objects without children: `None`, `bool`, `int`, `float`,
`str`, `bytes`, `datetime.date`, `datetime.datetime`, and `object id` for any
other object a user callable hands back (compared by identity). -/
inductive PyAtom where
  | none
  | bool (b : Bool)
  | int (n : Int)
  | float (d : c_double)
  | str (s : String)
  | bytes (b : List Nat)
  | date (year month day : Int)
  | datetime (year month day hour minute second usecond : Int)
  | object (id : Nat)
deriving DecidableEq, Repr

/-- The Python objects the extension builds.  A `dict` keeps its items in
insertion order; a `set` is kept as the list of its elements in the order
they were added. -/
inductive PyObject where
  | atom (a : PyAtom)
  | list (items : List PyObject)
  | tuple (items : List PyObject)
  | dict (items : List (PyObject × PyObject))
  | set (items : List PyObject)
deriving Repr

namespace PyObject

@[match_pattern] def none : PyObject := atom PyAtom.none
@[match_pattern] def bool (b : Bool) : PyObject := atom (PyAtom.bool b)
@[match_pattern] def int (n : Int) : PyObject := atom (PyAtom.int n)
@[match_pattern] def float (d : c_double) : PyObject := atom (PyAtom.float d)
@[match_pattern] def str (s : String) : PyObject := atom (PyAtom.str s)
@[match_pattern] def bytes (b : List Nat) : PyObject := atom (PyAtom.bytes b)
@[match_pattern] def date (y m d : Int) : PyObject := atom (PyAtom.date y m d)
@[match_pattern] def datetime (y m d h mi s us : Int) : PyObject :=
  atom (PyAtom.datetime y m d h mi s us)

mutual
/-- Structural equality of Python objects is decidable. -/
def decEq : (a b : PyObject) → Decidable (a = b)
  | atom x, atom y =>
    if h : x = y then isTrue (by rw [h]) else isFalse (by intro h2; cases h2; exact h rfl)
  | list xs, list ys =>
    match decEqList xs ys with
    | isTrue h => isTrue (by rw [h])
    | isFalse h => isFalse (by intro h2; cases h2; exact h rfl)
  | tuple xs, tuple ys =>
    match decEqList xs ys with
    | isTrue h => isTrue (by rw [h])
    | isFalse h => isFalse (by intro h2; cases h2; exact h rfl)
  | dict xs, dict ys =>
    match decEqItems xs ys with
    | isTrue h => isTrue (by rw [h])
    | isFalse h => isFalse (by intro h2; cases h2; exact h rfl)
  | set xs, set ys =>
    match decEqList xs ys with
    | isTrue h => isTrue (by rw [h])
    | isFalse h => isFalse (by intro h2; cases h2; exact h rfl)
  | atom _, list _ | atom _, tuple _ | atom _, dict _ | atom _, set _ =>
    isFalse (by intro h; cases h)
  | list _, atom _ | list _, tuple _ | list _, dict _ | list _, set _ =>
    isFalse (by intro h; cases h)
  | tuple _, atom _ | tuple _, list _ | tuple _, dict _ | tuple _, set _ =>
    isFalse (by intro h; cases h)
  | dict _, atom _ | dict _, list _ | dict _, tuple _ | dict _, set _ =>
    isFalse (by intro h; cases h)
  | set _, atom _ | set _, list _ | set _, tuple _ | set _, dict _ =>
    isFalse (by intro h; cases h)
/-- Structural equality of lists of Python objects. -/
def decEqList : (a b : List PyObject) → Decidable (a = b)
  | [], [] => isTrue rfl
  | [], _ :: _ => isFalse (by intro h; cases h)
  | _ :: _, [] => isFalse (by intro h; cases h)
  | x :: xs, y :: ys =>
    match decEq x y, decEqList xs ys with
    | isTrue h1, isTrue h2 => isTrue (by rw [h1, h2])
    | isFalse h1, _ => isFalse (by intro h; cases h; exact h1 rfl)
    | _, isFalse h2 => isFalse (by intro h; cases h; exact h2 rfl)
/-- Structural equality of lists of key/value items. -/
def decEqItems : (a b : List (PyObject × PyObject)) → Decidable (a = b)
  | [], [] => isTrue rfl
  | [], _ :: _ => isFalse (by intro h; cases h)
  | _ :: _, [] => isFalse (by intro h; cases h)
  | (x1, x2) :: xs, (y1, y2) :: ys =>
    match decEq x1 y1, decEq x2 y2, decEqItems xs ys with
    | isTrue h1, isTrue h2, isTrue h3 => isTrue (by rw [h1, h2, h3])
    | isFalse h1, _, _ => isFalse (by intro h; cases h; exact h1 rfl)
    | _, isFalse h2, _ => isFalse (by intro h; cases h; exact h2 rfl)
    | _, _, isFalse h3 => isFalse (by intro h; cases h; exact h3 rfl)
end

instance : DecidableEq PyObject := decEq

end PyObject

/-- Result of a C function that returns `PyObject*`: the object, or the
exception set when it returns `NULL`. -/
abbrev PyResult := Except PyExc PyObject

instance {α : Type} [DecidableEq α] : DecidableEq (Except PyExc α) := fun a b =>
  match a, b with
  | .ok x, .ok y => if h : x = y then isTrue (by rw [h]) else isFalse (by intro h2; cases h2; exact h rfl)
  | .error x, .error y =>
    if h : x = y then isTrue (by rw [h]) else isFalse (by intro h2; cases h2; exact h rfl)
  | .ok _, .error _ => isFalse (by intro h; cases h)
  | .error _, .ok _ => isFalse (by intro h; cases h)

/-! ## Dictionaries and sets of CPython -/

/-- Value of a finite double when it is a whole number. -/
def c_double.toInt? : c_double → Option Int
  | .finite neg m e =>
    if 0 ≤ e then some ((if neg then -1 else 1) * (m * 2 ^ e.toNat : Nat))
    else if m % 2 ^ (-e).toNat = 0 then
      some ((if neg then -1 else 1) * (m / 2 ^ (-e).toNat : Nat))
    else none
  | _ => none

mutual
/-- Canonical form of a dictionary key: Python compares keys with `==`, under
which `True == 1 == 1.0`; equal keys have the same canonical form. -/
def py_key : PyObject → PyObject
  | .atom (.bool b) => .int (if b then 1 else 0)
  | .atom (.float d) =>
    match d.toInt? with
    | some n => .int n
    | none => .float d
  | .atom a => .atom a
  | .tuple xs => .tuple (py_key_list xs)
  | .list xs => .list xs
  | .dict xs => .dict xs
  | .set xs => .set xs
/-- Canonical form of the items of a tuple key. -/
def py_key_list : List PyObject → List PyObject
  | [] => []
  | x :: xs => py_key x :: py_key_list xs
end

mutual
/-- Whether `hash(o)` succeeds: lists, dictionaries and sets are unhashable,
a tuple is hashable when its items are. -/
def PyObject_hashable : PyObject → Bool
  | .atom _ => true
  | .tuple xs => PyObject_hashable_all xs
  | .list _ => false
  | .dict _ => false
  | .set _ => false
/-- All items of a tuple are hashable. -/
def PyObject_hashable_all : List PyObject → Bool
  | [] => true
  | x :: xs => PyObject_hashable x && PyObject_hashable_all xs
end

/-- Key comparison of a dictionary lookup. -/
def py_key_eq (a b : PyObject) : Bool := decide (py_key a = py_key b)

/-- The items of a Python `dict`, oldest first. -/
abbrev PyDict := List (PyObject × PyObject)

/-- `PyDict_GetItem`: the value bound to `key`, if any. -/
def PyDict_GetItem : PyDict → PyObject → Option PyObject
  | [], _ => none
  | (k, v) :: rest, key => if py_key_eq k key then some v else PyDict_GetItem rest key

/-- `PyDict_Contains`. -/
def PyDict_Contains (mp : PyDict) (key : PyObject) : Bool := (PyDict_GetItem mp key).isSome

/-- Replace the value of the item whose key equals `key`, or append a new
item at the end. -/
def dict_insert : PyDict → PyObject → PyObject → PyDict
  | [], key, value => [(key, value)]
  | (k, v) :: rest, key, value =>
    if py_key_eq k key then (k, value) :: rest else (k, v) :: dict_insert rest key value

/-- `PyDict_SetItem(mp, key, value)`: fails with `TypeError` on an unhashable
key. -/
def PyDict_SetItem (mp : PyDict) (key value : PyObject) : Except PyExc PyDict :=
  if PyObject_hashable key then .ok (dict_insert mp key value) else .error .TypeError

/-- `PyDict_SetItemString(mp, key, value)`. -/
def PyDict_SetItemString (mp : PyDict) (key : String) (value : PyObject) : Except PyExc PyDict :=
  PyDict_SetItem mp (.str key) value

/-- `PyDict_GetItemString(mp, key)`. -/
def PyDict_GetItemString (mp : PyDict) (key : String) : Option PyObject :=
  PyDict_GetItem mp (.str key)

/-- The loop of `PyDict_Merge(a, b, 0)` over the items of `b`: an item is
added only when its key is not yet in `a`. -/
def dict_merge_items : PyDict → PyDict → PyDict
  | a, [] => a
  | a, (k, v) :: rest =>
    if PyDict_Contains a k then dict_merge_items a rest
    else dict_merge_items (dict_insert a k v) rest

/-- `PyDict_Merge(a, b, 0)`.  When `b` is not a dictionary CPython asks it for
`keys()`, which none of the modelled objects has: `AttributeError`. -/
def PyDict_Merge (a : PyDict) (b : PyObject) : Except PyExc PyDict :=
  match b with
  | .dict items => .ok (dict_merge_items a items)
  | _ => .error .AttributeError

/-- `PySet_New(mapping)`: the set of the keys of a dictionary. -/
def PySet_New (mp : PyDict) : PyObject := .set (mp.map Prod.fst)

/-! ## Floating point arithmetic (IEEE-754, round to nearest, ties to even) -/

/-- Number of binary digits of `n`, counted with at most `fuel` halvings. -/
def bit_length_aux : Nat → Nat → Nat
  | 0, _ => 0
  | fuel + 1, n => if n = 0 then 0 else 1 + bit_length_aux fuel (n / 2)

/-- Number of binary digits of `n`: `0` for `0`, else `floor (log2 n) + 1`. -/
def bit_length (n : Nat) : Nat := bit_length_aux n n

/-- Mantissa and exponent of `num / den` rounded to `prec` bits, with least
exponent `emin` (where the value becomes subnormal). -/
def round_mantissa (prec : Nat) (emin : Int) (num den : Nat) : Nat × Int :=
  if num = 0 ∨ den = 0 then (0, emin) else
  let l : Int := (bit_length num : Int) - (bit_length den : Int)
  let ea : Int := max emin (l - (prec : Int) + 1)
  let qa := (num * 2 ^ (-ea).toNat) / (den * 2 ^ ea.toNat)
  let e : Int := if qa < 2 ^ (prec - 1) ∧ emin < ea then ea - 1 else ea
  let n := num * 2 ^ (-e).toNat
  let d := den * 2 ^ e.toNat
  let q := n / d
  let r := n % d
  let q1 := if d < 2 * r ∨ (2 * r = d ∧ q % 2 = 1) then q + 1 else q
  if q1 = 2 ^ prec then (2 ^ (prec - 1), e + 1) else (q1, e)

/-- The value `(-1)^neg * num / den` rounded to the format given by `prec`,
`emin` and the largest exponent `emax` of a full mantissa. -/
def fp_round (prec : Nat) (emin emax : Int) (neg : Bool) (num den : Nat) : c_double :=
  let me := round_mantissa prec emin num den
  if emax < me.2 then .inf neg else .finite neg me.1 me.2

/-- Product of two floating point values, rounded to the given format. -/
def fp_mul (prec : Nat) (emin emax : Int) : c_double → c_double → c_double
  | .finite n1 m1 e1, .finite n2 m2 e2 =>
    fp_round prec emin emax (n1 != n2) (m1 * m2 * 2 ^ (e1 + e2).toNat) (2 ^ (-(e1 + e2)).toNat)
  | .nan, _ => .nan
  | _, .nan => .nan
  | .inf n1, .finite n2 m2 _ => if m2 = 0 then .nan else .inf (n1 != n2)
  | .finite n1 m1 _, .inf n2 => if m1 = 0 then .nan else .inf (n1 != n2)
  | .inf n1, .inf n2 => .inf (n1 != n2)

/-- Sum of two floating point values, rounded to the given format. -/
def fp_add (prec : Nat) (emin emax : Int) : c_double → c_double → c_double
  | .finite n1 m1 e1, .finite n2 m2 e2 =>
    let e := min e1 e2
    let a : Int := (if n1 then -1 else 1) * (m1 * 2 ^ (e1 - e).toNat : Nat)
    let b : Int := (if n2 then -1 else 1) * (m2 * 2 ^ (e2 - e).toNat : Nat)
    let s := a + b
    if s = 0 then .finite (n1 && n2) 0 emin
    else fp_round prec emin emax (decide (s < 0)) (s.natAbs * 2 ^ e.toNat) (2 ^ (-e).toNat)
  | .nan, _ => .nan
  | _, .nan => .nan
  | .inf n1, .finite _ _ _ => .inf n1
  | .finite _ _ _, .inf n2 => .inf n2
  | .inf n1, .inf n2 => if n1 = n2 then .inf n1 else .nan

/-- Rounding to C `double`. -/
def double_round (neg : Bool) (num den : Nat) : c_double := fp_round 53 (-1074) 971 neg num den

/-- Rounding to C `float`. -/
def float_round (neg : Bool) (num den : Nat) : c_double := fp_round 24 (-149) 104 neg num den

/-- Conversion `(double)n` of an integer. -/
def double_of_int (n : Int) : c_double := double_round (decide (n < 0)) n.natAbs 1

/-- Conversion `(float)d` of a double. -/
def float_of_double : c_double → c_double
  | .finite neg m e => float_round neg (m * 2 ^ e.toNat) (2 ^ (-e).toNat)
  | d => d

/-- Conversion `(int)x` of a floating point value: truncation toward zero.
Outside the range of `int` (undefined in C) the model gives `INT_MIN`, the
result of the x86 conversion instruction. -/
def int_of_fp : c_double → Int
  | .finite neg m e =>
    let t : Int := (if neg then -1 else 1) * (m * 2 ^ e.toNat / 2 ^ (-e).toNat : Nat)
    if -(2 : Int) ^ 31 ≤ t ∧ t < 2 ^ 31 then t else -(2 : Int) ^ 31
  | _ => -(2 : Int) ^ 31

/-! ## C strings, libc and the CPython conversions

A `char*` is the list of the characters from the pointer on; what lies behind
the end of the list reads as NUL. -/

/-- The C string at a pointer: the characters before the first NUL. -/
def c_str (p : List Char) : List Char := p.takeWhile (fun c => c != '\x00')

/-- `isspace` in the C locale. -/
def isspace (c : Char) : Bool :=
  c == ' ' || c == '\t' || c == '\n' || c == '\x0b' || c == '\x0c' || c == '\r'

/-- `isdigit`. -/
def isdigit (c : Char) : Bool := decide (48 ≤ c.toNat ∧ c.toNat ≤ 57)

/-- Value of a digit in bases up to 36 (`_PyLong_DigitValue`). -/
def digit_value (c : Char) : Option Nat :=
  if 48 ≤ c.toNat ∧ c.toNat ≤ 57 then some (c.toNat - 48)
  else if 97 ≤ c.toNat ∧ c.toNat ≤ 122 then some (c.toNat - 87)
  else if 65 ≤ c.toNat ∧ c.toNat ≤ 90 then some (c.toNat - 55)
  else none

/-- The decimal digits at the start of a string, accumulated onto `acc`. -/
def strtol_digits (acc : Nat) : List Char → Nat
  | [] => acc
  | c :: r => if isdigit c then strtol_digits (acc * 10 + (c.toNat - 48)) r else acc

/-- The number `strtol(p, NULL, 10)` reads: white space, a sign, decimal
digits. -/
def strtol_value (p : List Char) : Int :=
  match p.dropWhile isspace with
  | '-' :: r => -(strtol_digits 0 r : Int)
  | '+' :: r => (strtol_digits 0 r : Int)
  | s => (strtol_digits 0 s : Int)

/-- A number clamped to the range of `long` (64 bits). -/
def long_clamp (v : Int) : Int :=
  if v < -(2 : Int) ^ 63 then -(2 : Int) ^ 63 else if (2 : Int) ^ 63 ≤ v then 2 ^ 63 - 1 else v

/-- `strtol(p, NULL, 10)` of glibc: the number read, clamped to the range of
`long`. -/
def strtol (p : List Char) : Int := long_clamp (strtol_value p)

/-- `atol(p)`. -/
def atol (p : List Char) : Int := strtol p

/-- `atoi(p)`: the `long` of `strtol` cut to 32 bits (two's complement). -/
def atoi (p : List Char) : Int := (strtol p + 2 ^ 31) % 2 ^ 32 - 2 ^ 31

/-- `atoi(cur)` where `cur` may be `NULL`: the C code then dereferences a
null pointer. -/
def atoi_ptr : Option (List Char) → Except PyExc Int
  | some p => .ok (atoi p)
  | none => .error .crash

/-- `strchr(p, c)`: the part of the C string from the first `c` on. -/
def strchr : List Char → Char → Option (List Char)
  | [], _ => none
  | x :: r, c => if x = c then some (x :: r) else if x = '\x00' then none else strchr r c

/-- The buffer `value` after `f` has rewritten what lies at `value + off`. -/
def poke (value : List Char) (off : Nat) (f : List Char → List Char) : List Char :=
  value.take off ++ f (value.drop off)

/-- `_remove_digit_separator(value, length, separator)`: the first loop copies
the characters other than the separator to the front, over at most `length`
characters and not beyond a NUL; the second loop fills what is left with NUL. -/
def _remove_digit_separator (value : List Char) (length : Nat) (separator : Char) : List Char :=
  let i := min length (c_str value).length
  let kept := (value.take i).filter (fun c => c != separator)
  kept ++ List.replicate (i - kept.length) '\x00' ++ value.drop i

/-- `PyUnicode_FromString(value)`: the C string as a Python `str` (libyaml
hands over valid UTF-8, so decoding cannot fail). -/
def PyUnicode_FromString (value : List Char) : PyObject := .str (String.mk (c_str value))

/-- Digits of `PyLong_FromString` in `base`, where one underscore may stand
between two digits; `us` tells that the last character read was an
underscore.  Gives the value and the unread rest, or nothing on a double or
trailing underscore. -/
def long_digits (base : Nat) : Nat → Bool → List Char → Option (Nat × List Char)
  | acc, us, [] => if us then none else some (acc, [])
  | acc, us, c :: r =>
    if c = '_' then (if us then none else long_digits base acc true r)
    else
      match digit_value c with
      | some d =>
        if d < base then long_digits base (acc * base + d) false r
        else if us then none else some (acc, c :: r)
      | none => if us then none else some (acc, c :: r)

/-- The limit of CPython on the conversion of a string to an `int`
(`sys.get_int_max_str_digits()`, 4300 by default): it applies when the base
is not a power of two, to the number of digits read. -/
def long_over_limit (base : Nat) (digits : Nat) : Bool :=
  !(base == 2 || base == 4 || base == 8 || base == 16 || base == 32) && decide (4300 < digits)

/-- `PyLong_FromString(str, NULL, base)` of CPython 3: white space, sign, base
prefix (`base` 0 reads the base from the prefix, and a leading `0` without
prefix must be zero), digits, white space, end of string; the digits read,
underscores apart, are counted against the limit `long_over_limit`.
`ValueError` otherwise. -/
def PyLong_FromString (str : List Char) (base : Nat) : Except PyExc Int :=
  let s0 := (c_str str).dropWhile isspace
  let neg := decide (s0.head? = some '-')
  let s1 := if s0.head? = some '+' ∨ s0.head? = some '-' then s0.tail else s0
  let x := (s1.tail.head?).getD '\x00'
  let zero := decide (s1.head? = some '0')
  let error_if_nonzero :=
    decide (base = 0) && zero && !(x == 'x' || x == 'X' || x == 'o' || x == 'O' || x == 'b' || x == 'B')
  let base1 :=
    if base = 0 then
      if !zero then 10
      else if x == 'x' || x == 'X' then 16
      else if x == 'o' || x == 'O' then 8
      else if x == 'b' || x == 'B' then 2
      else 10
    else base
  let skip :=
    zero && ((base1 == 16 && (x == 'x' || x == 'X')) || (base1 == 8 && (x == 'o' || x == 'O'))
      || (base1 == 2 && (x == 'b' || x == 'B')))
  let s2 := if skip then s1.tail.tail else s1
  let s3 := if skip ∧ s2.head? = some '_' then s2.tail else s2
  if s3.head? = some '_' then .error .ValueError
  else
    match long_digits base1 0 false s3 with
    | none => .error .ValueError
    | some (z, rest) =>
      if error_if_nonzero ∧ z ≠ 0 then .error .ValueError
      else if rest.length = s3.length then .error .ValueError
      else if rest.dropWhile isspace ≠ [] then .error .ValueError
      else if long_over_limit base1
          ((s3.take (s3.length - rest.length)).filter (fun c => c != '_')).length then
        .error .ValueError
      else .ok (if neg then -(z : Int) else (z : Int))

/-- A decimal literal `(-1)^neg * digits * 10^exp10`. -/
structure decimal where
  neg : Bool
  digits : Nat
  exp10 : Int
deriving DecidableEq, Repr

/-- The double nearest to a decimal literal. -/
def decimal.toDouble (d : decimal) : c_double :=
  if 0 ≤ d.exp10 then double_round d.neg (d.digits * 10 ^ d.exp10.toNat) 1
  else double_round d.neg d.digits (10 ^ (-d.exp10).toNat)

/-- The longest decimal floating point literal at the start of `s` and the
unread rest: sign, digits with an optional point (at least one digit), and
an exponent when it is complete. -/
def scan_decimal (s : List Char) : Option (decimal × List Char) :=
  let neg := decide (s.head? = some '-')
  let s1 := if s.head? = some '+' ∨ s.head? = some '-' then s.tail else s
  let ip := s1.takeWhile isdigit
  let r1 := s1.dropWhile isdigit
  let point := decide (r1.head? = some '.')
  let fp := if point then r1.tail.takeWhile isdigit else []
  let r2 := if point then r1.tail.dropWhile isdigit else r1
  if ip = [] ∧ fp = [] then none
  else
    let e := decide (r2.head? = some 'e' ∨ r2.head? = some 'E')
    let eneg := decide (r2.tail.head? = some '-')
    let r3 := if r2.tail.head? = some '+' ∨ r2.tail.head? = some '-' then r2.tail.tail else r2.tail
    let ed := r3.takeWhile isdigit
    let mant := strtol_digits 0 (ip ++ fp)
    if e ∧ ed ≠ [] then
      let ex : Int := (if eneg then -1 else 1) * (strtol_digits 0 ed : Int)
      some (⟨neg, mant, ex - fp.length⟩, r3.dropWhile isdigit)
    else some (⟨neg, mant, -(fp.length : Int)⟩, r2)

/-- `atof(p)` on decimal input: the literal at the start of the C string
after white space, `0.0` when there is none.  (The hexadecimal, infinity and
NaN forms of `strtod` do not occur: the callers hand over text that starts
with a point.) -/
def atof (p : List Char) : c_double :=
  match scan_decimal ((c_str p).dropWhile isspace) with
  | some (d, _) => d.toDouble
  | none => .finite false 0 (-1074)

/-- Lower case of an ASCII letter. -/
def ascii_lower (c : Char) : Char :=
  if 65 ≤ c.toNat ∧ c.toNat ≤ 90 then Char.ofNat (c.toNat + 32) else c

/-- `PyFloat_FromString(str)` on ASCII text, as `float(str)` of Python 3:
white space around the text is dropped, then come `inf`, `infinity` or `nan`
with an optional sign in any case, or a decimal literal that takes the whole
text.  `ValueError` otherwise. -/
def PyFloat_FromString (str : List Char) : PyResult :=
  let s := ((str.dropWhile isspace).reverse.dropWhile isspace).reverse
  let neg := decide (s.head? = some '-')
  let s1 := if s.head? = some '+' ∨ s.head? = some '-' then s.tail else s
  let low := s1.map ascii_lower
  if low = ['i', 'n', 'f'] ∨ low = ['i', 'n', 'f', 'i', 'n', 'i', 't', 'y'] then
    .ok (.float (.inf neg))
  else if low = ['n', 'a', 'n'] then .ok (.float .nan)
  else
    match scan_decimal s with
    | some (d, []) => .ok (.float d.toDouble)
    | _ => .error .ValueError

/-- Days of a month in the proleptic Gregorian calendar. -/
def days_in_month (year month : Int) : Int :=
  if month = 2 then
    (if year % 4 = 0 ∧ (year % 100 ≠ 0 ∨ year % 400 = 0) then 29 else 28)
  else if month = 4 ∨ month = 6 ∨ month = 9 ∨ month = 11 then 30
  else 31

/-- `PyDate_FromDate(year, month, day)`: `ValueError` unless the fields form a
date of the years 1 to 9999. -/
def PyDate_FromDate (year month day : Int) : PyResult :=
  if 1 ≤ year ∧ year ≤ 9999 ∧ 1 ≤ month ∧ month ≤ 12 ∧ 1 ≤ day ∧ day ≤ days_in_month year month then
    .ok (.date year month day)
  else .error .ValueError

/-- `PyDateTime_FromDateAndTime(year, month, day, hour, minute, second,
usecond)`: `ValueError` unless the date is valid, `hour` is in 0..23,
`minute` and `second` in 0..59 and `usecond` in 0..999999. -/
def PyDateTime_FromDateAndTime (year month day hour minute second usecond : Int) : PyResult :=
  if 1 ≤ year ∧ year ≤ 9999 ∧ 1 ≤ month ∧ month ≤ 12 ∧ 1 ≤ day ∧ day ≤ days_in_month year month
      ∧ 0 ≤ hour ∧ hour ≤ 23 ∧ 0 ≤ minute ∧ minute ≤ 59 ∧ 0 ≤ second ∧ second ≤ 59
      ∧ 0 ≤ usecond ∧ usecond ≤ 999999 then
    .ok (.datetime year month day hour minute second usecond)
  else .error .ValueError

/-- The table `table_a2b_base64` of `binascii`: the value of a base64
character; the pad character `=` has the entry 0. -/
def table_a2b_base64 (c : Char) : Option Nat :=
  if 65 ≤ c.toNat ∧ c.toNat ≤ 90 then some (c.toNat - 65)
  else if 97 ≤ c.toNat ∧ c.toNat ≤ 122 then some (c.toNat - 71)
  else if 48 ≤ c.toNat ∧ c.toNat ≤ 57 then some (c.toNat + 4)
  else if c = '+' then some 62
  else if c = '/' then some 63
  else if c = '=' then some 0
  else none

/-- `binascii_find_valid(s, slen, num)`: the `num + 1`-th valid base64
character of `s`. -/
def binascii_find_valid : List Char → Nat → Option Char
  | [], _ => none
  | c :: r, num =>
    if (table_a2b_base64 c).isSome then
      (match num with
       | 0 => some c
       | n + 1 => binascii_find_valid r n)
    else binascii_find_valid r num

/-- The loop of `binascii.a2b_base64` (non-strict mode) with its state
`quad_pos`, `leftchar`, `leftbits` and the bytes decoded so far. -/
def a2b_base64_loop : Nat → Nat → Nat → List Nat → List Char → Except PyExc (List Nat)
  | _, _, leftbits, out, [] => if leftbits ≠ 0 then .error .ValueError else .ok out
  | quad_pos, leftchar, leftbits, out, c :: r =>
    if 0x7f < c.toNat ∨ c = '\r' ∨ c = '\n' ∨ c = ' ' then
      a2b_base64_loop quad_pos leftchar leftbits out r
    else if c = '=' then
      if quad_pos < 2 ∨ (quad_pos = 2 ∧ binascii_find_valid (c :: r) 1 ≠ some '=') then
        a2b_base64_loop quad_pos leftchar leftbits out r
      else .ok out
    else
      match table_a2b_base64 c with
      | none => a2b_base64_loop quad_pos leftchar leftbits out r
      | some v =>
        let lc := leftchar * 64 + v
        if 8 ≤ leftbits + 6 then
          a2b_base64_loop ((quad_pos + 1) % 4) (lc % 2 ^ (leftbits + 6 - 8)) (leftbits + 6 - 8)
            (out ++ [(lc / 2 ^ (leftbits + 6 - 8)) % 256]) r
        else a2b_base64_loop ((quad_pos + 1) % 4) lc (leftbits + 6) out r

/-- `base64.decodebytes(value)` of the Python standard library. -/
def base64_decodebytes (value : List Char) : PyResult :=
  match a2b_base64_loop 0 0 0 [] value with
  | .ok b => .ok (.bytes b)
  | .error e => .error e

/-! ## The regular expressions of the core schema (PCRE)

Every pattern of the source is a list of alternatives of the form `^...$`,
compiled without options.  `^` matches at the start of the subject only, and
`$` matches at the end of the subject or before a newline that is its last
character.  No character class of the patterns contains the newline, so an
alternative matches the subject exactly when it matches `subject_body` as a
whole.  The alternatives are deterministic (a class is always followed by a
character outside it), so each is written as a recogniser that reads the body
from left to right.  A match gives the spans `(start, end)` of the groups,
group 0 (the whole match) first; a group that took no part is `none`. -/

/-- The subject without the final newline that `$` may leave unmatched. -/
def subject_body (s : List Char) : List Char :=
  if s.getLast? = some '\n' then s.dropLast else s

/-- `[-+]?`: the text after an optional sign. -/
def strip_sign : List Char → List Char
  | '-' :: r => r
  | '+' :: r => r
  | s => s

/-- The class `[0-9_]`. -/
def is_digit_us (c : Char) : Bool := isdigit c || c == '_'

/-- The class `[0-1_]`. -/
def is_bin_us (c : Char) : Bool := c == '0' || c == '1' || c == '_'

/-- The class `[0-7_]`. -/
def is_oct_us (c : Char) : Bool := decide (48 ≤ c.toNat ∧ c.toNat ≤ 55) || c == '_'

/-- The class `[0-9a-fA-F_]`. -/
def is_hex_us (c : Char) : Bool :=
  isdigit c || decide (97 ≤ c.toNat ∧ c.toNat ≤ 102) || decide (65 ≤ c.toNat ∧ c.toNat ≤ 70)
    || c == '_'

/-- The class `[1-9]`. -/
def is_digit_1_9 (c : Char) : Bool := decide (49 ≤ c.toNat ∧ c.toNat ≤ 57)

/-- The class `[0-5]`. -/
def is_digit_0_5 (c : Char) : Bool := decide (48 ≤ c.toNat ∧ c.toNat ≤ 53)

/-- `[-+]?0b[0-1_]+` -/
def re_int_base2 (b : List Char) : Bool :=
  match strip_sign b with
  | '0' :: 'b' :: r => !r.isEmpty && r.all is_bin_us
  | _ => false

/-- `[-+]?0[0-7_]+` -/
def re_int_base8 (b : List Char) : Bool :=
  match strip_sign b with
  | '0' :: r => !r.isEmpty && r.all is_oct_us
  | _ => false

/-- `[-+]?(?:0|[1-9][0-9_]*)` -/
def re_int_base10 (b : List Char) : Bool :=
  match strip_sign b with
  | [] => false
  | c :: r => (c == '0' && r.isEmpty) || (is_digit_1_9 c && r.all is_digit_us)

/-- `[-+]?0x[0-9a-fA-F_]+` -/
def re_int_base16 (b : List Char) : Bool :=
  match strip_sign b with
  | '0' :: 'x' :: r => !r.isEmpty && r.all is_hex_us
  | _ => false

/-- `(?::[0-5]?[0-9])*` up to the end of the text. -/
def re_sexagesimal_groups : List Char → Bool
  | [] => true
  | [_] => false
  | [c, a] => c == ':' && isdigit a
  | c :: a :: b :: r =>
    if b == ':' then c == ':' && isdigit a && re_sexagesimal_groups (b :: r)
    else c == ':' && is_digit_0_5 a && isdigit b && re_sexagesimal_groups r

/-- `[-+]?[1-9][0-9_]*` -/
def re_sexagesimal_head (b : List Char) : Bool :=
  match strip_sign b with
  | [] => false
  | c :: r => is_digit_1_9 c && r.all is_digit_us

/-- `[-+]?[0-9][0-9_]*` -/
def re_float_head (b : List Char) : Bool :=
  match strip_sign b with
  | [] => false
  | c :: r => isdigit c && r.all is_digit_us

/-- `([-+]?[1-9][0-9_]*)((?::[0-5]?[0-9])+)`: the head is the text before the
first colon. -/
def re_int_base60 (b : List Char) : Bool :=
  let head := b.takeWhile (fun c => c != ':')
  let rest := b.dropWhile (fun c => c != ':')
  re_sexagesimal_head head && !rest.isEmpty && re_sexagesimal_groups rest

/-- `(?:[eE][-+][0-9]+)?` up to the end of the text. -/
def re_float_exponent : List Char → Bool
  | [] => true
  | e :: sg :: r => (e == 'e' || e == 'E') && (sg == '-' || sg == '+') && !r.isEmpty && r.all isdigit
  | _ => false

/-- `[-+]?(?:[0-9][0-9_]*)?\\.[0-9_]*(?:[eE][-+][0-9]+)?` -/
def re_float_base10 (b : List Char) : Bool :=
  let s := strip_sign b
  let r := if (s.head?.map isdigit).getD false then s.dropWhile is_digit_us else s
  match r with
  | '.' :: f => re_float_exponent (f.dropWhile is_digit_us)
  | _ => false

/-- `([-+]?[0-9][0-9_]*)((?::[0-5]?[0-9])+)(\\.[0-9_]*)`: the head ends before
the first colon, the groups end before the first point. -/
def re_float_base60 (b : List Char) : Bool :=
  let head := b.takeWhile (fun c => c != ':')
  let rest := b.dropWhile (fun c => c != ':')
  let groups := rest.takeWhile (fun c => c != '.')
  let frac := rest.dropWhile (fun c => c != '.')
  re_float_head head && !groups.isEmpty && re_sexagesimal_groups groups
    && !frac.isEmpty && frac.tail.all is_digit_us

/-- Number of characters `[0-9][0-9]?` takes at the start of `s`: the second
digit is taken when it is there. -/
def re_digits_1_2 : List Char → Option Nat
  | a :: b :: _ => if isdigit a then (if isdigit b then some 2 else some 1) else none
  | [a] => if isdigit a then some 1 else none
  | [] => none

/-- Number of characters `[0-9][0-9]` takes at the start of `s`. -/
def re_digits_2 : List Char → Option Nat
  | a :: b :: _ => if isdigit a && isdigit b then some 2 else none
  | _ => none

/-- Number of characters `[-+]?[0-9][0-9][0-9][0-9]` takes at the start. -/
def re_year (s : List Char) : Option Nat :=
  let r := strip_sign s
  if 4 ≤ r.length ∧ (r.take 4).all isdigit then some (s.length - r.length + 4) else none

/-- The character `c` at position `p` of `b`, after which the match goes on
at `p + 1`. -/
def re_char (b : List Char) (p : Nat) (c : Char) : Option Nat :=
  if (b.drop p).head? = some c then some (p + 1) else none

/-- The common start `([-+]?[0-9][0-9][0-9][0-9])-([0-9][0-9]?)-([0-9][0-9]?)`
of the two timestamp alternatives: the spans of year, month and day. -/
def re_ymd (b : List Char) : Option ((Nat × Nat) × (Nat × Nat) × (Nat × Nat)) := do
  let y ← re_year b
  let p1 ← re_char b y '-'
  let m ← re_digits_1_2 (b.drop p1)
  let p2 ← re_char b (p1 + m) '-'
  let d ← re_digits_1_2 (b.drop p2)
  pure ((0, y), (p1, p1 + m), (p2, p2 + d))

/-- The class `[ \\t]`. -/
def is_blank (c : Char) : Bool := c == ' ' || c == '\t'

/-- `(?:(?:[ \\t]*)(?:Z|([-+][0-9][0-9]?)(?::([0-9][0-9]))?))?` from position
`p` up to the end of the text: the spans of the hour and the minute of the
time zone. -/
def re_timezone (b : List Char) (p : Nat) : Option (Option (Nat × Nat) × Option (Nat × Nat)) :=
  if (b.drop p).isEmpty then some (none, none)
  else
    let q := p + ((b.drop p).takeWhile is_blank).length
    match b.drop q with
    | ['Z'] => some (none, none)
    | sg :: r =>
      if sg == '-' || sg == '+' then
        match re_digits_1_2 r with
        | none => none
        | some h =>
          match r.drop h with
          | [] => some (some (q, q + 1 + h), none)
          | [':', m1, m2] =>
            if isdigit m1 && isdigit m2 then
              some (some (q, q + 1 + h), some (q + 1 + h + 1, q + 1 + h + 3))
            else none
          | _ => none
      else none
    | [] => none

/-- The second timestamp alternative after the date: separator, hour, minute,
second, fraction and time zone, from position `p` on.  Gives the spans of the
groups 7 to 12 of the pattern. -/
def re_time (b : List Char) (p : Nat) :
    Option ((Nat × Nat) × (Nat × Nat) × (Nat × Nat) × Option (Nat × Nat)
      × Option (Nat × Nat) × Option (Nat × Nat)) := do
  let sep ←
    (match b.drop p with
     | c :: r =>
       if c == 'T' || c == 't' then some 1
       else if is_blank c then some (1 + (r.takeWhile is_blank).length)
       else none
     | [] => none)
  let p1 := p + sep
  let h ← re_digits_1_2 (b.drop p1)
  let p2 ← re_char b (p1 + h) ':'
  let mi ← re_digits_2 (b.drop p2)
  let p3 ← re_char b (p2 + mi) ':'
  let sec ← re_digits_2 (b.drop p3)
  let p4 := p3 + sec
  let fr := if (b.drop p4).head? = some '.' then 1 + ((b.drop (p4 + 1)).takeWhile isdigit).length else 0
  let tz ← re_timezone b (p4 + fr)
  pure ((p1, p1 + h), (p2, p2 + mi), (p3, p3 + sec),
    (if fr = 0 then none else some (p4, p4 + fr)), tz.1, tz.2)

/-- A compiled pattern (`pcre*`): one of the six patterns of the source. -/
inductive pcre where
  | null
  | true_
  | false_
  | int
  | float
  | timestamp
deriving DecidableEq, Repr

/-- The pattern of `tag:yaml.org,2002:null`. -/
def REGEXP_NULL : String := "^~$" ++ "|^null$|^Null$|^NULL$" ++ "|^$"

/-- The pattern of `tag:yaml.org,2002:true`. -/
def REGEXP_TRUE : String := "^(yes|Yes|YES" ++ "|true|True|TRUE" ++ "|on|On|ON)$"

/-- The pattern of `tag:yaml.org,2002:false`. -/
def REGEXP_FALSE : String := "^(no|No|NO" ++ "|false|False|FALSE" ++ "|off|Off|OFF)$"

/-- The pattern of `tag:yaml.org,2002:int`. -/
def REGEXP_INT : String :=
  "^[-+]?0b[0-1_]+$"
  ++ "|^([-+]?0[0-7_]+)$"
  ++ "|^[-+]?(?:0|[1-9][0-9_]*)$"
  ++ "|^[-+]?0x[0-9a-fA-F_]+$"
  ++ "|^([-+]?[1-9][0-9_]*)((?::[0-5]?[0-9])+)$"

/-- The pattern of `tag:yaml.org,2002:float`. -/
def REGEXP_FLOAT : String :=
  "^[-+]?(?:[0-9][0-9_]*)?\\.[0-9_]*(?:[eE][-+][0-9]+)?$"
  ++ "|^([-+]?[0-9][0-9_]*)((?::[0-5]?[0-9])+)(\\.[0-9_]*)$"
  ++ "|^([-+]?\\.inf|Inf|INF)$"
  ++ "|^\\.(nan|NaN|NAN)$"

/-- The pattern of `tag:yaml.org,2002:timestamp`. -/
def REGEXP_TIMESTAMP : String :=
  "^([-+]?[0-9][0-9][0-9][0-9])-([0-9][0-9]?)-([0-9][0-9]?)$"
  ++ "|^([-+]?[0-9][0-9][0-9][0-9])"
  ++ "-([0-9][0-9]?)"
  ++ "-([0-9][0-9]?)"
  ++ "(?:[Tt]|[ \\t]+)([0-9][0-9]?)"
  ++ ":([0-9][0-9])"
  ++ ":([0-9][0-9])"
  ++ "(\\.[0-9]*)?"
  ++ "(?:(?:[ \\t]*)(?:Z|([-+][0-9][0-9]?)(?::([0-9][0-9]))?))?$"

/-- `pcre_compile(regexp, 0, ...)` on the patterns the source compiles; any
other pattern is outside the model and reported like a pattern that does not
compile. -/
def pcre_compile (regexp : String) : Option pcre :=
  if regexp = REGEXP_NULL then some .null
  else if regexp = REGEXP_TRUE then some .true_
  else if regexp = REGEXP_FALSE then some .false_
  else if regexp = REGEXP_INT then some .int
  else if regexp = REGEXP_FLOAT then some .float
  else if regexp = REGEXP_TIMESTAMP then some .timestamp
  else none

/-- The spans of the groups when the pattern matches the subject: group 0
first, then every group of the pattern. -/
def pcre_groups (code : pcre) (subject : List Char) : Option (List (Option (Nat × Nat))) :=
  let b := subject_body subject
  let all := some (0, b.length)
  match code with
  | .null =>
    if b = ['~'] ∨ b = "null".data ∨ b = "Null".data ∨ b = "NULL".data ∨ b = [] then some [all]
    else none
  | .true_ =>
    if b ∈ ["yes".data, "Yes".data, "YES".data, "true".data, "True".data, "TRUE".data,
        "on".data, "On".data, "ON".data] then some [all, all]
    else none
  | .false_ =>
    if b ∈ ["no".data, "No".data, "NO".data, "false".data, "False".data, "FALSE".data,
        "off".data, "Off".data, "OFF".data] then some [all, all]
    else none
  | .int =>
    if re_int_base2 b then some [all, none, none, none]
    else if re_int_base8 b then some [all, all, none, none]
    else if re_int_base10 b then some [all, none, none, none]
    else if re_int_base16 b then some [all, none, none, none]
    else if re_int_base60 b then
      let n := (b.takeWhile (fun c => c != ':')).length
      some [all, none, some (0, n), some (n, b.length)]
    else none
  | .float =>
    if re_float_base10 b then some [all, none, none, none, none, none]
    else if re_float_base60 b then
      let n := (b.takeWhile (fun c => c != ':')).length
      let m := (b.takeWhile (fun c => c != '.')).length
      some [all, some (0, n), some (n, m), some (m, b.length), none, none]
    else if b ∈ [".inf".data, "-.inf".data, "+.inf".data, "Inf".data, "INF".data] then
      some [all, none, none, none, all, none]
    else if b ∈ [".nan".data, ".NaN".data, ".NAN".data] then
      some [all, none, none, none, none, some (1, 4)]
    else none
  | .timestamp =>
    match re_ymd b with
    | none => none
    | some (y, m, d) =>
      if d.2 = b.length then
        some [all, some y, some m, some d, none, none, none, none, none, none, none, none, none]
      else
        match re_time b d.2 with
        | none => none
        | some (h, mi, sec, fr, tzh, tzm) =>
          some [all, none, none, none, some y, some m, some d, some h, some mi, some sec,
            fr, tzh, tzm]

/-- The `ovector` entries of a list of groups: start and end of each, `-1`
twice for a group that took no part. -/
def ovector_of_groups : List (Option (Nat × Nat)) → List Int
  | [] => []
  | some (a, b) :: r => (a : Int) :: (b : Int) :: ovector_of_groups r
  | none :: r => (-1) :: (-1) :: ovector_of_groups r

/-- The return code of a match: one more than the highest group that took
part. -/
def pcre_rc (gs : List (Option (Nat × Nat))) : Int :=
  (gs.length - (gs.reverse.takeWhile Option.isNone).length : Nat)

/-- `pcre_exec(code, NULL, subject, length, 0, 0, ovector, OVECTOR_SIZE)`:
the return code and the new content of `ovector`.  Without a match the code
is `PCRE_ERROR_NOMATCH` (-1) and `ovector` is left as it was; a match writes
the pairs of all groups of the pattern. -/
def pcre_exec (code : pcre) (subject : List Char) (ovector : List Int) : Int × List Int :=
  match pcre_groups code subject with
  | none => (-1, ovector)
  | some gs => (pcre_rc gs, ovector_of_groups gs ++ ovector.drop (2 * gs.length))

/-! ## Builders -/

/-- The C constructors a builder can point to (`MinYamlCConstructor`). -/
inductive MinYamlCConstructor where
  | _to_null
  | _to_bool
  | _to_true
  | _to_false
  | _to_int
  | _to_float
  | _to_timestamp
  | _to_binary
  | _to_str
deriving DecidableEq, Repr

/-- `OVECTOR_SIZE`, that is `N_MAX_PATTERNS * 3`. -/
def OVECTOR_SIZE : Nat := 20 * 3

/-- One entry of the registry (`struct MinYamlBuilders`); the links `next`
and `prev` are the position in the list of entries.  `py_resolver` is the
`match` method of the Python resolver (called with the text, it gives `None`
or a match object), `py_constructor` is the Python callable, applied to its
argument list. -/
structure MinYamlBuilders where
  tag : String
  ovector : List Int
  ncaptures : Int
  c_resolver : Option pcre
  c_constructor : Option MinYamlCConstructor
  py_match : PyObject
  py_resolver : Option (String → PyResult)
  py_constructor : Option (List PyObject → PyResult)

/-- `_new_c_builder(tag, regexp, c_constructor, sibling)`: the new entry, to
be linked behind `sibling`.  `malloc` leaves `ovector` and `ncaptures`
without a value; the model starts them at zero. -/
def _new_c_builder (tag : String) (regexp : Option String) (c_constructor : MinYamlCConstructor) :
    Except PyExc MinYamlBuilders :=
  match regexp with
  | some re =>
    match pcre_compile re with
    | some code =>
      .ok ⟨tag, List.replicate OVECTOR_SIZE 0, 0, some code, some c_constructor, .none, none, none⟩
    | none => .error .RuntimeError
  | none => .ok ⟨tag, List.replicate OVECTOR_SIZE 0, 0, none, some c_constructor, .none, none, none⟩

/-- `_new_py_builder(tag, py_resolver, py_constructor, sibling)`. -/
def _new_py_builder (tag : String) (py_resolver : Option (String → PyResult))
    (py_constructor : Option (List PyObject → PyResult)) : MinYamlBuilders :=
  ⟨tag, List.replicate OVECTOR_SIZE 0, 0, none, none, .none, py_resolver, py_constructor⟩

/-- `_match_builder(builder, value, length)`: whether the resolver of the
builder accepts the text, and the builder with the state of the match
(`py_match`, or `ncaptures` and `ovector`).  A Python resolver is tried
first and alone; it sees the C string.  An exception of the resolver is the
`NULL` result. -/
def _match_builder (builder : MinYamlBuilders) (value : List Char) :
    Except PyExc (Bool × MinYamlBuilders) :=
  let builder := { builder with py_match := PyObject.none }
  match builder.py_resolver with
  | some resolver =>
    match resolver (String.mk (c_str value)) with
    | .error e => .error e
    | .ok m => .ok (decide (m ≠ PyObject.none), { builder with py_match := m })
  | none =>
    match builder.c_resolver with
    | some code =>
      let r := pcre_exec code value builder.ovector
      .ok (decide (0 ≤ r.1), { builder with ncaptures := r.1, ovector := r.2 })
    | none => .ok (false, builder)

/-- `_ovector_at(self, value, i)`: the offset in `value` the result points
to, or nothing for `NULL`. -/
def _ovector_at (self : MinYamlBuilders) (i : Nat) : Option Nat :=
  if self.ncaptures ≤ (i : Int) then none
  else if self.ovector.getD (2 * i + 2) 0 < self.ovector.getD (2 * i + 3) 0 then
    some (self.ovector.getD (2 * i + 2) 0).toNat
  else none

/-- `_ovector_len_at(self, i)`. -/
def _ovector_len_at (self : MinYamlBuilders) (i : Nat) : Int :=
  if self.ncaptures ≤ (i : Int) then 0
  else self.ovector.getD (2 * i + 3) 0 - self.ovector.getD (2 * i + 2) 0

/-- The C string `value + off` for an optional offset. -/
def ptr_at (value : List Char) : Option Nat → Option (List Char)
  | some off => some (value.drop off)
  | none => none

/-- `_action_if_no_match(self, value, length, A)` at the head of a
constructor that found `ncaptures < 0`: the match is run again; the result is
whether it failed (then the action `A` is taken) and the builder. -/
def _action_if_no_match (self : MinYamlBuilders) (value : List Char) :
    Except PyExc (Bool × MinYamlBuilders) :=
  match _match_builder self value with
  | .error e => .error e
  | .ok (valid, self1) => .ok (!valid, self1)

/-- `_to_null` -/
def _to_null (_value : List Char) : PyResult := .ok .none

/-- `_to_bool` -/
def _to_bool (value : List Char) : PyResult :=
  let v := c_str value
  if v ∈ ["y".data, "Y".data, "yes".data, "Yes".data, "YES".data, "true".data, "True".data,
      "TRUE".data, "on".data, "On".data, "ON".data] then .ok (.bool true)
  else if v ∈ ["n".data, "N".data, "no".data, "No".data, "NO".data, "false".data, "False".data,
      "FALSE".data, "off".data, "Off".data, "OFF".data] then .ok (.bool false)
  else .error .RuntimeError

/-- `_to_true` -/
def _to_true (_value : List Char) : PyResult := .ok (.bool true)

/-- `_to_false` -/
def _to_false (_value : List Char) : PyResult := .ok (.bool false)

/-- The whole number nearest to `n` among the values of a C `double` (53 bits
of mantissa, ties to even): the conversion `(double)n`, and the rounding of a
sum or product of whole numbers. -/
def double_nearest (n : Int) : Int :=
  let k := bit_length n.natAbs - 53
  let q := n.natAbs / 2 ^ k
  let r := n.natAbs % 2 ^ k
  let q1 := if 2 ^ k < 2 * r ∨ (2 * r = 2 ^ k ∧ q % 2 = 1) then q + 1 else q
  (if n < 0 then -1 else 1) * ((q1 * 2 ^ k : Nat) : Int)

/-- Conversion of a whole `double` to `long`; outside the range of `long`
(undefined in C) the model gives `LONG_MIN`, the result of the x86
instruction. -/
def long_of_double (d : Int) : Int :=
  if -(2 : Int) ^ 63 ≤ d ∧ d < 2 ^ 63 then d else -(2 : Int) ^ 63

/-- `val * 60. + n` for `long` values `val` and `n`, computed in `double`
and stored in a `long`. -/
def sexagesimal_step (val n : Int) : Int :=
  long_of_double (double_nearest (double_nearest (double_nearest val * 60) + double_nearest n))

/-- The loop `while (cur) { val = val * 60. + atol(++cur); cur = strchr(cur, ':'); }`
of `_to_int` once `++cur` is done: `s` is the C string at `cur`. -/
def _to_int_loop (val : Int) : List Char → Int
  | [] => val
  | c :: r =>
    if c = ':' then _to_int_loop (sexagesimal_step val (atol r)) r
    else if c = '\x00' then val
    else _to_int_loop val r

/-- `_to_int` -/
def _to_int (self : MinYamlBuilders) (value : List Char) (length : Nat) :
    Except PyExc (PyObject × MinYamlBuilders) := do
  let self ←
    (if self.ncaptures < 0 then
      (match _action_if_no_match self value with
       | .error e => .error e
       | .ok (true, _) => .error .ValueError
       | .ok (false, self1) => .ok self1)
    else .ok self)
  match _ovector_at self 0 with
  | some cur =>
    let value := poke value cur (fun p => _remove_digit_separator p (_ovector_len_at self 0).toNat '_')
    match PyLong_FromString (value.drop cur) 8 with
    | .ok n => .ok (.int n, self)
    | .error e => .error e
  | none =>
    match _ovector_at self 1 with
    | some cur =>
      let value := poke value cur (fun p => _remove_digit_separator p (_ovector_len_at self 1).toNat '_')
      let val := atol (value.drop cur)
      match _ovector_at self 2 with
      | some cur2 =>
        let val :=
          _to_int_loop (sexagesimal_step val (atol (value.drop (cur2 + 1)))) (value.drop (cur2 + 1))
        .ok (.int val, self)
      | none => .ok (.int val, self)
    | none =>
      let value := _remove_digit_separator value length '_'
      match PyLong_FromString value 0 with
      | .ok n => .ok (.int n, self)
      | .error e => .error e

/-- Arithmetic of C `double`. -/
def double_mul (a b : c_double) : c_double := fp_mul 53 (-1074) 971 a b

/-- Arithmetic of C `double`. -/
def double_add (a b : c_double) : c_double := fp_add 53 (-1074) 971 a b

/-- The loop `while (cur) { dval = dval * 60. + (double)atoi(++cur); cur = strchr(cur, ':'); }`
of `_to_float` once `++cur` is done: `s` is the C string at `cur`. -/
def _to_float_loop (dval : c_double) : List Char → c_double
  | [] => dval
  | c :: r =>
    if c = ':' then
      _to_float_loop (double_add (double_mul dval (double_of_int 60)) (double_of_int (atoi r))) r
    else if c = '\x00' then dval
    else _to_float_loop dval r

/-- `_to_float` -/
def _to_float (self : MinYamlBuilders) (value : List Char) (length : Nat) :
    Except PyExc (PyObject × MinYamlBuilders) :=
  let plain (self : MinYamlBuilders) : Except PyExc (PyObject × MinYamlBuilders) :=
    match PyFloat_FromString (c_str (_remove_digit_separator value length '_')) with
    | .ok v => .ok (v, self)
    | .error e => .error e
  let matched (self : MinYamlBuilders) : Except PyExc (PyObject × MinYamlBuilders) :=
    match _ovector_at self 0 with
    | some cur =>
      let value := poke value cur (fun p => _remove_digit_separator p (_ovector_len_at self 0).toNat '_')
      let dval := double_of_int (atoi (value.drop cur))
      let dval :=
        match _ovector_at self 1 with
        | some cur1 =>
          _to_float_loop
            (double_add (double_mul dval (double_of_int 60)) (double_of_int (atoi (value.drop (cur1 + 1)))))
            (value.drop (cur1 + 1))
        | none => dval
      match _ovector_at self 2 with
      | some cur2 =>
        let value := poke value cur2 (fun p => _remove_digit_separator p (_ovector_len_at self 2).toNat '_')
        .ok (.float (double_add dval (atof (value.drop cur2))), self)
      | none => .ok (.float (double_add dval (.finite false 0 (-1074))), self)
    | none =>
      if (_ovector_at self 3).isSome then
        .ok (.float (.inf (decide (value.head? = some '-'))), self)
      else if (_ovector_at self 4).isSome then .ok (.float .nan, self)
      else plain self
  if self.ncaptures < 0 then
    match _action_if_no_match self value with
    | .error e => .error e
    | .ok (true, self1) => plain self1
    | .ok (false, self1) => matched self1
  else matched self

/-- Arithmetic of C `float`. -/
def float_mul (a b : c_double) : c_double := fp_mul 24 (-149) 104 a b

/-- `_to_timestamp` -/
def _to_timestamp (self : MinYamlBuilders) (value : List Char) (_length : Nat) :
    Except PyExc (PyObject × MinYamlBuilders) := do
  let self ←
    (if self.ncaptures < 0 then
      (match _action_if_no_match self value with
       | .error e => .error e
       | .ok (true, _) => .error .ValueError
       | .ok (false, self1) => .ok self1)
    else .ok self)
  let at_ (i : Nat) : Option (List Char) := ptr_at value (_ovector_at self i)
  match at_ 0 with
  | some cur =>
    let year := atoi cur
    let month ← atoi_ptr (at_ 1)
    let day ← atoi_ptr (at_ 2)
    let d ← PyDate_FromDate year month day
    pure (d, self)
  | none =>
    let year ← atoi_ptr (at_ 3)
    let month ← atoi_ptr (at_ 4)
    let day ← atoi_ptr (at_ 5)
    let hour ← atoi_ptr (at_ 6)
    let minute ← atoi_ptr (at_ 7)
    let second ← atoi_ptr (at_ 8)
    let usecond : Int :=
      match at_ 9 with
      | some cur => int_of_fp (float_mul (float_of_double (atof cur)) (float_of_double (double_of_int 1000000)))
      | none => 0
    let tz_h : Int := match at_ 10 with
      | some cur => atoi cur
      | none => 0
    let tz_m : Int := match at_ 11 with
      | some cur => atoi cur
      | none => 0
    let minute := minute - tz_m
    let hour := if minute < 0 then hour - 1 else hour
    let minute := if minute < 0 then minute + 60 else minute
    let hour := if 60 < minute then hour + 1 else hour
    let minute := if 60 < minute then minute - 60 else minute
    let hour := hour - tz_h
    let day := if hour < 0 then day - 1 else day
    let hour := if hour < 0 then hour + 24 else hour
    let day := if 24 < hour then day + 1 else day
    let hour := if 24 < hour then hour - 24 else hour
    let d ← PyDateTime_FromDateAndTime year month day hour minute second usecond
    pure (d, self)

/-- `_to_binary`: the `length` bytes of the value go to `base64.decodebytes`. -/
def _to_binary (value : List Char) (length : Nat) : PyResult := base64_decodebytes (value.take length)

/-- `_to_str` -/
def _to_str (value : List Char) : PyResult := .ok (PyUnicode_FromString value)

/-- The call `builder->c_constructor(builder, value, length)`: the object
built and the builder, whose match state the constructor may have renewed. -/
def c_constructor_call (c : MinYamlCConstructor) (self : MinYamlBuilders) (value : List Char)
    (length : Nat) : Except PyExc (PyObject × MinYamlBuilders) :=
  let pure_ (r : PyResult) : Except PyExc (PyObject × MinYamlBuilders) :=
    match r with
    | .ok v => .ok (v, self)
    | .error e => .error e
  match c with
  | ._to_null => pure_ (_to_null value)
  | ._to_bool => pure_ (_to_bool value)
  | ._to_true => pure_ (_to_true value)
  | ._to_false => pure_ (_to_false value)
  | ._to_int => _to_int self value length
  | ._to_float => _to_float self value length
  | ._to_timestamp => _to_timestamp self value length
  | ._to_binary => pure_ (_to_binary value length)
  | ._to_str => pure_ (_to_str value)

def YAML_TAG_MAP : String := "tag:yaml.org,2002:map"
def YAML_TAG_SET : String := "tag:yaml.org,2002:set"
def YAML_TAG_SEQ : String := "tag:yaml.org,2002:seq"
def YAML_TAG_PAIRS : String := "tag:yaml.org,2002:pairs"
def YAML_TAG_NULL : String := "tag:yaml.org,2002:null"
def YAML_TAG_BOOL : String := "tag:yaml.org,2002:bool"
def YAML_TAG_TRUE : String := "tag:yaml.org,2002:true"
def YAML_TAG_FALSE : String := "tag:yaml.org,2002:false"
def YAML_TAG_INT : String := "tag:yaml.org,2002:int"
def YAML_TAG_FLOAT : String := "tag:yaml.org,2002:float"
def YAML_TAG_STR : String := "tag:yaml.org,2002:str"
def YAML_TAG_TIMESTAMP : String := "tag:yaml.org,2002:timestamp"
def YAML_TAG_BINARY : String := "tag:yaml.org,2002:binary"

/-- `_init_implicit_builders`: the list it leaves in `implicitBuilders`, or
the error of the first builder that cannot be made (the C function then
returns 0). -/
def _init_implicit_builders : Except PyExc (List MinYamlBuilders) := do
  let b0 ← _new_c_builder YAML_TAG_NULL (some REGEXP_NULL) ._to_null
  let b1 ← _new_c_builder YAML_TAG_BOOL none ._to_bool
  let b2 ← _new_c_builder YAML_TAG_TRUE (some REGEXP_TRUE) ._to_true
  let b3 ← _new_c_builder YAML_TAG_FALSE (some REGEXP_FALSE) ._to_false
  let b4 ← _new_c_builder YAML_TAG_INT (some REGEXP_INT) ._to_int
  let b5 ← _new_c_builder YAML_TAG_FLOAT (some REGEXP_FLOAT) ._to_float
  let b6 ← _new_c_builder YAML_TAG_TIMESTAMP (some REGEXP_TIMESTAMP) ._to_timestamp
  let b7 ← _new_c_builder YAML_TAG_STR none ._to_str
  let b8 ← _new_c_builder YAML_TAG_BINARY none ._to_binary
  pure [b0, b1, b2, b3, b4, b5, b6, b7, b8]

/-- The global `implicitBuilders` after the module is initialised. -/
def implicitBuilders : List MinYamlBuilders :=
  match _init_implicit_builders with
  | .ok bs => bs
  | .error _ => []

/-! ## Scalars -/

/-- `_match_tag(builders, tag)`: the position of the first builder with the
tag, or nothing (`NULL`) when there is no tag or no such builder. -/
def _match_tag (builders : List MinYamlBuilders) (tag : Option String) : Option Nat :=
  match tag with
  | none => none
  | some t => builders.findIdx? (fun b => b.tag == t)

/-- The loop `for (builder = builders; builder; builder = builder->next)` of
`_build_scalar` with `_action_if_match(builder, value, length, break)`:
the position of the builder the loop stops at (counted from `i`), if any, and
the builders with the state their resolvers left. -/
def _build_scalar_loop (value : List Char) : Nat → List MinYamlBuilders →
    Except PyExc (Option Nat × List MinYamlBuilders)
  | _, [] => .ok (none, [])
  | i, builder :: rest =>
    match _match_builder builder value with
    | .error e => .error e
    | .ok (true, builder1) => .ok (some i, builder1 :: rest)
    | .ok (false, builder1) =>
      match _build_scalar_loop value (i + 1) rest with
      | .error e => .error e
      | .ok (r, rest1) => .ok (r, builder1 :: rest1)

/-- The calls at the end of `_build_scalar` for the chosen builder: its Python
constructor if it has one (with the C string and `py_match`), else its C
constructor, else the text as a string.  Gives the object and the builder. -/
def _build_scalar_call (builder : MinYamlBuilders) (value : List Char) (length : Nat) :
    Except PyExc (PyObject × MinYamlBuilders) :=
  match builder.py_constructor with
  | some f =>
    match f [PyUnicode_FromString value, builder.py_match] with
    | .ok v => .ok (v, builder)
    | .error e => .error e
  | none =>
    match builder.c_constructor with
    | some c => c_constructor_call c builder value length
    | none => .ok (PyUnicode_FromString value, builder)

/-- The end of `_build_scalar`, where `builder` is the position of the chosen
builder or nothing (`NULL`): without a builder the text is returned as a
string. -/
def _build_scalar_construct (value : List Char) (length : Nat) (builders : List MinYamlBuilders)
    (builder : Option Nat) : Except PyExc (PyObject × List MinYamlBuilders) :=
  match builder.bind (fun i => builders[i]?) with
  | none => .ok (PyUnicode_FromString value, builders)
  | some b =>
    match _build_scalar_call b value length with
    | .ok (v, b1) => .ok (v, builders.set (builder.getD 0) b1)
    | .error e => .error e

/-- `_build_scalar(event, builders)` for an event with the given `tag` and
`value`: the object and the builders with their new match state. -/
def _build_scalar (tag : Option String) (value : List Char) (builders : List MinYamlBuilders) :
    Except PyExc (PyObject × List MinYamlBuilders) :=
  match _match_tag builders tag with
  | none =>
    if tag.isSome then .error .TypeError
    else
      match _build_scalar_loop value 0 builders with
      | .error e => .error e
      | .ok (builder, builders1) => _build_scalar_construct value value.length builders1 builder
  | some i =>
    let builders1 := builders.modify (fun b => { b with ncaptures := -1 }) i
    _build_scalar_construct value value.length builders1 (some i)

/-! ## Events and the parser of libyaml -/

/-- `yaml_event_type_t` -/
inductive yaml_event_type_t where
  | YAML_NO_EVENT
  | YAML_STREAM_START_EVENT
  | YAML_STREAM_END_EVENT
  | YAML_DOCUMENT_START_EVENT
  | YAML_DOCUMENT_END_EVENT
  | YAML_ALIAS_EVENT
  | YAML_SCALAR_EVENT
  | YAML_SEQUENCE_START_EVENT
  | YAML_SEQUENCE_END_EVENT
  | YAML_MAPPING_START_EVENT
  | YAML_MAPPING_END_EVENT
deriving DecidableEq, Repr

/-- `yaml_event_t`, the union `data` laid flat: `anchor` and `tag` are those of
the alias, scalar, sequence start or mapping start event, `value` is the text
of a scalar. -/
structure yaml_event_t where
  type : yaml_event_type_t
  anchor : Option String
  tag : Option String
  value : String
deriving DecidableEq, Repr

/-- The error kinds of the parser (`yaml_error_type_t`). -/
inductive yaml_error_type_t where
  | YAML_MEMORY_ERROR
  | YAML_READER_ERROR
  | YAML_SCANNER_ERROR
  | YAML_PARSER_ERROR
  | YAML_OTHER_ERROR
deriving DecidableEq, Repr

/-- A parser (`yaml_parser_t`) is what its next calls will deliver: events,
or a failure with its error kind. -/
abbrev yaml_parser_t := List (Except yaml_error_type_t yaml_event_t)

/-- The empty event libyaml delivers once the stream has ended. -/
def yaml_no_event : yaml_event_t := ⟨.YAML_NO_EVENT, none, none, ""⟩

/-- `yaml_parser_parse(parser, event)`. -/
def yaml_parser_parse (parser : yaml_parser_t) : Except yaml_error_type_t yaml_event_t × yaml_parser_t :=
  match parser with
  | [] => (.ok yaml_no_event, [])
  | item :: rest => (item, rest)

/-- `enum MinYamlParserStatus` -/
inductive MinYamlParserStatus where
  | BLOCK_ERROR
  | BLOCK_PROCEED
  | BLOCK_DONE
deriving DecidableEq, Repr

/-- `_parse_next(parser, event, doneEvent)`: `BLOCK_ERROR` is the error
result, with the exception the function sets. -/
def _parse_next (parser : yaml_parser_t) (doneEvent : yaml_event_type_t) :
    Except PyExc (MinYamlParserStatus × yaml_event_t × yaml_parser_t) :=
  match yaml_parser_parse parser with
  | (.error .YAML_MEMORY_ERROR, _) => .error .MemoryError
  | (.error .YAML_READER_ERROR, _) => .error .SyntaxError
  | (.error .YAML_SCANNER_ERROR, _) => .error .SyntaxError
  | (.error .YAML_PARSER_ERROR, _) => .error .SyntaxError
  | (.error .YAML_OTHER_ERROR, _) => .error .RuntimeError
  | (.ok event, rest) =>
    .ok (if event.type = doneEvent then .BLOCK_DONE else .BLOCK_PROCEED, event, rest)

/-! ## Values and collections -/

/-- What the recursive builders work on: the parser, the builders and the
alias dictionary of the document. -/
structure BuildState where
  parser : yaml_parser_t
  builders : List MinYamlBuilders
  aliases : PyDict

/-- Result of a recursive builder: the object and the state left, or the
exception. -/
abbrev Built := Except PyExc (PyObject × BuildState)

/-- `_save_alias(aliases, anchor, value)` applied to the result `value` of a
builder. -/
def _save_alias (anchor : Option String) (value : Built) : Built :=
  match value with
  | .error e => .error e
  | .ok (v, st) =>
    match anchor with
    | none => .ok (v, st)
    | some a =>
      match PyDict_SetItemString st.aliases a v with
      | .error e => .error e
      | .ok aliases => .ok (v, { st with aliases := aliases })

/-- `_load_alias(aliases, anchor)` -/
def _load_alias (aliases : PyDict) (anchor : String) : PyResult :=
  match PyDict_GetItemString aliases anchor with
  | none => .error .KeyError
  | some value => .ok value

/-- `_build_custom(parser, tag, builders, source)`: `source` is the result
of the builder of the collection, which may be `NULL`; `builders` is the
registry as it was before the collection was built, used when `source` is
`NULL` and so holds no newer state. -/
def _build_custom (tag : Option String) (builders : List MinYamlBuilders) (source : Built) : Built :=
  let builders1 :=
    match source with
    | .ok (_, st) => st.builders
    | .error _ => builders
  match (_match_tag builders1 tag).bind (fun i => builders1[i]?) with
  | none => .error .ValueError
  | some builder =>
    match builder.py_constructor with
    | none => .error .ValueError
    | some f =>
      match source with
      | .error e => .error e
      | .ok (src, st) =>
        match f [src] with
        | .error e => .error e
        | .ok v => .ok (v, st)

/-- `_is_key_merge(key)` -/
def _is_key_merge (key : PyObject) : Bool :=
  match key with
  | .atom (.str s) => decide (c_str s.data = ['<', '<'])
  | _ => false

/-- The loop `for (i = 0; i < PyList_GET_SIZE(value); i++)` over the items of
a merge list, each merged with `PyDict_Merge(mapping, item, 0)`. -/
def _build_map_merge_list : PyDict → List PyObject → Except PyExc PyDict
  | mapping, [] => .ok mapping
  | mapping, item :: rest =>
    match PyDict_Merge mapping item with
    | .error e => .error e
    | .ok mapping1 => _build_map_merge_list mapping1 rest

/-- The block `if (key && value)` of `_build_map`: the pair is merged into
the mapping when the key is the merge key, else stored. -/
def _build_map_pair (mapping : PyDict) (key value : PyObject) : Except PyExc PyDict :=
  if _is_key_merge key then
    match value with
    | .list items => _build_map_merge_list mapping items
    | .dict _ => PyDict_Merge mapping value
    | _ => .error .SyntaxError
  else PyDict_SetItem mapping key value

/-- The end of `_build_map`, behind its loop: `if (isSet)` the set of the
keys of the mapping is returned, else the mapping. -/
def _build_map_end (r : Except PyExc ((PyDict × Bool) × BuildState)) : Built :=
  match r with
  | .error e => .error e
  | .ok ((mapping, isSet), st) =>
    if isSet then .ok (PySet_New mapping, st) else .ok (.dict mapping, st)

mutual
/-- `_build_value(parser, event, builders, aliases)`; the first argument
bounds the depth of the recursion.  The call `_build_map(...)` of the source
is the loop followed by its end, `_build_map_end (_build_map_loop ...)`. -/
def _build_value : Nat → yaml_event_t → BuildState → Built
  | 0, _, _ => .error .fuel
  | fuel + 1, event, st =>
    match event.type with
    | .YAML_MAPPING_START_EVENT =>
      if event.tag = none ∨ event.tag = some YAML_TAG_MAP then
        _save_alias event.anchor (_build_map_end (_build_map_loop fuel st [] none true))
      else if event.tag = some YAML_TAG_SET then
        _save_alias event.anchor (_build_map_end (_build_map_loop fuel st [] none true))
      else
        _save_alias event.anchor (_build_custom event.tag st.builders (_build_map_end (_build_map_loop fuel st [] none true)))
    | .YAML_SEQUENCE_START_EVENT =>
      if event.tag = none ∨ event.tag = some YAML_TAG_SEQ then
        _save_alias event.anchor (_build_seq fuel st [])
      else if event.tag = some YAML_TAG_PAIRS then
        _save_alias event.anchor (_build_pairs fuel st [] none)
      else
        _save_alias event.anchor (_build_custom event.tag st.builders (_build_seq fuel st []))
    | .YAML_SCALAR_EVENT =>
      _save_alias event.anchor
        (match _build_scalar event.tag event.value.data st.builders with
         | .error e => .error e
         | .ok (v, builders) => .ok (v, { st with builders := builders }))
    | .YAML_ALIAS_EVENT =>
      match _load_alias st.aliases (event.anchor.getD "") with
      | .error e => .error e
      | .ok v => .ok (v, st)
    | _ => .error .SyntaxError
/-- The loop of `_build_seq(parser, builders, aliases)`; `sequence` holds the
items appended so far. -/
def _build_seq : Nat → BuildState → List PyObject → Built
  | 0, _, _ => .error .fuel
  | fuel + 1, st, sequence =>
    match _parse_next st.parser .YAML_SEQUENCE_END_EVENT with
    | .error e => .error e
    | .ok (status, event, parser) =>
      if status = .BLOCK_PROCEED then
        match _build_value fuel event { st with parser := parser } with
        | .error e => .error e
        | .ok (value, st1) => _build_seq fuel st1 (sequence ++ [value])
      else .ok (.list sequence, { st with parser := parser })
/-- The loop of `_build_pairs(parser, builders, aliases)`; `sequence` holds
the pairs appended so far and `key` the key that waits for its value. -/
def _build_pairs : Nat → BuildState → List PyObject → Option PyObject → Built
  | 0, _, _, _ => .error .fuel
  | fuel + 1, st, sequence, key =>
    match _parse_next st.parser .YAML_SEQUENCE_END_EVENT with
    | .error e => .error e
    | .ok (status, event, parser) =>
      if status = .BLOCK_PROCEED then
        match key with
        | none =>
          if event.type ≠ .YAML_MAPPING_START_EVENT then .error .SyntaxError
          else
            match _parse_next parser .YAML_SEQUENCE_END_EVENT with
            | .error e => .error e
            | .ok (status1, event1, parser1) =>
              if status1 = .BLOCK_PROCEED then
                match _build_value fuel event1 { st with parser := parser1 } with
                | .error e => .error e
                | .ok (key1, st1) => _build_pairs fuel st1 sequence (some key1)
              else .ok (.list sequence, { st with parser := parser1 })
        | some k =>
          match _build_value fuel event { st with parser := parser } with
          | .error e => .error e
          | .ok (value, st1) =>
            match _parse_next st1.parser .YAML_SEQUENCE_END_EVENT with
            | .error e => .error e
            | .ok (status2, event2, parser2) =>
              if event2.type ≠ .YAML_MAPPING_END_EVENT then .error .SyntaxError
              else if status2 = .BLOCK_DONE then
                .ok (.list (sequence ++ [.tuple [k, value]]), { st1 with parser := parser2 })
              else _build_pairs fuel { st1 with parser := parser2 } (sequence ++ [.tuple [k, value]]) none
      else .ok (.list sequence, { st with parser := parser })
/-- The loop of `_build_map(parser, builders, aliases)`: `mapping` is the
dictionary under construction, `key` the key that waits for its value,
`isSet` the flag of the source.  Gives the dictionary and the flag the loop
ends with. -/
def _build_map_loop : Nat → BuildState → PyDict → Option PyObject → Bool →
    Except PyExc ((PyDict × Bool) × BuildState)
  | 0, _, _, _, _ => .error .fuel
  | fuel + 1, st, mapping, key, isSet =>
    match _parse_next st.parser .YAML_MAPPING_END_EVENT with
    | .error e => .error e
    | .ok (status, event, parser) =>
      if status = .BLOCK_PROCEED then
        match key with
        | none =>
          match _build_value fuel event { st with parser := parser } with
          | .error e => .error e
          | .ok (key1, st1) => _build_map_loop fuel st1 mapping (some key1) isSet
        | some k =>
          match _build_value fuel event { st with parser := parser } with
          | .error e => .error e
          | .ok (value, st1) =>
            match _build_map_pair mapping k value with
            | .error e => .error e
            | .ok mapping1 =>
              _build_map_loop fuel st1 mapping1 none (isSet && decide (value = PyObject.none))
      else .ok ((mapping, isSet), { st with parser := parser })
end

/-- `_build_map(parser, builders, aliases)` -/
def _build_map (fuel : Nat) (st : BuildState) : Built :=
  _build_map_end (_build_map_loop fuel st [] none true)

/-- The key/value pairs a mapping node delivers: the loop of `_build_map`
without what it does with a pair.  `key` is the key that waits for its
value; a key left alone before the mapping end is dropped, as in the source. -/
def _build_map_read : Nat → BuildState → Option PyObject →
    Except PyExc (List (PyObject × PyObject) × BuildState)
  | 0, _, _ => .error .fuel
  | fuel + 1, st, key =>
    match _parse_next st.parser .YAML_MAPPING_END_EVENT with
    | .error e => .error e
    | .ok (status, event, parser) =>
      if status = .BLOCK_PROCEED then
        match _build_value fuel event { st with parser := parser } with
        | .error e => .error e
        | .ok (v, st1) =>
          match key with
          | none => _build_map_read fuel st1 (some v)
          | some k =>
            match _build_map_read fuel st1 none with
            | .error e => .error e
            | .ok (pairs, st2) => .ok ((k, v) :: pairs, st2)
      else .ok ([], { st with parser := parser })

/-- What the loop of `_build_map` does with the pairs it has read, one after
the other: the pair is stored or merged, and the flag `isSet` stays up only
while the values are `None`. -/
def _build_map_fold : PyDict → Bool → List (PyObject × PyObject) → Except PyExc (PyDict × Bool)
  | mapping, isSet, [] => .ok (mapping, isSet)
  | mapping, isSet, (k, v) :: rest =>
    match _build_map_pair mapping k v with
    | .error e => .error e
    | .ok mapping1 => _build_map_fold mapping1 (isSet && decide (v = PyObject.none)) rest

/-! ## Documents and the loader -/

/-- Bound on the recursion that is enough to build any value from the events
of `parser`: each event is read once, and reading one takes at most two
nested calls. -/
def build_fuel (parser : yaml_parser_t) : Nat := 2 * parser.length + 3

/-- `_build_document(parser, builders)`: the document, the parser and the
builders after it.  When the first event read is the document end, the
function still reads one more event, and if that is not a second document
end it calls `Py_DECREF` on the `NULL` document. -/
def _build_document (parser : yaml_parser_t) (builders : List MinYamlBuilders) :
    Except PyExc (PyObject × yaml_parser_t × List MinYamlBuilders) :=
  match _parse_next parser .YAML_DOCUMENT_END_EVENT with
  | .error e => .error e
  | .ok (status, event, parser1) =>
    let built : Except PyExc (Option PyObject × BuildState) :=
      if status = .BLOCK_PROCEED then
        match _build_value (build_fuel parser1) event ⟨parser1, builders, []⟩ with
        | .error e => .error e
        | .ok (document, st) => .ok (some document, st)
      else .ok (none, ⟨parser1, builders, []⟩)
    match built with
    | .error e => .error e
    | .ok (document, st) =>
      match _parse_next st.parser .YAML_DOCUMENT_END_EVENT with
      | .error e => .error e
      | .ok (status1, _, parser2) =>
        if status1 ≠ .BLOCK_DONE then
          (match document with
           | some _ => .error .SyntaxError
           | none => .error .crash)
        else
          match document with
          | some d => .ok (d, parser2, st.builders)
          | none => .ok (.none, parser2, st.builders)

/-- `_min_yaml_check_data(self)`: whether a document starts, and the parser
of the loader after the events read. -/
def _min_yaml_check_data (parser : yaml_parser_t) : Except PyExc (Bool × yaml_parser_t) :=
  match _parse_next parser .YAML_STREAM_END_EVENT with
  | .error e => .error e
  | .ok (status, event, parser1) =>
    let next : Except PyExc (MinYamlParserStatus × yaml_event_t × yaml_parser_t) :=
      if event.type = .YAML_STREAM_START_EVENT then _parse_next parser1 .YAML_STREAM_END_EVENT
      else .ok (status, event, parser1)
    match next with
    | .error e => .error e
    | .ok (status1, event1, parser2) =>
      if event1.type = .YAML_DOCUMENT_START_EVENT then .ok (true, parser2)
      else if status1 ≠ .BLOCK_DONE then .error .SyntaxError
      else .ok (false, parser2)

/-- `_min_yaml_get_data(self)` (Python 3). -/
def _min_yaml_get_data (parser : yaml_parser_t) (implicitBuilders : List MinYamlBuilders) :
    Except PyExc (PyObject × yaml_parser_t × List MinYamlBuilders) :=
  _build_document parser implicitBuilders

/-- `_min_yaml_single_data(self)`.  When the second call of
`_min_yaml_check_data` fails, the function calls `Py_DECREF(doc)`, also on the
`NULL` it holds when the stream had no first document. -/
def _min_yaml_single_data (parser : yaml_parser_t) (implicitBuilders : List MinYamlBuilders) :
    Except PyExc (PyObject × yaml_parser_t × List MinYamlBuilders) :=
  match _min_yaml_check_data parser with
  | .error e => .error e
  | .ok (valid, parser1) =>
    let built : Except PyExc (Option PyObject × yaml_parser_t × List MinYamlBuilders) :=
      if valid then
        match _build_document parser1 implicitBuilders with
        | .error e => .error e
        | .ok (doc, parser2, builders) => .ok (some doc, parser2, builders)
      else .ok (none, parser1, implicitBuilders)
    match built with
    | .error e => .error e
    | .ok (doc, parser2, builders) =>
      match _min_yaml_check_data parser2 with
      | .error e =>
        (match doc with
         | some _ => .error e
         | none => .error .crash)
      | .ok (valid1, parser3) =>
        if valid1 then .error .RuntimeError
        else
          match doc with
          | some d => .ok (d, parser3, builders)
          | none => .ok (.none, parser3, builders)

/-- The first loop of `_add_resolver_constructor`: the builder with the tag
takes the constructor and the resolver that are given; nothing when no
builder has the tag. -/
def _add_resolver_constructor_loop (tag : String) (resolver : Option (String → PyResult))
    (constructor : Option (List PyObject → PyResult)) : List MinYamlBuilders → Option (List MinYamlBuilders)
  | [] => none
  | builder :: rest =>
    if builder.tag = tag then
      let builder1 :=
        match constructor with
        | some c => { builder with py_constructor := some c }
        | none => builder
      let builder2 :=
        match resolver with
        | some r => { builder1 with py_resolver := some r }
        | none => builder1
      some (builder2 :: rest)
    else
      match _add_resolver_constructor_loop tag resolver constructor rest with
      | some rest1 => some (builder :: rest1)
      | none => none

/-- `_add_resolver_constructor(tag, resolver, constructor)` on the global
list `implicitBuilders`: the new list.  After the first loop `builder` is
`NULL`, so the branch `if (builder)` is never taken and a new builder goes
behind the last one; with an empty list the search for the last builder
dereferences `NULL`. -/
def _add_resolver_constructor (implicitBuilders : List MinYamlBuilders) (tag : String)
    (resolver : Option (String → PyResult)) (constructor : Option (List PyObject → PyResult)) :
    Except PyExc (List MinYamlBuilders) :=
  match _add_resolver_constructor_loop tag resolver constructor implicitBuilders with
  | some builders => .ok builders
  | none =>
    if implicitBuilders.isEmpty then .error .crash
    else .ok (implicitBuilders ++ [_new_py_builder tag resolver constructor])

/-- `_min_yaml_add_constructor(cls, args)` with a callable constructor. -/
def _min_yaml_add_constructor (implicitBuilders : List MinYamlBuilders) (tag : String)
    (constructor : List PyObject → PyResult) : Except PyExc (List MinYamlBuilders) :=
  _add_resolver_constructor implicitBuilders tag none (some constructor)

/-- `_min_yaml_add_resolver(cls, args)` with a resolver that has a `match`
method. -/
def _min_yaml_add_resolver (implicitBuilders : List MinYamlBuilders) (tag : String)
    (resolver : String → PyResult) : Except PyExc (List MinYamlBuilders) :=
  _add_resolver_constructor implicitBuilders tag (some resolver) none

/-! ## Events in short -/

/-- A scalar event. -/
def ev_scalar (value : String) (tag anchor : Option String) : yaml_event_t :=
  ⟨.YAML_SCALAR_EVENT, anchor, tag, value⟩

/-- An untagged scalar event without anchor. -/
def ev_plain (value : String) : yaml_event_t := ev_scalar value none none

/-- An alias event. -/
def ev_alias (anchor : String) : yaml_event_t := ⟨.YAML_ALIAS_EVENT, some anchor, none, ""⟩

/-- A mapping start event. -/
def ev_map_start (tag anchor : Option String) : yaml_event_t :=
  ⟨.YAML_MAPPING_START_EVENT, anchor, tag, ""⟩

/-- The mapping end event. -/
def ev_map_end : yaml_event_t := ⟨.YAML_MAPPING_END_EVENT, none, none, ""⟩

/-- A sequence start event. -/
def ev_seq_start (tag anchor : Option String) : yaml_event_t :=
  ⟨.YAML_SEQUENCE_START_EVENT, anchor, tag, ""⟩

/-- The sequence end event. -/
def ev_seq_end : yaml_event_t := ⟨.YAML_SEQUENCE_END_EVENT, none, none, ""⟩

/-- An event of a kind that carries no data. -/
def ev_mark (type : yaml_event_type_t) : yaml_event_t := ⟨type, none, none, ""⟩

/-- The parser that delivers the given events without failure. -/
def parser_of (events : List yaml_event_t) : yaml_parser_t := events.map Except.ok

/-! ## Notions used to state the properties -/

/-- The answer of the matcher of a builder on a text: accepted, rejected, or
the exception of a Python resolver.  A builder without matcher rejects. -/
def matcher_answer (builder : MinYamlBuilders) (value : List Char) : Except PyExc Bool :=
  match _match_builder builder value with
  | .ok (valid, _) => .ok valid
  | .error e => .error e

/-- The object of a result, without the state. -/
def result_value {σ : Type} (r : Except PyExc (PyObject × σ)) : PyResult :=
  match r with
  | .ok (v, _) => .ok v
  | .error e => .error e

/-- A Python resolver whose `match` raises an exception. -/
def raising_resolver : String → PyResult := fun _ => .error (.Raised "error")

/-- What building scalars never changes in a builder: its tag, its C resolver
and constructor, and whether it has a Python resolver and constructor. -/
def builder_core (b : MinYamlBuilders) :
    String × Option pcre × Option MinYamlCConstructor × Bool × Bool :=
  (b.tag, b.c_resolver, b.c_constructor, b.py_resolver.isSome, b.py_constructor.isSome)

/-- The registry holds the nine core entries of `_init_implicit_builders` and
nothing from Python, in whatever match state earlier scalars have left. -/
def is_core_registry (builders : List MinYamlBuilders) : Prop :=
  builders.map builder_core = implicitBuilders.map builder_core

instance (builders : List MinYamlBuilders) : Decidable (is_core_registry builders) := by
  unfold is_core_registry
  infer_instance

/-- The four ways to write an integer with a base of its own. -/
inductive int_form where
  | base2
  | base8
  | base10
  | base16
deriving DecidableEq, Repr

/-- The base of a form. -/
def int_form.base : int_form → Nat
  | .base2 => 2
  | .base8 => 8
  | .base10 => 10
  | .base16 => 16

/-- What stands between the sign and the digits: `0b`, `0`, nothing, `0x`. -/
def int_form.lead : int_form → List Char
  | .base2 => ['0', 'b']
  | .base8 => ['0']
  | .base10 => []
  | .base16 => ['0', 'x']

/-- The texts a form admits behind its lead: binary digits and underscores
with at least one digit; at least one octal digit or underscore; `0` alone or
a non-zero digit followed by digits and underscores; hexadecimal digits and
underscores with at least one digit. -/
def int_form.admits : int_form → List Char → Bool
  | .base2, body => body.all is_bin_us && body.any (fun c => c != '_')
  | .base8, body => !body.isEmpty && body.all is_oct_us
  | .base10, body =>
    match body with
    | [] => false
    | c :: r => (c == '0' && r.isEmpty) || (is_digit_1_9 c && r.all is_digit_us)
  | .base16, body => body.all is_hex_us && body.any (fun c => c != '_')

/-- A string of digits read in a base, most significant digit first. -/
def read_digits (base : Nat) (digits : List Char) : Nat :=
  digits.foldl (fun acc c => acc * base + (digit_value c).getD 0) 0

/-- A group behind a colon of a sexagesimal number: one digit, or two digits
of which the first is 0 to 5. -/
def sexagesimal_group (g : List Char) : Bool :=
  match g with
  | [a] => isdigit a
  | [a, b] => is_digit_0_5 a && isdigit b
  | _ => false

/-- The text of a list of groups, each behind its colon. -/
def sexagesimal_tail : List (List Char) → List Char
  | [] => []
  | g :: gs => ':' :: g ++ sexagesimal_tail gs

/-- Horner evaluation in base 60 of the groups, from the value `v` of what
stands before them. -/
def horner60 (v : Int) : List (List Char) → Int
  | [] => v
  | g :: gs => horner60 (v * 60 + read_digits 10 g) gs

/-- Every value the Horner evaluation goes through is below `2^53` in
absolute value, the range in which a C `double` holds every whole number. -/
def stays_exact (v : Int) : List (List Char) → Bool
  | [] => decide (v.natAbs < 2 ^ 53)
  | g :: gs => decide (v.natAbs < 2 ^ 53) && stays_exact (v * 60 + read_digits 10 g) gs

/-- The value of a decimal group behind an optional sign, its underscores
removed. -/
def signed_decimal (sign g0 : List Char) : Int :=
  if sign = ['-'] then -(read_digits 10 (g0.filter (fun c => c != '_')) : Int)
  else (read_digits 10 (g0.filter (fun c => c != '_')) : Int)

/-- The texts the specification gives for Null. -/
def null_literals : List (List Char) :=
  ["~".data, "null".data, "Null".data, "NULL".data, "".data]

/-- The texts the specification gives for Bool true. -/
def true_literals : List (List Char) :=
  ["yes".data, "Yes".data, "YES".data, "true".data, "True".data, "TRUE".data,
    "on".data, "On".data, "ON".data]

/-- The texts the specification gives for Bool false. -/
def false_literals : List (List Char) :=
  ["no".data, "No".data, "NO".data, "false".data, "False".data, "FALSE".data,
    "off".data, "Off".data, "OFF".data]

/-- What the parser delivers is an event that binds the anchor `A` when it is
built: an event other than an alias with the anchor `A`. -/
def binds_anchor (A : String) (item : Except yaml_error_type_t yaml_event_t) : Bool :=
  match item with
  | .ok event => decide (event.anchor = some A) && !decide (event.type = .YAML_ALIAS_EVENT)
  | .error _ => false

/-- From the state `st` to the state `st1` the parser has delivered some
events, and if neither the event in hand (`bound` tells whether it binds `A`)
nor one of those delivered binds the anchor `A`, the alias dictionary gives
for `A` what it gave. -/
def anchor_kept (A : String) (bound : Bool) (st st1 : BuildState) : Prop :=
  ∃ n, st1.parser = st.parser.drop n
    ∧ (bound = false → (∀ x ∈ st.parser.take n, binds_anchor A x = false) →
        PyDict_GetItemString st1.aliases A = PyDict_GetItemString st.aliases A)

/-- The child nodes of a sequence: from the state `st` the loop of
`_build_seq` reads, one after the other, the first event of a node that is
then built (with some bound on the depth of the recursion) to the next of the
values `vs`; `st1` is the state behind the last of them. -/
def seq_children : BuildState → List PyObject → BuildState → Prop
  | st, [], st1 => st1 = st
  | st, v :: vs, st1 =>
    ∃ (f : Nat) (e : yaml_event_t) (p : yaml_parser_t) (st2 : BuildState),
      _parse_next st.parser .YAML_SEQUENCE_END_EVENT = .ok (.BLOCK_PROCEED, e, p)
      ∧ _build_value f e { st with parser := p } = .ok (v, st2)
      ∧ seq_children st2 vs st1

/-- The entries of a pair-list, each a mapping node with one entry: from the
state `st` the parser delivers, for each of the pairs `kvs`, a mapping start,
the events of a node built to the key, the events of a node built to the
value, and a mapping end; `st1` is the state behind the last entry. -/
def pairs_children : BuildState → List (PyObject × PyObject) → BuildState → Prop
  | st, [], st1 => st1 = st
  | st, kv :: kvs, st1 =>
    ∃ (f g : Nat) (e0 ek ev e3 : yaml_event_t) (p0 pk pv p3 : yaml_parser_t)
      (stk stv : BuildState),
      _parse_next st.parser .YAML_SEQUENCE_END_EVENT = .ok (.BLOCK_PROCEED, e0, p0)
      ∧ e0.type = .YAML_MAPPING_START_EVENT
      ∧ _parse_next p0 .YAML_SEQUENCE_END_EVENT = .ok (.BLOCK_PROCEED, ek, pk)
      ∧ _build_value f ek { st with parser := pk } = .ok (kv.1, stk)
      ∧ _parse_next stk.parser .YAML_SEQUENCE_END_EVENT = .ok (.BLOCK_PROCEED, ev, pv)
      ∧ _build_value g ev { stk with parser := pv } = .ok (kv.2, stv)
      ∧ _parse_next stv.parser .YAML_SEQUENCE_END_EVENT = .ok (.BLOCK_PROCEED, e3, p3)
      ∧ e3.type = .YAML_MAPPING_END_EVENT
      ∧ pairs_children { stv with parser := p3 } kvs st1

/-- What building never changes in a builder: all of it but the state of the
last match (`ovector`, `ncaptures`, `py_match`). -/
def builder_static (b : MinYamlBuilders) :
    String × Option pcre × Option MinYamlCConstructor × Option (String → PyResult)
      × Option (List PyObject → PyResult) :=
  (b.tag, b.c_resolver, b.c_constructor, b.py_resolver, b.py_constructor)

/-- The entry of the registry that `_match_tag` finds for a tag, if any. -/
def registry_entry (builders : List MinYamlBuilders) (tag : Option String) :
    Option MinYamlBuilders :=
  (_match_tag builders tag).bind (fun i => builders[i]?)

/-- The collection under a custom tag: what `_build_value` hands to
`_build_custom`, the mapping of a mapping start (`_build_map`) or the
sequence of a sequence start (`_build_seq`). -/
def underlying_collection (fuel : Nat) (ev : yaml_event_t) (st : BuildState) : Built :=
  match ev.type with
  | .YAML_MAPPING_START_EVENT => _build_map fuel st
  | _ => _build_seq fuel st []

/-- A Python constructor for the examples: it wraps its arguments in a
tuple. -/
def tuple_constructor : List PyObject → PyResult := fun args => .ok (.tuple args)

/-- The hour `_to_timestamp` ends with when the hour less the zone hours is
`H`: the two tests `hour < 0` and `hour > 24` of the source, in their order. -/
def carried_hour (H : Int) : Int :=
  let H1 := if H < 0 then H + 24 else H
  if 24 < H1 then H1 - 24 else H1

/-- What the same two tests add to the day. -/
def carried_day (H : Int) : Int :=
  let H1 := if H < 0 then H + 24 else H
  (if H < 0 then -1 else 0) + (if 24 < H1 then 1 else 0)

/-- The body of a text is accepted by one of the alternatives of the pattern
of the integers. -/
def int_body (b : List Char) : Bool :=
  re_int_base2 b || re_int_base8 b || re_int_base10 b || re_int_base16 b || re_int_base60 b

/-- The body of a text is accepted by one of the alternatives of the pattern
of the floats. -/
def float_body (b : List Char) : Bool :=
  re_float_base10 b || re_float_base60 b
    || decide (b ∈ [".inf".data, "-.inf".data, "+.inf".data, "Inf".data, "INF".data])
    || decide (b ∈ [".nan".data, ".NaN".data, ".NAN".data])

/-- The first character behind the optional sign of a text that is neither a
digit nor an underscore, if there is one. -/
def first_mark (b : List Char) : Option Char := ((strip_sign b).dropWhile is_digit_us).head?

/-- The builder with the state of the match its resolver leaves on a text. -/
def matched (b : MinYamlBuilders) (value : List Char) : MinYamlBuilders :=
  match _match_builder b value with
  | .ok (_, b1) => b1
  | .error _ => b

/-- The texts the constructor of `tag:yaml.org,2002:bool` reads as true. -/
def bool_true_texts : List (List Char) :=
  ["y".data, "Y".data, "yes".data, "Yes".data, "YES".data, "true".data, "True".data,
    "TRUE".data, "on".data, "On".data, "ON".data]

/-- The texts the constructor of `tag:yaml.org,2002:bool` reads as false. -/
def bool_false_texts : List (List Char) :=
  ["n".data, "N".data, "no".data, "No".data, "NO".data, "false".data, "False".data,
    "FALSE".data, "off".data, "Off".data, "OFF".data]

/-- The event without its tag when it is a mapping start tagged
`tag:yaml.org,2002:map` or `tag:yaml.org,2002:set`; any other event as it
is. -/
def untag (ev : yaml_event_t) : yaml_event_t :=
  if ev.type = .YAML_MAPPING_START_EVENT ∧ (ev.tag = some YAML_TAG_MAP ∨ ev.tag = some YAML_TAG_SET)
  then { ev with tag := none } else ev

/-- The parser that delivers the events of `p`, each without the tag of maps
or of sets on a mapping start. -/
def untag_events (p : yaml_parser_t) : yaml_parser_t :=
  p.map (fun item =>
    match item with
    | .ok ev => .ok (untag ev)
    | .error e => .error e)

/-- The state with the parser so changed. -/
def untag_state (st : BuildState) : BuildState := { st with parser := untag_events st.parser }

/-- The result of a builder with the parser of its state so changed. -/
def untag_built (r : Built) : Built :=
  match r with
  | .ok (v, st) => .ok (v, untag_state st)
  | .error e => .error e

/-- The result of the loop of `_build_map` with the parser of its state so
changed. -/
def untag_loop (r : Except PyExc ((PyDict × Bool) × BuildState)) :
    Except PyExc ((PyDict × Bool) × BuildState) :=
  match r with
  | .ok (q, st) => .ok (q, untag_state st)
  | .error e => .error e

/-- A Python resolver for the examples: its `match` accepts the texts that
start with `@` (it gives a match object for them and `None` otherwise). -/
def at_resolver : String → PyResult := fun s =>
  if s.data.head? = some '@' then .ok (.atom (.object 1)) else .ok PyObject.none

/-- Event lists made of well-nested nodes, one after the other: a scalar or
an alias is a node, and so is a sequence start or a mapping start followed by
nodes and by the end event of its kind. -/
inductive node_list : List yaml_event_t → Prop where
  | nil : node_list []
  | leaf (e : yaml_event_t) (f : List yaml_event_t) :
      e.type = .YAML_SCALAR_EVENT ∨ e.type = .YAML_ALIAS_EVENT → node_list f → node_list (e :: f)
  | seq (e : yaml_event_t) (c : List yaml_event_t) (e1 : yaml_event_t) (f : List yaml_event_t) :
      e.type = .YAML_SEQUENCE_START_EVENT → node_list c → e1.type = .YAML_SEQUENCE_END_EVENT →
      node_list f → node_list (e :: c ++ e1 :: f)
  | map (e : yaml_event_t) (c : List yaml_event_t) (e1 : yaml_event_t) (f : List yaml_event_t) :
      e.type = .YAML_MAPPING_START_EVENT → node_list c → e1.type = .YAML_MAPPING_END_EVENT →
      node_list f → node_list (e :: c ++ e1 :: f)

/-- One well-nested node: a scalar, an alias, or a start event with its
children and its matching end event. -/
inductive well_nested : List yaml_event_t → Prop where
  | of_scalar (e : yaml_event_t) : e.type = .YAML_SCALAR_EVENT → well_nested [e]
  | of_alias (e : yaml_event_t) : e.type = .YAML_ALIAS_EVENT → well_nested [e]
  | of_seq (e : yaml_event_t) (c : List yaml_event_t) (e1 : yaml_event_t) :
      e.type = .YAML_SEQUENCE_START_EVENT → node_list c → e1.type = .YAML_SEQUENCE_END_EVENT →
      well_nested (e :: c ++ [e1])
  | of_map (e : yaml_event_t) (c : List yaml_event_t) (e1 : yaml_event_t) :
      e.type = .YAML_MAPPING_START_EVENT → node_list c → e1.type = .YAML_MAPPING_END_EVENT →
      well_nested (e :: c ++ [e1])

/-- The end events that the first event of a node leaves to be read: none
for a scalar or an alias, the end of its kind for a start event.  Nothing for
an event that starts no node. -/
def node_opens : yaml_event_type_t → Option (List yaml_event_type_t)
  | .YAML_SCALAR_EVENT => some []
  | .YAML_ALIAS_EVENT => some []
  | .YAML_SEQUENCE_START_EVENT => some [.YAML_SEQUENCE_END_EVENT]
  | .YAML_MAPPING_START_EVENT => some [.YAML_MAPPING_END_EVENT]
  | _ => none

/-- What is left of the events once the collections that are open have been
closed: `stack` holds the end events waited for, the innermost first.  Nothing
when the events end before, deliver a failure, or close a collection with the
end event of the other kind. -/
def scan_nodes : List yaml_event_type_t → yaml_parser_t → Option yaml_parser_t
  | [], p => some p
  | _ :: _, [] => none
  | _ :: _, .error _ :: _ => none
  | t :: s, .ok e :: rest =>
    match node_opens e.type with
    | some o => scan_nodes (o ++ t :: s) rest
    | none => if e.type = t then scan_nodes s rest else none

/-- What follows the first node of the events, when they start with a
well-nested node. -/
def node_rest : yaml_parser_t → Option yaml_parser_t
  | .ok e :: rest => (node_opens e.type).bind (fun o => scan_nodes o rest)
  | _ => none

/-- The Python callables of an entry raise Python exceptions only: neither
gives the mark `fuel` of the embedding for an exception. -/
def raises_python_only (b : MinYamlBuilders) : Prop :=
  (∀ r, b.py_resolver = some r → ∀ s, r s ≠ .error .fuel)
  ∧ (∀ f, b.py_constructor = some f → ∀ args, f args ≠ .error .fuel)

/-- The Python callables of the registry raise Python exceptions only. -/
def registry_raises_python_only (builders : List MinYamlBuilders) : Prop :=
  ∀ b ∈ builders, raises_python_only b

set_option maxRecDepth 100000

theorem match_tag_none (builders : List MinYamlBuilders) : _match_tag builders none = none := rfl

theorem matcher_answer_eq {b : MinYamlBuilders} {value : List Char} {r : Bool}
    (h : matcher_answer b value = .ok r) : ∃ b1, _match_builder b value = .ok (r, b1) := by
  unfold matcher_answer at h
  cases hm : _match_builder b value with
  | error e => rw [hm] at h; cases h
  | ok p =>
    obtain ⟨v, b1⟩ := p
    rw [hm] at h
    simp only [Except.ok.injEq] at h
    exact ⟨b1, by rw [h]⟩

theorem build_scalar_loop_none (value : List Char) :
    ∀ (builders : List MinYamlBuilders) (i : Nat),
      (∀ x ∈ builders, matcher_answer x value = .ok false) →
      ∃ bs, _build_scalar_loop value i builders = .ok (none, bs)
  | [], _, _ => ⟨[], rfl⟩
  | b :: rest, i, h => by
    obtain ⟨b1, hb⟩ := matcher_answer_eq (h b (List.mem_cons_self _ _))
    obtain ⟨bs, hbs⟩ := build_scalar_loop_none value rest (i + 1)
      (fun x hx => h x (List.mem_cons_of_mem _ hx))
    exact ⟨b1 :: bs, by simp [_build_scalar_loop, hb, hbs]⟩

theorem build_scalar_loop_some (value : List Char) :
    ∀ (builders : List MinYamlBuilders) (i : Nat) (b : MinYamlBuilders),
      (∀ x ∈ builders.takeWhile (fun b => !(matcher_answer b value == .ok true)),
        matcher_answer x value = .ok false) →
      builders.find? (fun b => matcher_answer b value == .ok true) = some b →
      ∃ j b1 bs, _build_scalar_loop value i builders = .ok (some j, bs)
        ∧ _match_builder b value = .ok (true, b1) ∧ bs[j - i]? = some b1 ∧ i ≤ j
  | [], _, _, _, hf => by simp at hf
  | x :: rest, i, b, h, hf => by
    by_cases hx : matcher_answer x value = .ok true
    · have hxb : x = b := by simpa [List.find?, hx] using hf
      subst hxb
      obtain ⟨b1, hb⟩ := matcher_answer_eq hx
      exact ⟨i, b1, b1 :: rest, by simp [_build_scalar_loop, hb], hb, by simp, le_refl _⟩
    · have hx' : (matcher_answer x value == Except.ok true) = false := by simpa using hx
      have hrej : matcher_answer x value = .ok false :=
        h x (by simp [List.takeWhile, hx'])
      obtain ⟨x1, hx1⟩ := matcher_answer_eq hrej
      have hf' : rest.find? (fun b => matcher_answer b value == .ok true) = some b := by
        simpa [List.find?, hx'] using hf
      obtain ⟨j, b1, bs, hl, hm, hg, hij⟩ := build_scalar_loop_some value rest (i + 1) b
        (fun y hy => h y (by simp [List.takeWhile, hx', hy])) hf'
      refine ⟨j, b1, x1 :: bs, by simp [_build_scalar_loop, hx1, hl], hm, ?_, by omega⟩
      have : j - i = (j - (i + 1)) + 1 := by omega
      rw [this]
      simpa using hg

theorem c_str_of_no_nul (value : List Char) (h : ∀ c ∈ value, c ≠ '\x00') : c_str value = value := by
  unfold c_str
  rw [List.takeWhile_eq_self_iff]
  intro c hc
  simpa using h c hc

/-- A scalar with a tag the registry knows is built by the constructor of the
entry with that tag, called with no captures. -/
theorem tagged_scalar (builders : List MinYamlBuilders) (t : String) (value : List Char)
    (i : Nat) (b : MinYamlBuilders)
    (hi : _match_tag builders (some t) = some i) (hb : builders[i]? = some b) :
    result_value (_build_scalar (some t) value builders)
      = result_value (_build_scalar_call { b with ncaptures := -1 } value value.length) := by
  have hl : (List.modify (fun b : MinYamlBuilders => { b with ncaptures := -1 }) i builders)[i]?
      = some { b with ncaptures := -1 } := by
    rw [List.getElem?_modify_eq, hb]; rfl
  simp only [_build_scalar, hi, _build_scalar_construct, Option.bind, hl]
  cases _build_scalar_call { b with ncaptures := -1 } value value.length with
  | error e => rfl
  | ok r => rfl

/-- C2, as amended.  Implicit resolution is first-match-wins in registry
order: provided every matcher asked before the first acceptance answers (a
Python resolver may raise instead), an untagged scalar is built by the first
entry whose matcher accepts the text, from the match state that matcher
left; entries without a matcher reject.  If no matcher accepts, the result is
the string equal to the text, for a text without NUL character. -/
theorem first_match_wins (builders : List MinYamlBuilders) (value : List Char)
    (h : ∀ x ∈ builders.takeWhile (fun b => !(matcher_answer b value == .ok true)),
      matcher_answer x value = .ok false) :
    (∀ b, builders.find? (fun b => matcher_answer b value == .ok true) = some b →
      result_value (_build_scalar none value builders)
        = match _match_builder b value with
          | .ok (_, b1) => result_value (_build_scalar_call b1 value value.length)
          | .error e => .error e)
    ∧ (builders.find? (fun b => matcher_answer b value == .ok true) = none →
      (∀ c ∈ value, c ≠ '\x00') →
      result_value (_build_scalar none value builders) = .ok (.str (String.mk value))) := by
  constructor
  · intro b hf
    obtain ⟨j, b1, bs, hl, hm, hg, _⟩ := build_scalar_loop_some value builders 0 b h hf
    simp only [Nat.sub_zero] at hg
    simp only [_build_scalar, match_tag_none, Option.isSome_none, Bool.false_eq_true, if_false, hl,
      _build_scalar_construct, Option.bind, hg, hm]
    cases _build_scalar_call b1 value value.length with
    | error e => rfl
    | ok r => rfl
  · intro hf hnul
    have hall : ∀ x ∈ builders, matcher_answer x value = .ok false := by
      intro x hx
      apply h x
      have : builders.takeWhile (fun b => !(matcher_answer b value == .ok true)) = builders := by
        rw [List.takeWhile_eq_self_iff]
        intro y hy
        have := List.find?_eq_none.mp hf y hy
        simpa using this
      rw [this]; exact hx
    obtain ⟨bs, hbs⟩ := build_scalar_loop_none value builders 0 hall
    simp [_build_scalar, match_tag_none, hbs, _build_scalar_construct, result_value,
      PyUnicode_FromString, c_str_of_no_nul value hnul]

/-- C2, witness with the default registry: `123` is built by the entry of the
integers, the first whose matcher accepts it, and `abc`, which no matcher
accepts, is built as the string `abc`. -/
theorem first_match_wins_witness :
    result_value (_build_scalar none "123".data implicitBuilders) = .ok (.int 123)
    ∧ result_value (_build_scalar none "abc".data implicitBuilders) = .ok (.str "abc") :=
  ⟨((first_match_wins implicitBuilders "123".data (by decide)).1
      (implicitBuilders.getD 4 (_new_py_builder "" none none)) (by rfl)).trans (by decide),
   (first_match_wins implicitBuilders "abc".data (by decide)).2 (by rfl) (by decide)⟩

/-- C2 as stated fails.  With a Python resolver that raises registered behind
the core entries, no matcher accepts `abc`, yet the result is the exception
and not the string.  And with the default registry no matcher accepts the
three characters `a`, NUL, `b`, yet the result is the string `a`: the text is
read as a C string and ends at the NUL. -/
theorem first_match_wins_counterexample :
    ((∀ b ∈ implicitBuilders ++ [_new_py_builder "!x" (some raising_resolver) none],
        matcher_answer b "abc".data ≠ .ok true)
      ∧ result_value (_build_scalar none "abc".data
          (implicitBuilders ++ [_new_py_builder "!x" (some raising_resolver) none]))
        = .error (.Raised "error"))
    ∧ ((∀ b ∈ implicitBuilders, matcher_answer b ['a', '\x00', 'b'] = .ok false)
      ∧ result_value (_build_scalar none ['a', '\x00', 'b'] implicitBuilders) = .ok (.str "a")
      ∧ result_value (_build_scalar none ['a', '\x00', 'b'] implicitBuilders)
        ≠ .ok (.str (String.mk ['a', '\x00', 'b']))) := by
  decide

/-- C3. An unknown explicit tag is a hard error: when no entry of the
registry has the tag of the scalar, `_build_scalar` fails with `TypeError`
for every text, and no matcher is asked (the result does not depend on any). -/
theorem unknown_tag_is_type_error (builders : List MinYamlBuilders) (t : String) (value : List Char)
    (h : ∀ b ∈ builders, b.tag ≠ t) :
    _build_scalar (some t) value builders = .error .TypeError := by
  have h1 : _match_tag builders (some t) = none := by
    simp only [_match_tag, List.findIdx?_eq_none_iff]
    intro b hb
    simpa using h b hb
  simp [_build_scalar, h1]

/-- C3, witness: the tag `!foo` is not in the default registry, and the text
`123`, which the matcher of the integers accepts, fails with `TypeError`. -/
theorem unknown_tag_is_type_error_witness :
    (∀ b ∈ implicitBuilders, b.tag ≠ "!foo") ∧
    _build_scalar (some "!foo") "123".data implicitBuilders = .error .TypeError :=
  ⟨by decide, unknown_tag_is_type_error implicitBuilders "!foo" "123".data (by decide)⟩

/-! ## Integers -/

theorem match_builder_c (b : MinYamlBuilders) (re : pcre) (value : List Char)
    (hp : b.py_resolver = none) (hc : b.c_resolver = some re) :
    _match_builder b value = .ok (decide (0 ≤ (pcre_exec re value b.ovector).1),
      { b with py_match := PyObject.none, ncaptures := (pcre_exec re value b.ovector).1,
               ovector := (pcre_exec re value b.ovector).2 }) := by
  simp [_match_builder, hp, hc]

theorem match_builder_none (b : MinYamlBuilders) (value : List Char)
    (hp : b.py_resolver = none) (hc : b.c_resolver = none) :
    _match_builder b value = .ok (false, { b with py_match := PyObject.none }) := by
  simp [_match_builder, hp, hc]

theorem pcre_rc_pos (gs : List (Option (Nat × Nat))) : 0 ≤ pcre_rc gs := by
  unfold pcre_rc; exact Int.ofNat_nonneg _

theorem matcher_answer_c (b : MinYamlBuilders) (re : pcre) (value : List Char)
    (hp : b.py_resolver = none) (hc : b.c_resolver = some re) :
    matcher_answer b value = .ok (pcre_groups re value).isSome := by
  unfold matcher_answer
  rw [match_builder_c b re value hp hc]
  unfold pcre_exec
  cases h : pcre_groups re value with
  | none => simp
  | some gs => simp [pcre_rc_pos]

theorem matcher_answer_none (b : MinYamlBuilders) (value : List Char)
    (hp : b.py_resolver = none) (hc : b.c_resolver = none) :
    matcher_answer b value = .ok false := by
  unfold matcher_answer
  rw [match_builder_none b value hp hc]

theorem implicit_cores : implicitBuilders.map builder_core =
    [(YAML_TAG_NULL, some .null, some ._to_null, false, false),
     (YAML_TAG_BOOL, none, some ._to_bool, false, false),
     (YAML_TAG_TRUE, some .true_, some ._to_true, false, false),
     (YAML_TAG_FALSE, some .false_, some ._to_false, false, false),
     (YAML_TAG_INT, some .int, some ._to_int, false, false),
     (YAML_TAG_FLOAT, some .float, some ._to_float, false, false),
     (YAML_TAG_TIMESTAMP, some .timestamp, some ._to_timestamp, false, false),
     (YAML_TAG_STR, none, some ._to_str, false, false),
     (YAML_TAG_BINARY, none, some ._to_binary, false, false)] := by
  decide

theorem builder_core_eq {b : MinYamlBuilders} {t : String} {re : Option pcre}
    {c : Option MinYamlCConstructor}
    (h : builder_core b = (t, re, c, false, false)) :
    b.tag = t ∧ b.c_resolver = re ∧ b.c_constructor = c ∧ b.py_resolver = none
      ∧ b.py_constructor = none := by
  simp only [builder_core, Prod.mk.injEq] at h
  obtain ⟨h1, h2, h3, h4, h5⟩ := h
  refine ⟨h1, h2, h3, ?_, ?_⟩
  · cases hp : b.py_resolver with
    | none => rfl
    | some f => rw [hp] at h4; cases h4
  · cases hp : b.py_constructor with
    | none => rfl
    | some f => rw [hp] at h5; cases h5

theorem core_registry_cases {bs : List MinYamlBuilders} (h : is_core_registry bs) :
    ∃ b0 b1 b2 b3 b4 b5 b6 b7 b8, bs = [b0, b1, b2, b3, b4, b5, b6, b7, b8]
      ∧ builder_core b0 = (YAML_TAG_NULL, some .null, some ._to_null, false, false)
      ∧ builder_core b1 = (YAML_TAG_BOOL, none, some ._to_bool, false, false)
      ∧ builder_core b2 = (YAML_TAG_TRUE, some .true_, some ._to_true, false, false)
      ∧ builder_core b3 = (YAML_TAG_FALSE, some .false_, some ._to_false, false, false)
      ∧ builder_core b4 = (YAML_TAG_INT, some .int, some ._to_int, false, false)
      ∧ builder_core b5 = (YAML_TAG_FLOAT, some .float, some ._to_float, false, false)
      ∧ builder_core b6 = (YAML_TAG_TIMESTAMP, some .timestamp, some ._to_timestamp, false, false)
      ∧ builder_core b7 = (YAML_TAG_STR, none, some ._to_str, false, false)
      ∧ builder_core b8 = (YAML_TAG_BINARY, none, some ._to_binary, false, false) := by
  unfold is_core_registry at h
  rw [implicit_cores] at h
  rcases bs with _ | ⟨b0, _ | ⟨b1, _ | ⟨b2, _ | ⟨b3, _ | ⟨b4, _ | ⟨b5, _ | ⟨b6, _ | ⟨b7, _ | ⟨b8, _ | ⟨b9, r⟩⟩⟩⟩⟩⟩⟩⟩⟩⟩ <;>
    simp only [List.map_nil, List.map_cons, List.cons.injEq, reduceCtorEq, and_false, false_and] at h
  obtain ⟨h0, h1, h2, h3, h4, h5, h6, h7, h8, _⟩ := h
  exact ⟨b0, b1, b2, b3, b4, b5, b6, b7, b8, rfl, h0, h1, h2, h3, h4, h5, h6, h7, h8⟩

theorem result_value_construct (value : List Char) (n : Nat) (bs : List MinYamlBuilders) (i : Nat)
    (b : MinYamlBuilders) (h : bs[i]? = some b) :
    result_value (_build_scalar_construct value n bs (some i))
      = result_value (_build_scalar_call b value n) := by
  simp only [_build_scalar_construct, Option.bind, h]
  cases _build_scalar_call b value n with
  | error e => rfl
  | ok r => rfl

/-- An untagged scalar that the matchers of null, true and false reject and
the matcher of the integers accepts is built by `_to_int`, from the captures
of that match. -/
theorem core_scalar_int {bs : List MinYamlBuilders} (h : is_core_registry bs) (text : List Char)
    (gs : List (Option (Nat × Nat)))
    (hnull : pcre_groups .null text = none) (htrue : pcre_groups .true_ text = none)
    (hfalse : pcre_groups .false_ text = none) (hint : pcre_groups .int text = some gs) :
    ∃ self tail, self.ncaptures = pcre_rc gs ∧ self.ovector = ovector_of_groups gs ++ tail
      ∧ result_value (_build_scalar none text bs) = result_value (_to_int self text text.length) := by
  obtain ⟨b0, b1, b2, b3, b4, b5, b6, b7, b8, rfl, h0, h1, h2, h3, h4, _, _, _, _⟩ :=
    core_registry_cases h
  obtain ⟨_, hc0, _, hp0, _⟩ := builder_core_eq h0
  obtain ⟨_, hc1, _, hp1, _⟩ := builder_core_eq h1
  obtain ⟨_, hc2, _, hp2, _⟩ := builder_core_eq h2
  obtain ⟨_, hc3, _, hp3, _⟩ := builder_core_eq h3
  obtain ⟨_, hc4, hk4, hp4, hq4⟩ := builder_core_eq h4
  refine ⟨{ b4 with py_match := PyObject.none, ncaptures := pcre_rc gs,
                    ovector := ovector_of_groups gs ++ b4.ovector.drop (2 * gs.length) },
    b4.ovector.drop (2 * gs.length), rfl, rfl, ?_⟩
  have hloop : _build_scalar_loop text 0 [b0, b1, b2, b3, b4, b5, b6, b7, b8]
      = .ok (some 4, [{ b0 with py_match := PyObject.none, ncaptures := -1 },
          { b1 with py_match := PyObject.none },
          { b2 with py_match := PyObject.none, ncaptures := -1 },
          { b3 with py_match := PyObject.none, ncaptures := -1 },
          { b4 with py_match := PyObject.none, ncaptures := pcre_rc gs,
                    ovector := ovector_of_groups gs ++ b4.ovector.drop (2 * gs.length) },
          b5, b6, b7, b8]) := by
    simp [_build_scalar_loop, match_builder_c _ _ _ hp0 hc0, match_builder_none _ _ hp1 hc1,
      match_builder_c _ _ _ hp2 hc2, match_builder_c _ _ _ hp3 hc3, match_builder_c _ _ _ hp4 hc4,
      pcre_exec, hnull, htrue, hfalse, hint, pcre_rc_pos]
  simp only [_build_scalar, match_tag_none, Option.isSome_none, Bool.false_eq_true, if_false, hloop]
  rw [result_value_construct _ _ _ 4 _ (by rfl)]
  simp [_build_scalar_call, hq4, hk4, c_constructor_call]

theorem bin_digit {c : Char} (h : is_bin_us c = true) (hu : c ≠ '_') :
    ∃ d, digit_value c = some d ∧ d < 2 := by
  simp only [is_bin_us, Bool.or_eq_true, beq_iff_eq] at h
  rcases h with (rfl | rfl) | rfl
  · exact ⟨0, by decide, by decide⟩
  · exact ⟨1, by decide, by decide⟩
  · exact absurd rfl hu

theorem oct_digit {c : Char} (h : is_oct_us c = true) (hu : c ≠ '_') :
    ∃ d, digit_value c = some d ∧ d < 8 := by
  simp only [is_oct_us, Bool.or_eq_true, decide_eq_true_eq, beq_iff_eq] at h
  rcases h with h | rfl
  · exact ⟨c.toNat - 48, by simp [digit_value, h.1]; omega, by omega⟩
  · exact absurd rfl hu

theorem dec_digit {c : Char} (h : isdigit c = true) :
    ∃ d, digit_value c = some d ∧ d < 10 := by
  simp only [isdigit, decide_eq_true_eq] at h
  exact ⟨c.toNat - 48, by simp [digit_value, h.1, h.2], by omega⟩

theorem dec_us_digit {c : Char} (h : is_digit_us c = true) (hu : c ≠ '_') :
    ∃ d, digit_value c = some d ∧ d < 10 := by
  simp only [is_digit_us, Bool.or_eq_true, beq_iff_eq] at h
  rcases h with h | rfl
  · exact dec_digit h
  · exact absurd rfl hu

theorem hex_digit {c : Char} (h : is_hex_us c = true) (hu : c ≠ '_') :
    ∃ d, digit_value c = some d ∧ d < 16 := by
  simp only [is_hex_us, isdigit, Bool.or_eq_true, decide_eq_true_eq, beq_iff_eq] at h
  rcases h with ((h | h) | h) | rfl
  · exact ⟨c.toNat - 48, by simp [digit_value, h.1, h.2], by omega⟩
  · refine ⟨c.toNat - 87, ?_, by omega⟩
    have h1 : ¬ (48 ≤ c.toNat ∧ c.toNat ≤ 57) := by omega
    have h2 : 97 ≤ c.toNat ∧ c.toNat ≤ 122 := by omega
    simp [digit_value, h1, h2]
  · refine ⟨c.toNat - 55, ?_, by omega⟩
    have h1 : ¬ (48 ≤ c.toNat ∧ c.toNat ≤ 57) := by omega
    have h2 : ¬ (97 ≤ c.toNat ∧ c.toNat ≤ 122) := by omega
    have h3 : 65 ≤ c.toNat ∧ c.toNat ≤ 90 := by omega
    simp [digit_value, h1, h2, h3]
  · exact absurd rfl hu

theorem long_digits_all (base : Nat) :
    ∀ (ds : List Char) (acc : Nat), (∀ c ∈ ds, c ≠ '_' ∧ ∃ d, digit_value c = some d ∧ d < base) →
      long_digits base acc false ds
        = some (ds.foldl (fun a c => a * base + (digit_value c).getD 0) acc, [])
  | [], acc, _ => by simp [long_digits]
  | c :: r, acc, h => by
    obtain ⟨hu, d, hd, hlt⟩ := h c (List.mem_cons_self _ _)
    have ih := long_digits_all base r (acc * base + d) (fun x hx => h x (List.mem_cons_of_mem _ hx))
    simp [long_digits, hu, hd, hlt, ih]

theorem c_str_nuls (k : Nat) : c_str (List.replicate k '\x00') = [] := by
  cases k with
  | zero => rfl
  | succ n => simp [c_str, List.replicate_succ, List.takeWhile]

theorem c_str_append_nuls (s : List Char) (k : Nat) (h : ∀ c ∈ s, c ≠ '\x00') :
    c_str (s ++ List.replicate k '\x00') = s := by
  induction s with
  | nil => simpa using c_str_nuls k
  | cons c r ih =>
    have hc : c ≠ '\x00' := h c (List.mem_cons_self _ _)
    have ih' := ih (fun x hx => h x (List.mem_cons_of_mem _ hx))
    have hb : (c != '\x00') = true := by simpa using hc
    unfold c_str at ih' ⊢
    rw [List.cons_append, List.takeWhile_cons, hb]
    simp only [if_true, ih']

theorem remove_separator_full (text : List Char) (h : ∀ c ∈ text, c ≠ '\x00') :
    _remove_digit_separator text text.length '_'
      = text.filter (fun c => c != '_')
        ++ List.replicate (text.length - (text.filter (fun c => c != '_')).length) '\x00' := by
  simp [_remove_digit_separator, c_str_of_no_nul text h]

theorem subject_body_of_no_newline (text : List Char) (h : ∀ c ∈ text, c ≠ '\n') :
    subject_body text = text := by
  unfold subject_body
  split
  · rename_i hl
    exact absurd rfl (h '\n' (List.mem_of_getLast?_eq_some hl))
  · rfl

theorem c_str_idem (s : List Char) : c_str (c_str s) = c_str s := by
  apply c_str_of_no_nul
  intro c hc
  have := List.mem_takeWhile_imp hc
  simpa using this

theorem PyLong_FromString_c_str (str : List Char) (base : Nat) :
    PyLong_FromString str base = PyLong_FromString (c_str str) base := by
  unfold PyLong_FromString
  rw [c_str_idem]

theorem digit_ne_of_none {c x : Char} {d : Nat} (h : digit_value c = some d)
    (hx : digit_value x = none) : c ≠ x := by
  rintro rfl
  rw [hx] at h
  cases h

theorem digit_ne_nul {c : Char} {d : Nat} (h : digit_value c = some d) : c ≠ '\x00' :=
  digit_ne_of_none h (by decide)

theorem digit_not_space {c : Char} {d : Nat} (h : digit_value c = some d) : isspace c = false := by
  simp only [isspace, Bool.or_eq_false_iff, beq_eq_false_iff_ne]
  exact ⟨⟨⟨⟨⟨digit_ne_of_none h (by decide), digit_ne_of_none h (by decide)⟩,
    digit_ne_of_none h (by decide)⟩, digit_ne_of_none h (by decide)⟩,
    digit_ne_of_none h (by decide)⟩, digit_ne_of_none h (by decide)⟩

theorem PyLong_digits (base : Nat) (neg : Bool) (ds : List Char) (hne : ds ≠ [])
    (hd : ∀ c ∈ ds, c ≠ '_' ∧ ∃ d, digit_value c = some d ∧ d < base) :
    (match long_digits base 0 false ds with
      | none => (Except.error PyExc.ValueError : Except PyExc Int)
      | some (z, rest) =>
        if false = true ∧ z ≠ 0 then .error .ValueError
        else if rest.length = ds.length then .error .ValueError
        else if rest.dropWhile isspace ≠ [] then .error .ValueError
        else .ok (if neg then -(z : Int) else (z : Int)))
      = .ok (if neg then -(read_digits base ds : Int) else (read_digits base ds : Int)) := by
  rw [long_digits_all base ds 0 hd]
  have : ds.length ≠ 0 := by simpa using hne
  simp [read_digits, this, Ne.symm this]

theorem digits_no_nul {base : Nat} {ds : List Char}
    (hd : ∀ c ∈ ds, c ≠ '_' ∧ ∃ d, digit_value c = some d ∧ d < base) :
    ∀ c ∈ ds, c ≠ '\x00' := by
  intro c hc
  obtain ⟨_, d, h, _⟩ := hd c hc
  exact digit_ne_nul h

theorem c_str_lead (pre ds : List Char) (hp : ∀ c ∈ pre, c ≠ '\x00') (hd : ∀ c ∈ ds, c ≠ '\x00') :
    c_str (pre ++ ds) = pre ++ ds :=
  c_str_of_no_nul _ (by
    intro c hc
    rcases List.mem_append.mp hc with h | h
    · exact hp c h
    · exact hd c h)

theorem head_not_underscore {base : Nat} {ds : List Char}
    (hd : ∀ c ∈ ds, c ≠ '_' ∧ ∃ d, digit_value c = some d ∧ d < base) : ds.head? ≠ some '_' := by
  cases ds with
  | nil => simp
  | cons c r => simpa using (hd c (List.mem_cons_self _ _)).1

theorem pylong_base2 (sign : List Char) (hs : sign = [] ∨ sign = ['+'] ∨ sign = ['-'])
    (ds : List Char) (hne : ds ≠ [])
    (hd : ∀ c ∈ ds, c ≠ '_' ∧ ∃ d, digit_value c = some d ∧ d < 2) :
    PyLong_FromString (sign ++ '0' :: 'b' :: ds) 0
      = .ok (if sign = ['-'] then -(read_digits 2 ds : Int) else (read_digits 2 ds : Int)) := by
  have hnul := digits_no_nul hd
  have hu := head_not_underscore hd
  have hlen : ds.length ≠ 0 := by simpa using hne
  rcases hs with rfl | rfl | rfl
  · have hc := c_str_lead ['0', 'b'] ds (by decide) hnul
    simp only [List.cons_append, List.nil_append] at hc
    simp only [PyLong_FromString, List.nil_append, hc]
    simp [List.dropWhile, isspace, hu]
    rw [long_digits_all 2 ds 0 hd]
    simp [read_digits, hlen, Ne.symm hlen, long_over_limit]
  · have hc := c_str_lead ['+', '0', 'b'] ds (by decide) hnul
    simp only [List.cons_append, List.nil_append] at hc
    simp only [PyLong_FromString, List.cons_append, List.nil_append, hc]
    simp [List.dropWhile, isspace, hu]
    rw [long_digits_all 2 ds 0 hd]
    simp [read_digits, hlen, Ne.symm hlen, long_over_limit]
  · have hc := c_str_lead ['-', '0', 'b'] ds (by decide) hnul
    simp only [List.cons_append, List.nil_append] at hc
    simp only [PyLong_FromString, List.cons_append, List.nil_append, hc]
    simp [List.dropWhile, isspace, hu]
    rw [long_digits_all 2 ds 0 hd]
    simp [read_digits, hlen, Ne.symm hlen, long_over_limit]

theorem pylong_base16 (sign : List Char) (hs : sign = [] ∨ sign = ['+'] ∨ sign = ['-'])
    (ds : List Char) (hne : ds ≠ [])
    (hd : ∀ c ∈ ds, c ≠ '_' ∧ ∃ d, digit_value c = some d ∧ d < 16) :
    PyLong_FromString (sign ++ '0' :: 'x' :: ds) 0
      = .ok (if sign = ['-'] then -(read_digits 16 ds : Int) else (read_digits 16 ds : Int)) := by
  have hnul := digits_no_nul hd
  have hu := head_not_underscore hd
  have hlen : ds.length ≠ 0 := by simpa using hne
  rcases hs with rfl | rfl | rfl
  · have hc := c_str_lead ['0', 'x'] ds (by decide) hnul
    simp only [List.cons_append, List.nil_append] at hc
    simp only [PyLong_FromString, List.nil_append, hc]
    simp [List.dropWhile, isspace, hu]
    rw [long_digits_all 16 ds 0 hd]
    simp [read_digits, hlen, Ne.symm hlen, long_over_limit]
  · have hc := c_str_lead ['+', '0', 'x'] ds (by decide) hnul
    simp only [List.cons_append, List.nil_append] at hc
    simp only [PyLong_FromString, List.cons_append, List.nil_append, hc]
    simp [List.dropWhile, isspace, hu]
    rw [long_digits_all 16 ds 0 hd]
    simp [read_digits, hlen, Ne.symm hlen, long_over_limit]
  · have hc := c_str_lead ['-', '0', 'x'] ds (by decide) hnul
    simp only [List.cons_append, List.nil_append] at hc
    simp only [PyLong_FromString, List.cons_append, List.nil_append, hc]
    simp [List.dropWhile, isspace, hu]
    rw [long_digits_all 16 ds 0 hd]
    simp [read_digits, hlen, Ne.symm hlen, long_over_limit]

theorem long_digits_zero (base : Nat) (hb : 0 < base) (ds : List Char)
    (hd : ∀ c ∈ ds, c ≠ '_' ∧ ∃ d, digit_value c = some d ∧ d < base) :
    long_digits base 0 false ('0' :: ds) = some (read_digits base ds, []) := by
  have h0 : ∀ c ∈ '0' :: ds, c ≠ '_' ∧ ∃ d, digit_value c = some d ∧ d < base := by
    intro c hc
    rcases List.mem_cons.mp hc with rfl | h
    · exact ⟨by decide, 0, by decide, hb⟩
    · exact hd c h
  rw [long_digits_all base _ 0 h0]
  simp [read_digits, show digit_value '0' = some 0 by decide]

theorem pylong_base8 (sign : List Char) (hs : sign = [] ∨ sign = ['+'] ∨ sign = ['-'])
    (ds : List Char)
    (hd : ∀ c ∈ ds, c ≠ '_' ∧ ∃ d, digit_value c = some d ∧ d < 8) :
    PyLong_FromString (sign ++ '0' :: ds) 8
      = .ok (if sign = ['-'] then -(read_digits 8 ds : Int) else (read_digits 8 ds : Int)) := by
  have hnul := digits_no_nul hd
  have hx : ∀ x : Char, x = 'o' ∨ x = 'O' → ds.head?.getD '\x00' ≠ x := by
    intro x hx
    cases ds with
    | nil => rcases hx with rfl | rfl <;> decide
    | cons c r =>
      obtain ⟨_, d, h, hlt⟩ := hd c (List.mem_cons_self _ _)
      simp only [List.head?_cons, Option.getD_some]
      rintro rfl
      rcases hx with rfl | rfl
      · have : digit_value 'o' = some 24 := by decide
        rw [this] at h; cases h; omega
      · have : digit_value 'O' = some 24 := by decide
        rw [this] at h; cases h; omega
  have ho := hx 'o' (Or.inl rfl)
  have hO := hx 'O' (Or.inr rfl)
  rcases hs with rfl | rfl | rfl
  · have hc := c_str_lead ['0'] ds (by decide) hnul
    simp only [List.cons_append, List.nil_append] at hc
    simp only [PyLong_FromString, List.nil_append, hc]
    simp [List.dropWhile, isspace, ho, hO]
    rw [long_digits_zero 8 (by decide) ds hd]
    simp [long_over_limit]
  · have hc := c_str_lead ['+', '0'] ds (by decide) hnul
    simp only [List.cons_append, List.nil_append] at hc
    simp only [PyLong_FromString, List.cons_append, List.nil_append, hc]
    simp [List.dropWhile, isspace, ho, hO]
    rw [long_digits_zero 8 (by decide) ds hd]
    simp [long_over_limit]
  · have hc := c_str_lead ['-', '0'] ds (by decide) hnul
    simp only [List.cons_append, List.nil_append] at hc
    simp only [PyLong_FromString, List.cons_append, List.nil_append, hc]
    simp [List.dropWhile, isspace, ho, hO]
    rw [long_digits_zero 8 (by decide) ds hd]
    simp [long_over_limit]

theorem digit_1_9_facts {c : Char} (h : is_digit_1_9 c = true) :
    c ≠ '0' ∧ c ≠ '+' ∧ c ≠ '-' ∧ c ≠ '_' ∧ isspace c = false ∧ isdigit c = true
      ∧ ∃ d, digit_value c = some d ∧ d < 10 := by
  simp only [is_digit_1_9, decide_eq_true_eq] at h
  have hd : isdigit c = true := by simp [isdigit]; omega
  obtain ⟨d, hv, hlt⟩ := dec_digit hd
  refine ⟨?_, ?_, ?_, ?_, digit_not_space hv, hd, d, hv, hlt⟩
  · rintro rfl; revert h; decide
  · exact digit_ne_of_none hv (by decide)
  · exact digit_ne_of_none hv (by decide)
  · exact digit_ne_of_none hv (by decide)

theorem filter_us_self {base : Nat} {ds : List Char}
    (hd : ∀ c ∈ ds, c ≠ '_' ∧ ∃ d, digit_value c = some d ∧ d < base) :
    ds.filter (fun c => c != '_') = ds := by
  rw [List.filter_eq_self]
  intro c hc
  simpa using (hd c hc).1

/-- A decimal number without underscores: `PyLong_FromString` reads it when
it has at most 4300 digits and fails with `ValueError` when it has more. -/
theorem pylong_base10 (sign : List Char) (hs : sign = [] ∨ sign = ['+'] ∨ sign = ['-'])
    (c : Char) (r : List Char) (hc1 : is_digit_1_9 c = true)
    (hd : ∀ x ∈ r, x ≠ '_' ∧ ∃ d, digit_value x = some d ∧ d < 10) :
    PyLong_FromString (sign ++ c :: r) 0
      = if 4300 < (c :: r).length then .error .ValueError
        else .ok (if sign = ['-'] then -(read_digits 10 (c :: r) : Int)
          else (read_digits 10 (c :: r) : Int)) := by
  obtain ⟨h0, hp, hm, hu, hsp, _, d, hv, hlt⟩ := digit_1_9_facts hc1
  have hd' : ∀ x ∈ c :: r, x ≠ '_' ∧ ∃ d, digit_value x = some d ∧ d < 10 := by
    intro x hx
    rcases List.mem_cons.mp hx with rfl | h
    · exact ⟨hu, d, hv, hlt⟩
    · exact hd x h
  have hnul := digits_no_nul hd'
  have hf := filter_us_self hd
  have hcu : (c != '_') = true := by simpa using hu
  rcases hs with rfl | rfl | rfl
  · have hc := c_str_of_no_nul _ hnul
    simp only [PyLong_FromString, List.nil_append, hc]
    simp [List.dropWhile, hsp, h0, hp, hm, hu]
    rw [long_digits_all 10 _ 0 hd']
    simp [read_digits, long_over_limit, List.filter, hcu, hf]
  · have hc := c_str_lead ['+'] (c :: r) (by decide) hnul
    simp only [List.cons_append, List.nil_append] at hc
    simp only [PyLong_FromString, List.cons_append, List.nil_append, hc]
    simp [List.dropWhile, isspace, h0, hu]
    rw [long_digits_all 10 _ 0 hd']
    simp [read_digits, long_over_limit, List.filter, hcu, hf]
  · have hc := c_str_lead ['-'] (c :: r) (by decide) hnul
    simp only [List.cons_append, List.nil_append] at hc
    simp only [PyLong_FromString, List.cons_append, List.nil_append, hc]
    simp [List.dropWhile, isspace, h0, hu]
    rw [long_digits_all 10 _ 0 hd']
    simp [read_digits, long_over_limit, List.filter, hcu, hf]

theorem to_int_plain (self : MinYamlBuilders) (text : List Char) (len : Nat) (n : Int)
    (tail : List Int) (hn : self.ncaptures = 1)
    (ho : self.ovector = 0 :: n :: -1 :: -1 :: -1 :: -1 :: -1 :: -1 :: tail) :
    result_value (_to_int self text len)
      = match PyLong_FromString (_remove_digit_separator text len '_') 0 with
        | .ok v => .ok (.int v)
        | .error e => .error e := by
  simp only [_to_int, hn, bind, Except.bind]
  simp [_ovector_at, hn, ho]
  cases PyLong_FromString (_remove_digit_separator text len '_') 0 <;> rfl

theorem to_int_octal (self : MinYamlBuilders) (text : List Char) (len n : Nat)
    (tail : List Int) (hn : self.ncaptures = 2) (hpos : 0 < n)
    (ho : self.ovector = 0 :: (n : Int) :: 0 :: (n : Int) :: -1 :: -1 :: -1 :: -1 :: tail) :
    result_value (_to_int self text len)
      = match PyLong_FromString (_remove_digit_separator text n '_') 8 with
        | .ok v => .ok (.int v)
        | .error e => .error e := by
  simp only [_to_int, hn, bind, Except.bind]
  simp [_ovector_at, _ovector_len_at, hn, ho, hpos, poke]
  cases PyLong_FromString (_remove_digit_separator text n '_') 8 <;> rfl

theorem strip_sign_digit (c : Char) (r : List Char) (hp : c ≠ '+') (hm : c ≠ '-') :
    strip_sign (c :: r) = c :: r := by
  unfold strip_sign
  split
  · rename_i h; simp only [List.cons.injEq] at h; exact absurd h.1 hm
  · rename_i h; simp only [List.cons.injEq] at h; exact absurd h.1 hp
  · rfl

theorem hex_us_facts {c : Char} (h : is_hex_us c = true) : c ≠ '\n' ∧ c ≠ '\x00' := by
  constructor <;> (rintro rfl; revert h; decide)

theorem sign_or_digit_ne {c : Char} (hc : c = '+' ∨ c = '-' ∨ isdigit c = true) :
    c ≠ '~' ∧ c ≠ 'n' ∧ c ≠ 'N' ∧ c ≠ 'y' ∧ c ≠ 'Y' ∧ c ≠ 't' ∧ c ≠ 'T' ∧ c ≠ 'o' ∧ c ≠ 'O'
      ∧ c ≠ 'f' ∧ c ≠ 'F' := by
  rcases hc with rfl | rfl | h
  · decide
  · decide
  · refine ⟨?_, ?_, ?_, ?_, ?_, ?_, ?_, ?_, ?_, ?_, ?_⟩ <;> (rintro rfl; revert h; decide)

theorem literals_reject (c : Char) (r : List Char)
    (hb : subject_body (c :: r) = c :: r) (hc : c = '+' ∨ c = '-' ∨ isdigit c = true) :
    pcre_groups .null (c :: r) = none ∧ pcre_groups .true_ (c :: r) = none
      ∧ pcre_groups .false_ (c :: r) = none := by
  obtain ⟨h1, h2, h3, h4, h5, h6, h7, h8, h9, h10, h11⟩ := sign_or_digit_ne hc
  refine ⟨?_, ?_, ?_⟩ <;> simp [pcre_groups, hb, h1, h2, h3, h4, h5, h6, h7, h8, h9, h10, h11]

theorem int_groups_base2 (sign : List Char) (hs : sign = [] ∨ sign = ['+'] ∨ sign = ['-'])
    (body : List Char) (hall : body.all is_bin_us = true) (hne : body ≠ [])
    (hb : subject_body (sign ++ '0' :: 'b' :: body) = sign ++ '0' :: 'b' :: body) :
    pcre_groups .int (sign ++ '0' :: 'b' :: body)
      = some [some (0, (sign ++ '0' :: 'b' :: body).length), none, none, none] := by
  have hne' : body.isEmpty = false := by simpa using hne
  have h2 : re_int_base2 (sign ++ '0' :: 'b' :: body) = true := by
    rcases hs with rfl | rfl | rfl <;> simp [re_int_base2, strip_sign, hne', hall]
  simp only [pcre_groups, hb, h2, if_true]

theorem strip_sign_append (sign : List Char) (hs : sign = [] ∨ sign = ['+'] ∨ sign = ['-'])
    (c : Char) (r : List Char) (hp : c ≠ '+') (hm : c ≠ '-') :
    strip_sign (sign ++ c :: r) = c :: r := by
  rcases hs with rfl | rfl | rfl
  · exact strip_sign_digit c r hp hm
  · rfl
  · rfl

theorem re_int_base2_false (c d : Char) (r : List Char) (h : c ≠ '0' ∨ d ≠ 'b') :
    (match c :: d :: r with
      | '0' :: 'b' :: r => !r.isEmpty && r.all is_bin_us
      | _ => false) = false := by
  split
  · rename_i h1
    simp only [List.cons.injEq] at h1
    rcases h with h | h
    · exact absurd h1.1 h
    · exact absurd h1.2.1 h
  · rfl

theorem oct_us_ne_b {c : Char} (h : is_oct_us c = true) : c ≠ 'b' := by
  rintro rfl; revert h; decide

theorem int_groups_base8 (sign : List Char) (hs : sign = [] ∨ sign = ['+'] ∨ sign = ['-'])
    (body : List Char) (hall : body.all is_oct_us = true) (hne : body ≠ [])
    (hb : subject_body (sign ++ '0' :: body) = sign ++ '0' :: body) :
    pcre_groups .int (sign ++ '0' :: body)
      = some [some (0, (sign ++ '0' :: body).length), some (0, (sign ++ '0' :: body).length),
          none, none] := by
  have hne' : body.isEmpty = false := by simpa using hne
  have hst : strip_sign (sign ++ '0' :: body) = '0' :: body :=
    strip_sign_append sign hs '0' body (by decide) (by decide)
  have h2 : re_int_base2 (sign ++ '0' :: body) = false := by
    unfold re_int_base2
    rw [hst]
    cases body with
    | nil => exact absurd rfl hne
    | cons c r =>
      have hc : is_oct_us c = true := by
        simp only [List.all_cons, Bool.and_eq_true] at hall
        exact hall.1
      exact re_int_base2_false '0' c r (Or.inr (oct_us_ne_b hc))
  have h8 : re_int_base8 (sign ++ '0' :: body) = true := by
    unfold re_int_base8
    rw [hst]
    simp [hne', hall]
  simp only [pcre_groups, hb, h2, h8, if_true, Bool.false_eq_true, if_false]

theorem int_groups_base16 (sign : List Char) (hs : sign = [] ∨ sign = ['+'] ∨ sign = ['-'])
    (body : List Char) (hall : body.all is_hex_us = true) (hne : body ≠ [])
    (hb : subject_body (sign ++ '0' :: 'x' :: body) = sign ++ '0' :: 'x' :: body) :
    pcre_groups .int (sign ++ '0' :: 'x' :: body)
      = some [some (0, (sign ++ '0' :: 'x' :: body).length), none, none, none] := by
  have hne' : body.isEmpty = false := by simpa using hne
  have hst : strip_sign (sign ++ '0' :: 'x' :: body) = '0' :: 'x' :: body :=
    strip_sign_append sign hs '0' _ (by decide) (by decide)
  have h2 : re_int_base2 (sign ++ '0' :: 'x' :: body) = false := by
    unfold re_int_base2
    rw [hst]
    exact re_int_base2_false '0' 'x' body (Or.inr (by decide))
  have h8 : re_int_base8 (sign ++ '0' :: 'x' :: body) = false := by
    unfold re_int_base8
    rw [hst]
    simp [is_oct_us]
  have h10 : re_int_base10 (sign ++ '0' :: 'x' :: body) = false := by
    unfold re_int_base10
    rw [hst]
    simp [is_digit_1_9]
  have h16 : re_int_base16 (sign ++ '0' :: 'x' :: body) = true := by
    unfold re_int_base16
    rw [hst]
    simp [hne', hall]
  simp only [pcre_groups, hb, h2, h8, h10, h16, if_true, Bool.false_eq_true, if_false]

theorem int_groups_base10 (sign : List Char) (hs : sign = [] ∨ sign = ['+'] ∨ sign = ['-'])
    (c : Char) (r : List Char) (hc : is_digit_1_9 c = true) (hall : r.all is_digit_us = true)
    (hb : subject_body (sign ++ c :: r) = sign ++ c :: r) :
    pcre_groups .int (sign ++ c :: r) = some [some (0, (sign ++ c :: r).length), none, none, none] := by
  obtain ⟨h0, hp, hm, _, _, _, _⟩ := digit_1_9_facts hc
  have hst : strip_sign (sign ++ c :: r) = c :: r := strip_sign_append sign hs c r hp hm
  have h2 : re_int_base2 (sign ++ c :: r) = false := by
    unfold re_int_base2
    rw [hst]
    cases r with
    | nil =>
      split
      · rename_i h1; simp at h1
      · rfl
    | cons d r' => exact re_int_base2_false c d r' (Or.inl h0)
  have h8 : re_int_base8 (sign ++ c :: r) = false := by
    unfold re_int_base8
    rw [hst]
    split
    · rename_i h1; simp only [List.cons.injEq] at h1; exact absurd h1.1 h0
    · rfl
  have h10 : re_int_base10 (sign ++ c :: r) = true := by
    unfold re_int_base10
    rw [hst]
    simp [hc, hall]
  simp only [pcre_groups, hb, h2, h8, h10, if_true, Bool.false_eq_true, if_false]

theorem pylong_removed (text : List Char) (base : Nat) (hnul : ∀ c ∈ text, c ≠ '\x00') :
    PyLong_FromString (_remove_digit_separator text text.length '_') base
      = PyLong_FromString (text.filter (fun c => c != '_')) base := by
  rw [remove_separator_full text hnul, PyLong_FromString_c_str, c_str_append_nuls]
  intro c hc
  exact hnul c (List.mem_of_mem_filter hc)

theorem build_int_plain {bs : List MinYamlBuilders} (hbs : is_core_registry bs) (text : List Char)
    (hnull : pcre_groups .null text = none) (htrue : pcre_groups .true_ text = none)
    (hfalse : pcre_groups .false_ text = none)
    (hint : pcre_groups .int text = some [some (0, text.length), none, none, none])
    (hnul : ∀ c ∈ text, c ≠ '\x00') :
    result_value (_build_scalar none text bs)
      = match PyLong_FromString (text.filter (fun c => c != '_')) 0 with
        | .ok v => .ok (.int v)
        | .error e => .error e := by
  obtain ⟨self, tail, hn, ho, hr⟩ := core_scalar_int hbs text _ hnull htrue hfalse hint
  rw [hr, to_int_plain self text text.length text.length tail (by rw [hn]; rfl)
    (by rw [ho]; rfl), pylong_removed text 0 hnul]

theorem build_int_octal {bs : List MinYamlBuilders} (hbs : is_core_registry bs) (text : List Char)
    (hnull : pcre_groups .null text = none) (htrue : pcre_groups .true_ text = none)
    (hfalse : pcre_groups .false_ text = none)
    (hint : pcre_groups .int text
      = some [some (0, text.length), some (0, text.length), none, none])
    (hnul : ∀ c ∈ text, c ≠ '\x00') (hne : text ≠ []) :
    result_value (_build_scalar none text bs)
      = match PyLong_FromString (text.filter (fun c => c != '_')) 8 with
        | .ok v => .ok (.int v)
        | .error e => .error e := by
  obtain ⟨self, tail, hn, ho, hr⟩ := core_scalar_int hbs text _ hnull htrue hfalse hint
  have hpos : 0 < text.length := List.length_pos.mpr hne
  rw [hr, to_int_octal self text text.length text.length tail (by rw [hn]; rfl) hpos
    (by rw [ho]; rfl), pylong_removed text 8 hnul]

theorem filter_digits {base : Nat} {body : List Char} {p : Char → Bool}
    (hall : body.all p = true)
    (hp : ∀ c, p c = true → c ≠ '_' → ∃ d, digit_value c = some d ∧ d < base) :
    ∀ c ∈ body.filter (fun c => c != '_'), c ≠ '_' ∧ ∃ d, digit_value c = some d ∧ d < base := by
  intro c hc
  obtain ⟨hm, hne⟩ := List.mem_filter.mp hc
  have hne' : c ≠ '_' := by simpa using hne
  exact ⟨hne', hp c (List.all_eq_true.mp hall c hm) hne'⟩

theorem filter_ne_nil {body : List Char} (h : body.any (fun c => c != '_') = true) :
    body.filter (fun c => c != '_') ≠ [] := by
  obtain ⟨c, hc, hne⟩ := List.any_eq_true.mp h
  exact List.ne_nil_of_mem (List.mem_filter.mpr ⟨hc, hne⟩)

theorem hex_us_of_bin {c : Char} (h : is_bin_us c = true) : is_hex_us c = true := by
  simp only [is_bin_us, Bool.or_eq_true, beq_iff_eq] at h
  rcases h with (rfl | rfl) | rfl <;> decide

theorem hex_us_of_digit_us {c : Char} (h : is_digit_us c = true) : is_hex_us c = true := by
  simp only [is_digit_us, Bool.or_eq_true] at h
  simp only [is_hex_us, Bool.or_eq_true]
  rcases h with h | h
  · exact Or.inl (Or.inl (Or.inl h))
  · exact Or.inr h

theorem hex_us_of_oct {c : Char} (h : is_oct_us c = true) : is_hex_us c = true := by
  apply hex_us_of_digit_us
  simp only [is_oct_us, Bool.or_eq_true, decide_eq_true_eq] at h
  simp only [is_digit_us, isdigit, Bool.or_eq_true, decide_eq_true_eq]
  rcases h with h | h
  · exact Or.inl ⟨h.1, by omega⟩
  · exact Or.inr h

/-- A text whose characters are signs, prefix letters, digits and underscores
has no newline and no NUL. -/
theorem int_text_clean (pre body : List Char) (hpre : ∀ c ∈ pre, c ≠ '\n' ∧ c ≠ '\x00')
    (hall : ∀ c ∈ body, is_hex_us c = true) :
    subject_body (pre ++ body) = pre ++ body ∧ ∀ c ∈ pre ++ body, c ≠ '\x00' := by
  have h : ∀ c ∈ pre ++ body, c ≠ '\n' ∧ c ≠ '\x00' := by
    intro c hc
    rcases List.mem_append.mp hc with h | h
    · exact hpre c h
    · exact hex_us_facts (hall c h)
  exact ⟨subject_body_of_no_newline _ (fun c hc => (h c hc).1), fun c hc => (h c hc).2⟩

theorem literals_reject_signed (sign : List Char) (hs : sign = [] ∨ sign = ['+'] ∨ sign = ['-'])
    (c : Char) (r : List Char) (hc : isdigit c = true)
    (hb : subject_body (sign ++ c :: r) = sign ++ c :: r) :
    pcre_groups .null (sign ++ c :: r) = none ∧ pcre_groups .true_ (sign ++ c :: r) = none
      ∧ pcre_groups .false_ (sign ++ c :: r) = none := by
  rcases hs with rfl | rfl | rfl
  · exact literals_reject c r hb (Or.inr (Or.inr hc))
  · exact literals_reject '+' (c :: r) hb (Or.inl rfl)
  · exact literals_reject '-' (c :: r) hb (Or.inr (Or.inl rfl))

theorem sign_clean (sign : List Char) (hs : sign = [] ∨ sign = ['+'] ∨ sign = ['-']) :
    ∀ c ∈ sign, c ≠ '\n' ∧ c ≠ '\x00' ∧ c ≠ '_' := by
  rcases hs with rfl | rfl | rfl <;> decide

theorem signed_clean (sign : List Char) (hs : sign = [] ∨ sign = ['+'] ∨ sign = ['-'])
    (lead body : List Char) (hl : ∀ c ∈ lead, c ≠ '\n' ∧ c ≠ '\x00')
    (hall : ∀ c ∈ body, is_hex_us c = true) :
    subject_body (sign ++ (lead ++ body)) = sign ++ (lead ++ body)
      ∧ ∀ c ∈ sign ++ (lead ++ body), c ≠ '\x00' := by
  have := int_text_clean (sign ++ lead) body (by
    intro c hc
    rcases List.mem_append.mp hc with h | h
    · exact ⟨(sign_clean sign hs c h).1, (sign_clean sign hs c h).2.1⟩
    · exact hl c h) hall
  simpa [List.append_assoc] using this

theorem filter_signed (sign : List Char) (hs : sign = [] ∨ sign = ['+'] ∨ sign = ['-'])
    (rest : List Char) :
    (sign ++ rest).filter (fun c => c != '_') = sign ++ rest.filter (fun c => c != '_') := by
  rcases hs with rfl | rfl | rfl <;> simp [List.filter]

/-- An untagged decimal number (an optional sign, a digit from 1 to 9,
digits and underscores) with the core registry: the integer read from its
digits when they are at most 4300, else the `ValueError` of
`PyLong_FromString`. -/
theorem build_decimal (bs : List MinYamlBuilders) (hbs : is_core_registry bs)
    (sign : List Char) (hs : sign = [] ∨ sign = ['+'] ∨ sign = ['-'])
    (c : Char) (r : List Char) (hc : is_digit_1_9 c = true) (hall : r.all is_digit_us = true) :
    result_value (_build_scalar none (sign ++ c :: r) bs)
      = if 4300 < (c :: r.filter (fun c => c != '_')).length then .error .ValueError
        else .ok (.int (if sign = ['-']
          then -(read_digits 10 (c :: r.filter (fun c => c != '_')) : Int)
          else (read_digits 10 (c :: r.filter (fun c => c != '_')) : Int))) := by
  obtain ⟨_, _, _, hu, _, hdg, _⟩ := digit_1_9_facts hc
  have hhex : ∀ x ∈ c :: r, is_hex_us x = true := by
    intro x hx
    rcases List.mem_cons.mp hx with rfl | h
    · exact hex_us_of_digit_us (by simp [is_digit_us, hdg])
    · exact hex_us_of_digit_us (List.all_eq_true.mp hall x h)
  obtain ⟨hb, hnul⟩ := signed_clean sign hs [] (c :: r) (by decide) hhex
  simp only [List.nil_append] at hb hnul
  obtain ⟨h1, h2, h3⟩ := literals_reject_signed sign hs c r hdg hb
  have hcu : (c != '_') = true := by simpa using hu
  rw [build_int_plain hbs _ h1 h2 h3 (int_groups_base10 sign hs c r hc hall hb) hnul,
    filter_signed sign hs]
  simp only [List.filter, hcu]
  rw [pylong_base10 sign hs c _ hc (filter_digits hall (fun c h hu => dec_us_digit h hu))]
  by_cases hl : 4300 < (c :: List.filter (fun c => c != '_') r).length
  · simp only [hl, if_true]
  · simp only [hl, if_false]

theorem zeros_all_digits (n : Nat) : (List.replicate n '0').all is_digit_us = true := by
  rw [List.all_eq_true]
  intro x hx
  rw [List.eq_of_mem_replicate hx]
  decide

theorem zeros_filter (n : Nat) :
    (List.replicate n '0').filter (fun c => c != '_') = List.replicate n '0' := by
  rw [List.filter_eq_self]
  intro x hx
  rw [List.eq_of_mem_replicate hx]
  decide

theorem one_zeros_admitted (n : Nat) :
    int_form.admits .base10 ('1' :: List.replicate n '0') = true := by
  simp only [int_form.admits, zeros_all_digits, Bool.and_true, Bool.or_eq_true]
  exact Or.inr (by decide)

theorem one_zeros_digits (n : Nat) :
    (('1' :: List.replicate n '0').filter (fun c => c != '_')).length = n + 1 := by
  have h1 : ('1' != '_') = true := by decide
  simp only [List.filter, h1, zeros_filter, List.length_cons, List.length_replicate]

/-- C4 (amended). Integer conversion with transparent digit separators: with
the core registry (in any match state), an untagged scalar made of an
optional sign, the lead of a form (`0b`, `0`, nothing, `0x`) and a body the
form admits is built as the integer whose value is the body without its
underscores read in the base of the form, negated when the sign is `-`;
for the decimal form this holds when the body has at most 4300 digits.  A
decimal body with more than 4300 digits fails with the `ValueError` of
`PyLong_FromString`, whose limit on the number of digits applies to the bases
that are not a power of two. -/
theorem int_digit_separators (bs : List MinYamlBuilders) (hbs : is_core_registry bs)
    (sign : List Char) (hs : sign = [] ∨ sign = ['+'] ∨ sign = ['-'])
    (form : int_form) (body : List Char) (hadm : form.admits body = true) :
    ((form = .base10 → (body.filter (fun c => c != '_')).length ≤ 4300) →
      result_value (_build_scalar none (sign ++ (form.lead ++ body)) bs)
        = .ok (.int (if sign = ['-']
            then -(read_digits form.base (body.filter (fun c => c != '_')) : Int)
            else (read_digits form.base (body.filter (fun c => c != '_')) : Int))))
    ∧ (form = .base10 → 4300 < (body.filter (fun c => c != '_')).length →
      result_value (_build_scalar none (sign ++ (form.lead ++ body)) bs) = .error .ValueError) := by
  cases form with
  | base2 =>
    refine ⟨fun _ => ?_, fun h => by cases h⟩
    simp only [int_form.admits, Bool.and_eq_true] at hadm
    obtain ⟨hall, hany⟩ := hadm
    have hhex : ∀ c ∈ body, is_hex_us c = true :=
      fun c hc => hex_us_of_bin (List.all_eq_true.mp hall c hc)
    obtain ⟨hb, hnul⟩ := signed_clean sign hs ['0', 'b'] body (by decide) hhex
    simp only [int_form.lead, int_form.base, List.cons_append, List.nil_append] at hb hnul ⊢
    have hne : body ≠ [] := by
      rintro rfl; simp at hany
    obtain ⟨h1, h2, h3⟩ := literals_reject_signed sign hs '0' ('b' :: body) (by decide) hb
    rw [build_int_plain hbs _ h1 h2 h3 (int_groups_base2 sign hs body hall hne hb) hnul,
      filter_signed sign hs]
    simp only [List.filter, show ('0' != '_') = true by decide, show ('b' != '_') = true by decide]
    rw [pylong_base2 sign hs _ (filter_ne_nil hany) (filter_digits hall (fun c h hu => bin_digit h hu))]
  | base8 =>
    refine ⟨fun _ => ?_, fun h => by cases h⟩
    simp only [int_form.admits, Bool.and_eq_true, Bool.not_eq_true', List.isEmpty_eq_false] at hadm
    obtain ⟨hne, hall⟩ := hadm
    have hhex : ∀ c ∈ body, is_hex_us c = true :=
      fun c hc => hex_us_of_oct (List.all_eq_true.mp hall c hc)
    obtain ⟨hb, hnul⟩ := signed_clean sign hs ['0'] body (by decide) hhex
    simp only [int_form.lead, int_form.base, List.cons_append, List.nil_append] at hb hnul ⊢
    obtain ⟨h1, h2, h3⟩ := literals_reject_signed sign hs '0' body (by decide) hb
    rw [build_int_octal hbs _ h1 h2 h3 (int_groups_base8 sign hs body hall hne hb) hnul (by simp),
      filter_signed sign hs]
    simp only [List.filter, show ('0' != '_') = true by decide]
    rw [pylong_base8 sign hs _ (filter_digits hall (fun c h hu => oct_digit h hu))]
  | base10 =>
    cases body with
    | nil => simp [int_form.admits] at hadm
    | cons c r =>
      simp only [int_form.admits, Bool.or_eq_true, Bool.and_eq_true, beq_iff_eq,
        List.isEmpty_iff] at hadm
      simp only [int_form.lead, int_form.base, List.nil_append]
      rcases hadm with ⟨rfl, rfl⟩ | ⟨hc, hall⟩
      · refine ⟨fun _ => ?_, fun _ h => ?_⟩
        · rcases hs with rfl | rfl | rfl
          · rw [build_int_plain hbs _ (by decide) (by decide) (by decide) (by decide) (by decide)]
            rfl
          · rw [build_int_plain hbs _ (by decide) (by decide) (by decide) (by decide) (by decide)]
            rfl
          · rw [build_int_plain hbs _ (by decide) (by decide) (by decide) (by decide) (by decide)]
            rfl
        · exact absurd h (by decide)
      · have hu := (digit_1_9_facts hc).2.2.2.1
        have hcu : (c != '_') = true := by simpa using hu
        have hfl : (c :: r).filter (fun c => c != '_') = c :: r.filter (fun c => c != '_') := by
          simp only [List.filter, hcu]
        rw [hfl, build_decimal bs hbs sign hs c r hc hall]
        refine ⟨fun hlim => ?_, fun _ hlim => ?_⟩
        · rw [if_neg (Nat.not_lt.mpr (hlim trivial))]
        · rw [if_pos hlim]
  | base16 =>
    refine ⟨fun _ => ?_, fun h => by cases h⟩
    simp only [int_form.admits, Bool.and_eq_true] at hadm
    obtain ⟨hall, hany⟩ := hadm
    have hhex : ∀ c ∈ body, is_hex_us c = true := fun c hc => List.all_eq_true.mp hall c hc
    obtain ⟨hb, hnul⟩ := signed_clean sign hs ['0', 'x'] body (by decide) hhex
    simp only [int_form.lead, int_form.base, List.cons_append, List.nil_append] at hb hnul ⊢
    have hne : body ≠ [] := by
      rintro rfl; simp at hany
    obtain ⟨h1, h2, h3⟩ := literals_reject_signed sign hs '0' ('x' :: body) (by decide) hb
    rw [build_int_plain hbs _ h1 h2 h3 (int_groups_base16 sign hs body hall hne hb) hnul,
      filter_signed sign hs]
    simp only [List.filter, show ('0' != '_') = true by decide, show ('x' != '_') = true by decide]
    rw [pylong_base16 sign hs _ (filter_ne_nil hany) (filter_digits hall (fun c h hu => hex_digit h hu))]

/-- C4, witness: `1_000` gives the integer 1000, `-0x_Ff` gives -255, and the
decimal number made of `1` and 4300 times `0` fails with `ValueError`. -/
theorem int_digit_separators_witness :
    result_value (_build_scalar none "1_000".data implicitBuilders) = .ok (.int 1000)
    ∧ result_value (_build_scalar none "-0x_Ff".data implicitBuilders) = .ok (.int (-255))
    ∧ result_value (_build_scalar none ('1' :: List.replicate 4300 '0') implicitBuilders)
      = .error .ValueError :=
  ⟨((int_digit_separators implicitBuilders (by decide) [] (Or.inl rfl) .base10 "1_000".data
      (by decide)).1 (fun _ => by decide)).trans (by decide),
   ((int_digit_separators implicitBuilders (by decide) ['-'] (Or.inr (Or.inr rfl)) .base16
      "_Ff".data (by decide)).1 (fun h => by cases h)).trans (by decide),
   (int_digit_separators implicitBuilders (by decide) [] (Or.inl rfl) .base10
      ('1' :: List.replicate 4300 '0') (one_zeros_admitted 4300)).2 rfl
      (by rw [one_zeros_digits]; decide)⟩

/-- C4, counterexample: the decimal number made of `1` and 4300 times `0` is
of the decimal form and has 4301 digits; it is not built as an integer, the
build fails with `ValueError`. -/
theorem int_digit_separators_counterexample :
    int_form.admits .base10 ('1' :: List.replicate 4300 '0') = true
    ∧ (('1' :: List.replicate 4300 '0').filter (fun c => c != '_')).length = 4301
    ∧ result_value (_build_scalar none ('1' :: List.replicate 4300 '0') implicitBuilders)
      = .error .ValueError := by
  refine ⟨one_zeros_admitted 4300, one_zeros_digits 4300, ?_⟩
  have h := build_decimal implicitBuilders (by decide) [] (Or.inl rfl) '1'
    (List.replicate 4300 '0') (by decide) (zeros_all_digits 4300)
  rw [List.nil_append] at h
  rw [h, zeros_filter, if_pos]
  rw [List.length_cons, List.length_replicate]
  decide

/-! ## Sexagesimal integers -/

theorem bit_length_aux_le (k : Nat) : ∀ (fuel n : Nat), n < 2 ^ k → bit_length_aux fuel n ≤ k := by
  induction k with
  | zero =>
    intro fuel n h
    have : n = 0 := by simpa using h
    subst this
    cases fuel <;> simp [bit_length_aux]
  | succ k ih =>
    intro fuel n h
    cases fuel with
    | zero => simp [bit_length_aux]
    | succ f =>
      simp only [bit_length_aux]
      split
      · omega
      · have : n / 2 < 2 ^ k := by
          rw [Nat.div_lt_iff_lt_mul (by decide)]
          rw [Nat.pow_succ] at h
          exact h
        have := ih f (n / 2) this
        omega

theorem double_nearest_exact (n : Int) (h : n.natAbs < 2 ^ 53) : double_nearest n = n := by
  have hb : bit_length n.natAbs - 53 = 0 := by
    have := bit_length_aux_le 53 n.natAbs n.natAbs h
    unfold bit_length
    omega
  unfold double_nearest
  simp only [hb, pow_zero, Nat.div_one, Nat.mod_one, Nat.mul_zero, Nat.mul_one]
  simp only [show ¬ (1 < 0 ∨ (0 = 1 ∧ n.natAbs % 2 = 1)) by omega, if_false]
  split <;> omega

theorem double_nearest_even (n : Int) (h : n.natAbs < 2 ^ 54) (he : n.natAbs % 2 = 0) :
    double_nearest n = n := by
  have hb : bit_length n.natAbs - 53 ≤ 1 := by
    have := bit_length_aux_le 54 n.natAbs n.natAbs h
    unfold bit_length
    omega
  unfold double_nearest
  rcases Nat.le_one_iff_eq_zero_or_eq_one.mp hb with h0 | h1
  · simp only [h0, pow_zero, Nat.div_one, Nat.mod_one, Nat.mul_zero, Nat.mul_one]
    simp only [show ¬ (1 < 0 ∨ (0 = 1 ∧ n.natAbs % 2 = 1)) by omega, if_false]
    split <;> omega
  · simp only [h1, pow_one, he, Nat.mul_zero]
    simp only [show ¬ (2 < 0 ∨ (0 = 2 ∧ n.natAbs / 2 % 2 = 1)) by omega, if_false]
    split <;> omega

theorem sexagesimal_step_exact (v : Int) (g : Nat) (hv : v.natAbs < 2 ^ 53) (hg : g < 100)
    (hr : (v * 60 + g).natAbs < 2 ^ 53) : sexagesimal_step v g = v * 60 + g := by
  unfold sexagesimal_step
  rw [double_nearest_exact v hv, double_nearest_exact (g : Int) (by omega),
    double_nearest_even (v * 60) (by omega) (by omega), double_nearest_exact _ hr]
  unfold long_of_double
  rw [if_pos]
  constructor <;> omega

theorem digit_value_of_isdigit {c : Char} (h : isdigit c = true) :
    digit_value c = some (c.toNat - 48) := by
  simp only [isdigit, decide_eq_true_eq] at h
  simp [digit_value, h.1, h.2]

theorem strtol_digits_append (ds rest : List Char) (hd : ∀ c ∈ ds, isdigit c = true)
    (hrest : ∀ x, rest.head? = some x → isdigit x = false) :
    ∀ acc, strtol_digits acc (ds ++ rest)
      = ds.foldl (fun a c => a * 10 + (digit_value c).getD 0) acc := by
  induction ds with
  | nil =>
    intro acc
    cases rest with
    | nil => rfl
    | cons x r => simp [strtol_digits, hrest x rfl]
  | cons c r ih =>
    intro acc
    have hc := hd c (List.mem_cons_self _ _)
    simp only [List.cons_append, strtol_digits, hc, if_true, List.foldl_cons,
      digit_value_of_isdigit hc, Option.getD_some]
    exact ih (fun x hx => hd x (List.mem_cons_of_mem _ hx)) _

theorem isdigit_facts {c : Char} (h : isdigit c = true) :
    c ≠ '+' ∧ c ≠ '-' ∧ c ≠ ':' ∧ c ≠ '\x00' ∧ c ≠ '_' ∧ c ≠ '\n' ∧ c ≠ '.' ∧ isspace c = false := by
  have hv := digit_value_of_isdigit h
  exact ⟨digit_ne_of_none hv (by decide), digit_ne_of_none hv (by decide),
    digit_ne_of_none hv (by decide), digit_ne_of_none hv (by decide),
    digit_ne_of_none hv (by decide), digit_ne_of_none hv (by decide),
    digit_ne_of_none hv (by decide), digit_not_space hv⟩

theorem long_clamp_of_lt (v : Int) (h : v.natAbs < 2 ^ 63) : long_clamp v = v := by
  unfold long_clamp
  split
  · omega
  · split
    · omega
    · rfl

theorem strtol_value_unsigned (c : Char) (r rest : List Char)
    (hd : ∀ x ∈ c :: r, isdigit x = true)
    (hrest : ∀ x, rest.head? = some x → isdigit x = false) :
    strtol_value (c :: r ++ rest) = read_digits 10 (c :: r) := by
  obtain ⟨hp, hm, _, _, _, _, _, hsp⟩ := isdigit_facts (hd c (List.mem_cons_self _ _))
  have h := strtol_digits_append (c :: r) rest hd hrest 0
  unfold strtol_value
  rw [List.cons_append, List.dropWhile_cons_of_neg (by simp [hsp])]
  split
  · rename_i h1; simp only [List.cons.injEq] at h1; exact absurd h1.1 hm
  · rename_i h1; simp only [List.cons.injEq] at h1; exact absurd h1.1 hp
  · rw [← List.cons_append, h]; rfl

theorem strtol_value_signed (sign : List Char) (hs : sign = [] ∨ sign = ['+'] ∨ sign = ['-'])
    (c : Char) (r rest : List Char) (hd : ∀ x ∈ c :: r, isdigit x = true)
    (hrest : ∀ x, rest.head? = some x → isdigit x = false) :
    strtol_value (sign ++ (c :: r ++ rest))
      = if sign = ['-'] then -(read_digits 10 (c :: r) : Int) else (read_digits 10 (c :: r) : Int) := by
  have h := strtol_digits_append (c :: r) rest hd hrest 0
  rcases hs with rfl | rfl | rfl
  · simpa using strtol_value_unsigned c r rest hd hrest
  · show strtol_value ('+' :: (c :: r ++ rest)) = _
    unfold strtol_value
    rw [List.dropWhile_cons_of_neg (by decide)]
    simp only [h, read_digits, show ¬ (['+'] = ['-']) by decide, if_false]
  · show strtol_value ('-' :: (c :: r ++ rest)) = _
    unfold strtol_value
    rw [List.dropWhile_cons_of_neg (by decide)]
    simp only [h, read_digits, if_true]

theorem group_digits {g : List Char} (h : sexagesimal_group g = true) :
    g ≠ [] ∧ (∀ x ∈ g, isdigit x = true) ∧ read_digits 10 g < 100 := by
  unfold sexagesimal_group at h
  split at h
  · rename_i a
    refine ⟨by simp, by simpa using h, ?_⟩
    have := digit_value_of_isdigit h
    simp only [isdigit, decide_eq_true_eq] at h
    simp [read_digits, this]; omega
  · rename_i a b
    simp only [Bool.and_eq_true] at h
    have ha : isdigit a = true := by
      have := h.1
      simp only [is_digit_0_5, decide_eq_true_eq] at this
      simp only [isdigit, decide_eq_true_eq]; omega
    refine ⟨by simp, by simp [ha, h.2], ?_⟩
    have h1 := digit_value_of_isdigit ha
    have h2 := digit_value_of_isdigit h.2
    have hb := h.2
    simp only [isdigit, decide_eq_true_eq] at ha hb
    simp [read_digits, h1, h2]; omega
  · cases h

theorem tail_head (gs : List (List Char)) :
    ∀ x, (sexagesimal_tail gs).head? = some x → isdigit x = false := by
  intro x hx
  cases gs with
  | nil => cases hx
  | cons g gs =>
    simp only [sexagesimal_tail, List.cons_append, List.head?_cons, Option.some.injEq] at hx
    subst hx; decide

theorem strtol_unsigned (ds rest : List Char) (hne : ds ≠ [])
    (hd : ∀ x ∈ ds, isdigit x = true)
    (hrest : ∀ x, rest.head? = some x → isdigit x = false)
    (hlt : read_digits 10 ds < 2 ^ 63) :
    atol (ds ++ rest) = read_digits 10 ds := by
  cases ds with
  | nil => exact absurd rfl hne
  | cons c r =>
    unfold atol strtol
    rw [strtol_value_unsigned c r rest hd hrest]
    exact long_clamp_of_lt _ (by simpa using hlt)

theorem atol_group (g rest : List Char) (hg : sexagesimal_group g = true)
    (hrest : ∀ x, rest.head? = some x → isdigit x = false) :
    atol (g ++ rest) = read_digits 10 g := by
  obtain ⟨hne, hd, hlt⟩ := group_digits hg
  exact strtol_unsigned g rest hne hd hrest (by omega)

theorem to_int_loop_skip (v : Int) (g rest : List Char) (hd : ∀ x ∈ g, isdigit x = true) :
    _to_int_loop v (g ++ rest) = _to_int_loop v rest := by
  induction g with
  | nil => rfl
  | cons c r ih =>
    obtain ⟨_, _, h1, h2, _⟩ := isdigit_facts (hd c (List.mem_cons_self _ _))
    simp only [List.cons_append, _to_int_loop, h1, h2, if_false]
    exact ih (fun x hx => hd x (List.mem_cons_of_mem _ hx))

theorem stays_exact_head {v : Int} {gs : List (List Char)} (h : stays_exact v gs = true) :
    v.natAbs < 2 ^ 53 := by
  cases gs with
  | nil => simpa [stays_exact] using h
  | cons g gs =>
    simp only [stays_exact, Bool.and_eq_true, decide_eq_true_eq] at h
    exact h.1

theorem to_int_loop_tail : ∀ (gs : List (List Char)) (v : Int),
    gs.all sexagesimal_group = true → stays_exact v gs = true →
    _to_int_loop v (sexagesimal_tail gs) = horner60 v gs := by
  intro gs
  induction gs with
  | nil => intro v _ _; rfl
  | cons g gs ih =>
    intro v hall hex
    simp only [List.all_cons, Bool.and_eq_true] at hall
    have hv := stays_exact_head hex
    simp only [stays_exact, Bool.and_eq_true, decide_eq_true_eq] at hex
    obtain ⟨_, hd, hlt⟩ := group_digits hall.1
    show _to_int_loop v (':' :: (g ++ sexagesimal_tail gs)) = horner60 (v * 60 + read_digits 10 g) gs
    simp only [_to_int_loop, if_true]
    rw [atol_group g _ hall.1 (tail_head gs), to_int_loop_skip _ g _ hd,
      sexagesimal_step_exact v _ hv hlt (stays_exact_head hex.2)]
    exact ih _ hall.2 hex.2

theorem to_int_sexagesimal (self : MinYamlBuilders) (text : List Char) (len0 len n : Nat)
    (tail : List Int) (hn : self.ncaptures = 4) (hpos : 0 < n) (hlt : n < len)
    (ho : self.ovector
      = 0 :: (len : Int) :: -1 :: -1 :: 0 :: (n : Int) :: (n : Int) :: (len : Int) :: tail) :
    result_value (_to_int self text len0)
      = .ok (.int (_to_int_loop
          (sexagesimal_step (atol (_remove_digit_separator text n '_'))
            (atol ((_remove_digit_separator text n '_').drop (n + 1))))
          ((_remove_digit_separator text n '_').drop (n + 1)))) := by
  simp only [_to_int, hn, bind, Except.bind]
  simp [_ovector_at, _ovector_len_at, hn, ho, hpos, hlt, poke, result_value]

theorem tail_chars (gs : List (List Char)) (hg : gs.all sexagesimal_group = true) :
    ∀ x ∈ sexagesimal_tail gs, x = ':' ∨ isdigit x = true := by
  induction gs with
  | nil => intro x hx; cases hx
  | cons g gs ih =>
    simp only [List.all_cons, Bool.and_eq_true] at hg
    intro x hx
    simp only [sexagesimal_tail, List.cons_append, List.mem_cons, List.mem_append] at hx
    rcases hx with rfl | hx | hx
    · exact Or.inl rfl
    · exact Or.inr ((group_digits hg.1).2.1 x hx)
    · exact ih hg.2 x hx

theorem re_groups_tail (gs : List (List Char)) (hg : gs.all sexagesimal_group = true) :
    re_sexagesimal_groups (sexagesimal_tail gs) = true := by
  induction gs with
  | nil => rfl
  | cons g gs ih =>
    simp only [List.all_cons, Bool.and_eq_true] at hg
    have ih' := ih hg.2
    have hgr := hg.1
    unfold sexagesimal_group at hgr
    split at hgr
    · rename_i a
      cases gs with
      | nil => simpa [sexagesimal_tail, re_sexagesimal_groups] using hgr
      | cons g2 gs2 =>
        show re_sexagesimal_groups (':' :: a :: ':' :: (g2 ++ sexagesimal_tail gs2)) = true
        have ih2 : re_sexagesimal_groups (':' :: (g2 ++ sexagesimal_tail gs2)) = true := ih'
        simp [re_sexagesimal_groups, hgr, ih2]
    · rename_i a b
      simp only [Bool.and_eq_true] at hgr
      obtain ⟨_, _, hb, _⟩ := isdigit_facts hgr.2
      show re_sexagesimal_groups (':' :: a :: b :: sexagesimal_tail gs) = true
      simp [re_sexagesimal_groups, hb, hgr.1, hgr.2, ih']
    · cases hgr

theorem digit_us_facts {c : Char} (h : is_digit_us c = true) :
    c ≠ ':' ∧ c ≠ '\n' ∧ c ≠ '\x00' := by
  refine ⟨?_, ?_, ?_⟩ <;> (rintro rfl; revert h; decide)

theorem sexagesimal_head_clean (sign : List Char) (hs : sign = [] ∨ sign = ['+'] ∨ sign = ['-'])
    (c : Char) (r : List Char) (hc : is_digit_1_9 c = true) (hall : r.all is_digit_us = true) :
    ∀ x ∈ sign ++ c :: r, x ≠ ':' ∧ x ≠ '\n' ∧ x ≠ '\x00' := by
  intro x hx
  simp only [List.mem_append, List.mem_cons] at hx
  rcases hx with hx | rfl | hx
  · rcases hs with rfl | rfl | rfl
    · cases hx
    · simp only [List.mem_singleton] at hx; subst hx; decide
    · simp only [List.mem_singleton] at hx; subst hx; decide
  · exact isdigit_facts (digit_1_9_facts hc).2.2.2.2.2.1 |> fun h => ⟨h.2.2.1, h.2.2.2.2.2.1, h.2.2.2.1⟩
  · exact digit_us_facts (List.all_eq_true.mp hall x hx)

theorem sexagesimal_text_clean (sign : List Char) (hs : sign = [] ∨ sign = ['+'] ∨ sign = ['-'])
    (c : Char) (r : List Char) (hc : is_digit_1_9 c = true) (hall : r.all is_digit_us = true)
    (gs : List (List Char)) (hg : gs.all sexagesimal_group = true) :
    ∀ x ∈ (sign ++ c :: r) ++ sexagesimal_tail gs, x ≠ '\n' ∧ x ≠ '\x00' := by
  intro x hx
  rcases List.mem_append.mp hx with h | h
  · exact (sexagesimal_head_clean sign hs c r hc hall x h).2
  · rcases tail_chars gs hg x h with rfl | hd
    · decide
    · obtain ⟨_, _, _, h0, _, hn, _⟩ := isdigit_facts hd
      exact ⟨hn, h0⟩

theorem int_groups_base60 (sign : List Char) (hs : sign = [] ∨ sign = ['+'] ∨ sign = ['-'])
    (c : Char) (r : List Char) (hc : is_digit_1_9 c = true) (hall : r.all is_digit_us = true)
    (gs : List (List Char)) (hne : gs ≠ []) (hg : gs.all sexagesimal_group = true) :
    pcre_groups .int ((sign ++ c :: r) ++ sexagesimal_tail gs)
      = some [some (0, ((sign ++ c :: r) ++ sexagesimal_tail gs).length), none,
          some (0, (sign ++ c :: r).length),
          some ((sign ++ c :: r).length, ((sign ++ c :: r) ++ sexagesimal_tail gs).length)] := by
  obtain ⟨h0, hp, hm, _, _, _, _⟩ := digit_1_9_facts hc
  have hb : subject_body ((sign ++ c :: r) ++ sexagesimal_tail gs)
      = (sign ++ c :: r) ++ sexagesimal_tail gs :=
    subject_body_of_no_newline _ (fun x hx => (sexagesimal_text_clean sign hs c r hc hall gs hg x hx).1)
  obtain ⟨g, gs1, rfl⟩ := List.exists_cons_of_ne_nil hne
  have htl : sexagesimal_tail (g :: gs1) = ':' :: (g ++ sexagesimal_tail gs1) := rfl
  have hst : strip_sign ((sign ++ c :: r) ++ sexagesimal_tail (g :: gs1))
      = c :: (r ++ sexagesimal_tail (g :: gs1)) := by
    rw [List.append_assoc, List.cons_append]
    exact strip_sign_append sign hs c _ hp hm
  have h2 : re_int_base2 ((sign ++ c :: r) ++ sexagesimal_tail (g :: gs1)) = false := by
    unfold re_int_base2
    rw [hst]
    cases r with
    | nil => rw [htl]; exact re_int_base2_false c ':' _ (Or.inl h0)
    | cons d r1 => exact re_int_base2_false c d _ (Or.inl h0)
  have h8 : re_int_base8 ((sign ++ c :: r) ++ sexagesimal_tail (g :: gs1)) = false := by
    unfold re_int_base8
    rw [hst]
    split
    · rename_i h1; simp only [List.cons.injEq] at h1; exact absurd h1.1 h0
    · rfl
  have h10 : re_int_base10 ((sign ++ c :: r) ++ sexagesimal_tail (g :: gs1)) = false := by
    unfold re_int_base10
    rw [hst, htl]
    simp [h0, is_digit_us, isdigit]
  have h16 : re_int_base16 ((sign ++ c :: r) ++ sexagesimal_tail (g :: gs1)) = false := by
    unfold re_int_base16
    rw [hst]
    split
    · rename_i h1; simp only [List.cons.injEq] at h1; exact absurd h1.1 h0
    · rfl
  have hhead : ∀ x ∈ sign ++ c :: r, (x != ':') = true := by
    intro x hx
    simpa using (sexagesimal_head_clean sign hs c r hc hall x hx).1
  have htake : ((sign ++ c :: r) ++ sexagesimal_tail (g :: gs1)).takeWhile (fun c => c != ':')
      = sign ++ c :: r := by
    rw [List.takeWhile_append_of_pos hhead, htl]
    simp [List.takeWhile]
  have hdrop : ((sign ++ c :: r) ++ sexagesimal_tail (g :: gs1)).dropWhile (fun c => c != ':')
      = sexagesimal_tail (g :: gs1) := by
    rw [List.dropWhile_append_of_pos hhead, htl]
    simp [List.dropWhile]
  have hh : re_sexagesimal_head (sign ++ c :: r) = true := by
    unfold re_sexagesimal_head
    rw [strip_sign_append sign hs c r hp hm]
    simp [hc, hall]
  have h60 : re_int_base60 ((sign ++ c :: r) ++ sexagesimal_tail (g :: gs1)) = true := by
    unfold re_int_base60
    simp only [htake, hdrop, hh, re_groups_tail _ hg, Bool.and_true, Bool.true_and]
    rfl
  simp only [pcre_groups, hb, h2, h8, h10, h16, h60, htake, if_true, Bool.false_eq_true, if_false]

theorem remove_separator_head (head rest : List Char)
    (hnul : ∀ x ∈ head ++ rest, x ≠ '\x00') :
    _remove_digit_separator (head ++ rest) head.length '_'
      = head.filter (fun c => c != '_')
        ++ List.replicate (head.length - (head.filter (fun c => c != '_')).length) '\x00'
        ++ rest := by
  simp [_remove_digit_separator, c_str_of_no_nul _ hnul]

theorem drop_removed (kept rest : List Char) (n k : Nat) (h : kept.length + k = n) :
    (kept ++ List.replicate k '\x00' ++ rest).drop (n + 1) = rest.drop 1 := by
  have hl : (kept ++ List.replicate k '\x00').length = n := by simp [h]
  rw [← List.drop_drop, ← hl, List.drop_left]
  
theorem nuls_tail_head (k : Nat) (gs : List (List Char)) :
    ∀ x, (List.replicate k '\x00' ++ sexagesimal_tail gs).head? = some x → isdigit x = false := by
  cases k with
  | zero => simpa using tail_head gs
  | succ n =>
    intro x hx
    simp only [List.replicate_succ, List.cons_append, List.head?_cons, Option.some.injEq] at hx
    subst hx; decide

theorem atol_signed (sign : List Char) (hs : sign = [] ∨ sign = ['+'] ∨ sign = ['-'])
    (c : Char) (r rest : List Char) (hc : is_digit_1_9 c = true) (hall : r.all is_digit_us = true)
    (hrest : ∀ x, rest.head? = some x → isdigit x = false)
    (hlt : (signed_decimal sign (c :: r)).natAbs < 2 ^ 63) :
    atol ((sign ++ c :: r).filter (fun c => c != '_') ++ rest) = signed_decimal sign (c :: r) := by
  obtain ⟨_, _, _, hu, _, hd, _⟩ := digit_1_9_facts hc
  have hcu : (c != '_') = true := by simpa using hu
  have hf : (c :: r).filter (fun c => c != '_') = c :: r.filter (fun c => c != '_') := by
    simp [List.filter, hcu]
  have hds : ∀ x ∈ c :: r.filter (fun c => c != '_'), isdigit x = true := by
    intro x hx
    rcases List.mem_cons.mp hx with rfl | hx
    · exact hd
    · obtain ⟨hm, hne⟩ := List.mem_filter.mp hx
      have := List.all_eq_true.mp hall x hm
      simp only [is_digit_us, Bool.or_eq_true, beq_iff_eq] at this
      rcases this with h | rfl
      · exact h
      · simp at hne
  have hv := strtol_value_signed sign hs c (r.filter (fun c => c != '_')) rest hds hrest
  unfold signed_decimal at hlt ⊢
  rw [hf] at hlt ⊢
  unfold atol strtol
  rw [filter_signed sign hs, hf, List.append_assoc, hv]
  exact long_clamp_of_lt _ hlt

/-- C5. Sexagesimal integers are a Horner evaluation in base 60: with the core
registry (in any match state), an untagged scalar made of an optional sign, a
decimal group that starts with a digit from 1 to 9 and may hold underscores,
and one or more groups of one or two digits below 60, each behind a colon, is
built as the integer `v_n`, where `v_0` is the signed value of the first group
without its underscores and `v_k = v_(k-1) * 60 + g_k`, as long as every `v_k`
stays below `2^53` in absolute value. -/
theorem sexagesimal_int (bs : List MinYamlBuilders) (hbs : is_core_registry bs)
    (sign : List Char) (hs : sign = [] ∨ sign = ['+'] ∨ sign = ['-'])
    (c : Char) (r : List Char) (hc : is_digit_1_9 c = true) (hall : r.all is_digit_us = true)
    (gs : List (List Char)) (hne : gs ≠ []) (hg : gs.all sexagesimal_group = true)
    (hex : stays_exact (signed_decimal sign (c :: r)) gs = true) :
    result_value (_build_scalar none ((sign ++ c :: r) ++ sexagesimal_tail gs) bs)
      = .ok (.int (horner60 (signed_decimal sign (c :: r)) gs)) := by
  have hclean := sexagesimal_text_clean sign hs c r hc hall gs hg
  have hb : subject_body ((sign ++ c :: r) ++ sexagesimal_tail gs)
      = (sign ++ c :: r) ++ sexagesimal_tail gs :=
    subject_body_of_no_newline _ (fun x hx => (hclean x hx).1)
  have hnul : ∀ x ∈ (sign ++ c :: r) ++ sexagesimal_tail gs, x ≠ '\x00' :=
    fun x hx => (hclean x hx).2
  have hlit : pcre_groups .null ((sign ++ c :: r) ++ sexagesimal_tail gs) = none
      ∧ pcre_groups .true_ ((sign ++ c :: r) ++ sexagesimal_tail gs) = none
      ∧ pcre_groups .false_ ((sign ++ c :: r) ++ sexagesimal_tail gs) = none := by
    have := literals_reject_signed sign hs c (r ++ sexagesimal_tail gs)
      (digit_1_9_facts hc).2.2.2.2.2.1 (by simpa [List.append_assoc] using hb)
    simpa [List.append_assoc] using this
  obtain ⟨h1, h2, h3⟩ := hlit
  obtain ⟨self, tl, hn, ho, hr⟩ := core_scalar_int hbs _ _ h1 h2 h3
    (int_groups_base60 sign hs c r hc hall gs hne hg)
  obtain ⟨g, gs1, rfl⟩ := List.exists_cons_of_ne_nil hne
  have hpos : 0 < (sign ++ c :: r).length := by simp
  have hlen : (sign ++ c :: r).length < ((sign ++ c :: r) ++ sexagesimal_tail (g :: gs1)).length := by
    simp [sexagesimal_tail]
  rw [hr, to_int_sexagesimal self _ _ _ (sign ++ c :: r).length tl (by rw [hn]; rfl) hpos hlen
    (by rw [ho]; rfl), remove_separator_head _ _ hnul,
    drop_removed _ _ _ _ (by have := List.length_filter_le (fun c => c != '_') (sign ++ c :: r); omega)]
  have hv0 := stays_exact_head hex
  rw [List.append_assoc, atol_signed sign hs c r _ hc hall (nuls_tail_head _ _) (by omega)]
  exact congrArg (fun v => Except.ok (PyObject.int v)) (to_int_loop_tail (g :: gs1) _ hg hex)

/-- C5, witness: `1:10` gives 70, `1:10:00` gives 4200 and `-1_0:5` gives -595. -/
theorem sexagesimal_int_witness :
    result_value (_build_scalar none "1:10".data implicitBuilders) = .ok (.int 70)
    ∧ result_value (_build_scalar none "1:10:00".data implicitBuilders) = .ok (.int 4200)
    ∧ result_value (_build_scalar none "-1_0:5".data implicitBuilders) = .ok (.int (-595)) :=
  ⟨(sexagesimal_int implicitBuilders (by decide) [] (Or.inl rfl) '1' [] (by decide) (by decide)
      ["10".data] (by decide) (by decide) (by decide)).trans (by decide),
   (sexagesimal_int implicitBuilders (by decide) [] (Or.inl rfl) '1' [] (by decide) (by decide)
      ["10".data, "00".data] (by decide) (by decide) (by decide)).trans (by decide),
   (sexagesimal_int implicitBuilders (by decide) ['-'] (Or.inr (Or.inr rfl)) '1' ['_', '0']
      (by decide) (by decide) ["5".data] (by decide) (by decide) (by decide)).trans (by decide)⟩

/-! ## The literal resolvers -/

theorem to_int_shape (self : MinYamlBuilders) (text : List Char) (len : Nat) (v : PyObject)
    (h : result_value (_to_int self text len) = .ok v) : ∃ n, v = .int n := by
  unfold _to_int at h
  simp only [bind, Except.bind] at h
  repeat' split at h
  all_goals first
    | (simp only [result_value, Except.ok.injEq] at h; exact ⟨_, h.symm⟩)
    | (simp [result_value] at h)

theorem PyFloat_shape (s : List Char) (v : PyObject) (h : PyFloat_FromString s = .ok v) :
    ∃ d, v = .float d := by
  unfold PyFloat_FromString at h
  simp only at h
  repeat' split at h
  all_goals first
    | (simp only [Except.ok.injEq] at h; exact ⟨_, h.symm⟩)
    | (simp at h)

theorem to_float_shape (self : MinYamlBuilders) (text : List Char) (len : Nat) (v : PyObject)
    (h : result_value (_to_float self text len) = .ok v) : ∃ d, v = .float d := by
  unfold _to_float at h
  simp only at h
  repeat' split at h
  all_goals first
    | (simp only [result_value, Except.ok.injEq] at h; exact ⟨_, h.symm⟩)
    | (simp [result_value] at h; done)
    | (rename_i hp; simp only [result_value, Except.ok.injEq] at h; subst h; exact PyFloat_shape _ _ hp)

theorem PyDate_shape (y m d : Int) (v : PyObject) (h : PyDate_FromDate y m d = .ok v) :
    v ≠ .none ∧ ∀ b, v ≠ .bool b := by
  unfold PyDate_FromDate at h
  split at h
  · simp only [Except.ok.injEq] at h; subst h; exact ⟨(fun h => by cases h), (fun b h => by cases h)⟩
  · cases h

theorem PyDateTime_shape (y m d hh mm ss us : Int) (v : PyObject)
    (h : PyDateTime_FromDateAndTime y m d hh mm ss us = .ok v) :
    v ≠ .none ∧ ∀ b, v ≠ .bool b := by
  unfold PyDateTime_FromDateAndTime at h
  split at h
  · simp only [Except.ok.injEq] at h; subst h; exact ⟨(fun h => by cases h), (fun b h => by cases h)⟩
  · cases h

theorem to_timestamp_shape (self : MinYamlBuilders) (text : List Char) (len : Nat) (v : PyObject)
    (h : result_value (_to_timestamp self text len) = .ok v) : v ≠ .none ∧ ∀ b, v ≠ .bool b := by
  unfold _to_timestamp at h
  simp only [bind, Except.bind, pure, Except.pure] at h
  repeat' split at h
  all_goals first
    | (simp [result_value] at h; done)
    | (rename_i hp; simp only [result_value, Except.ok.injEq] at h; subst h
       first | exact PyDate_shape _ _ _ _ hp | exact PyDateTime_shape _ _ _ _ _ _ _ _ hp)

theorem null_groups_iff (text : List Char) :
    (pcre_groups .null text).isSome = true ↔ subject_body text ∈ null_literals := by
  simp only [pcre_groups, null_literals]
  split <;> simp_all

theorem true_groups_iff (text : List Char) :
    (pcre_groups .true_ text).isSome = true ↔ subject_body text ∈ true_literals := by
  simp only [pcre_groups, true_literals]
  split <;> simp_all

theorem false_groups_iff (text : List Char) :
    (pcre_groups .false_ text).isSome = true ↔ subject_body text ∈ false_literals := by
  simp only [pcre_groups, false_literals]
  split <;> simp_all

theorem literals_disjoint (b : List Char) :
    (b ∈ null_literals → b ∉ true_literals ∧ b ∉ false_literals)
      ∧ (b ∈ true_literals → b ∉ false_literals) := by
  constructor
  · intro h
    simp only [null_literals, List.mem_cons, List.mem_singleton] at h
    rcases h with rfl | rfl | rfl | rfl | h
    · decide
    · decide
    · decide
    · decide
    · rcases h with rfl | h
      · decide
      · cases h
  · intro h
    simp only [true_literals, List.mem_cons, List.mem_singleton] at h
    rcases h with rfl | rfl | rfl | rfl | rfl | rfl | rfl | rfl | h
    · decide
    · decide
    · decide
    · decide
    · decide
    · decide
    · decide
    · decide
    · rcases h with rfl | h
      · decide
      · cases h

/-- What the core registry builds from an untagged scalar, by the first
matcher that accepts it. -/
theorem core_scalar_cases {bs : List MinYamlBuilders} (h : is_core_registry bs) (text : List Char) :
    ((pcre_groups .null text).isSome = true →
        result_value (_build_scalar none text bs) = .ok .none)
      ∧ (pcre_groups .null text = none → (pcre_groups .true_ text).isSome = true →
        result_value (_build_scalar none text bs) = .ok (.bool true))
      ∧ (pcre_groups .null text = none → pcre_groups .true_ text = none →
        (pcre_groups .false_ text).isSome = true →
        result_value (_build_scalar none text bs) = .ok (.bool false))
      ∧ (pcre_groups .null text = none → pcre_groups .true_ text = none →
        pcre_groups .false_ text = none →
        ∀ v, result_value (_build_scalar none text bs) = .ok v → v ≠ .none ∧ ∀ b, v ≠ .bool b) := by
  obtain ⟨b0, b1, b2, b3, b4, b5, b6, b7, b8, rfl, h0, h1, h2, h3, h4, h5, h6, h7, h8⟩ :=
    core_registry_cases h
  obtain ⟨_, hc0, hk0, hp0, hq0⟩ := builder_core_eq h0
  obtain ⟨_, hc1, hk1, hp1, hq1⟩ := builder_core_eq h1
  obtain ⟨_, hc2, hk2, hp2, hq2⟩ := builder_core_eq h2
  obtain ⟨_, hc3, hk3, hp3, hq3⟩ := builder_core_eq h3
  obtain ⟨_, hc4, hk4, hp4, hq4⟩ := builder_core_eq h4
  obtain ⟨_, hc5, hk5, hp5, hq5⟩ := builder_core_eq h5
  obtain ⟨_, hc6, hk6, hp6, hq6⟩ := builder_core_eq h6
  obtain ⟨_, hc7, hk7, hp7, hq7⟩ := builder_core_eq h7
  obtain ⟨_, hc8, hk8, hp8, hq8⟩ := builder_core_eq h8
  refine ⟨?_, ?_, ?_, ?_⟩
  · intro hn
    obtain ⟨gs, hgs⟩ := Option.isSome_iff_exists.mp hn
    simp [_build_scalar, match_tag_none, _build_scalar_loop, match_builder_c _ _ _ hp0 hc0,
      pcre_exec, hgs, pcre_rc_pos, _build_scalar_construct, _build_scalar_call, hq0, hk0,
      c_constructor_call, _to_null, result_value]
  · intro hn ht
    obtain ⟨gs, hgs⟩ := Option.isSome_iff_exists.mp ht
    simp [_build_scalar, match_tag_none, _build_scalar_loop, match_builder_c _ _ _ hp0 hc0,
      match_builder_none _ _ hp1 hc1, match_builder_c _ _ _ hp2 hc2,
      pcre_exec, hn, hgs, pcre_rc_pos, _build_scalar_construct, _build_scalar_call, hq2, hk2,
      c_constructor_call, _to_true, result_value]
  · intro hn ht hf
    obtain ⟨gs, hgs⟩ := Option.isSome_iff_exists.mp hf
    simp [_build_scalar, match_tag_none, _build_scalar_loop, match_builder_c _ _ _ hp0 hc0,
      match_builder_none _ _ hp1 hc1, match_builder_c _ _ _ hp2 hc2, match_builder_c _ _ _ hp3 hc3,
      pcre_exec, hn, ht, hgs, pcre_rc_pos, _build_scalar_construct, _build_scalar_call, hq3, hk3,
      c_constructor_call, _to_false, result_value]
  · intro hn ht hf v hv
    cases hi : pcre_groups .int text with
    | some gs =>
      obtain ⟨self, _, _, _, hr⟩ := core_scalar_int h text gs hn ht hf hi
      rw [hr] at hv
      obtain ⟨n, rfl⟩ := to_int_shape _ _ _ _ hv
      exact ⟨(fun h => by cases h), (fun b h => by cases h)⟩
    | none =>
      cases hfl : pcre_groups .float text with
      | some gs =>
        have hloop : ∃ self, result_value (_build_scalar none text [b0, b1, b2, b3, b4, b5, b6, b7, b8])
            = result_value (_to_float self text text.length) := by
          refine ⟨{ b5 with
                    py_match := PyObject.none, ncaptures := pcre_rc gs,
                    ovector := ovector_of_groups gs ++ b5.ovector.drop (2 * gs.length) }, ?_⟩
          have hl : _build_scalar_loop text 0 [b0, b1, b2, b3, b4, b5, b6, b7, b8]
              = .ok (some 5, [{ b0 with py_match := PyObject.none, ncaptures := -1 },
                  { b1 with py_match := PyObject.none },
                  { b2 with py_match := PyObject.none, ncaptures := -1 },
                  { b3 with py_match := PyObject.none, ncaptures := -1 },
                  { b4 with py_match := PyObject.none, ncaptures := -1 },
                  { b5 with
                    py_match := PyObject.none, ncaptures := pcre_rc gs,
                    ovector := ovector_of_groups gs ++ b5.ovector.drop (2 * gs.length) },
                  b6, b7, b8]) := by
            simp [_build_scalar_loop, match_builder_c _ _ _ hp0 hc0, match_builder_none _ _ hp1 hc1,
              match_builder_c _ _ _ hp2 hc2, match_builder_c _ _ _ hp3 hc3,
              match_builder_c _ _ _ hp4 hc4, match_builder_c _ _ _ hp5 hc5,
              pcre_exec, hn, ht, hf, hi, hfl, pcre_rc_pos]
          simp only [_build_scalar, match_tag_none, Option.isSome_none, Bool.false_eq_true, if_false, hl]
          rw [result_value_construct _ _ _ 5 _ (by rfl)]
          simp [_build_scalar_call, hq5, hk5, c_constructor_call]
        obtain ⟨self, hr⟩ := hloop
        rw [hr] at hv
        obtain ⟨d, rfl⟩ := to_float_shape _ _ _ _ hv
        exact ⟨(fun h => by cases h), (fun b h => by cases h)⟩
      | none =>
        cases hts : pcre_groups .timestamp text with
        | some gs =>
          have hloop : ∃ self, result_value (_build_scalar none text [b0, b1, b2, b3, b4, b5, b6, b7, b8])
              = result_value (_to_timestamp self text text.length) := by
            refine ⟨{ b6 with
                      py_match := PyObject.none, ncaptures := pcre_rc gs,
                      ovector := ovector_of_groups gs ++ b6.ovector.drop (2 * gs.length) }, ?_⟩
            have hl : _build_scalar_loop text 0 [b0, b1, b2, b3, b4, b5, b6, b7, b8]
                = .ok (some 6, [{ b0 with py_match := PyObject.none, ncaptures := -1 },
                    { b1 with py_match := PyObject.none },
                    { b2 with py_match := PyObject.none, ncaptures := -1 },
                    { b3 with py_match := PyObject.none, ncaptures := -1 },
                    { b4 with py_match := PyObject.none, ncaptures := -1 },
                    { b5 with py_match := PyObject.none, ncaptures := -1 },
                    { b6 with
                      py_match := PyObject.none, ncaptures := pcre_rc gs,
                      ovector := ovector_of_groups gs ++ b6.ovector.drop (2 * gs.length) },
                    b7, b8]) := by
              simp [_build_scalar_loop, match_builder_c _ _ _ hp0 hc0, match_builder_none _ _ hp1 hc1,
                match_builder_c _ _ _ hp2 hc2, match_builder_c _ _ _ hp3 hc3,
                match_builder_c _ _ _ hp4 hc4, match_builder_c _ _ _ hp5 hc5,
                match_builder_c _ _ _ hp6 hc6,
                pcre_exec, hn, ht, hf, hi, hfl, hts, pcre_rc_pos]
            simp only [_build_scalar, match_tag_none, Option.isSome_none, Bool.false_eq_true, if_false, hl]
            rw [result_value_construct _ _ _ 6 _ (by rfl)]
            simp [_build_scalar_call, hq6, hk6, c_constructor_call]
          obtain ⟨self, hr⟩ := hloop
          rw [hr] at hv
          exact to_timestamp_shape _ _ _ _ hv
        | none =>
          have hl : _build_scalar_loop text 0 [b0, b1, b2, b3, b4, b5, b6, b7, b8]
              = .ok (none, [{ b0 with py_match := PyObject.none, ncaptures := -1 },
                  { b1 with py_match := PyObject.none },
                  { b2 with py_match := PyObject.none, ncaptures := -1 },
                  { b3 with py_match := PyObject.none, ncaptures := -1 },
                  { b4 with py_match := PyObject.none, ncaptures := -1 },
                  { b5 with py_match := PyObject.none, ncaptures := -1 },
                  { b6 with py_match := PyObject.none, ncaptures := -1 },
                  { b7 with py_match := PyObject.none },
                  { b8 with py_match := PyObject.none }]) := by
            simp [_build_scalar_loop, match_builder_c _ _ _ hp0 hc0, match_builder_none _ _ hp1 hc1,
              match_builder_c _ _ _ hp2 hc2, match_builder_c _ _ _ hp3 hc3,
              match_builder_c _ _ _ hp4 hc4, match_builder_c _ _ _ hp5 hc5,
              match_builder_c _ _ _ hp6 hc6, match_builder_none _ _ hp7 hc7,
              match_builder_none _ _ hp8 hc8,
              pcre_exec, hn, ht, hf, hi, hfl, hts]
          simp only [_build_scalar, match_tag_none, Option.isSome_none, Bool.false_eq_true, if_false,
            hl, _build_scalar_construct, Option.bind, result_value, PyUnicode_FromString,
            Except.ok.injEq] at hv
          subst hv
          exact ⟨(fun h => by cases h), (fun b h => by cases h)⟩

theorem isSome_false_eq_none {α : Type} {o : Option α} (h : ¬ o.isSome = true) : o = none := by
  cases o with
  | none => rfl
  | some a => exact absurd rfl h

/-- C6. What the literal resolvers of the core registry (in any match state)
accept: an untagged scalar is built as Null exactly when its text, without a
final newline if it has one, is one of `~`, `null`, `Null`, `NULL` and the
empty text; as Bool true exactly when that text is one of `yes`, `Yes`, `YES`,
`true`, `True`, `TRUE`, `on`, `On`, `ON`; as Bool false exactly when it is one
of `no`, `No`, `NO`, `false`, `False`, `FALSE`, `off`, `Off`, `OFF`.  The
final newline is what `$` of PCRE leaves unmatched. -/
theorem literal_resolvers (bs : List MinYamlBuilders) (hbs : is_core_registry bs)
    (text : List Char) :
    (result_value (_build_scalar none text bs) = .ok .none ↔ subject_body text ∈ null_literals)
    ∧ (result_value (_build_scalar none text bs) = .ok (.bool true)
        ↔ subject_body text ∈ true_literals)
    ∧ (result_value (_build_scalar none text bs) = .ok (.bool false)
        ↔ subject_body text ∈ false_literals) := by
  obtain ⟨hA, hB, hC, hD⟩ := core_scalar_cases hbs text
  have hdis := literals_disjoint (subject_body text)
  by_cases hN : (pcre_groups .null text).isSome = true
  · have hn := (null_groups_iff text).mp hN
    have hr := hA hN
    refine ⟨⟨fun _ => hn, fun _ => hr⟩, ⟨fun h => ?_, fun h => ?_⟩, ⟨fun h => ?_, fun h => ?_⟩⟩
    · rw [hr] at h; cases h
    · exact absurd h (hdis.1 hn).1
    · rw [hr] at h; cases h
    · exact absurd h (hdis.1 hn).2
  · have hn : subject_body text ∉ null_literals := fun h => hN ((null_groups_iff text).mpr h)
    have hN0 := isSome_false_eq_none hN
    by_cases hT : (pcre_groups .true_ text).isSome = true
    · have ht := (true_groups_iff text).mp hT
      have hr := hB hN0 hT
      refine ⟨⟨fun h => ?_, fun h => absurd h hn⟩, ⟨fun _ => ht, fun _ => hr⟩,
        ⟨fun h => ?_, fun h => ?_⟩⟩
      · rw [hr] at h; cases h
      · rw [hr] at h; cases h
      · exact absurd h (hdis.2 ht)
    · have ht : subject_body text ∉ true_literals := fun h => hT ((true_groups_iff text).mpr h)
      have hT0 := isSome_false_eq_none hT
      by_cases hF : (pcre_groups .false_ text).isSome = true
      · have hf := (false_groups_iff text).mp hF
        have hr := hC hN0 hT0 hF
        refine ⟨⟨fun h => ?_, fun h => absurd h hn⟩, ⟨fun h => ?_, fun h => absurd h ht⟩,
          ⟨fun _ => hf, fun _ => hr⟩⟩
        · rw [hr] at h; cases h
        · rw [hr] at h; cases h
      · have hf : subject_body text ∉ false_literals :=
          fun h => hF ((false_groups_iff text).mpr h)
        have hF0 := isSome_false_eq_none hF
        refine ⟨⟨fun h => ?_, fun h => absurd h hn⟩, ⟨fun h => ?_, fun h => absurd h ht⟩,
          ⟨fun h => ?_, fun h => absurd h hf⟩⟩
        · exact absurd rfl (hD hN0 hT0 hF0 _ h).1
        · exact absurd rfl ((hD hN0 hT0 hF0 _ h).2 true)
        · exact absurd rfl ((hD hN0 hT0 hF0 _ h).2 false)

/-- C6, witness: the text `null` followed by a newline is none of the Null
texts and is built as Null; `yes` and `no` followed by a newline are built as
Bool true and Bool false; `y` is not built as a Bool. -/
theorem literal_resolvers_witness :
    ("null\n".data ∉ null_literals
      ∧ result_value (_build_scalar none "null\n".data implicitBuilders) = .ok .none)
    ∧ ("yes\n".data ∉ true_literals
      ∧ result_value (_build_scalar none "yes\n".data implicitBuilders) = .ok (.bool true))
    ∧ ("no\n".data ∉ false_literals
      ∧ result_value (_build_scalar none "no\n".data implicitBuilders) = .ok (.bool false))
    ∧ ¬ result_value (_build_scalar none "y".data implicitBuilders) = .ok (.bool true) :=
  ⟨⟨by decide, (literal_resolvers implicitBuilders (by decide) "null\n".data).1.mpr (by decide)⟩,
   ⟨by decide, (literal_resolvers implicitBuilders (by decide) "yes\n".data).2.1.mpr (by decide)⟩,
   ⟨by decide, (literal_resolvers implicitBuilders (by decide) "no\n".data).2.2.mpr (by decide)⟩,
   fun h => absurd ((literal_resolvers implicitBuilders (by decide) "y".data).2.1.mp h) (by decide)⟩

/-! ## Mappings: merge keys -/

theorem getitem_congr (M : PyDict) (k k1 : PyObject) (h : py_key_eq k k1 = true) :
    PyDict_GetItem M k = PyDict_GetItem M k1 := by
  simp only [py_key_eq, decide_eq_true_eq] at h
  induction M with
  | nil => rfl
  | cons kv rest ih =>
    obtain ⟨k0, v0⟩ := kv
    simp only [PyDict_GetItem, py_key_eq, h, ih]

theorem getitem_insert (M : PyDict) (k v k1 : PyObject) :
    PyDict_GetItem (dict_insert M k v) k1
      = if py_key_eq k k1 then some v else PyDict_GetItem M k1 := by
  induction M with
  | nil => simp [dict_insert, PyDict_GetItem]
  | cons kv rest ih =>
    obtain ⟨k0, v0⟩ := kv
    simp only [dict_insert]
    by_cases h0 : py_key_eq k0 k = true
    · simp only [h0, if_true, PyDict_GetItem]
      simp only [py_key_eq, decide_eq_true_eq] at h0
      simp only [py_key_eq, h0]
      split <;> rfl
    · simp only [h0, Bool.false_eq_true, if_false, PyDict_GetItem, ih]
      simp only [py_key_eq, decide_eq_true_eq] at h0 ⊢
      by_cases h1 : py_key k0 = py_key k1
      · have : ¬ py_key k = py_key k1 := fun h => h0 (h1.trans h.symm)
        simp [h1, this]
      · simp [h1]

theorem getitem_merge (V : PyDict) : ∀ (M : PyDict) (k1 : PyObject),
    PyDict_GetItem (dict_merge_items M V) k1
      = match PyDict_GetItem M k1 with
        | some v => some v
        | none => PyDict_GetItem V k1 := by
  induction V with
  | nil =>
    intro M k1
    simp only [dict_merge_items, PyDict_GetItem]
    cases PyDict_GetItem M k1 <;> rfl
  | cons kv rest ih =>
    intro M k1
    obtain ⟨k, v⟩ := kv
    simp only [dict_merge_items]
    by_cases hc : PyDict_Contains M k = true
    · simp only [hc, if_true, ih, PyDict_GetItem]
      cases h1 : PyDict_GetItem M k1 with
      | some x => rfl
      | none =>
        have hne : ¬ py_key_eq k k1 = true := by
          intro h
          rw [PyDict_Contains, getitem_congr M k k1 h, h1] at hc
          cases hc
        simp [hne]
    · simp only [hc, Bool.false_eq_true, if_false, ih, getitem_insert, PyDict_GetItem]
      have hn : PyDict_GetItem M k = none := by
        cases h : PyDict_GetItem M k with
        | none => rfl
        | some x => exact absurd (by simp [PyDict_Contains, h]) hc
      by_cases h : py_key_eq k k1 = true
      · rw [← getitem_congr M k k1 h, hn]
        simp [h]
      · simp only [h, Bool.false_eq_true, if_false]

/-- C7. Merge keys are first-writer-wins: when the pair read has the key
`<<` and a dictionary `V` as value while the mapping under construction is
`M`, the loop of `_build_map` goes on with `M` merged with `V`
(`PyDict_Merge` without override) and no key waiting.  In the new mapping
every key bound in `M` keeps its value, a key not bound in `M` has the value
`V` gives it, if any, and `<<` is bound only if `M` or `V` binds it. -/
theorem merge_first_writer_wins (M V : PyDict) :
    _build_map_pair M (.str "<<") (.dict V) = .ok (dict_merge_items M V)
    ∧ (∀ k v, PyDict_GetItem M k = some v → PyDict_GetItem (dict_merge_items M V) k = some v)
    ∧ (∀ k, PyDict_GetItem M k = none →
        PyDict_GetItem (dict_merge_items M V) k = PyDict_GetItem V k)
    ∧ (PyDict_GetItem M (.str "<<") = none → PyDict_GetItem V (.str "<<") = none →
        PyDict_GetItem (dict_merge_items M V) (.str "<<") = none)
    ∧ (∀ (fuel : Nat) (st st1 : BuildState) (isSet : Bool) (event : yaml_event_t)
        (parser : yaml_parser_t),
        _parse_next st.parser .YAML_MAPPING_END_EVENT = .ok (.BLOCK_PROCEED, event, parser) →
        _build_value fuel event { st with parser := parser } = .ok (.dict V, st1) →
        _build_map_loop (fuel + 1) st M (some (.str "<<")) isSet
          = _build_map_loop fuel st1 (dict_merge_items M V) none false) := by
  have hpair : _build_map_pair M (.str "<<") (.dict V) = .ok (dict_merge_items M V) := by
    have hk : _is_key_merge (.str "<<") = true := by decide
    simp only [_build_map_pair, hk, if_true, PyDict_Merge]
  refine ⟨hpair, ?_, ?_, ?_, ?_⟩
  · intro k v h
    rw [getitem_merge, h]
  · intro k h
    rw [getitem_merge, h]
  · intro hM hV
    rw [getitem_merge, hM, hV]
  · intro fuel st st1 isSet event parser hnext hval
    have hne : decide (PyObject.dict V = PyObject.none) = false := by
      simp only [decide_eq_false_iff_not]
      intro h; cases h
    simp only [_build_map_loop, hnext, if_true, hval, hpair, hne, Bool.and_false]

/-- C7, witness: merging `a: 2, b: 2` into `a: 1` leaves `a` bound to 1 and
binds `b` to 2; the step of the loop on the events of such a pair; and the
document `a: 1, <<: (a: 2, b: 2)` is built as the mapping `a: 1, b: 2`. -/
theorem merge_first_writer_wins_witness :
    PyDict_GetItem (dict_merge_items [(.str "a", .int 1)] [(.str "a", .int 2), (.str "b", .int 2)])
        (.str "a") = some (.int 1)
    ∧ PyDict_GetItem (dict_merge_items [(.str "a", .int 1)] [(.str "a", .int 2), (.str "b", .int 2)])
        (.str "b") = some (.int 2)
    ∧ PyDict_GetItem (dict_merge_items [(.str "a", .int 1)] [(.str "a", .int 2), (.str "b", .int 2)])
        (.str "<<") = none
    ∧ _build_map_loop 6
        ⟨parser_of [ev_map_start none none, ev_plain "a", ev_plain "2", ev_map_end, ev_map_end], [], []⟩
        [(.str "a", .str "1")] (some (.str "<<")) true
      = _build_map_loop 5 ⟨parser_of [ev_map_end], [], []⟩
          (dict_merge_items [(.str "a", .str "1")] [(.str "a", .str "2")]) none false
    ∧ result_value (_build_document (parser_of [ev_map_start none none, ev_plain "a", ev_plain "1",
        ev_plain "<<", ev_map_start none none, ev_plain "a", ev_plain "2", ev_plain "b",
        ev_plain "2", ev_map_end, ev_map_end, ev_mark .YAML_DOCUMENT_END_EVENT]) implicitBuilders)
      = .ok (.dict [(.str "a", .int 1), (.str "b", .int 2)]) :=
  ⟨(merge_first_writer_wins [(.str "a", .int 1)] [(.str "a", .int 2), (.str "b", .int 2)]).2.1
      _ _ (by decide),
   ((merge_first_writer_wins [(.str "a", .int 1)] [(.str "a", .int 2), (.str "b", .int 2)]).2.2.1
      _ (by decide)).trans (by decide),
   (merge_first_writer_wins [(.str "a", .int 1)] [(.str "a", .int 2), (.str "b", .int 2)]).2.2.2.1
      (by decide) (by decide),
   (merge_first_writer_wins [(.str "a", .str "1")] [(.str "a", .str "2")]).2.2.2.2 5
      ⟨parser_of [ev_map_start none none, ev_plain "a", ev_plain "2", ev_map_end, ev_map_end], [], []⟩
      ⟨parser_of [ev_map_end], [], []⟩ true (ev_map_start none none)
      (parser_of [ev_plain "a", ev_plain "2", ev_map_end, ev_map_end]) rfl rfl,
   by decide!⟩

/-! ## Mappings: set promotion -/

/-- The loop of `_build_map` does with the pairs it reads what
`_build_map_fold` does with the list of them. -/
theorem build_map_loop_eq_fold : ∀ (fuel : Nat) (st : BuildState) (key : Option PyObject)
    (pairs : List (PyObject × PyObject)) (st1 : BuildState) (M : PyDict) (isSet : Bool),
    _build_map_read fuel st key = .ok (pairs, st1) →
    _build_map_loop fuel st M key isSet
      = match _build_map_fold M isSet pairs with
        | .ok r => .ok (r, st1)
        | .error e => .error e := by
  intro fuel
  induction fuel with
  | zero => intro st key pairs st1 M isSet h; cases h
  | succ fuel ih =>
    intro st key pairs st1 M isSet h
    simp only [_build_map_read] at h
    simp only [_build_map_loop]
    cases hn : _parse_next st.parser .YAML_MAPPING_END_EVENT with
    | error e => rw [hn] at h; cases h
    | ok r =>
      obtain ⟨status, event, parser⟩ := r
      rw [hn] at h
      simp only at h ⊢
      by_cases hs : status = .BLOCK_PROCEED
      · simp only [hs, if_true] at h ⊢
        cases hv : _build_value fuel event { st with parser := parser } with
        | error e => rw [hv] at h; cases h
        | ok r =>
          obtain ⟨v, st2⟩ := r
          rw [hv] at h
          cases key with
          | none =>
            simp only at h ⊢
            exact ih st2 (some v) pairs st1 M isSet h
          | some k =>
            simp only at h ⊢
            cases hr : _build_map_read fuel st2 none with
            | error e => rw [hr] at h; cases h
            | ok r2 =>
              obtain ⟨pairs2, st3⟩ := r2
              rw [hr] at h
              simp only [Except.ok.injEq, Prod.mk.injEq] at h
              obtain ⟨rfl, rfl⟩ := h
              simp only [_build_map_fold]
              cases hp : _build_map_pair M k v with
              | error e => rfl
              | ok M1 => exact ih st2 none pairs2 st3 M1 _ hr
      · simp only [hs, if_false, Except.ok.injEq, Prod.mk.injEq] at h ⊢
        obtain ⟨rfl, rfl⟩ := h
        rfl

theorem insert_values (M : PyDict) (k v : PyObject) :
    ∀ kv ∈ dict_insert M k v, kv.2 = v ∨ kv ∈ M := by
  induction M with
  | nil =>
    intro kv h
    simp only [dict_insert, List.mem_singleton] at h
    subst h; exact Or.inl rfl
  | cons p rest ih =>
    obtain ⟨k0, v0⟩ := p
    intro kv h
    simp only [dict_insert] at h
    split at h
    · rcases List.mem_cons.mp h with rfl | h
      · exact Or.inl rfl
      · exact Or.inr (List.mem_cons_of_mem _ h)
    · rcases List.mem_cons.mp h with rfl | h
      · exact Or.inr (List.mem_cons_self _ _)
      · rcases ih kv h with h | h
        · exact Or.inl h
        · exact Or.inr (List.mem_cons_of_mem _ h)

/-- A pair whose value is `None` is stored, not merged, and leaves only
`None` values where there were only `None` values. -/
theorem pair_none_values (M M1 : PyDict) (k : PyObject)
    (h : _build_map_pair M k .none = .ok M1) (hM : ∀ kv ∈ M, kv.2 = PyObject.none) :
    ∀ kv ∈ M1, kv.2 = PyObject.none := by
  unfold _build_map_pair at h
  split at h
  · cases h
  · unfold PyDict_SetItem at h
    split at h
    · simp only [Except.ok.injEq] at h
      subst h
      intro kv hkv
      rcases insert_values M k .none kv hkv with h | h
      · exact h
      · exact hM kv h
    · cases h

/-- The flag `isSet` stays as it is while the values are `None`, and then
the mapping holds only `None` values if it did. -/
theorem fold_all_none : ∀ (pairs : List (PyObject × PyObject)) (M0 : PyDict) (s0 : Bool)
    (M : PyDict) (s : Bool), _build_map_fold M0 s0 pairs = .ok (M, s) →
    (∀ p ∈ pairs, p.2 = PyObject.none) →
    s = s0 ∧ ((∀ kv ∈ M0, kv.2 = PyObject.none) → ∀ kv ∈ M, kv.2 = PyObject.none) := by
  intro pairs
  induction pairs with
  | nil =>
    intro M0 s0 M s h _
    simp only [_build_map_fold, Except.ok.injEq, Prod.mk.injEq] at h
    obtain ⟨rfl, rfl⟩ := h
    exact ⟨rfl, fun h => h⟩
  | cons p rest ih =>
    obtain ⟨k, v⟩ := p
    intro M0 s0 M s h hnull
    have hv : v = PyObject.none := hnull (k, v) (List.mem_cons_self _ _)
    subst hv
    simp only [_build_map_fold] at h
    cases hp : _build_map_pair M0 k .none with
    | error e => rw [hp] at h; cases h
    | ok M1 =>
      rw [hp] at h
      obtain ⟨hs, hval⟩ := ih M1 _ M s h (fun p hp => hnull p (List.mem_cons_of_mem _ hp))
      refine ⟨by simpa using hs, fun hM0 => hval (pair_none_values M0 M1 k hp hM0)⟩

/-- The flag `isSet` once down stays down. -/
theorem fold_flag_down : ∀ (pairs : List (PyObject × PyObject)) (M0 M : PyDict) (s : Bool),
    _build_map_fold M0 false pairs = .ok (M, s) → s = false := by
  intro pairs
  induction pairs with
  | nil =>
    intro M0 M s h
    simp only [_build_map_fold, Except.ok.injEq, Prod.mk.injEq] at h
    exact h.2.symm
  | cons p rest ih =>
    obtain ⟨k, v⟩ := p
    intro M0 M s h
    simp only [_build_map_fold] at h
    cases hp : _build_map_pair M0 k v with
    | error e => rw [hp] at h; cases h
    | ok M1 =>
      rw [hp] at h
      exact ih M1 M s (by simpa using h)

/-- When the flag `isSet` is up at the end, the mapping holds only `None`
values if it did at the start. -/
theorem fold_flag_up : ∀ (pairs : List (PyObject × PyObject)) (M0 : PyDict) (s0 : Bool)
    (M : PyDict), _build_map_fold M0 s0 pairs = .ok (M, true) →
    (∀ kv ∈ M0, kv.2 = PyObject.none) → ∀ kv ∈ M, kv.2 = PyObject.none := by
  intro pairs
  induction pairs with
  | nil =>
    intro M0 s0 M h hM0
    simp only [_build_map_fold, Except.ok.injEq, Prod.mk.injEq] at h
    obtain ⟨rfl, _⟩ := h
    exact hM0
  | cons p rest ih =>
    obtain ⟨k, v⟩ := p
    intro M0 s0 M h hM0
    simp only [_build_map_fold] at h
    cases hp : _build_map_pair M0 k v with
    | error e => rw [hp] at h; cases h
    | ok M1 =>
      rw [hp] at h
      by_cases hv : v = PyObject.none
      · subst hv
        exact ih M1 _ M h (pair_none_values M0 M1 k hp hM0)
      · have hd : decide (v = PyObject.none) = false := by simpa using hv
        rw [hd, Bool.and_false] at h
        have := fold_flag_down rest M1 M true h
        cases this

/-- While the values are `None` the pairs are stored one after the other. -/
theorem fold_none_eq : ∀ (pairs : List (PyObject × PyObject)) (M0 : PyDict) (s0 : Bool)
    (M : PyDict) (s : Bool), _build_map_fold M0 s0 pairs = .ok (M, s) →
    (∀ p ∈ pairs, p.2 = PyObject.none) →
    M = pairs.foldl (fun m p => dict_insert m p.1 PyObject.none) M0 := by
  intro pairs
  induction pairs with
  | nil =>
    intro M0 s0 M s h _
    simp only [_build_map_fold, Except.ok.injEq, Prod.mk.injEq] at h
    exact h.1.symm
  | cons p rest ih =>
    obtain ⟨k, v⟩ := p
    intro M0 s0 M s h hnull
    have hv : v = PyObject.none := hnull (k, v) (List.mem_cons_self _ _)
    subst hv
    simp only [_build_map_fold] at h
    cases hp : _build_map_pair M0 k .none with
    | error e => rw [hp] at h; cases h
    | ok M1 =>
      rw [hp] at h
      have hM1 : M1 = dict_insert M0 k .none := by
        unfold _build_map_pair at hp
        split at hp
        · cases hp
        · unfold PyDict_SetItem at hp
          split at hp
          · simp only [Except.ok.injEq] at hp; exact hp.symm
          · cases hp
      rw [List.foldl_cons, ← hM1]
      exact ih M1 _ M s h (fun p hp => hnull p (List.mem_cons_of_mem _ hp))

theorem fold_flag_value : ∀ (pairs : List (PyObject × PyObject)) (M0 : PyDict) (s0 : Bool)
    (M : PyDict) (s : Bool), _build_map_fold M0 s0 pairs = .ok (M, s) →
    (∃ p ∈ pairs, p.2 ≠ PyObject.none) → s = false := by
  intro pairs
  induction pairs with
  | nil =>
    intro M0 s0 M s _ hex
    obtain ⟨p, hp, _⟩ := hex
    cases hp
  | cons p rest ih =>
    obtain ⟨k, v⟩ := p
    intro M0 s0 M s h hex
    simp only [_build_map_fold] at h
    cases hp : _build_map_pair M0 k v with
    | error e => rw [hp] at h; cases h
    | ok M1 =>
      rw [hp] at h
      simp only at h
      by_cases hv : v = PyObject.none
      · obtain ⟨q, hq, hne⟩ := hex
        rcases List.mem_cons.mp hq with rfl | hq
        · exact absurd hv hne
        · exact ih M1 _ M s h ⟨q, hq, hne⟩
      · have hd : decide (v = PyObject.none) = false := by simpa using hv
        rw [hd, Bool.and_false] at h
        exact fold_flag_down rest M1 M s h

/-- C8 (amended). Set promotion: when the pairs of a mapping node have been
read and processed in order, into the mapping `M`, and the value of every
pair read is `None`, the node is built as the set of the keys of `M`; `M`
holds the keys read, each bound to `None`.  When the value of some pair read
is not `None`, the node is built as the dictionary `M`, whatever `M` binds in
the end. -/
theorem set_promotion (fuel : Nat) (st st1 : BuildState) (pairs : List (PyObject × PyObject))
    (M : PyDict) (s : Bool)
    (hread : _build_map_read fuel st none = .ok (pairs, st1))
    (hfold : _build_map_fold [] true pairs = .ok (M, s)) :
    ((∀ p ∈ pairs, p.2 = PyObject.none) →
      _build_map fuel st = .ok (PySet_New M, st1)
      ∧ M = pairs.foldl (fun m p => dict_insert m p.1 PyObject.none) []
      ∧ ∀ kv ∈ M, kv.2 = PyObject.none)
    ∧ ((∃ p ∈ pairs, p.2 ≠ PyObject.none) → _build_map fuel st = .ok (.dict M, st1)) := by
  constructor
  · intro hnull
    obtain ⟨hs, hval⟩ := fold_all_none pairs [] true M s hfold hnull
    subst hs
    refine ⟨?_, fold_none_eq pairs [] true M true hfold hnull, hval (fun kv h => by cases h)⟩
    simp only [_build_map, build_map_loop_eq_fold fuel st none pairs st1 [] true hread, hfold,
      _build_map_end, if_true]
  · intro hex
    have hs := fold_flag_value pairs [] true M s hfold hex
    subst hs
    simp only [_build_map, build_map_loop_eq_fold fuel st none pairs st1 [] true hread, hfold,
      _build_map_end, Bool.false_eq_true, if_false]

/-- C8, witness: with `n` an anchor bound to `None`, the pairs `x: *n, y: *n`
are built as the set of `x` and `y`, and the pairs `a: 1, a: *n` as the
mapping of `a` to `None`; and the document `x: null, y: null` is built as the
set of `x` and `y` by the core registry. -/
theorem set_promotion_witness :
    _build_map 5 ⟨parser_of [ev_plain "x", ev_alias "n", ev_plain "y", ev_alias "n", ev_map_end],
        [], [(.str "n", .none)]⟩
      = .ok (.set [.str "x", .str "y"], ⟨[], [], [(.str "n", .none)]⟩)
    ∧ _build_map 5 ⟨parser_of [ev_plain "a", ev_plain "1", ev_plain "a", ev_alias "n", ev_map_end],
        [], [(.str "n", .none)]⟩
      = .ok (.dict [(.str "a", .none)], ⟨[], [], [(.str "n", .none)]⟩)
    ∧ result_value (_build_document (parser_of [ev_map_start none none, ev_plain "x",
        ev_plain "null", ev_plain "y", ev_plain "null", ev_map_end,
        ev_mark .YAML_DOCUMENT_END_EVENT]) implicitBuilders)
      = .ok (.set [.str "x", .str "y"]) :=
  ⟨((set_promotion 5
      ⟨parser_of [ev_plain "x", ev_alias "n", ev_plain "y", ev_alias "n", ev_map_end], [],
        [(.str "n", .none)]⟩
      ⟨[], [], [(.str "n", .none)]⟩ [(.str "x", .none), (.str "y", .none)]
      [(.str "x", .none), (.str "y", .none)] true rfl rfl).1 (by decide)).1,
   (set_promotion 5
      ⟨parser_of [ev_plain "a", ev_plain "1", ev_plain "a", ev_alias "n", ev_map_end], [],
        [(.str "n", .none)]⟩
      ⟨[], [], [(.str "n", .none)]⟩ [(.str "a", .str "1"), (.str "a", .none)]
      [(.str "a", .none)] false rfl rfl).2 ⟨(.str "a", .str "1"), by decide, by decide⟩,
   by decide!⟩

/-- C8, counterexample: the document `a: 1, a: ~` is built as the mapping
that binds `a` to `None`, in which every value is `None`, and not as the set
of its keys: the flag `isSet` went down when the value 1 was read. -/
theorem set_promotion_counterexample :
    result_value (_build_document (parser_of [ev_map_start none none, ev_plain "a", ev_plain "1",
        ev_plain "a", ev_plain "~", ev_map_end, ev_mark .YAML_DOCUMENT_END_EVENT]) implicitBuilders)
      = .ok (.dict [(.str "a", .none)])
    ∧ (∀ kv ∈ [(PyObject.str "a", PyObject.none)], kv.2 = PyObject.none)
    ∧ result_value (_build_document (parser_of [ev_map_start none none, ev_plain "a", ev_plain "1",
        ev_plain "a", ev_plain "~", ev_map_end, ev_mark .YAML_DOCUMENT_END_EVENT]) implicitBuilders)
      ≠ .ok (PySet_New [(.str "a", .none)]) := by
  refine ⟨by decide!, by decide, by decide!⟩

/-- C9. A mapping with a value that is not `None` stays a mapping: when the
pairs of a mapping node have been read and processed in order, into the
mapping `M`, and `M` binds some key to a value other than `None`, the node is
built as the dictionary `M`. -/
theorem non_null_stays_mapping (fuel : Nat) (st st1 : BuildState)
    (pairs : List (PyObject × PyObject)) (M : PyDict) (s : Bool)
    (hread : _build_map_read fuel st none = .ok (pairs, st1))
    (hfold : _build_map_fold [] true pairs = .ok (M, s))
    (hv : ∃ kv ∈ M, kv.2 ≠ PyObject.none) :
    _build_map fuel st = .ok (.dict M, st1) := by
  have hs : s = false := by
    cases s with
    | false => rfl
    | true =>
      obtain ⟨kv, hkv, hne⟩ := hv
      exact absurd (fold_flag_up pairs [] true M hfold (fun kv h => by cases h) kv hkv) hne
  subst hs
  simp only [_build_map, build_map_loop_eq_fold fuel st none pairs st1 [] true hread, hfold,
    _build_map_end, Bool.false_eq_true, if_false]

/-- C9, witness: with `n` an anchor bound to `None` and no resolver, the pairs
`x: *n, y: 1` are built as the mapping of `x` to `None` and `y` to the text
`1`; and the document `x: null, y: 1` is built as a mapping by the core
registry. -/
theorem non_null_stays_mapping_witness :
    _build_map 5 ⟨parser_of [ev_plain "x", ev_alias "n", ev_plain "y", ev_plain "1", ev_map_end],
        [], [(.str "n", .none)]⟩
      = .ok (.dict [(.str "x", .none), (.str "y", .str "1")], ⟨[], [], [(.str "n", .none)]⟩)
    ∧ result_value (_build_document (parser_of [ev_map_start none none, ev_plain "x",
        ev_plain "null", ev_plain "y", ev_plain "1", ev_map_end,
        ev_mark .YAML_DOCUMENT_END_EVENT]) implicitBuilders)
      = .ok (.dict [(.str "x", .none), (.str "y", .int 1)]) :=
  ⟨non_null_stays_mapping 5
      ⟨parser_of [ev_plain "x", ev_alias "n", ev_plain "y", ev_plain "1", ev_map_end], [],
        [(.str "n", .none)]⟩
      ⟨[], [], [(.str "n", .none)]⟩ [(.str "x", .none), (.str "y", .str "1")]
      [(.str "x", .none), (.str "y", .str "1")] false rfl rfl
      ⟨(.str "y", .str "1"), by decide, by decide⟩,
   by decide!⟩

/-! ## Anchors and aliases -/

theorem anchor_kept_refl (A : String) (b : Bool) (st : BuildState) : anchor_kept A b st st :=
  ⟨0, rfl, fun _ _ => rfl⟩

theorem anchor_kept_of_eq (A : String) (b : Bool) (st st1 : BuildState)
    (hp : st1.parser = st.parser) (ha : st1.aliases = st.aliases) : anchor_kept A b st st1 :=
  ⟨0, hp, fun _ _ => by rw [ha]⟩

theorem anchor_kept_trans (A : String) (b : Bool) (st st1 st2 : BuildState)
    (h1 : anchor_kept A false st st1) (h2 : anchor_kept A b st1 st2) : anchor_kept A b st st2 := by
  obtain ⟨n, hp1, ha1⟩ := h1
  obtain ⟨m, hp2, ha2⟩ := h2
  refine ⟨n + m, ?_, ?_⟩
  · rw [hp2, hp1, List.drop_drop]
  · intro hb hall
    have h1 : ∀ x ∈ st.parser.take n, binds_anchor A x = false := by
      intro x hx
      apply hall x
      rw [List.take_add]
      exact List.mem_append_left _ hx
    have h2 : ∀ x ∈ st1.parser.take m, binds_anchor A x = false := by
      intro x hx
      apply hall x
      rw [List.take_add, ← hp1]
      exact List.mem_append_right _ hx
    rw [ha2 hb h2, ha1 rfl h1]

/-- Weakening: what holds for an event that does not bind holds for any. -/
theorem anchor_kept_weaken (A : String) (b : Bool) (st st1 : BuildState)
    (h : anchor_kept A false st st1) : anchor_kept A b st st1 := by
  obtain ⟨n, hp, ha⟩ := h
  exact ⟨n, hp, fun _ hall => ha rfl hall⟩

/-- Reading one event: the parser has delivered it, and it binds `A` only if
what was delivered does. -/
theorem parse_next_kept (A : String) (st : BuildState) (done : yaml_event_type_t)
    (status : MinYamlParserStatus) (event : yaml_event_t) (parser : yaml_parser_t)
    (h : _parse_next st.parser done = .ok (status, event, parser)) :
    parser = st.parser.drop 1
      ∧ ((∀ x ∈ st.parser.take 1, binds_anchor A x = false) → binds_anchor A (.ok event) = false) := by
  unfold _parse_next yaml_parser_parse at h
  cases hp : st.parser with
  | nil =>
    rw [hp] at h
    simp only [Except.ok.injEq, Prod.mk.injEq] at h
    obtain ⟨_, rfl, rfl⟩ := h
    exact ⟨rfl, fun _ => rfl⟩
  | cons item rest =>
    rw [hp] at h
    cases item with
    | error e => cases e <;> cases h
    | ok e =>
      simp only [Except.ok.injEq, Prod.mk.injEq] at h
      obtain ⟨_, rfl, rfl⟩ := h
      exact ⟨rfl, fun hall => hall _ (by simp)⟩

theorem save_alias_ok (anchor : Option String) (r : Built) (v : PyObject) (st1 : BuildState)
    (h : _save_alias anchor r = .ok (v, st1)) :
    ∃ st0, r = .ok (v, st0) ∧ st1.parser = st0.parser
      ∧ (anchor = none → st1.aliases = st0.aliases)
      ∧ (∀ a, anchor = some a → st1.aliases = dict_insert st0.aliases (.str a) v) := by
  unfold _save_alias at h
  cases r with
  | error e => cases h
  | ok p =>
    obtain ⟨v0, st0⟩ := p
    cases anchor with
    | none =>
      simp only [Except.ok.injEq, Prod.mk.injEq] at h
      obtain ⟨rfl, rfl⟩ := h
      exact ⟨st0, rfl, rfl, fun _ => rfl, fun a ha => by cases ha⟩
    | some a =>
      simp only [PyDict_SetItemString, PyDict_SetItem, PyObject_hashable, if_true,
        Except.ok.injEq, Prod.mk.injEq] at h
      obtain ⟨rfl, rfl⟩ := h
      refine ⟨st0, rfl, rfl, ?_, ?_⟩
      · intro ha; cases ha
      · intro b hb
        cases hb
        rfl

theorem getitem_insert_str (M : PyDict) (a b : String) (v : PyObject) :
    PyDict_GetItemString (dict_insert M (.str a) v) b
      = if a = b then some v else PyDict_GetItemString M b := by
  unfold PyDict_GetItemString
  rw [getitem_insert]
  by_cases h : a = b
  · subst h
    simp [py_key_eq]
  · have : py_key_eq (.str a) (.str b) = false := by
      simp only [py_key_eq, py_key, decide_eq_false_iff_not]
      intro he
      injection he with he
      injection he with he
      exact h he
    simp [this, h]

/-- Saving under the anchor of an event that does not bind `A` keeps what the
dictionary gives for `A`. -/
theorem save_alias_kept (A : String) (event : yaml_event_t) (hty : event.type ≠ .YAML_ALIAS_EVENT)
    (r : Built) (v : PyObject) (st st1 : BuildState)
    (h : _save_alias event.anchor r = .ok (v, st1))
    (hr : ∀ st0, r = .ok (v, st0) → anchor_kept A false st st0) :
    anchor_kept A (binds_anchor A (.ok event)) st st1 := by
  obtain ⟨st0, hr0, hp, ha0, ha1⟩ := save_alias_ok _ _ _ _ h
  apply anchor_kept_trans A _ st st0 st1 (hr st0 hr0)
  refine ⟨0, hp, fun hb _ => ?_⟩
  cases hanc : event.anchor with
  | none => rw [ha0 hanc]
  | some a =>
    rw [ha1 a hanc, getitem_insert_str]
    have hne : a ≠ A := by
      intro he
      subst he
      simp [binds_anchor, hanc, hty] at hb
    simp [hne]

theorem build_custom_ok (tag : Option String) (bs : List MinYamlBuilders) (src : Built)
    (v : PyObject) (st1 : BuildState) (h : _build_custom tag bs src = .ok (v, st1)) :
    ∃ v0, src = .ok (v0, st1) := by
  unfold _build_custom at h
  simp only at h
  split at h
  · cases h
  · split at h
    · cases h
    · split at h
      · cases h
      · split at h
        · cases h
        · simp only [Except.ok.injEq, Prod.mk.injEq] at h
          exact ⟨_, by rw [← h.2]⟩

theorem build_map_end_ok (r : Except PyExc ((PyDict × Bool) × BuildState)) (v : PyObject)
    (st1 : BuildState) (h : _build_map_end r = .ok (v, st1)) : ∃ q, r = .ok (q, st1) := by
  unfold _build_map_end at h
  split at h
  · cases h
  · split at h <;>
    · simp only [Except.ok.injEq, Prod.mk.injEq] at h
      exact ⟨_, by rw [← h.2]⟩

theorem anchor_kept_read (A : String) (st : BuildState) (parser : yaml_parser_t)
    (hp : parser = st.parser.drop 1) : anchor_kept A false st { st with parser := parser } :=
  ⟨1, hp, fun _ _ => rfl⟩

theorem anchor_kept_read_value (A : String) (b : Bool) (st st1 : BuildState)
    (parser : yaml_parser_t) (hp : parser = st.parser.drop 1)
    (hb : (∀ x ∈ st.parser.take 1, binds_anchor A x = false) → b = false)
    (h : anchor_kept A b { st with parser := parser } st1) : anchor_kept A false st st1 := by
  obtain ⟨n, hp1, ha⟩ := h
  refine ⟨1 + n, ?_, ?_⟩
  · rw [hp1]
    show List.drop n parser = _
    rw [hp, List.drop_drop, Nat.add_comm]
  · intro _ hall
    have h1 : ∀ x ∈ st.parser.take 1, binds_anchor A x = false := by
      intro x hx
      apply hall x
      rw [List.take_add]
      exact List.mem_append_left _ hx
    have h2 : ∀ x ∈ List.take n parser, binds_anchor A x = false := by
      intro x hx
      apply hall x
      rw [List.take_add, ← hp]
      exact List.mem_append_right _ hx
    exact ha (hb h1) h2

theorem step_value (A : String) (fuel : Nat)
    (hseq : ∀ st seq v st1, _build_seq fuel st seq = .ok (v, st1) → anchor_kept A false st st1)
    (hpairs : ∀ st seq key v st1, _build_pairs fuel st seq key = .ok (v, st1) →
      anchor_kept A false st st1)
    (hmap : ∀ st M key isSet q st1, _build_map_loop fuel st M key isSet = .ok (q, st1) →
      anchor_kept A false st st1) :
    ∀ ev st v st1, _build_value (fuel + 1) ev st = .ok (v, st1) →
      anchor_kept A (binds_anchor A (.ok ev)) st st1 := by
  intro ev st v st1 h
  have hmapend : ∀ st0, _build_map_end (_build_map_loop fuel st [] none true) = .ok (v, st0) →
      anchor_kept A false st st0 := by
    intro st0 h0
    obtain ⟨q, hq⟩ := build_map_end_ok _ _ _ h0
    exact hmap _ _ _ _ _ _ hq
  have hmapcustom : ∀ st0, _build_custom ev.tag st.builders
      (_build_map_end (_build_map_loop fuel st [] none true)) = .ok (v, st0) →
      anchor_kept A false st st0 := by
    intro st0 h0
    obtain ⟨v0, hv0⟩ := build_custom_ok _ _ _ _ _ h0
    obtain ⟨q, hq⟩ := build_map_end_ok _ _ _ hv0
    exact hmap _ _ _ _ _ _ hq
  have hseqcustom : ∀ st0, _build_custom ev.tag st.builders (_build_seq fuel st []) = .ok (v, st0) →
      anchor_kept A false st st0 := by
    intro st0 h0
    obtain ⟨v0, hv0⟩ := build_custom_ok _ _ _ _ _ h0
    exact hseq _ _ _ _ hv0
  simp only [_build_value] at h
  split at h
  · rename_i hty
    have hty1 : ev.type ≠ .YAML_ALIAS_EVENT := by rw [hty]; decide
    split at h
    · exact save_alias_kept A ev hty1 _ v st st1 h hmapend
    · split at h
      · exact save_alias_kept A ev hty1 _ v st st1 h hmapend
      · exact save_alias_kept A ev hty1 _ v st st1 h hmapcustom
  · rename_i hty
    have hty1 : ev.type ≠ .YAML_ALIAS_EVENT := by rw [hty]; decide
    split at h
    · exact save_alias_kept A ev hty1 _ v st st1 h (fun st0 h0 => hseq _ _ _ _ h0)
    · split at h
      · exact save_alias_kept A ev hty1 _ v st st1 h (fun st0 h0 => hpairs _ _ _ _ _ h0)
      · exact save_alias_kept A ev hty1 _ v st st1 h hseqcustom
  · rename_i hty
    have hty1 : ev.type ≠ .YAML_ALIAS_EVENT := by rw [hty]; decide
    refine save_alias_kept A ev hty1 _ v st st1 h ?_
    intro st0 h0
    split at h0
    · cases h0
    · simp only [Except.ok.injEq, Prod.mk.injEq] at h0
      obtain ⟨_, rfl⟩ := h0
      exact anchor_kept_of_eq A false st _ rfl rfl
  · split at h
    · cases h
    · simp only [Except.ok.injEq, Prod.mk.injEq] at h
      obtain ⟨_, rfl⟩ := h
      exact anchor_kept_refl A _ st
  · cases h

theorem step_seq (A : String) (fuel : Nat)
    (hval : ∀ ev st v st1, _build_value fuel ev st = .ok (v, st1) →
      anchor_kept A (binds_anchor A (.ok ev)) st st1)
    (hseq : ∀ st seq v st1, _build_seq fuel st seq = .ok (v, st1) → anchor_kept A false st st1) :
    ∀ st seq v st1, _build_seq (fuel + 1) st seq = .ok (v, st1) → anchor_kept A false st st1 := by
  intro st seq v st1 h
  simp only [_build_seq] at h
  cases hn : _parse_next st.parser .YAML_SEQUENCE_END_EVENT with
  | error e => rw [hn] at h; cases h
  | ok r =>
    obtain ⟨status, event, parser⟩ := r
    obtain ⟨hp, hb⟩ := parse_next_kept A st _ _ _ _ hn
    rw [hn] at h
    simp only at h
    split at h
    · cases hv : _build_value fuel event { st with parser := parser } with
      | error e => rw [hv] at h; cases h
      | ok r =>
        obtain ⟨value, st2⟩ := r
        rw [hv] at h
        exact anchor_kept_trans A false st st2 st1
          (anchor_kept_read_value A _ st st2 parser hp hb (hval _ _ _ _ hv)) (hseq _ _ _ _ h)
    · simp only [Except.ok.injEq, Prod.mk.injEq] at h
      obtain ⟨_, rfl⟩ := h
      exact anchor_kept_read A st parser hp

theorem step_map (A : String) (fuel : Nat)
    (hval : ∀ ev st v st1, _build_value fuel ev st = .ok (v, st1) →
      anchor_kept A (binds_anchor A (.ok ev)) st st1)
    (hmap : ∀ st M key isSet q st1, _build_map_loop fuel st M key isSet = .ok (q, st1) →
      anchor_kept A false st st1) :
    ∀ st M key isSet q st1, _build_map_loop (fuel + 1) st M key isSet = .ok (q, st1) →
      anchor_kept A false st st1 := by
  intro st M key isSet q st1 h
  simp only [_build_map_loop] at h
  cases hn : _parse_next st.parser .YAML_MAPPING_END_EVENT with
  | error e => rw [hn] at h; cases h
  | ok r =>
    obtain ⟨status, event, parser⟩ := r
    obtain ⟨hp, hb⟩ := parse_next_kept A st _ _ _ _ hn
    rw [hn] at h
    simp only at h
    split at h
    · cases hv : _build_value fuel event { st with parser := parser } with
      | error e => rw [hv] at h; cases key <;> cases h
      | ok r =>
        obtain ⟨value, st2⟩ := r
        rw [hv] at h
        have h2 := anchor_kept_read_value A _ st st2 parser hp hb (hval _ _ _ _ hv)
        cases key with
        | none => exact anchor_kept_trans A false st st2 st1 h2 (hmap _ _ _ _ _ _ h)
        | some k =>
          simp only at h
          split at h
          · cases h
          · exact anchor_kept_trans A false st st2 st1 h2 (hmap _ _ _ _ _ _ h)
    · simp only [Except.ok.injEq, Prod.mk.injEq] at h
      obtain ⟨_, rfl⟩ := h
      exact anchor_kept_read A st parser hp

theorem step_pairs (A : String) (fuel : Nat)
    (hval : ∀ ev st v st1, _build_value fuel ev st = .ok (v, st1) →
      anchor_kept A (binds_anchor A (.ok ev)) st st1)
    (hpairs : ∀ st seq key v st1, _build_pairs fuel st seq key = .ok (v, st1) →
      anchor_kept A false st st1) :
    ∀ st seq key v st1, _build_pairs (fuel + 1) st seq key = .ok (v, st1) →
      anchor_kept A false st st1 := by
  intro st seq key v st1 h
  simp only [_build_pairs] at h
  cases hn : _parse_next st.parser .YAML_SEQUENCE_END_EVENT with
  | error e => rw [hn] at h; cases h
  | ok r =>
    obtain ⟨status, event, parser⟩ := r
    obtain ⟨hp, hb⟩ := parse_next_kept A st _ _ _ _ hn
    have hread := anchor_kept_read A st parser hp
    rw [hn] at h
    simp only at h
    split at h
    · cases key with
      | none =>
        simp only at h
        split at h
        · cases h
        · cases hn1 : _parse_next parser .YAML_SEQUENCE_END_EVENT with
          | error e => rw [hn1] at h; cases h
          | ok r1 =>
            obtain ⟨status1, event1, parser1⟩ := r1
            obtain ⟨hp1, hb1⟩ := parse_next_kept A { st with parser := parser } _ _ _ _ hn1
            rw [hn1] at h
            simp only at h
            split at h
            · cases hv : _build_value fuel event1 { st with parser := parser1 } with
              | error e => rw [hv] at h; cases h
              | ok r2 =>
                obtain ⟨key1, st2⟩ := r2
                rw [hv] at h
                have h2 := anchor_kept_read_value A _ { st with parser := parser } st2 parser1
                  hp1 hb1 (hval _ _ _ _ hv)
                exact anchor_kept_trans A false st _ st1 hread
                  (anchor_kept_trans A false _ st2 st1 h2 (hpairs _ _ _ _ _ h))
            · simp only [Except.ok.injEq, Prod.mk.injEq] at h
              obtain ⟨_, rfl⟩ := h
              exact anchor_kept_trans A false st _ _ hread
                (anchor_kept_read A { st with parser := parser } parser1 hp1)
      | some k =>
        simp only at h
        cases hv : _build_value fuel event { st with parser := parser } with
        | error e => rw [hv] at h; cases h
        | ok r2 =>
          obtain ⟨value, st2⟩ := r2
          rw [hv] at h
          have h2 := anchor_kept_read_value A _ st st2 parser hp hb (hval _ _ _ _ hv)
          simp only at h
          cases hn2 : _parse_next st2.parser .YAML_SEQUENCE_END_EVENT with
          | error e => rw [hn2] at h; cases h
          | ok r3 =>
            obtain ⟨status2, event2, parser2⟩ := r3
            obtain ⟨hp2, _⟩ := parse_next_kept A st2 _ _ _ _ hn2
            have hread2 := anchor_kept_read A st2 parser2 hp2
            rw [hn2] at h
            simp only at h
            split at h
            · cases h
            · split at h
              · simp only [Except.ok.injEq, Prod.mk.injEq] at h
                obtain ⟨_, rfl⟩ := h
                exact anchor_kept_trans A false st st2 _ h2 hread2
              · exact anchor_kept_trans A false st st2 st1 h2
                  (anchor_kept_trans A false st2 _ st1 hread2 (hpairs _ _ _ _ _ h))
    · simp only [Except.ok.injEq, Prod.mk.injEq] at h
      obtain ⟨_, rfl⟩ := h
      exact hread

/-- Building keeps what the alias dictionary gives for an anchor that no
event built binds: for each of the four builders. -/
theorem builders_keep_anchor (A : String) : ∀ fuel : Nat,
    (∀ ev st v st1, _build_value fuel ev st = .ok (v, st1) →
      anchor_kept A (binds_anchor A (.ok ev)) st st1)
    ∧ (∀ st seq v st1, _build_seq fuel st seq = .ok (v, st1) → anchor_kept A false st st1)
    ∧ (∀ st seq key v st1, _build_pairs fuel st seq key = .ok (v, st1) →
      anchor_kept A false st st1)
    ∧ (∀ st M key isSet q st1, _build_map_loop fuel st M key isSet = .ok (q, st1) →
      anchor_kept A false st st1) := by
  intro fuel
  induction fuel with
  | zero =>
    refine ⟨?_, ?_, ?_, ?_⟩
    · intro ev st v st1 h; simp only [_build_value] at h; cases h
    · intro st seq v st1 h; simp only [_build_seq] at h; cases h
    · intro st seq key v st1 h; simp only [_build_pairs] at h; cases h
    · intro st M key isSet q st1 h; simp only [_build_map_loop] at h; cases h
  | succ fuel ih =>
    obtain ⟨hval, hseq, hpairs, hmap⟩ := ih
    exact ⟨step_value A fuel hseq hpairs hmap, step_seq A fuel hval hseq,
      step_pairs A fuel hval hpairs, step_map A fuel hval hmap⟩

/-- The node of an event that carries an anchor is stored under it. -/
theorem build_value_binds (A : String) (fuel : Nat) (ev : yaml_event_t) (st st1 : BuildState)
    (V : PyObject) (hA : ev.anchor = some A) (hty : ev.type ≠ .YAML_ALIAS_EVENT)
    (h : _build_value fuel ev st = .ok (V, st1)) :
    PyDict_GetItemString st1.aliases A = some V := by
  cases fuel with
  | zero => simp only [_build_value] at h; cases h
  | succ fuel =>
    have hsave : ∀ r, _save_alias ev.anchor r = .ok (V, st1) →
        PyDict_GetItemString st1.aliases A = some V := by
      intro r hr
      obtain ⟨st0, _, _, _, ha⟩ := save_alias_ok _ _ _ _ hr
      rw [ha A hA, getitem_insert_str]
      simp
    simp only [_build_value] at h
    split at h
    · split at h
      · exact hsave _ h
      · split at h
        · exact hsave _ h
        · exact hsave _ h
    · split at h
      · exact hsave _ h
      · split at h
        · exact hsave _ h
        · exact hsave _ h
    · exact hsave _ h
    · rename_i hty1
      exact absurd hty1 hty
    · cases h

theorem build_alias (A : String) (f : Nat) (st : BuildState) (V : PyObject)
    (h : PyDict_GetItemString st.aliases A = some V) :
    _build_value (f + 1) (ev_alias A) st = .ok (V, st) := by
  simp only [_build_value, ev_alias, _load_alias, Option.getD_some, h]

theorem build_value_not_end (fuel : Nat) (ev : yaml_event_t) (st st1 : BuildState) (V : PyObject)
    (h : _build_value fuel ev st = .ok (V, st1)) : ev.type ≠ .YAML_SEQUENCE_END_EVENT := by
  cases fuel with
  | zero => simp only [_build_value] at h; cases h
  | succ fuel =>
    simp only [_build_value] at h
    split at h
    · rename_i hty; rw [hty]; decide
    · rename_i hty; rw [hty]; decide
    · rename_i hty; rw [hty]; decide
    · rename_i hty; rw [hty]; decide
    · cases h

/-- C10. Alias identity: when the node of an event that carries the anchor
`A` has been built to the value `V`, the alias dictionary gives `V` for `A`.
In any later state in which the dictionary still gives for `A` what it gave
then, an alias event for `A` is built to `V` and leaves the state as it is.
The dictionary still gives it after any node has been built whose events do
not bind `A`.  In a sequence, an item with the anchor `A` followed by the
alias `A` appends `V` twice. -/
theorem alias_identity (A : String) (fuel : Nat) (ev : yaml_event_t) (st st1 : BuildState)
    (V : PyObject) (hA : ev.anchor = some A) (hty : ev.type ≠ .YAML_ALIAS_EVENT)
    (hbuild : _build_value fuel ev st = .ok (V, st1)) :
    _load_alias st1.aliases A = .ok V
    ∧ (∀ (f : Nat) (st2 : BuildState),
        PyDict_GetItemString st2.aliases A = PyDict_GetItemString st1.aliases A →
        _build_value (f + 1) (ev_alias A) st2 = .ok (V, st2))
    ∧ (∀ (f : Nat) (e : yaml_event_t) (sa sb : BuildState) (v : PyObject),
        _build_value f e sa = .ok (v, sb) →
        ∃ n, sb.parser = sa.parser.drop n
          ∧ (binds_anchor A (.ok e) = false →
              (∀ x ∈ sa.parser.take n, binds_anchor A x = false) →
              PyDict_GetItemString sb.aliases A = PyDict_GetItemString sa.aliases A))
    ∧ (∀ (f : Nat) (s0 : BuildState) (seq : List PyObject) (rest : yaml_parser_t),
        fuel = f + 2 → s0.parser = .ok ev :: st.parser → s0.builders = st.builders →
        s0.aliases = st.aliases → st1.parser = .ok (ev_alias A) :: rest →
        _build_seq (f + 3) s0 seq
          = _build_seq (f + 1) { st1 with parser := rest } (seq ++ [V] ++ [V])) := by
  have hget := build_value_binds A fuel ev st st1 V hA hty hbuild
  refine ⟨?_, ?_, ?_, ?_⟩
  · simp only [_load_alias, hget]
  · intro f st2 h
    exact build_alias A f st2 V (h.trans hget)
  · intro f e sa sb v h
    exact (builders_keep_anchor A f).1 e sa v sb h
  · intro f s0 seq rest hf hp hb ha hp1
    have hne := build_value_not_end fuel ev st st1 V hbuild
    subst hf
    have hs0 : ({ s0 with parser := st.parser } : BuildState) = st := by
      cases st; cases s0; simp_all
    have h1 : _build_seq (f + 3) s0 seq = _build_seq (f + 2) st1 (seq ++ [V]) := by
      rw [_build_seq]
      simp only [_parse_next, yaml_parser_parse, hp, hne, if_false, if_true, hs0, hbuild]
    have h2 : _build_seq (f + 2) st1 (seq ++ [V])
        = _build_seq (f + 1) { st1 with parser := rest } (seq ++ [V] ++ [V]) := by
      rw [_build_seq]
      have hal : (ev_alias A).type ≠ .YAML_SEQUENCE_END_EVENT := by
        simp [ev_alias]
      simp only [_parse_next, yaml_parser_parse, hp1, hal, if_false, if_true,
        build_alias A f { st1 with parser := rest } V hget]
    rw [h1, h2]

/-- C10, witness: the scalar `x` with the anchor `a` is stored under `a`, the
alias `a` behind it is built to the same text, in a sequence the two give two
equal items; and the documents `[&a x, *a]` and `[&a (k: 1), b, *a]` are built
with equal items at the anchor and at the alias. -/
theorem alias_identity_witness :
    _load_alias [(.str "a", .str "x")] "a" = .ok (.str "x")
    ∧ _build_value 1 (ev_alias "a") ⟨parser_of [ev_seq_end], [], [(.str "a", .str "x")]⟩
      = .ok (.str "x", ⟨parser_of [ev_seq_end], [], [(.str "a", .str "x")]⟩)
    ∧ _build_seq 3 ⟨parser_of [ev_scalar "x" none (some "a"), ev_alias "a", ev_seq_end], [], []⟩ []
      = _build_seq 1 ⟨parser_of [ev_seq_end], [], [(.str "a", .str "x")]⟩ [.str "x", .str "x"]
    ∧ result_value (_build_document (parser_of [ev_seq_start none none,
        ev_scalar "x" none (some "a"), ev_alias "a", ev_seq_end,
        ev_mark .YAML_DOCUMENT_END_EVENT]) implicitBuilders)
      = .ok (.list [.str "x", .str "x"])
    ∧ result_value (_build_document (parser_of [ev_seq_start none none,
        ev_map_start none (some "a"), ev_plain "k", ev_plain "1", ev_map_end, ev_plain "b",
        ev_alias "a", ev_seq_end, ev_mark .YAML_DOCUMENT_END_EVENT]) implicitBuilders)
      = .ok (.list [.dict [(.str "k", .int 1)], .str "b", .dict [(.str "k", .int 1)]]) :=
  ⟨(alias_identity "a" 2 (ev_scalar "x" none (some "a"))
      ⟨parser_of [ev_alias "a", ev_seq_end], [], []⟩
      ⟨parser_of [ev_alias "a", ev_seq_end], [], [(.str "a", .str "x")]⟩ (.str "x") rfl
      (by decide) rfl).1,
   (alias_identity "a" 2 (ev_scalar "x" none (some "a"))
      ⟨parser_of [ev_alias "a", ev_seq_end], [], []⟩
      ⟨parser_of [ev_alias "a", ev_seq_end], [], [(.str "a", .str "x")]⟩ (.str "x") rfl
      (by decide) rfl).2.1 0 ⟨parser_of [ev_seq_end], [], [(.str "a", .str "x")]⟩ rfl,
   (alias_identity "a" 2 (ev_scalar "x" none (some "a"))
      ⟨parser_of [ev_alias "a", ev_seq_end], [], []⟩
      ⟨parser_of [ev_alias "a", ev_seq_end], [], [(.str "a", .str "x")]⟩ (.str "x") rfl
      (by decide) rfl).2.2.2 0
      ⟨parser_of [ev_scalar "x" none (some "a"), ev_alias "a", ev_seq_end], [], []⟩ []
      (parser_of [ev_seq_end]) rfl rfl rfl rfl rfl,
   by decide!, by decide!⟩

/-! ## More fuel, and what building does to the alias dictionary -/

theorem lift_ok {α β : Type} (F : Except PyExc α → Except PyExc β)
    (hF : ∀ e r, F (.error e) ≠ .ok r) (X X1 : Except PyExc α) (r : β)
    (h : F X = .ok r) (hX : ∀ q, X = .ok q → X1 = .ok q) : F X1 = .ok r := by
  cases X with
  | error e => exact absurd h (hF e r)
  | ok q => rw [hX q rfl]; exact h

theorem save_alias_error (anchor : Option String) (e : PyExc) (r : PyObject × BuildState) :
    _save_alias anchor (.error e) ≠ .ok r := by
  intro h; cases h

theorem build_custom_error (tag : Option String) (bs : List MinYamlBuilders) (e : PyExc)
    (r : PyObject × BuildState) : _build_custom tag bs (.error e) ≠ .ok r := by
  intro h
  obtain ⟨v0, hv⟩ := build_custom_ok tag bs (.error e) r.1 r.2 h
  cases hv

theorem build_map_end_error (e : PyExc) (r : PyObject × BuildState) :
    _build_map_end (.error e) ≠ .ok r := by
  intro h; cases h

theorem fuel_step_value (fuel : Nat)
    (hseq : ∀ st seq r, _build_seq fuel st seq = .ok r → _build_seq (fuel + 1) st seq = .ok r)
    (hpairs : ∀ st seq key r, _build_pairs fuel st seq key = .ok r →
      _build_pairs (fuel + 1) st seq key = .ok r)
    (hmap : ∀ st M key isSet r, _build_map_loop fuel st M key isSet = .ok r →
      _build_map_loop (fuel + 1) st M key isSet = .ok r) :
    ∀ ev st r, _build_value (fuel + 1) ev st = .ok r → _build_value (fuel + 2) ev st = .ok r := by
  intro ev st r h
  have hm := lift_ok (fun x => _save_alias ev.anchor (_build_map_end x))
    (fun e r => save_alias_error _ e r) (_build_map_loop fuel st [] none true)
    (_build_map_loop (fuel + 1) st [] none true) r
  have hmc := lift_ok (fun x => _save_alias ev.anchor (_build_custom ev.tag st.builders (_build_map_end x)))
    (fun e r h => by
      cases hc : _build_custom ev.tag st.builders (_build_map_end (Except.error e)) with
      | error e1 => simp only [hc] at h; cases h
      | ok q => exact build_custom_error _ _ _ _ hc)
    (_build_map_loop fuel st [] none true) (_build_map_loop (fuel + 1) st [] none true) r
  have hs := lift_ok (fun x => _save_alias ev.anchor x)
    (fun e r => save_alias_error _ e r) (_build_seq fuel st []) (_build_seq (fuel + 1) st []) r
  have hp := lift_ok (fun x => _save_alias ev.anchor x)
    (fun e r => save_alias_error _ e r) (_build_pairs fuel st [] none)
    (_build_pairs (fuel + 1) st [] none) r
  have hsc := lift_ok (fun x => _save_alias ev.anchor (_build_custom ev.tag st.builders x))
    (fun e r h => by
      cases hc : _build_custom ev.tag st.builders (Except.error e) with
      | error e1 => simp only [hc] at h; cases h
      | ok q => exact build_custom_error _ _ _ _ hc)
    (_build_seq fuel st []) (_build_seq (fuel + 1) st []) r
  simp only [_build_value] at h ⊢
  split
  · rename_i hty
    rw [hty] at h
    simp only at h
    split
    · rename_i hc; rw [if_pos hc] at h
      exact hm h (fun q hq => hmap _ _ _ _ _ hq)
    · rename_i hc; rw [if_neg hc] at h
      split
      · rename_i hc2; rw [if_pos hc2] at h
        exact hm h (fun q hq => hmap _ _ _ _ _ hq)
      · rename_i hc2; rw [if_neg hc2] at h
        exact hmc h (fun q hq => hmap _ _ _ _ _ hq)
  · rename_i hty
    rw [hty] at h
    simp only at h
    split
    · rename_i hc; rw [if_pos hc] at h
      exact hs h (fun q hq => hseq _ _ _ hq)
    · rename_i hc; rw [if_neg hc] at h
      split
      · rename_i hc2; rw [if_pos hc2] at h
        exact hp h (fun q hq => hpairs _ _ _ _ hq)
      · rename_i hc2; rw [if_neg hc2] at h
        exact hsc h (fun q hq => hseq _ _ _ hq)
  · rename_i hty
    rw [hty] at h
    exact h
  · rename_i hty
    rw [hty] at h
    exact h
  · rename_i h1 h2 h3 h4
    split at h
    · exact absurd (by assumption) h1
    · exact absurd (by assumption) h2
    · exact absurd (by assumption) h3
    · exact absurd (by assumption) h4
    · cases h

theorem fuel_step_seq (fuel : Nat)
    (hval : ∀ ev st r, _build_value fuel ev st = .ok r → _build_value (fuel + 1) ev st = .ok r)
    (hseq : ∀ st seq r, _build_seq fuel st seq = .ok r → _build_seq (fuel + 1) st seq = .ok r) :
    ∀ st seq r, _build_seq (fuel + 1) st seq = .ok r → _build_seq (fuel + 2) st seq = .ok r := by
  intro st seq r h
  rw [_build_seq] at h ⊢
  cases hn : _parse_next st.parser .YAML_SEQUENCE_END_EVENT with
  | error e => rw [hn] at h; cases h
  | ok q =>
    obtain ⟨status, event, parser⟩ := q
    rw [hn] at h
    simp only at h ⊢
    by_cases hs : status = .BLOCK_PROCEED
    · simp only [hs, if_true] at h ⊢
      cases hv : _build_value fuel event { st with parser := parser } with
      | error e => rw [hv] at h; cases h
      | ok q1 =>
        obtain ⟨v, st1⟩ := q1
        rw [hv] at h
        rw [hval _ _ _ hv]
        exact hseq _ _ _ h
    · simp only [hs, if_false] at h ⊢
      exact h

theorem fuel_step_map (fuel : Nat)
    (hval : ∀ ev st r, _build_value fuel ev st = .ok r → _build_value (fuel + 1) ev st = .ok r)
    (hmap : ∀ st M key isSet r, _build_map_loop fuel st M key isSet = .ok r →
      _build_map_loop (fuel + 1) st M key isSet = .ok r) :
    ∀ st M key isSet r, _build_map_loop (fuel + 1) st M key isSet = .ok r →
      _build_map_loop (fuel + 2) st M key isSet = .ok r := by
  intro st M key isSet r h
  rw [_build_map_loop] at h ⊢
  cases hn : _parse_next st.parser .YAML_MAPPING_END_EVENT with
  | error e => rw [hn] at h; cases h
  | ok q =>
    obtain ⟨status, event, parser⟩ := q
    rw [hn] at h
    simp only at h ⊢
    by_cases hs : status = .BLOCK_PROCEED
    · simp only [hs, if_true] at h ⊢
      cases hv : _build_value fuel event { st with parser := parser } with
      | error e => rw [hv] at h; cases key <;> cases h
      | ok q1 =>
        obtain ⟨v, st1⟩ := q1
        rw [hv] at h
        rw [hval _ _ _ hv]
        cases key with
        | none => exact hmap _ _ _ _ _ h
        | some k =>
          simp only at h ⊢
          cases hp : _build_map_pair M k v with
          | error e => rw [hp] at h; cases h
          | ok M1 =>
            rw [hp] at h
            exact hmap _ _ _ _ _ h
    · simp only [hs, if_false] at h ⊢
      exact h

theorem fuel_step_pairs (fuel : Nat)
    (hval : ∀ ev st r, _build_value fuel ev st = .ok r → _build_value (fuel + 1) ev st = .ok r)
    (hpairs : ∀ st seq key r, _build_pairs fuel st seq key = .ok r →
      _build_pairs (fuel + 1) st seq key = .ok r) :
    ∀ st seq key r, _build_pairs (fuel + 1) st seq key = .ok r →
      _build_pairs (fuel + 2) st seq key = .ok r := by
  intro st seq key r h
  rw [_build_pairs] at h ⊢
  cases hn : _parse_next st.parser .YAML_SEQUENCE_END_EVENT with
  | error e => rw [hn] at h; cases h
  | ok q =>
    obtain ⟨status, event, parser⟩ := q
    rw [hn] at h
    simp only at h ⊢
    by_cases hs : status = .BLOCK_PROCEED
    · simp only [hs, if_true] at h ⊢
      cases key with
      | none =>
        simp only at h ⊢
        by_cases hty : event.type ≠ .YAML_MAPPING_START_EVENT
        · rw [if_pos hty] at h; cases h
        · rw [if_neg hty] at h ⊢
          cases hn1 : _parse_next parser .YAML_SEQUENCE_END_EVENT with
          | error e => rw [hn1] at h; cases h
          | ok q1 =>
            obtain ⟨status1, event1, parser1⟩ := q1
            rw [hn1] at h
            simp only at h ⊢
            by_cases hs1 : status1 = .BLOCK_PROCEED
            · simp only [hs1, if_true] at h ⊢
              cases hv : _build_value fuel event1 { st with parser := parser1 } with
              | error e => rw [hv] at h; cases h
              | ok q2 =>
                obtain ⟨k, st1⟩ := q2
                rw [hv] at h
                rw [hval _ _ _ hv]
                exact hpairs _ _ _ _ h
            · simp only [hs1, if_false] at h ⊢
              exact h
      | some k =>
        simp only at h ⊢
        cases hv : _build_value fuel event { st with parser := parser } with
        | error e => rw [hv] at h; cases h
        | ok q2 =>
          obtain ⟨v, st1⟩ := q2
          rw [hv] at h
          rw [hval _ _ _ hv]
          simp only at h ⊢
          cases hn2 : _parse_next st1.parser .YAML_SEQUENCE_END_EVENT with
          | error e => rw [hn2] at h; cases h
          | ok q3 =>
            obtain ⟨status2, event2, parser2⟩ := q3
            rw [hn2] at h
            simp only at h ⊢
            by_cases hty : event2.type ≠ .YAML_MAPPING_END_EVENT
            · rw [if_pos hty] at h; cases h
            · rw [if_neg hty] at h ⊢
              by_cases hs2 : status2 = .BLOCK_DONE
              · rw [if_pos hs2] at h ⊢
                exact h
              · rw [if_neg hs2] at h ⊢
                exact hpairs _ _ _ _ h
    · simp only [hs, if_false] at h ⊢
      exact h

/-- More fuel gives the same result: a value built with some bound on the
depth of the recursion is built with the next bound, for each of the four
builders. -/
theorem fuel_succ : ∀ fuel : Nat,
    (∀ ev st r, _build_value fuel ev st = .ok r → _build_value (fuel + 1) ev st = .ok r)
    ∧ (∀ st seq r, _build_seq fuel st seq = .ok r → _build_seq (fuel + 1) st seq = .ok r)
    ∧ (∀ st seq key r, _build_pairs fuel st seq key = .ok r →
      _build_pairs (fuel + 1) st seq key = .ok r)
    ∧ (∀ st M key isSet r, _build_map_loop fuel st M key isSet = .ok r →
      _build_map_loop (fuel + 1) st M key isSet = .ok r) := by
  intro fuel
  induction fuel with
  | zero =>
    refine ⟨?_, ?_, ?_, ?_⟩
    · intro ev st r h; simp only [_build_value] at h; cases h
    · intro st seq r h; simp only [_build_seq] at h; cases h
    · intro st seq key r h; simp only [_build_pairs] at h; cases h
    · intro st M key isSet r h; simp only [_build_map_loop] at h; cases h
  | succ fuel ih =>
    obtain ⟨hval, hseq, hpairs, hmap⟩ := ih
    exact ⟨fuel_step_value fuel hseq hpairs hmap, fuel_step_seq fuel hval hseq,
      fuel_step_pairs fuel hval hpairs, fuel_step_map fuel hval hmap⟩

theorem build_value_mono {f g : Nat} (hfg : f ≤ g) (ev : yaml_event_t) (st : BuildState)
    (r : PyObject × BuildState) (h : _build_value f ev st = .ok r) :
    _build_value g ev st = .ok r := by
  induction hfg with
  | refl => exact h
  | step _ ih => exact (fuel_succ _).1 ev st r ih

theorem build_seq_mono {f g : Nat} (hfg : f ≤ g) (st : BuildState) (seq : List PyObject)
    (r : PyObject × BuildState) (h : _build_seq f st seq = .ok r) :
    _build_seq g st seq = .ok r := by
  induction hfg with
  | refl => exact h
  | step _ ih => exact (fuel_succ _).2.1 st seq r ih

theorem build_pairs_mono {f g : Nat} (hfg : f ≤ g) (st : BuildState) (seq : List PyObject)
    (key : Option PyObject) (r : PyObject × BuildState) (h : _build_pairs f st seq key = .ok r) :
    _build_pairs g st seq key = .ok r := by
  induction hfg with
  | refl => exact h
  | step _ ih => exact (fuel_succ _).2.2.1 st seq key r ih

theorem build_map_loop_mono {f g : Nat} (hfg : f ≤ g) (st : BuildState) (M : PyDict)
    (key : Option PyObject) (isSet : Bool) (r : (PyDict × Bool) × BuildState)
    (h : _build_map_loop f st M key isSet = .ok r) :
    _build_map_loop g st M key isSet = .ok r := by
  induction hfg with
  | refl => exact h
  | step _ ih => exact (fuel_succ _).2.2.2 st M key isSet r ih

theorem save_alias_rel (Q : PyDict → PyDict → Prop) (hrefl : ∀ a, Q a a)
    (htrans : ∀ a b c, Q a b → Q b c → Q a c)
    (hins : ∀ al a v, Q al (dict_insert al (.str a) v))
    (anchor : Option String) (r : Built) (v : PyObject) (st st1 : BuildState)
    (h : _save_alias anchor r = .ok (v, st1))
    (hr : ∀ st0, r = .ok (v, st0) → Q st.aliases st0.aliases) : Q st.aliases st1.aliases := by
  obtain ⟨st0, hr0, _, ha0, ha1⟩ := save_alias_ok _ _ _ _ h
  apply htrans _ _ _ (hr st0 hr0)
  cases anchor with
  | none => rw [ha0 rfl]; exact hrefl _
  | some a => rw [ha1 a rfl]; exact hins _ _ _

theorem rel_step_value (Q : PyDict → PyDict → Prop) (hrefl : ∀ a, Q a a)
    (htrans : ∀ a b c, Q a b → Q b c → Q a c)
    (hins : ∀ al a v, Q al (dict_insert al (.str a) v)) (fuel : Nat)
    (hseq : ∀ st seq v st1, _build_seq fuel st seq = .ok (v, st1) → Q st.aliases st1.aliases)
    (hpairs : ∀ st seq key v st1, _build_pairs fuel st seq key = .ok (v, st1) →
      Q st.aliases st1.aliases)
    (hmap : ∀ st M key isSet q st1, _build_map_loop fuel st M key isSet = .ok (q, st1) →
      Q st.aliases st1.aliases) :
    ∀ ev st v st1, _build_value (fuel + 1) ev st = .ok (v, st1) → Q st.aliases st1.aliases := by
  intro ev st v st1 h
  have hsave := save_alias_rel Q hrefl htrans hins ev.anchor
  have hmapend : ∀ st0, _build_map_end (_build_map_loop fuel st [] none true) = .ok (v, st0) →
      Q st.aliases st0.aliases := by
    intro st0 h0
    obtain ⟨q, hq⟩ := build_map_end_ok _ _ _ h0
    exact hmap _ _ _ _ _ _ hq
  have hmapcustom : ∀ st0, _build_custom ev.tag st.builders
      (_build_map_end (_build_map_loop fuel st [] none true)) = .ok (v, st0) →
      Q st.aliases st0.aliases := by
    intro st0 h0
    obtain ⟨v0, hv0⟩ := build_custom_ok _ _ _ _ _ h0
    obtain ⟨q, hq⟩ := build_map_end_ok _ _ _ hv0
    exact hmap _ _ _ _ _ _ hq
  have hseqcustom : ∀ st0, _build_custom ev.tag st.builders (_build_seq fuel st []) = .ok (v, st0) →
      Q st.aliases st0.aliases := by
    intro st0 h0
    obtain ⟨v0, hv0⟩ := build_custom_ok _ _ _ _ _ h0
    exact hseq _ _ _ _ hv0
  simp only [_build_value] at h
  split at h
  · split at h
    · exact hsave _ v st st1 h hmapend
    · split at h
      · exact hsave _ v st st1 h hmapend
      · exact hsave _ v st st1 h hmapcustom
  · split at h
    · exact hsave _ v st st1 h (fun st0 h0 => hseq _ _ _ _ h0)
    · split at h
      · exact hsave _ v st st1 h (fun st0 h0 => hpairs _ _ _ _ _ h0)
      · exact hsave _ v st st1 h hseqcustom
  · refine hsave _ v st st1 h ?_
    intro st0 h0
    split at h0
    · cases h0
    · simp only [Except.ok.injEq, Prod.mk.injEq] at h0
      obtain ⟨_, rfl⟩ := h0
      exact hrefl _
  · split at h
    · cases h
    · simp only [Except.ok.injEq, Prod.mk.injEq] at h
      obtain ⟨_, rfl⟩ := h
      exact hrefl _
  · cases h

theorem rel_step_seq (Q : PyDict → PyDict → Prop)
    (htrans : ∀ a b c, Q a b → Q b c → Q a c) (hrefl : ∀ a, Q a a) (fuel : Nat)
    (hval : ∀ ev st v st1, _build_value fuel ev st = .ok (v, st1) → Q st.aliases st1.aliases)
    (hseq : ∀ st seq v st1, _build_seq fuel st seq = .ok (v, st1) → Q st.aliases st1.aliases) :
    ∀ st seq v st1, _build_seq (fuel + 1) st seq = .ok (v, st1) → Q st.aliases st1.aliases := by
  intro st seq v st1 h
  simp only [_build_seq] at h
  cases hn : _parse_next st.parser .YAML_SEQUENCE_END_EVENT with
  | error e => rw [hn] at h; cases h
  | ok r =>
    obtain ⟨status, event, parser⟩ := r
    rw [hn] at h
    simp only at h
    split at h
    · cases hv : _build_value fuel event { st with parser := parser } with
      | error e => rw [hv] at h; cases h
      | ok r =>
        obtain ⟨value, st2⟩ := r
        rw [hv] at h
        exact htrans _ _ _ (hval _ { st with parser := parser } _ _ hv) (hseq _ _ _ _ h)
    · simp only [Except.ok.injEq, Prod.mk.injEq] at h
      obtain ⟨_, rfl⟩ := h
      exact hrefl _

theorem rel_step_map (Q : PyDict → PyDict → Prop)
    (htrans : ∀ a b c, Q a b → Q b c → Q a c) (hrefl : ∀ a, Q a a) (fuel : Nat)
    (hval : ∀ ev st v st1, _build_value fuel ev st = .ok (v, st1) → Q st.aliases st1.aliases)
    (hmap : ∀ st M key isSet q st1, _build_map_loop fuel st M key isSet = .ok (q, st1) →
      Q st.aliases st1.aliases) :
    ∀ st M key isSet q st1, _build_map_loop (fuel + 1) st M key isSet = .ok (q, st1) →
      Q st.aliases st1.aliases := by
  intro st M key isSet q st1 h
  simp only [_build_map_loop] at h
  cases hn : _parse_next st.parser .YAML_MAPPING_END_EVENT with
  | error e => rw [hn] at h; cases h
  | ok r =>
    obtain ⟨status, event, parser⟩ := r
    rw [hn] at h
    simp only at h
    split at h
    · cases hv : _build_value fuel event { st with parser := parser } with
      | error e => rw [hv] at h; cases key <;> cases h
      | ok r =>
        obtain ⟨value, st2⟩ := r
        rw [hv] at h
        have h2 : Q st.aliases st2.aliases := hval _ { st with parser := parser } _ _ hv
        cases key with
        | none => exact htrans _ _ _ h2 (hmap _ _ _ _ _ _ h)
        | some k =>
          simp only at h
          split at h
          · cases h
          · exact htrans _ _ _ h2 (hmap _ _ _ _ _ _ h)
    · simp only [Except.ok.injEq, Prod.mk.injEq] at h
      obtain ⟨_, rfl⟩ := h
      exact hrefl _

theorem rel_step_pairs (Q : PyDict → PyDict → Prop)
    (htrans : ∀ a b c, Q a b → Q b c → Q a c) (hrefl : ∀ a, Q a a) (fuel : Nat)
    (hval : ∀ ev st v st1, _build_value fuel ev st = .ok (v, st1) → Q st.aliases st1.aliases)
    (hpairs : ∀ st seq key v st1, _build_pairs fuel st seq key = .ok (v, st1) →
      Q st.aliases st1.aliases) :
    ∀ st seq key v st1, _build_pairs (fuel + 1) st seq key = .ok (v, st1) →
      Q st.aliases st1.aliases := by
  intro st seq key v st1 h
  simp only [_build_pairs] at h
  cases hn : _parse_next st.parser .YAML_SEQUENCE_END_EVENT with
  | error e => rw [hn] at h; cases h
  | ok r =>
    obtain ⟨status, event, parser⟩ := r
    rw [hn] at h
    simp only at h
    split at h
    · cases key with
      | none =>
        simp only at h
        split at h
        · cases h
        · cases hn1 : _parse_next parser .YAML_SEQUENCE_END_EVENT with
          | error e => rw [hn1] at h; cases h
          | ok r1 =>
            obtain ⟨status1, event1, parser1⟩ := r1
            rw [hn1] at h
            simp only at h
            split at h
            · cases hv : _build_value fuel event1 { st with parser := parser1 } with
              | error e => rw [hv] at h; cases h
              | ok r2 =>
                obtain ⟨key1, st2⟩ := r2
                rw [hv] at h
                exact htrans _ _ _ (hval _ { st with parser := parser1 } _ _ hv) (hpairs _ _ _ _ _ h)
            · simp only [Except.ok.injEq, Prod.mk.injEq] at h
              obtain ⟨_, rfl⟩ := h
              exact hrefl _
      | some k =>
        simp only at h
        cases hv : _build_value fuel event { st with parser := parser } with
        | error e => rw [hv] at h; cases h
        | ok r2 =>
          obtain ⟨value, st2⟩ := r2
          rw [hv] at h
          have h2 : Q st.aliases st2.aliases := hval _ { st with parser := parser } _ _ hv
          simp only at h
          cases hn2 : _parse_next st2.parser .YAML_SEQUENCE_END_EVENT with
          | error e => rw [hn2] at h; cases h
          | ok r3 =>
            obtain ⟨status2, event2, parser2⟩ := r3
            rw [hn2] at h
            simp only at h
            split at h
            · cases h
            · split at h
              · simp only [Except.ok.injEq, Prod.mk.injEq] at h
                obtain ⟨_, rfl⟩ := h
                exact h2
              · exact htrans _ _ _ h2 (hpairs { st2 with parser := parser2 } _ _ _ _ h)
    · simp only [Except.ok.injEq, Prod.mk.injEq] at h
      obtain ⟨_, rfl⟩ := h
      exact hrefl _

/-- Every relation between alias dictionaries that is reflexive and
transitive and holds from a dictionary to the one with an anchor stored holds
from the dictionary a builder starts with to the one it ends with. -/
theorem builders_aliases_rel (Q : PyDict → PyDict → Prop) (hrefl : ∀ a, Q a a)
    (htrans : ∀ a b c, Q a b → Q b c → Q a c)
    (hins : ∀ al a v, Q al (dict_insert al (.str a) v)) : ∀ fuel : Nat,
    (∀ ev st v st1, _build_value fuel ev st = .ok (v, st1) → Q st.aliases st1.aliases)
    ∧ (∀ st seq v st1, _build_seq fuel st seq = .ok (v, st1) → Q st.aliases st1.aliases)
    ∧ (∀ st seq key v st1, _build_pairs fuel st seq key = .ok (v, st1) →
      Q st.aliases st1.aliases)
    ∧ (∀ st M key isSet q st1, _build_map_loop fuel st M key isSet = .ok (q, st1) →
      Q st.aliases st1.aliases) := by
  intro fuel
  induction fuel with
  | zero =>
    refine ⟨?_, ?_, ?_, ?_⟩
    · intro ev st v st1 h; simp only [_build_value] at h; cases h
    · intro st seq v st1 h; simp only [_build_seq] at h; cases h
    · intro st seq key v st1 h; simp only [_build_pairs] at h; cases h
    · intro st M key isSet q st1 h; simp only [_build_map_loop] at h; cases h
  | succ fuel ih =>
    obtain ⟨hval, hseq, hpairs, hmap⟩ := ih
    exact ⟨rel_step_value Q hrefl htrans hins fuel hseq hpairs hmap,
      rel_step_seq Q htrans hrefl fuel hval hseq, rel_step_pairs Q htrans hrefl fuel hval hpairs,
      rel_step_map Q htrans hrefl fuel hval hmap⟩

/-- An anchor the alias dictionary binds stays bound, whatever is built. -/
theorem build_value_stays_bound (A : String) (fuel : Nat) (ev : yaml_event_t)
    (st st1 : BuildState) (v : PyObject) (h : _build_value fuel ev st = .ok (v, st1))
    (hb : (PyDict_GetItemString st.aliases A).isSome = true) :
    (PyDict_GetItemString st1.aliases A).isSome = true := by
  have := (builders_aliases_rel
    (fun a b => (PyDict_GetItemString a A).isSome = true → (PyDict_GetItemString b A).isSome = true)
    (fun _ h => h) (fun _ _ _ h1 h2 h => h2 (h1 h))
    (fun al a v h => by
      rw [getitem_insert_str]
      split
      · rfl
      · exact h) fuel).1 ev st v st1 h
  exact this hb

/-! ## Aliases that do not resolve -/

theorem build_alias_unbound (A : String) (f : Nat) (st : BuildState)
    (h : PyDict_GetItemString st.aliases A = none) :
    _build_value (f + 1) (ev_alias A) st = .error .KeyError := by
  simp only [_build_value, ev_alias, _load_alias, Option.getD_some, h]

theorem build_seq_alias_unbound (A : String) (f : Nat) (st : BuildState) (seq : List PyObject)
    (rest : yaml_parser_t) (hp : st.parser = .ok (ev_alias A) :: rest)
    (h : PyDict_GetItemString st.aliases A = none) :
    _build_seq (f + 2) st seq = .error .KeyError := by
  have hal : (ev_alias A).type ≠ .YAML_SEQUENCE_END_EVENT := by simp [ev_alias]
  rw [_build_seq]
  simp only [_parse_next, yaml_parser_parse, hp, hal, if_false, if_true,
    build_alias_unbound A f { st with parser := rest } h]

theorem build_map_alias_unbound (A : String) (f : Nat) (st : BuildState) (M : PyDict)
    (key : Option PyObject) (isSet : Bool)
    (rest : yaml_parser_t) (hp : st.parser = .ok (ev_alias A) :: rest)
    (h : PyDict_GetItemString st.aliases A = none) :
    _build_map_loop (f + 2) st M key isSet = .error .KeyError := by
  have hal : (ev_alias A).type ≠ .YAML_MAPPING_END_EVENT := by simp [ev_alias]
  rw [_build_map_loop]
  simp only [_parse_next, yaml_parser_parse, hp, hal, if_false, if_true,
    build_alias_unbound A f { st with parser := rest } h]
  cases key <;> rfl

theorem build_document_error (e : yaml_event_t) (p : yaml_parser_t) (bs : List MinYamlBuilders)
    (x : PyExc) (hty : e.type ≠ .YAML_DOCUMENT_END_EVENT)
    (h : _build_value (build_fuel p) e ⟨p, bs, []⟩ = .error x) :
    _build_document (.ok e :: p) bs = .error x := by
  simp only [_build_document, _parse_next, yaml_parser_parse, hty, if_false, if_true, h]

/-- The mapping start of an entry of a pair-list is only read: `_build_pairs`
gives the same result whatever anchor the event carries. -/
theorem build_pairs_entry_anchor (fuel : Nat) (st : BuildState) (seq : List PyObject)
    (e : yaml_event_t) (rest : yaml_parser_t) (a : Option String)
    (hty : e.type = .YAML_MAPPING_START_EVENT) (hp : st.parser = .ok e :: rest) :
    _build_pairs fuel st seq none
      = _build_pairs fuel { st with parser := .ok { e with anchor := a } :: rest } seq none := by
  cases fuel with
  | zero => rfl
  | succ f =>
    rw [_build_pairs, _build_pairs]
    simp only [hp, _parse_next, yaml_parser_parse, hty]

/-- The anchor of the mapping start of an entry of a pair-list is not stored:
when no event behind the mapping start binds `A`, the alias dictionary gives
for `A` after the pair-list what it gave before. -/
theorem build_pairs_entry_unbound (A : String) (fuel : Nat) (st st1 : BuildState)
    (seq : List PyObject) (e : yaml_event_t) (rest : yaml_parser_t) (v : PyObject)
    (hty : e.type = .YAML_MAPPING_START_EVENT) (hp : st.parser = .ok e :: rest)
    (h : _build_pairs fuel st seq none = .ok (v, st1))
    (hrest : ∀ x ∈ rest, binds_anchor A x = false) :
    PyDict_GetItemString st1.aliases A = PyDict_GetItemString st.aliases A := by
  rw [build_pairs_entry_anchor fuel st seq e rest none hty hp] at h
  obtain ⟨n, _, hk⟩ := (builders_keep_anchor A fuel).2.2.1 _ _ _ _ _ h
  refine hk rfl ?_
  intro x hx
  have hx1 := List.mem_of_mem_take hx
  rcases List.mem_cons.mp hx1 with rfl | hx2
  · simp [binds_anchor]
  · exact hrest x hx2

/-- C11. What the code does with anchors and aliases.  An alias event for the
anchor `A` is built to the value the alias dictionary binds to `A`, and fails
with `KeyError` when the dictionary binds nothing to `A`.  The dictionary of
a document starts empty: a document fails with the error of its root value
built from the empty dictionary, so with `KeyError` when the root is an
alias.  Building the node of an event that carries the anchor `A` binds `A`;
an anchor once bound stays bound; and `A` is bound after a node is built only
if it was before or an event with the anchor `A` was delivered for it.
Inside a sequence or mapping an alias for an unbound anchor fails, also when
the collection itself carries the anchor, which is stored only when the
collection is complete.  The mapping start of an entry of a pair-list is
where the code departs from this: `_build_pairs` only reads that event, so
its result does not depend on the anchor of the event, and when no event
behind it binds `A` the dictionary gives for `A` after the pair-list what it
gave before, although the mapping with the anchor `A` has been completely
built. -/
theorem alias_resolution (A : String) :
    (∀ (f : Nat) (st : BuildState),
      _build_value (f + 1) (ev_alias A) st
        = match PyDict_GetItemString st.aliases A with
          | some V => .ok (V, st)
          | none => .error .KeyError)
    ∧ (∀ (p : yaml_parser_t) (bs : List MinYamlBuilders),
        _build_document (.ok (ev_alias A) :: p) bs = .error .KeyError)
    ∧ (∀ (e : yaml_event_t) (p : yaml_parser_t) (bs : List MinYamlBuilders) (x : PyExc),
        e.type ≠ .YAML_DOCUMENT_END_EVENT →
        _build_value (build_fuel p) e ⟨p, bs, []⟩ = .error x →
        _build_document (.ok e :: p) bs = .error x)
    ∧ (∀ (f : Nat) (e : yaml_event_t) (st st1 : BuildState) (v : PyObject),
        _build_value f e st = .ok (v, st1) →
        (e.anchor = some A → e.type ≠ .YAML_ALIAS_EVENT →
          PyDict_GetItemString st1.aliases A = some v)
        ∧ ((PyDict_GetItemString st.aliases A).isSome = true →
          (PyDict_GetItemString st1.aliases A).isSome = true)
        ∧ ∃ n, st1.parser = st.parser.drop n
          ∧ (binds_anchor A (.ok e) = false →
              (∀ x ∈ st.parser.take n, binds_anchor A x = false) →
              PyDict_GetItemString st1.aliases A = PyDict_GetItemString st.aliases A))
    ∧ (∀ (f : Nat) (st : BuildState) (rest : yaml_parser_t),
        st.parser = .ok (ev_alias A) :: rest → PyDict_GetItemString st.aliases A = none →
        (∀ seq, _build_seq (f + 2) st seq = .error .KeyError)
        ∧ (∀ M key isSet, _build_map_loop (f + 2) st M key isSet = .error .KeyError)
        ∧ _build_value (f + 3) (ev_seq_start none (some A)) st = .error .KeyError
        ∧ _build_value (f + 3) (ev_map_start none (some A)) st = .error .KeyError)
    ∧ (∀ (fuel : Nat) (st : BuildState) (seq : List PyObject) (e : yaml_event_t)
        (rest : yaml_parser_t) (a : Option String),
        e.type = .YAML_MAPPING_START_EVENT → st.parser = .ok e :: rest →
        _build_pairs fuel st seq none
          = _build_pairs fuel { st with parser := .ok { e with anchor := a } :: rest } seq none)
    ∧ (∀ (fuel : Nat) (st st1 : BuildState) (seq : List PyObject) (e : yaml_event_t)
        (rest : yaml_parser_t) (v : PyObject),
        e.type = .YAML_MAPPING_START_EVENT → st.parser = .ok e :: rest →
        _build_pairs fuel st seq none = .ok (v, st1) →
        (∀ x ∈ rest, binds_anchor A x = false) →
        PyDict_GetItemString st1.aliases A = PyDict_GetItemString st.aliases A) := by
  refine ⟨?_, ?_, ?_, ?_, ?_, ?_, ?_⟩
  · intro f st
    cases h : PyDict_GetItemString st.aliases A with
    | none => exact build_alias_unbound A f st h
    | some V => exact build_alias A f st V h
  · intro p bs
    apply build_document_error _ _ _ _ (by simp [ev_alias])
    have hf : build_fuel p = (2 * p.length + 2) + 1 := rfl
    rw [hf]
    exact build_alias_unbound A _ _ rfl
  · intro e p bs x hty h
    exact build_document_error e p bs x hty h
  · intro f e st st1 v h
    exact ⟨fun hA hty => build_value_binds A f e st st1 v hA hty h,
      build_value_stays_bound A f e st st1 v h, (builders_keep_anchor A f).1 e st v st1 h⟩
  · intro f st rest hp h
    have hseq := fun seq => build_seq_alias_unbound A f st seq rest hp h
    have hmap := fun M key isSet => build_map_alias_unbound A f st M key isSet rest hp h
    refine ⟨hseq, hmap, ?_, ?_⟩
    · simp only [_build_value, ev_seq_start, true_or, if_true, hseq, _save_alias]
    · simp only [_build_value, ev_map_start, true_or, if_true, hmap, _build_map_end, _save_alias]
  · intro fuel st seq e rest a hty hp
    exact build_pairs_entry_anchor fuel st seq e rest a hty hp
  · intro fuel st st1 seq e rest v hty hp h hrest
    exact build_pairs_entry_unbound A fuel st st1 seq e rest v hty hp h hrest

/-- C11, witness: an alias for a bound anchor gives the value bound; the
sequence `&a [*a]` fails with `KeyError`; of the two documents `&a x` and
`*a` of one stream the first is built and the second fails with `KeyError`;
the document `&a [*a]` fails with `KeyError`; the pair-list with the entry
`&a (k: v)` leaves the anchor `a` unbound; and in the document
`[!!pairs [&a (k: v)], *a]` the mapping with the anchor `a` stands complete
before the alias, yet the alias fails with `KeyError`, while the same mapping
as an item of a plain sequence is stored and the alias gives it. -/
theorem alias_resolution_witness :
    _build_value 1 (ev_alias "a") ⟨[], [], [(.str "a", .str "x")]⟩
      = .ok (.str "x", ⟨[], [], [(.str "a", .str "x")]⟩)
    ∧ _build_value 3 (ev_seq_start none (some "a")) ⟨parser_of [ev_alias "a", ev_seq_end], [], []⟩
      = .error .KeyError
    ∧ PyDict_GetItemString [(.str "b", .str "y"), (.str "a", .str "x")] "a" = some (.str "x")
    ∧ (match _min_yaml_check_data (parser_of [ev_mark .YAML_STREAM_START_EVENT,
          ev_mark .YAML_DOCUMENT_START_EVENT, ev_scalar "x" none (some "a"),
          ev_mark .YAML_DOCUMENT_END_EVENT, ev_mark .YAML_DOCUMENT_START_EVENT, ev_alias "a",
          ev_mark .YAML_DOCUMENT_END_EVENT, ev_mark .YAML_STREAM_END_EVENT]) with
        | .ok (true, p1) =>
          (match _min_yaml_get_data p1 implicitBuilders with
           | .ok (d, p2, bs2) =>
             (match _min_yaml_check_data p2 with
              | .ok (true, p3) => (Except.ok d, result_value (_min_yaml_get_data p3 bs2))
              | _ => (.error .crash, .error .crash))
           | .error e => (.error e, .error e))
        | _ => (.error .crash, .error .crash))
      = (.ok (.str "x"), .error .KeyError)
    ∧ result_value (_build_document (parser_of [ev_seq_start none (some "a"), ev_alias "a",
        ev_seq_end, ev_mark .YAML_DOCUMENT_END_EVENT]) implicitBuilders) = .error .KeyError
    ∧ _build_pairs 9 ⟨parser_of [ev_map_start none (some "a"), ev_plain "k", ev_plain "v",
        ev_map_end, ev_seq_end], [], []⟩ [] none
      = .ok (.list [.tuple [.str "k", .str "v"]], ⟨[], [], []⟩)
    ∧ PyDict_GetItemString (⟨[], [], []⟩ : BuildState).aliases "a" = none
    ∧ result_value (_build_document (parser_of [ev_seq_start none none,
        ev_seq_start (some YAML_TAG_PAIRS) none, ev_map_start none (some "a"), ev_plain "k",
        ev_plain "v", ev_map_end, ev_seq_end, ev_alias "a", ev_seq_end,
        ev_mark .YAML_DOCUMENT_END_EVENT]) implicitBuilders) = .error .KeyError
    ∧ result_value (_build_document (parser_of [ev_seq_start none none,
        ev_seq_start none none, ev_map_start none (some "a"), ev_plain "k",
        ev_plain "v", ev_map_end, ev_seq_end, ev_alias "a", ev_seq_end,
        ev_mark .YAML_DOCUMENT_END_EVENT]) implicitBuilders)
      = .ok (.list [.list [.dict [(.str "k", .str "v")]], .dict [(.str "k", .str "v")]]) :=
  ⟨(alias_resolution "a").1 0 ⟨[], [], [(.str "a", .str "x")]⟩,
   ((alias_resolution "a").2.2.2.2.1 0 ⟨parser_of [ev_alias "a", ev_seq_end], [], []⟩
      (parser_of [ev_seq_end]) rfl rfl).2.2.1,
   ((alias_resolution "a").2.2.2.1 1 (ev_scalar "x" none (some "a"))
      ⟨[], [], [(.str "b", .str "y")]⟩ ⟨[], [], [(.str "b", .str "y"), (.str "a", .str "x")]⟩
      (.str "x") rfl).1 rfl (by decide),
   by decide!, by decide!, rfl,
   ((alias_resolution "a").2.2.2.2.2.2 9
      ⟨parser_of [ev_map_start none (some "a"), ev_plain "k", ev_plain "v", ev_map_end,
        ev_seq_end], [], []⟩
      ⟨[], [], []⟩ [] (ev_map_start none (some "a"))
      (parser_of [ev_plain "k", ev_plain "v", ev_map_end, ev_seq_end])
      (.list [.tuple [.str "k", .str "v"]]) rfl rfl rfl (by decide)).trans rfl,
   by decide!, by decide!⟩

/-! ## Sequences and pair-lists -/

theorem build_seq_children : ∀ (vs : List PyObject) (st st1 : BuildState) (seq : List PyObject)
    (e : yaml_event_t) (p : yaml_parser_t), seq_children st vs st1 →
    _parse_next st1.parser .YAML_SEQUENCE_END_EVENT = .ok (.BLOCK_DONE, e, p) →
    ∃ F, ∀ fuel, F ≤ fuel →
      _build_seq fuel st seq = .ok (.list (seq ++ vs), { st1 with parser := p }) := by
  intro vs
  induction vs with
  | nil =>
    intro st st1 seq e p hch hend
    simp only [seq_children] at hch
    subst hch
    refine ⟨1, fun fuel hf => ?_⟩
    obtain ⟨k, rfl⟩ : ∃ k, fuel = k + 1 := ⟨fuel - 1, by omega⟩
    rw [_build_seq]
    simp [hend]
  | cons v vs ih =>
    intro st st1 seq e p hch hend
    simp only [seq_children] at hch
    obtain ⟨f, e1, p1, st2, hn, hv, hrest⟩ := hch
    obtain ⟨F, hF⟩ := ih st2 st1 (seq ++ [v]) e p hrest hend
    refine ⟨max f F + 1, fun fuel hf => ?_⟩
    obtain ⟨k, rfl⟩ : ∃ k, fuel = k + 1 := ⟨fuel - 1, by omega⟩
    have hkf : f ≤ k := by omega
    have hkF : F ≤ k := by omega
    rw [_build_seq]
    simp only [hn, if_true, build_value_mono hkf _ _ _ hv, hF k hkF, List.append_assoc,
      List.singleton_append]

/-- C12. Sequences keep order and duplicates: when the child nodes of a
sequence are built one after the other to the values `vs` and the sequence
end follows, then with enough fuel `_build_seq` gives the list `vs` itself,
and a sequence start event without tag or with the tag of sequences is built
to that list. -/
theorem sequence_keeps_order (st st1 : BuildState) (vs : List PyObject) (e : yaml_event_t)
    (p : yaml_parser_t) (hch : seq_children st vs st1)
    (hend : _parse_next st1.parser .YAML_SEQUENCE_END_EVENT = .ok (.BLOCK_DONE, e, p)) :
    ∃ F, ∀ fuel, F ≤ fuel →
      _build_seq fuel st [] = .ok (.list vs, { st1 with parser := p })
      ∧ ∀ start : yaml_event_t, start.type = .YAML_SEQUENCE_START_EVENT →
          start.tag = none ∨ start.tag = some YAML_TAG_SEQ →
          result_value (_build_value (fuel + 1) start st) = .ok (.list vs) := by
  obtain ⟨F, hF⟩ := build_seq_children vs st st1 [] e p hch hend
  refine ⟨F, fun fuel hf => ?_⟩
  have h := hF fuel hf
  rw [List.nil_append] at h
  refine ⟨h, fun start hty htag => ?_⟩
  simp only [_build_value, hty, htag, if_true, h, _save_alias]
  cases start.anchor with
  | none => rfl
  | some a => rfl

/-- C12, witness: the items `a`, `b`, `a` are built to the list of the three
texts in that order, the equal ones kept; and the document `[1, x, 1]` is
built to the list of 1, `x` and 1 by the core registry. -/
theorem sequence_keeps_order_witness :
    (∃ F, ∀ fuel, F ≤ fuel →
      _build_seq fuel ⟨parser_of [ev_plain "a", ev_plain "b", ev_plain "a", ev_seq_end], [], []⟩ []
        = .ok (.list [.str "a", .str "b", .str "a"], ⟨[], [], []⟩)
      ∧ ∀ start : yaml_event_t, start.type = .YAML_SEQUENCE_START_EVENT →
          start.tag = none ∨ start.tag = some YAML_TAG_SEQ →
          result_value (_build_value (fuel + 1) start
            ⟨parser_of [ev_plain "a", ev_plain "b", ev_plain "a", ev_seq_end], [], []⟩)
            = .ok (.list [.str "a", .str "b", .str "a"]))
    ∧ result_value (_build_document (parser_of [ev_seq_start none none, ev_plain "1",
        ev_plain "x", ev_plain "1", ev_seq_end, ev_mark .YAML_DOCUMENT_END_EVENT])
        implicitBuilders) = .ok (.list [.int 1, .str "x", .int 1]) :=
  ⟨sequence_keeps_order
      ⟨parser_of [ev_plain "a", ev_plain "b", ev_plain "a", ev_seq_end], [], []⟩
      ⟨parser_of [ev_seq_end], [], []⟩ [.str "a", .str "b", .str "a"] ev_seq_end []
      ⟨1, ev_plain "a", parser_of [ev_plain "b", ev_plain "a", ev_seq_end],
        ⟨parser_of [ev_plain "b", ev_plain "a", ev_seq_end], [], []⟩, rfl, rfl,
        1, ev_plain "b", parser_of [ev_plain "a", ev_seq_end],
        ⟨parser_of [ev_plain "a", ev_seq_end], [], []⟩, rfl, rfl,
        1, ev_plain "a", parser_of [ev_seq_end], ⟨parser_of [ev_seq_end], [], []⟩, rfl, rfl,
        rfl⟩
      rfl,
   by decide!⟩

theorem build_pairs_children : ∀ (kvs : List (PyObject × PyObject)) (st st1 : BuildState)
    (seq : List PyObject) (e : yaml_event_t) (p : yaml_parser_t), pairs_children st kvs st1 →
    _parse_next st1.parser .YAML_SEQUENCE_END_EVENT = .ok (.BLOCK_DONE, e, p) →
    ∃ F, ∀ fuel, F ≤ fuel →
      _build_pairs fuel st seq none
        = .ok (.list (seq ++ kvs.map (fun kv => PyObject.tuple [kv.1, kv.2])),
            { st1 with parser := p }) := by
  intro kvs
  induction kvs with
  | nil =>
    intro st st1 seq e p hch hend
    simp only [pairs_children] at hch
    subst hch
    refine ⟨1, fun fuel hf => ?_⟩
    obtain ⟨k, rfl⟩ : ∃ k, fuel = k + 1 := ⟨fuel - 1, by omega⟩
    rw [_build_pairs]
    simp [hend]
  | cons kv kvs ih =>
    intro st st1 seq e p hch hend
    simp only [pairs_children] at hch
    obtain ⟨f, g, e0, ek, ev, e3, p0, pk, pv, p3, stk, stv, hn0, hty0, hnk, hk, hnv, hv, hn3,
      hty3, hrest⟩ := hch
    obtain ⟨F, hF⟩ := ih { stv with parser := p3 } st1 (seq ++ [.tuple [kv.1, kv.2]]) e p hrest hend
    refine ⟨max f (max g F) + 2, fun fuel hf => ?_⟩
    obtain ⟨k, rfl⟩ : ∃ k, fuel = k + 2 := ⟨fuel - 2, by omega⟩
    have hkf : f ≤ k + 1 := by omega
    have hkg : g ≤ k := by omega
    have hkF : F ≤ k := by omega
    have h2 : _build_pairs (k + 1) stk seq (some kv.1)
        = .ok (.list (seq ++ (kv :: kvs).map (fun kv => PyObject.tuple [kv.1, kv.2])),
            { st1 with parser := p }) := by
      rw [_build_pairs]
      simp only [hnv, if_true, build_value_mono hkg _ _ _ hv, hn3, hty3, ne_eq,
        not_true_eq_false, if_false, hF k hkF, List.append_assoc, List.singleton_append,
        List.map_cons]
      simp
    rw [_build_pairs]
    simp only [hn0, if_true, hty0, ne_eq, not_true_eq_false, if_false, hnk,
      build_value_mono hkf _ _ _ hk, h2]

/-- C13. Pair-lists give the pairs in order: when the entries of a pair-list
are mapping nodes with one entry each, whose keys and values are built to the
pairs `kvs`, and the sequence end follows, then with enough fuel
`_build_pairs` gives the list of the tuples `(key, value)` in that order, equal
keys kept, and a sequence start event with the tag of pair-lists is built to
that list. -/
theorem pairs_keep_order (st st1 : BuildState) (kvs : List (PyObject × PyObject))
    (e : yaml_event_t) (p : yaml_parser_t) (hch : pairs_children st kvs st1)
    (hend : _parse_next st1.parser .YAML_SEQUENCE_END_EVENT = .ok (.BLOCK_DONE, e, p)) :
    ∃ F, ∀ fuel, F ≤ fuel →
      _build_pairs fuel st [] none
        = .ok (.list (kvs.map (fun kv => PyObject.tuple [kv.1, kv.2])), { st1 with parser := p })
      ∧ ∀ start : yaml_event_t, start.type = .YAML_SEQUENCE_START_EVENT →
          start.tag = some YAML_TAG_PAIRS →
          result_value (_build_value (fuel + 1) start st)
            = .ok (.list (kvs.map (fun kv => PyObject.tuple [kv.1, kv.2]))) := by
  obtain ⟨F, hF⟩ := build_pairs_children kvs st st1 [] e p hch hend
  refine ⟨F, fun fuel hf => ?_⟩
  have h := hF fuel hf
  rw [List.nil_append] at h
  refine ⟨h, fun start hty htag => ?_⟩
  have h1 : ¬ (some YAML_TAG_PAIRS = none ∨ some YAML_TAG_PAIRS = some YAML_TAG_SEQ) := by decide
  simp only [_build_value, hty, htag, h1, if_false, if_true, h, _save_alias]
  cases start.anchor with
  | none => rfl
  | some a => rfl

/-- C13, witness: the entry `a: 1` is built to the list of one tuple; and the
document `!!pairs [a: 1, a: 2, b: 1]` is built to the list of the three
tuples in that order by the core registry, both pairs with the key `a` kept. -/
theorem pairs_keep_order_witness :
    (∃ F, ∀ fuel, F ≤ fuel →
      _build_pairs fuel ⟨parser_of [ev_map_start none none, ev_plain "a", ev_plain "1",
          ev_map_end, ev_seq_end], [], []⟩ [] none
        = .ok (.list [.tuple [.str "a", .str "1"]], ⟨[], [], []⟩)
      ∧ ∀ start : yaml_event_t, start.type = .YAML_SEQUENCE_START_EVENT →
          start.tag = some YAML_TAG_PAIRS →
          result_value (_build_value (fuel + 1) start ⟨parser_of [ev_map_start none none,
            ev_plain "a", ev_plain "1", ev_map_end, ev_seq_end], [], []⟩)
            = .ok (.list [.tuple [.str "a", .str "1"]]))
    ∧ result_value (_build_document (parser_of [ev_seq_start (some YAML_TAG_PAIRS) none,
        ev_map_start none none, ev_plain "a", ev_plain "1", ev_map_end,
        ev_map_start none none, ev_plain "a", ev_plain "2", ev_map_end,
        ev_map_start none none, ev_plain "b", ev_plain "1", ev_map_end,
        ev_seq_end, ev_mark .YAML_DOCUMENT_END_EVENT]) implicitBuilders)
      = .ok (.list [.tuple [.str "a", .int 1], .tuple [.str "a", .int 2],
          .tuple [.str "b", .int 1]]) :=
  ⟨pairs_keep_order
      ⟨parser_of [ev_map_start none none, ev_plain "a", ev_plain "1", ev_map_end, ev_seq_end],
        [], []⟩
      ⟨parser_of [ev_seq_end], [], []⟩ [(.str "a", .str "1")] ev_seq_end []
      ⟨1, 1, ev_map_start none none, ev_plain "a", ev_plain "1", ev_map_end,
        parser_of [ev_plain "a", ev_plain "1", ev_map_end, ev_seq_end],
        parser_of [ev_plain "1", ev_map_end, ev_seq_end],
        parser_of [ev_map_end, ev_seq_end], parser_of [ev_seq_end],
        ⟨parser_of [ev_plain "1", ev_map_end, ev_seq_end], [], []⟩,
        ⟨parser_of [ev_map_end, ev_seq_end], [], []⟩,
        rfl, rfl, rfl, rfl, rfl, rfl, rfl, rfl, rfl⟩
      rfl,
   by decide!⟩

/-! ## The steps of a pair-list, and a document end read first -/

/-- The steps of `_build_pairs` on events that are not entries of the form
mapping start, key, value, mapping end.  It fails with `SyntaxError` when an
entry starts with an event other than a mapping start, when the mapping start
is followed by the mapping end, and when the value of the entry is followed
by an event other than the mapping end.  When the sequence end is read right
behind a mapping start or behind a key, which takes events that are not well
nested and that the parser does not deliver, the loop ends and the list built
so far is returned. -/
theorem build_pairs_steps (f : Nat) (st : BuildState) (seq : List PyObject) :
    (∀ (e : yaml_event_t) (p : yaml_parser_t),
      _parse_next st.parser .YAML_SEQUENCE_END_EVENT = .ok (.BLOCK_PROCEED, e, p) →
      e.type ≠ .YAML_MAPPING_START_EVENT →
      _build_pairs (f + 1) st seq none = .error .SyntaxError)
    ∧ (∀ (e e1 : yaml_event_t) (p p1 : yaml_parser_t),
      _parse_next st.parser .YAML_SEQUENCE_END_EVENT = .ok (.BLOCK_PROCEED, e, p) →
      e.type = .YAML_MAPPING_START_EVENT →
      _parse_next p .YAML_SEQUENCE_END_EVENT = .ok (.BLOCK_PROCEED, e1, p1) →
      e1.type = .YAML_MAPPING_END_EVENT →
      _build_pairs (f + 2) st seq none = .error .SyntaxError)
    ∧ (∀ (k v : PyObject) (e e2 : yaml_event_t) (p p2 : yaml_parser_t) (st1 : BuildState)
        (status2 : MinYamlParserStatus),
      _parse_next st.parser .YAML_SEQUENCE_END_EVENT = .ok (.BLOCK_PROCEED, e, p) →
      _build_value f e { st with parser := p } = .ok (v, st1) →
      _parse_next st1.parser .YAML_SEQUENCE_END_EVENT = .ok (status2, e2, p2) →
      e2.type ≠ .YAML_MAPPING_END_EVENT →
      _build_pairs (f + 1) st seq (some k) = .error .SyntaxError)
    ∧ (∀ (e e1 : yaml_event_t) (p p1 : yaml_parser_t),
      _parse_next st.parser .YAML_SEQUENCE_END_EVENT = .ok (.BLOCK_PROCEED, e, p) →
      e.type = .YAML_MAPPING_START_EVENT →
      _parse_next p .YAML_SEQUENCE_END_EVENT = .ok (.BLOCK_DONE, e1, p1) →
      _build_pairs (f + 1) st seq none = .ok (.list seq, { st with parser := p1 }))
    ∧ (∀ (k : PyObject) (e : yaml_event_t) (p : yaml_parser_t),
      _parse_next st.parser .YAML_SEQUENCE_END_EVENT = .ok (.BLOCK_DONE, e, p) →
      _build_pairs (f + 1) st seq (some k) = .ok (.list seq, { st with parser := p })) := by
  refine ⟨?_, ?_, ?_, ?_, ?_⟩
  · intro e p hn hty
    rw [_build_pairs]
    simp only [hn, if_true, hty, ne_eq, not_false_eq_true]
  · intro e e1 p p1 hn hty hn1 hty1
    have hv : _build_value (f + 1) e1 { st with parser := p1 } = .error .SyntaxError := by
      simp only [_build_value, hty1]
    rw [_build_pairs]
    simp only [hn, if_true, hty, ne_eq, not_true_eq_false, if_false, hn1, hv]
  · intro k v e e2 p p2 st1 status2 hn hv hn2 hty2
    rw [_build_pairs]
    simp only [hn, if_true, hv, hn2, hty2, ne_eq, not_false_eq_true]
  · intro e e1 p p1 hn hty hn1
    rw [_build_pairs]
    simp [hn, hty, hn1]
  · intro k e p hn
    rw [_build_pairs]
    simp [hn]

/-- Examples of the steps of `_build_pairs`: a scalar as entry, an empty
mapping as entry and a mapping with two entries fail with `SyntaxError`; on
events that are not well nested, a mapping start followed by the sequence
end, with or without a key between them, the pair-list is built to the empty
list, here and in a whole document. -/
theorem build_pairs_steps_examples :
    _build_pairs 1 ⟨parser_of [ev_plain "a", ev_seq_end], [], []⟩ [] none = .error .SyntaxError
    ∧ _build_pairs 2 ⟨parser_of [ev_map_start none none, ev_map_end, ev_seq_end], [], []⟩ [] none
      = .error .SyntaxError
    ∧ _build_pairs 2 ⟨parser_of [ev_plain "1", ev_plain "b", ev_plain "2", ev_map_end, ev_seq_end],
        [], []⟩ [] (some (.str "a")) = .error .SyntaxError
    ∧ _build_pairs 1 ⟨parser_of [ev_map_start none none, ev_seq_end], [], []⟩ [] none
      = .ok (.list [], ⟨[], [], []⟩)
    ∧ _build_pairs 1 ⟨parser_of [ev_seq_end], [], []⟩ [] (some (.str "a"))
      = .ok (.list [], ⟨[], [], []⟩)
    ∧ result_value (_build_document (parser_of [ev_seq_start (some YAML_TAG_PAIRS) none,
        ev_map_start none none, ev_seq_end, ev_mark .YAML_DOCUMENT_END_EVENT]) implicitBuilders)
      = .ok (.list [])
    ∧ result_value (_build_document (parser_of [ev_seq_start (some YAML_TAG_PAIRS) none,
        ev_map_start none none, ev_plain "a", ev_seq_end, ev_mark .YAML_DOCUMENT_END_EVENT])
        implicitBuilders) = .ok (.list []) :=
  ⟨(build_pairs_steps 0 ⟨parser_of [ev_plain "a", ev_seq_end], [], []⟩ []).1
      (ev_plain "a") (parser_of [ev_seq_end]) rfl (by decide),
   (build_pairs_steps 0 ⟨parser_of [ev_map_start none none, ev_map_end, ev_seq_end], [], []⟩ []).2.1
      (ev_map_start none none) ev_map_end (parser_of [ev_map_end, ev_seq_end])
      (parser_of [ev_seq_end]) rfl rfl rfl rfl,
   (build_pairs_steps 1 ⟨parser_of [ev_plain "1", ev_plain "b", ev_plain "2", ev_map_end,
      ev_seq_end], [], []⟩ []).2.2.1 (.str "a") (.str "1") (ev_plain "1") (ev_plain "b")
      (parser_of [ev_plain "b", ev_plain "2", ev_map_end, ev_seq_end])
      (parser_of [ev_plain "2", ev_map_end, ev_seq_end])
      ⟨parser_of [ev_plain "b", ev_plain "2", ev_map_end, ev_seq_end], [], []⟩ .BLOCK_PROCEED
      rfl rfl rfl (by decide),
   (build_pairs_steps 0 ⟨parser_of [ev_map_start none none, ev_seq_end], [], []⟩ []).2.2.2.1
      (ev_map_start none none) ev_seq_end (parser_of [ev_seq_end]) [] rfl rfl rfl,
   (build_pairs_steps 0 ⟨parser_of [ev_seq_end], [], []⟩ []).2.2.2.2 (.str "a") ev_seq_end [] rfl,
   by decide!, by decide!⟩

/-- What `_build_document` does when the first event it reads is the
document end, which the parser does not deliver in the place of a root (it
can be read there only when the events of a document have been left half
read): it reads one more event; if that is a second document end, it returns
`None`; if it is any other event, or the stream has ended, it calls
`Py_DECREF` on the `NULL` document; if the parser fails there, it returns the
error of the parser. -/
theorem build_document_end_first (e0 : yaml_event_t) (p : yaml_parser_t) (bs : List MinYamlBuilders)
    (h0 : e0.type = .YAML_DOCUMENT_END_EVENT) :
    (∀ (e1 : yaml_event_t) (p1 : yaml_parser_t), p = .ok e1 :: p1 →
      e1.type = .YAML_DOCUMENT_END_EVENT →
      _build_document (.ok e0 :: p) bs = .ok (.none, p1, bs))
    ∧ (∀ (e1 : yaml_event_t) (p1 : yaml_parser_t), p = .ok e1 :: p1 →
      e1.type ≠ .YAML_DOCUMENT_END_EVENT →
      _build_document (.ok e0 :: p) bs = .error .crash)
    ∧ (p = [] → _build_document (.ok e0 :: p) bs = .error .crash)
    ∧ (∀ (x : yaml_error_type_t) (p1 : yaml_parser_t), p = .error x :: p1 →
      ∃ err, _build_document (.ok e0 :: p) bs = .error err ∧ err ≠ .crash) := by
  refine ⟨?_, ?_, ?_, ?_⟩
  · intro e1 p1 hp h1
    subst hp
    simp [_build_document, _parse_next, yaml_parser_parse, h0, h1]
  · intro e1 p1 hp h1
    subst hp
    simp [_build_document, _parse_next, yaml_parser_parse, h0, h1]
  · intro hp
    subst hp
    simp [_build_document, _parse_next, yaml_parser_parse, h0, yaml_no_event]
  · intro x p1 hp
    subst hp
    cases x
    · exact ⟨.MemoryError, by simp [_build_document, _parse_next, yaml_parser_parse, h0], by decide⟩
    · exact ⟨.SyntaxError, by simp [_build_document, _parse_next, yaml_parser_parse, h0], by decide⟩
    · exact ⟨.SyntaxError, by simp [_build_document, _parse_next, yaml_parser_parse, h0], by decide⟩
    · exact ⟨.SyntaxError, by simp [_build_document, _parse_next, yaml_parser_parse, h0], by decide⟩
    · exact ⟨.RuntimeError, by simp [_build_document, _parse_next, yaml_parser_parse, h0], by decide⟩

/-- Examples of a document end read first: followed by the stream end, or by
the start of another document, it ends in `Py_DECREF(NULL)`; followed by a
second document end it gives `None`; and so does the loader on the events
stream start, document start, document end, stream end. -/
theorem build_document_end_first_examples :
    result_value (_build_document (parser_of [ev_mark .YAML_DOCUMENT_END_EVENT,
        ev_mark .YAML_STREAM_END_EVENT]) implicitBuilders) = .error .crash
    ∧ result_value (_build_document (parser_of [ev_mark .YAML_DOCUMENT_END_EVENT,
        ev_mark .YAML_DOCUMENT_START_EVENT, ev_plain "a", ev_mark .YAML_DOCUMENT_END_EVENT,
        ev_mark .YAML_STREAM_END_EVENT]) implicitBuilders) = .error .crash
    ∧ result_value (_build_document (parser_of [ev_mark .YAML_DOCUMENT_END_EVENT,
        ev_mark .YAML_DOCUMENT_END_EVENT]) implicitBuilders) = .ok .none
    ∧ result_value (_min_yaml_single_data (parser_of [ev_mark .YAML_STREAM_START_EVENT,
        ev_mark .YAML_DOCUMENT_START_EVENT, ev_mark .YAML_DOCUMENT_END_EVENT,
        ev_mark .YAML_STREAM_END_EVENT]) implicitBuilders) = .error .crash :=
  ⟨congrArg result_value ((build_document_end_first (ev_mark .YAML_DOCUMENT_END_EVENT)
      (parser_of [ev_mark .YAML_STREAM_END_EVENT]) implicitBuilders rfl).2.1
      (ev_mark .YAML_STREAM_END_EVENT) [] rfl (by decide)),
   congrArg result_value ((build_document_end_first (ev_mark .YAML_DOCUMENT_END_EVENT)
      (parser_of [ev_mark .YAML_DOCUMENT_START_EVENT, ev_plain "a",
        ev_mark .YAML_DOCUMENT_END_EVENT, ev_mark .YAML_STREAM_END_EVENT]) implicitBuilders rfl).2.1
      (ev_mark .YAML_DOCUMENT_START_EVENT) (parser_of [ev_plain "a",
        ev_mark .YAML_DOCUMENT_END_EVENT, ev_mark .YAML_STREAM_END_EVENT]) rfl (by decide)),
   congrArg result_value ((build_document_end_first (ev_mark .YAML_DOCUMENT_END_EVENT)
      (parser_of [ev_mark .YAML_DOCUMENT_END_EVENT]) implicitBuilders rfl).1
      (ev_mark .YAML_DOCUMENT_END_EVENT) [] rfl rfl),
   by decide!⟩

/-! ## The loader: a single document -/

theorem check_data_start (s0 d0 : yaml_event_t) (body : yaml_parser_t)
    (hs : s0.type = .YAML_STREAM_START_EVENT) (hd : d0.type = .YAML_DOCUMENT_START_EVENT) :
    _min_yaml_check_data (.ok s0 :: .ok d0 :: body) = .ok (true, body) := by
  simp [_min_yaml_check_data, _parse_next, yaml_parser_parse, hs, hd]

theorem check_data_next (e : yaml_event_t) (rest : yaml_parser_t)
    (hd : e.type = .YAML_DOCUMENT_START_EVENT) :
    _min_yaml_check_data (.ok e :: rest) = .ok (true, rest) := by
  simp [_min_yaml_check_data, _parse_next, yaml_parser_parse, hd]

theorem check_data_end (e : yaml_event_t) (rest : yaml_parser_t)
    (hd : e.type = .YAML_STREAM_END_EVENT) :
    _min_yaml_check_data (.ok e :: rest) = .ok (false, rest) := by
  simp [_min_yaml_check_data, _parse_next, yaml_parser_parse, hd]

/-- C16 (amended). `_min_yaml_single_data` on a stream that starts with the
stream start and a document start: when the first document is built, to the
value `d` that `_min_yaml_get_data` gives for it, and the stream end follows,
the result is `d`; when a second document start follows, the result is
`RuntimeError`; and when the first document fails to build, the result is the
error of that document, whatever follows. -/
theorem single_document (s0 d0 : yaml_event_t) (body : yaml_parser_t) (bs : List MinYamlBuilders)
    (hs : s0.type = .YAML_STREAM_START_EVENT) (hd : d0.type = .YAML_DOCUMENT_START_EVENT) :
    (∀ (d : PyObject) (p2 : yaml_parser_t) (bs2 : List MinYamlBuilders) (e : yaml_event_t)
        (rest : yaml_parser_t),
      _min_yaml_get_data body bs = .ok (d, p2, bs2) → p2 = .ok e :: rest →
      (e.type = .YAML_STREAM_END_EVENT →
        _min_yaml_single_data (.ok s0 :: .ok d0 :: body) bs = .ok (d, rest, bs2))
      ∧ (e.type = .YAML_DOCUMENT_START_EVENT →
        _min_yaml_single_data (.ok s0 :: .ok d0 :: body) bs = .error .RuntimeError))
    ∧ (∀ x : PyExc, _min_yaml_get_data body bs = .error x →
      _min_yaml_single_data (.ok s0 :: .ok d0 :: body) bs = .error x) := by
  have hc := check_data_start s0 d0 body hs hd
  refine ⟨?_, ?_⟩
  · intro d p2 bs2 e rest hdoc hp2
    subst hp2
    simp only [_min_yaml_get_data] at hdoc
    refine ⟨fun he => ?_, fun he => ?_⟩
    · simp only [_min_yaml_single_data, hc, if_true, hdoc, check_data_end e rest he]
      simp
    · simp only [_min_yaml_single_data, hc, if_true, hdoc, check_data_next e rest he]
  · intro x hdoc
    simp only [_min_yaml_get_data] at hdoc
    simp only [_min_yaml_single_data, hc, if_true, hdoc]

/-- C16, witness: the stream of the one document `a` gives `a`; the stream of
the two documents `a` and `b` fails with `RuntimeError`. -/
theorem single_document_witness :
    result_value (_min_yaml_single_data (parser_of [ev_mark .YAML_STREAM_START_EVENT,
        ev_mark .YAML_DOCUMENT_START_EVENT, ev_plain "a", ev_mark .YAML_DOCUMENT_END_EVENT,
        ev_mark .YAML_STREAM_END_EVENT]) []) = .ok (.str "a")
    ∧ result_value (_min_yaml_single_data (parser_of [ev_mark .YAML_STREAM_START_EVENT,
        ev_mark .YAML_DOCUMENT_START_EVENT, ev_plain "a", ev_mark .YAML_DOCUMENT_END_EVENT,
        ev_mark .YAML_DOCUMENT_START_EVENT, ev_plain "b", ev_mark .YAML_DOCUMENT_END_EVENT,
        ev_mark .YAML_STREAM_END_EVENT]) []) = .error .RuntimeError
    ∧ result_value (_min_yaml_single_data (parser_of [ev_mark .YAML_STREAM_START_EVENT,
        ev_mark .YAML_DOCUMENT_START_EVENT, ev_plain "12", ev_mark .YAML_DOCUMENT_END_EVENT,
        ev_mark .YAML_STREAM_END_EVENT]) implicitBuilders) = .ok (.int 12)
    ∧ result_value (_min_yaml_single_data (parser_of [ev_mark .YAML_STREAM_START_EVENT,
        ev_mark .YAML_DOCUMENT_START_EVENT, ev_plain "12", ev_mark .YAML_DOCUMENT_END_EVENT,
        ev_mark .YAML_DOCUMENT_START_EVENT, ev_plain "b", ev_mark .YAML_DOCUMENT_END_EVENT,
        ev_mark .YAML_STREAM_END_EVENT]) implicitBuilders) = .error .RuntimeError :=
  ⟨congrArg result_value (((single_document (ev_mark .YAML_STREAM_START_EVENT)
      (ev_mark .YAML_DOCUMENT_START_EVENT)
      (parser_of [ev_plain "a", ev_mark .YAML_DOCUMENT_END_EVENT, ev_mark .YAML_STREAM_END_EVENT])
      [] rfl rfl).1 (.str "a") (parser_of [ev_mark .YAML_STREAM_END_EVENT]) []
      (ev_mark .YAML_STREAM_END_EVENT) [] rfl rfl).1 rfl),
   congrArg result_value (((single_document (ev_mark .YAML_STREAM_START_EVENT)
      (ev_mark .YAML_DOCUMENT_START_EVENT)
      (parser_of [ev_plain "a", ev_mark .YAML_DOCUMENT_END_EVENT,
        ev_mark .YAML_DOCUMENT_START_EVENT, ev_plain "b", ev_mark .YAML_DOCUMENT_END_EVENT,
        ev_mark .YAML_STREAM_END_EVENT])
      [] rfl rfl).1 (.str "a") (parser_of [ev_mark .YAML_DOCUMENT_START_EVENT, ev_plain "b",
        ev_mark .YAML_DOCUMENT_END_EVENT, ev_mark .YAML_STREAM_END_EVENT]) []
      (ev_mark .YAML_DOCUMENT_START_EVENT) (parser_of [ev_plain "b",
        ev_mark .YAML_DOCUMENT_END_EVENT, ev_mark .YAML_STREAM_END_EVENT]) rfl rfl).2 rfl),
   by decide!, by decide!⟩

/-- C16 as stated fails.  On the stream of the two documents `*a` and `b` a
second document start follows the first document, yet the failure is the
`KeyError` of the alias of the first document, not `RuntimeError`. -/
theorem single_document_counterexample :
    result_value (_min_yaml_single_data (parser_of [ev_mark .YAML_STREAM_START_EVENT,
        ev_mark .YAML_DOCUMENT_START_EVENT, ev_alias "a", ev_mark .YAML_DOCUMENT_END_EVENT,
        ev_mark .YAML_DOCUMENT_START_EVENT, ev_plain "b", ev_mark .YAML_DOCUMENT_END_EVENT,
        ev_mark .YAML_STREAM_END_EVENT]) implicitBuilders) = .error .KeyError
    ∧ result_value (_min_yaml_single_data (parser_of [ev_mark .YAML_STREAM_START_EVENT,
        ev_mark .YAML_DOCUMENT_START_EVENT, ev_alias "a", ev_mark .YAML_DOCUMENT_END_EVENT,
        ev_mark .YAML_DOCUMENT_START_EVENT, ev_plain "b", ev_mark .YAML_DOCUMENT_END_EVENT,
        ev_mark .YAML_STREAM_END_EVENT]) implicitBuilders) ≠ .error .RuntimeError := by
  refine ⟨by decide!, by decide!⟩

/-! ## The registry -/

theorem add_loop_found (t : String) (res : Option (String → PyResult))
    (con : Option (List PyObject → PyResult)) (b : MinYamlBuilders) (post : List MinYamlBuilders)
    (hb : b.tag = t) : ∀ pre : List MinYamlBuilders, (∀ x ∈ pre, x.tag ≠ t) →
    _add_resolver_constructor_loop t res con (pre ++ b :: post)
      = some (pre ++ { b with
          py_constructor := (match con with
            | some c => some c
            | none => b.py_constructor),
          py_resolver := (match res with
            | some r => some r
            | none => b.py_resolver) } :: post) := by
  intro pre
  induction pre with
  | nil =>
    intro _
    subst hb
    simp only [List.nil_append, _add_resolver_constructor_loop, if_true]
    cases con <;> cases res <;> rfl
  | cons x pre ih =>
    intro hpre
    have hx : x.tag ≠ t := hpre x (List.mem_cons_self _ _)
    have ih1 := ih (fun y hy => hpre y (List.mem_cons_of_mem _ hy))
    show _add_resolver_constructor_loop t res con (x :: (pre ++ b :: post)) = _
    simp only [_add_resolver_constructor_loop, hx, if_false, ih1]
    rfl

theorem add_loop_none (t : String) (res : Option (String → PyResult))
    (con : Option (List PyObject → PyResult)) : ∀ R : List MinYamlBuilders,
    (∀ x ∈ R, x.tag ≠ t) → _add_resolver_constructor_loop t res con R = none := by
  intro R
  induction R with
  | nil => intro _; rfl
  | cons x R ih =>
    intro h
    have hx : x.tag ≠ t := h x (List.mem_cons_self _ _)
    simp only [_add_resolver_constructor_loop, hx, if_false,
      ih (fun y hy => h y (List.mem_cons_of_mem _ hy))]

/-- C17. Registration updates in place or appends at the tail.  When the
registry holds an entry with the tag `t`, the first such entry takes the
resolver and the constructor that are supplied and keeps everything else,
and the entries before and behind it stay as they are.  When no entry has the
tag `t`, the registry (which is never empty) gets one new entry behind the
last: it has the tag `t`, the resolver and the constructor supplied, and no C
resolver or constructor. -/
theorem register_in_place_or_append (t : String) (res : Option (String → PyResult))
    (con : Option (List PyObject → PyResult)) :
    (∀ (pre post : List MinYamlBuilders) (b : MinYamlBuilders),
      (∀ x ∈ pre, x.tag ≠ t) → b.tag = t →
      _add_resolver_constructor (pre ++ b :: post) t res con
        = .ok (pre ++ { b with
            py_constructor := (match con with
              | some c => some c
              | none => b.py_constructor),
            py_resolver := (match res with
              | some r => some r
              | none => b.py_resolver) } :: post))
    ∧ (∀ R : List MinYamlBuilders, (∀ x ∈ R, x.tag ≠ t) → R ≠ [] →
      _add_resolver_constructor R t res con = .ok (R ++ [_new_py_builder t res con])
      ∧ (_new_py_builder t res con).tag = t
      ∧ (_new_py_builder t res con).c_resolver = none
      ∧ (_new_py_builder t res con).c_constructor = none) := by
  refine ⟨?_, ?_⟩
  · intro pre post b hpre hb
    simp only [_add_resolver_constructor, add_loop_found t res con b post hb pre hpre]
  · intro R hR hne
    have he : R.isEmpty = false := by
      cases R with
      | nil => exact absurd rfl hne
      | cons x r => rfl
    refine ⟨?_, rfl, rfl, rfl⟩
    simp only [_add_resolver_constructor, add_loop_none t res con R hR, he, Bool.false_eq_true,
      if_false]

/-- C17, witness: a constructor registered for the tag of integers goes to
the fifth of the nine core entries, which keeps its C resolver, and the
registry keeps its nine entries; a resolver registered for a new tag makes a
tenth entry behind them. -/
theorem register_in_place_or_append_witness :
    (match _min_yaml_add_constructor implicitBuilders YAML_TAG_INT (fun _ => .ok .none) with
      | .ok R => (R.map builder_core, (R.getD 4 (_new_py_builder "" none none)).py_resolver.isSome)
      | .error _ => ([], true))
      = ([(YAML_TAG_NULL, some .null, some ._to_null, false, false),
          (YAML_TAG_BOOL, none, some ._to_bool, false, false),
          (YAML_TAG_TRUE, some .true_, some ._to_true, false, false),
          (YAML_TAG_FALSE, some .false_, some ._to_false, false, false),
          (YAML_TAG_INT, some .int, some ._to_int, false, true),
          (YAML_TAG_FLOAT, some .float, some ._to_float, false, false),
          (YAML_TAG_TIMESTAMP, some .timestamp, some ._to_timestamp, false, false),
          (YAML_TAG_STR, none, some ._to_str, false, false),
          (YAML_TAG_BINARY, none, some ._to_binary, false, false)], false)
    ∧ (match _min_yaml_add_resolver implicitBuilders "!x" (fun _ => .ok .none) with
      | .ok R => R.map builder_core
      | .error _ => [])
      = implicitBuilders.map builder_core ++ [("!x", none, none, true, false)] := by
  have h1 := (register_in_place_or_append YAML_TAG_INT none (some (fun _ => .ok .none))).1
    (implicitBuilders.take 4) (implicitBuilders.drop 5)
    (implicitBuilders.getD 4 (_new_py_builder "" none none)) (by decide) (by decide)
  have h2 := ((register_in_place_or_append "!x" (some (fun _ => .ok .none)) none).2
    implicitBuilders (by decide) (List.ne_nil_of_length_pos (by decide))).1
  have hsplit : implicitBuilders.take 4 ++ implicitBuilders.getD 4 (_new_py_builder "" none none)
      :: implicitBuilders.drop 5 = implicitBuilders := by rfl
  rw [hsplit] at h1
  refine ⟨?_, ?_⟩
  · simp only [_min_yaml_add_constructor, h1]
    rfl
  · simp only [_min_yaml_add_resolver, h2, List.map_append]
    rfl

/-- C18. The initial registry: `_init_implicit_builders` succeeds and gives
nine entries, in this order and with these tags; the entries of bool, str and
binary have no resolver, the other six have a C resolver; none has a Python
resolver or constructor.  The three entries without resolver accept no text:
they are reached by their tag only. -/
theorem initial_registry :
    (match _init_implicit_builders with
      | .ok bs => some (bs.map (fun b =>
          (b.tag, b.c_resolver.isSome, b.py_resolver.isSome, b.py_constructor.isSome)))
      | .error _ => none)
      = some [("tag:yaml.org,2002:null", true, false, false),
          ("tag:yaml.org,2002:bool", false, false, false),
          ("tag:yaml.org,2002:true", true, false, false),
          ("tag:yaml.org,2002:false", true, false, false),
          ("tag:yaml.org,2002:int", true, false, false),
          ("tag:yaml.org,2002:float", true, false, false),
          ("tag:yaml.org,2002:timestamp", true, false, false),
          ("tag:yaml.org,2002:str", false, false, false),
          ("tag:yaml.org,2002:binary", false, false, false)]
    ∧ implicitBuilders.map (fun b => (b.tag, b.c_resolver, b.c_constructor))
      = [("tag:yaml.org,2002:null", some .null, some ._to_null),
          ("tag:yaml.org,2002:bool", none, some ._to_bool),
          ("tag:yaml.org,2002:true", some .true_, some ._to_true),
          ("tag:yaml.org,2002:false", some .false_, some ._to_false),
          ("tag:yaml.org,2002:int", some .int, some ._to_int),
          ("tag:yaml.org,2002:float", some .float, some ._to_float),
          ("tag:yaml.org,2002:timestamp", some .timestamp, some ._to_timestamp),
          ("tag:yaml.org,2002:str", none, some ._to_str),
          ("tag:yaml.org,2002:binary", none, some ._to_binary)]
    ∧ (∀ value : List Char,
        (implicitBuilders.filter (fun b => b.c_resolver.isNone)).map
          (fun b => (b.tag, matcher_answer b value))
        = [("tag:yaml.org,2002:bool", .ok false), ("tag:yaml.org,2002:str", .ok false),
            ("tag:yaml.org,2002:binary", .ok false)]) := by
  refine ⟨by decide, by decide, ?_⟩
  intro value
  have hf : implicitBuilders.filter (fun b => b.c_resolver.isNone)
      = [implicitBuilders.getD 1 (_new_py_builder "" none none),
          implicitBuilders.getD 7 (_new_py_builder "" none none),
          implicitBuilders.getD 8 (_new_py_builder "" none none)] := by rfl
  rw [hf]
  simp only [List.map_cons, List.map_nil,
    matcher_answer_none (implicitBuilders.getD 1 (_new_py_builder "" none none)) value rfl rfl,
    matcher_answer_none (implicitBuilders.getD 7 (_new_py_builder "" none none)) value rfl rfl,
    matcher_answer_none (implicitBuilders.getD 8 (_new_py_builder "" none none)) value rfl rfl]
  rfl

/-- C19. Two notations of one instant: the untagged scalars
`2001-12-15T02:59:43.1Z` and `2001-12-14T21:59:43.10-05:00` are both built, by
the core registry, to the date and time 2001-12-15 02:59:43 with 100000
microseconds. -/
theorem timestamp_zones_agree :
    result_value (_build_scalar none "2001-12-15T02:59:43.1Z".data implicitBuilders)
      = .ok (.datetime 2001 12 15 2 59 43 100000)
    ∧ result_value (_build_scalar none "2001-12-14T21:59:43.10-05:00".data implicitBuilders)
      = .ok (.datetime 2001 12 15 2 59 43 100000) := by
  refine ⟨by decide!, by decide!⟩

/-! ## Timestamps -/

theorem datetime_hour_24 (y mo d mi s us : Int) :
    PyDateTime_FromDateAndTime y mo d 24 mi s us = .error .ValueError := by
  unfold PyDateTime_FromDateAndTime
  rw [if_neg]
  intro h
  omega

/-- C20. Hour normalisation in `_to_timestamp`, for the captures of a full
timestamp whose zone has hours `o` and no minutes or the minutes 0, with the hour `h` in 0..23,
`o` in -23..23 and the minute in 0..60: when `h - o` is not 24 the date and
time is made from the day plus the carry (-1 when `h - o < 0`, +1 when
`h - o > 24`) and the hour `(h - o) mod 24`; when `h - o` is 24 the hour stays
24, the day stays, and the date and time is refused with `ValueError`. -/
theorem hour_normalisation (self : MinYamlBuilders) (value : List Char) (len : Nat)
    (y mo d h mi s o us : Int) (ptz : List Char)
    (hn : 0 ≤ self.ncaptures) (h0 : _ovector_at self 0 = none)
    (hy : atoi_ptr (ptr_at value (_ovector_at self 3)) = .ok y)
    (hmo : atoi_ptr (ptr_at value (_ovector_at self 4)) = .ok mo)
    (hd : atoi_ptr (ptr_at value (_ovector_at self 5)) = .ok d)
    (hh : atoi_ptr (ptr_at value (_ovector_at self 6)) = .ok h)
    (hmi : atoi_ptr (ptr_at value (_ovector_at self 7)) = .ok mi)
    (hs : atoi_ptr (ptr_at value (_ovector_at self 8)) = .ok s)
    (hus : (match ptr_at value (_ovector_at self 9) with
      | some cur =>
        int_of_fp (float_mul (float_of_double (atof cur)) (float_of_double (double_of_int 1000000)))
      | none => 0) = us)
    (htz : ptr_at value (_ovector_at self 10) = some ptz) (ho : atoi ptz = o)
    (htm : (match ptr_at value (_ovector_at self 11) with
      | some cur => atoi cur
      | none => 0) = 0)
    (hh0 : 0 ≤ h ∧ h ≤ 23) (ho0 : -23 ≤ o ∧ o ≤ 23) (hmi0 : 0 ≤ mi ∧ mi ≤ 60) :
    (h - o ≠ 24 →
      result_value (_to_timestamp self value len)
        = PyDateTime_FromDateAndTime y mo
            (d + (if h - o < 0 then -1 else if 23 < h - o then 1 else 0)) ((h - o) % 24) mi s us)
    ∧ (h - o = 24 → result_value (_to_timestamp self value len) = .error .ValueError) := by
  have hn1 : ¬ self.ncaptures < 0 := by omega
  have hm1 : ¬ mi < 0 := by omega
  have hm2 : ¬ (60 : Int) < mi := by omega
  have h0p : ptr_at value (_ovector_at self 0) = none := by rw [h0]; rfl
  have hres : result_value (_to_timestamp self value len)
      = PyDateTime_FromDateAndTime y mo
          (if 24 < (if h - o < 0 then h - o + 24 else h - o)
            then (if h - o < 0 then d - 1 else d) + 1 else (if h - o < 0 then d - 1 else d))
          (if 24 < (if h - o < 0 then h - o + 24 else h - o)
            then (if h - o < 0 then h - o + 24 else h - o) - 24
            else (if h - o < 0 then h - o + 24 else h - o)) mi s us := by
    subst hus ho
    simp only [_to_timestamp, hn1, if_false, bind, Except.bind, pure, Except.pure, h0p,
      hy, hmo, hd, hh, hmi, hs, htz, htm, Int.sub_zero, hm1, hm2]
    cases PyDateTime_FromDateAndTime y mo
      (if 24 < (if h - atoi ptz < 0 then h - atoi ptz + 24 else h - atoi ptz)
        then (if h - atoi ptz < 0 then d - 1 else d) + 1
        else (if h - atoi ptz < 0 then d - 1 else d))
      (if 24 < (if h - atoi ptz < 0 then h - atoi ptz + 24 else h - atoi ptz)
        then (if h - atoi ptz < 0 then h - atoi ptz + 24 else h - atoi ptz) - 24
        else (if h - atoi ptz < 0 then h - atoi ptz + 24 else h - atoi ptz)) mi s _ <;> rfl
  refine ⟨fun hne => ?_, fun heq => ?_⟩
  · rw [hres]
    by_cases hneg : h - o < 0
    · have h1 : ¬ (24 : Int) < h - o + 24 := by omega
      have h2 : (h - o) % 24 = h - o + 24 := by omega
      simp only [hneg, if_true, h1, if_false, h2]
      rfl
    · by_cases hbig : 24 < h - o
      · have h2 : (h - o) % 24 = h - o - 24 := by omega
        have h3 : (23 : Int) < h - o := by omega
        simp only [hneg, if_false, hbig, if_true, h2, h3]
      · have h2 : (h - o) % 24 = h - o := by omega
        have h3 : ¬ (23 : Int) < h - o := by omega
        simp only [hneg, if_false, hbig, h2, h3, Int.add_zero]
  · rw [hres]
    have hneg : ¬ h - o < 0 := by omega
    have hbig : ¬ (24 : Int) < h - o := by omega
    simp only [hneg, if_false, hbig, heq]
    exact datetime_hour_24 _ _ _ _ _ _

/-- C20, witness: `2001-12-14T23:00:00-01:00` (23 + 1 = 24) is refused with
`ValueError`, from the captures and as an untagged scalar; `21:59:43-05`
(26) carries to the next day, hour 2; `01:00:00+02:00` (-1) borrows from the
day, hour 23. -/
theorem hour_normalisation_witness :
    result_value (_to_timestamp
        (match _match_builder (implicitBuilders.getD 6 (_new_py_builder "" none none))
            "2001-12-14T23:00:00-01:00".data with
          | .ok (_, b) => b
          | .error _ => _new_py_builder "" none none)
        "2001-12-14T23:00:00-01:00".data 25) = .error .ValueError
    ∧ result_value (_build_scalar none "2001-12-14T23:00:00-01:00".data implicitBuilders)
      = .error .ValueError
    ∧ result_value (_build_scalar none "2001-12-14T21:59:43-05".data implicitBuilders)
      = .ok (.datetime 2001 12 15 2 59 43 0)
    ∧ result_value (_build_scalar none "2001-12-15T01:00:00+02:00".data implicitBuilders)
      = .ok (.datetime 2001 12 14 23 0 0 0) :=
  ⟨(hour_normalisation
      (match _match_builder (implicitBuilders.getD 6 (_new_py_builder "" none none))
          "2001-12-14T23:00:00-01:00".data with
        | .ok (_, b) => b
        | .error _ => _new_py_builder "" none none)
      "2001-12-14T23:00:00-01:00".data 25 2001 12 14 23 0 0 (-1) 0 "-01:00".data
      (by decide) (by decide) (by decide) (by decide) (by decide) (by decide) (by decide)
      (by decide) (by decide) (by decide) (by decide) (by decide) (by decide) (by decide)
      (by decide)).2 (by decide),
   by decide!, by decide!, by decide!⟩

/-! ## Mappings: the value of a merge key -/

theorem is_key_merge_str : _is_key_merge (.str "<<") = true := by decide

theorem merge_list_dicts : ∀ (Vs : List PyDict) (M : PyDict),
    _build_map_merge_list M (Vs.map PyObject.dict) = .ok (Vs.foldl dict_merge_items M)
  | [], _ => rfl
  | V :: rest, M => by
    simp only [List.map_cons, _build_map_merge_list, PyDict_Merge, List.foldl_cons]
    exact merge_list_dicts rest (dict_merge_items M V)

theorem merge_list_not_dict : ∀ (Vs : List PyDict) (M : PyDict) (x : PyObject) (rest : List PyObject),
    (∀ V, x ≠ .dict V) →
    _build_map_merge_list M (Vs.map PyObject.dict ++ x :: rest) = .error .AttributeError
  | [], M, x, rest, hx => by
    simp only [List.map_nil, List.nil_append, _build_map_merge_list]
    cases x with
    | dict V => exact absurd rfl (hx V)
    | atom a => rfl
    | list l => rfl
    | tuple l => rfl
    | set l => rfl
  | V :: Vs, M, x, rest, hx => by
    simp only [List.map_cons, List.cons_append, _build_map_merge_list, PyDict_Merge]
    exact merge_list_not_dict Vs (dict_merge_items M V) x rest hx

theorem getitem_merge_list (k : PyObject) : ∀ (Vs : List PyDict) (M : PyDict),
    PyDict_GetItem (Vs.foldl dict_merge_items M) k
      = match PyDict_GetItem M k with
        | some v => some v
        | none => Vs.findSome? (fun V => PyDict_GetItem V k)
  | [], M => by
    simp only [List.foldl_nil, List.findSome?_nil]
    cases PyDict_GetItem M k <;> rfl
  | V :: rest, M => by
    simp only [List.foldl_cons, getitem_merge_list k rest (dict_merge_items M V), getitem_merge,
      List.findSome?_cons]
    cases PyDict_GetItem M k with
    | some v => rfl
    | none =>
      simp only
      cases PyDict_GetItem V k <;> rfl

/-- The step of the loop of `_build_map` on the value of a merge key: the
pair is merged and the loop goes on with no key waiting and the flag `isSet`
down, or the loop ends with the error of the merge. -/
theorem build_map_loop_merge (M : PyDict) (fuel : Nat) (st st1 : BuildState) (isSet : Bool)
    (event : yaml_event_t) (parser : yaml_parser_t) (v : PyObject)
    (hnext : _parse_next st.parser .YAML_MAPPING_END_EVENT = .ok (.BLOCK_PROCEED, event, parser))
    (hval : _build_value fuel event { st with parser := parser } = .ok (v, st1)) :
    _build_map_loop (fuel + 1) st M (some (.str "<<")) isSet
      = match _build_map_pair M (.str "<<") v with
        | .error e => .error e
        | .ok M1 => _build_map_loop fuel st1 M1 none false := by
  simp only [_build_map_loop, hnext, if_true, hval]
  cases hp : _build_map_pair M (.str "<<") v with
  | error e => rfl
  | ok M1 =>
    have hne : decide (v = PyObject.none) = false := by
      simp only [decide_eq_false_iff_not]
      intro h
      subst h
      simp [_build_map_pair, is_key_merge_str] at hp
    simp only [hne, Bool.and_false]

/-- C22. A merge key whose value is a list of dictionaries `V1, ..., Vn`
merges them in the order of the list, each without overwriting
(`PyDict_Merge` with override 0): the pair gives the mapping `M` merged with
`V1`, then `V2`, and so on.  In the new mapping every key bound in `M` keeps
its value, and a key not bound in `M` has the value that the first `Vi`
binding it gives it (none if no `Vi` binds it).  The loop of `_build_map`
goes on from the new mapping with no key waiting. -/
theorem merge_sequence_in_order (M : PyDict) (Vs : List PyDict) :
    _build_map_pair M (.str "<<") (.list (Vs.map PyObject.dict))
      = .ok (Vs.foldl dict_merge_items M)
    ∧ (∀ k v, PyDict_GetItem M k = some v →
        PyDict_GetItem (Vs.foldl dict_merge_items M) k = some v)
    ∧ (∀ k, PyDict_GetItem M k = none →
        PyDict_GetItem (Vs.foldl dict_merge_items M) k
          = Vs.findSome? (fun V => PyDict_GetItem V k))
    ∧ (∀ k v (i : Nat), PyDict_GetItem M k = none →
        (∀ j < i, ∀ V, Vs[j]? = some V → PyDict_GetItem V k = none) →
        (∃ V, Vs[i]? = some V ∧ PyDict_GetItem V k = some v) →
        PyDict_GetItem (Vs.foldl dict_merge_items M) k = some v)
    ∧ (∀ (fuel : Nat) (st st1 : BuildState) (isSet : Bool) (event : yaml_event_t)
        (parser : yaml_parser_t),
        _parse_next st.parser .YAML_MAPPING_END_EVENT = .ok (.BLOCK_PROCEED, event, parser) →
        _build_value fuel event { st with parser := parser }
          = .ok (.list (Vs.map PyObject.dict), st1) →
        _build_map_loop (fuel + 1) st M (some (.str "<<")) isSet
          = _build_map_loop fuel st1 (Vs.foldl dict_merge_items M) none false) := by
  have hpair : _build_map_pair M (.str "<<") (.list (Vs.map PyObject.dict))
      = .ok (Vs.foldl dict_merge_items M) := by
    simp only [_build_map_pair, is_key_merge_str, if_true, merge_list_dicts]
  refine ⟨hpair, ?_, ?_, ?_, ?_⟩
  · intro k v h
    rw [getitem_merge_list, h]
  · intro k h
    rw [getitem_merge_list, h]
  · intro k v i h hlt hi
    rw [getitem_merge_list, h]
    simp only
    clear hpair h
    induction Vs generalizing i with
    | nil =>
      obtain ⟨V, hV, _⟩ := hi
      simp at hV
    | cons V rest ih =>
      cases i with
      | zero =>
        obtain ⟨V0, hV0, hk⟩ := hi
        simp only [List.getElem?_cons_zero, Option.some.injEq] at hV0
        subst hV0
        simp only [List.findSome?_cons, hk]
      | succ i =>
        have h0 : PyDict_GetItem V k = none := hlt 0 (Nat.succ_pos i) V (by simp)
        simp only [List.findSome?_cons, h0]
        refine ih i (fun j hj W hW => hlt (j + 1) (Nat.succ_lt_succ hj) W (by simpa using hW)) ?_
        obtain ⟨W, hW, hk⟩ := hi
        exact ⟨W, by simpa using hW, hk⟩
  · intro fuel st st1 isSet event parser hnext hval
    rw [build_map_loop_merge M fuel st st1 isSet event parser _ hnext hval, hpair]

/-- C22, witness: `a: 0` merged with the list of `a: 1, b: 1` and
`b: 2, c: 2` keeps `a`, takes `b` from the first and `c` from the second;
the step of the loop; and the document `a: 0, <<: [(a: 1, b: 1), (b: 2, c: 2)]`
built by the core registry. -/
theorem merge_sequence_in_order_witness :
    PyDict_GetItem ([[(PyObject.str "a", PyObject.int 1), (.str "b", .int 1)],
        [(.str "b", .int 2), (.str "c", .int 2)]].foldl dict_merge_items [(.str "a", .int 0)])
        (.str "a") = some (.int 0)
    ∧ PyDict_GetItem ([[(PyObject.str "a", PyObject.int 1), (.str "b", .int 1)],
        [(.str "b", .int 2), (.str "c", .int 2)]].foldl dict_merge_items [(.str "a", .int 0)])
        (.str "b") = some (.int 1)
    ∧ PyDict_GetItem ([[(PyObject.str "a", PyObject.int 1), (.str "b", .int 1)],
        [(.str "b", .int 2), (.str "c", .int 2)]].foldl dict_merge_items [(.str "a", .int 0)])
        (.str "c") = some (.int 2)
    ∧ _build_map_loop 13
        ⟨parser_of [ev_seq_start none none, ev_map_start none none, ev_plain "b", ev_plain "1",
          ev_map_end, ev_map_start none none, ev_plain "b", ev_plain "2", ev_plain "c",
          ev_plain "2", ev_map_end, ev_seq_end, ev_map_end], [], []⟩
        [(.str "a", .str "0")] (some (.str "<<")) true
      = _build_map_loop 12 ⟨parser_of [ev_map_end], [], []⟩
          ([[(PyObject.str "b", PyObject.str "1")],
            [(.str "b", .str "2"), (.str "c", .str "2")]].foldl dict_merge_items
            [(.str "a", .str "0")]) none false
    ∧ result_value (_build_document (parser_of [ev_map_start none none, ev_plain "a", ev_plain "0",
        ev_plain "<<", ev_seq_start none none, ev_map_start none none, ev_plain "a", ev_plain "1",
        ev_plain "b", ev_plain "1", ev_map_end, ev_map_start none none, ev_plain "b",
        ev_plain "2", ev_plain "c", ev_plain "2", ev_map_end, ev_seq_end, ev_map_end,
        ev_mark .YAML_DOCUMENT_END_EVENT]) implicitBuilders)
      = .ok (.dict [(.str "a", .int 0), (.str "b", .int 1), (.str "c", .int 2)]) :=
  ⟨(merge_sequence_in_order [(.str "a", .int 0)] [[(.str "a", .int 1), (.str "b", .int 1)],
      [(.str "b", .int 2), (.str "c", .int 2)]]).2.1 _ _ (by decide),
   ((merge_sequence_in_order [(.str "a", .int 0)] [[(.str "a", .int 1), (.str "b", .int 1)],
      [(.str "b", .int 2), (.str "c", .int 2)]]).2.2.1 _ (by decide)).trans (by decide),
   (merge_sequence_in_order [(.str "a", .int 0)] [[(.str "a", .int 1), (.str "b", .int 1)],
      [(.str "b", .int 2), (.str "c", .int 2)]]).2.2.2.1 (.str "c") (.int 2) 1 (by decide)
      (by decide) ⟨_, rfl, by decide⟩,
   (merge_sequence_in_order [(.str "a", .str "0")] [[(.str "b", .str "1")],
      [(.str "b", .str "2"), (.str "c", .str "2")]]).2.2.2.2 12
      ⟨parser_of [ev_seq_start none none, ev_map_start none none, ev_plain "b", ev_plain "1",
          ev_map_end, ev_map_start none none, ev_plain "b", ev_plain "2", ev_plain "c",
          ev_plain "2", ev_map_end, ev_seq_end, ev_map_end], [], []⟩
      ⟨parser_of [ev_map_end], [], []⟩ true (ev_seq_start none none)
      (parser_of [ev_map_start none none, ev_plain "b", ev_plain "1",
          ev_map_end, ev_map_start none none, ev_plain "b", ev_plain "2", ev_plain "c",
          ev_plain "2", ev_map_end, ev_seq_end, ev_map_end]) rfl rfl,
   by decide!⟩

theorem merge_list_ok_dicts : ∀ (items : List PyObject) (M M1 : PyDict),
    _build_map_merge_list M items = .ok M1 → ∃ Vs : List PyDict, items = Vs.map PyObject.dict
  | [], _, _, _ => ⟨[], rfl⟩
  | x :: rest, M, M1, h => by
    cases x with
    | dict V =>
      simp only [_build_map_merge_list, PyDict_Merge] at h
      obtain ⟨Vs, hVs⟩ := merge_list_ok_dicts rest _ M1 h
      exact ⟨V :: Vs, by rw [hVs]; rfl⟩
    | atom a => simp [_build_map_merge_list, PyDict_Merge] at h
    | list l => simp [_build_map_merge_list, PyDict_Merge] at h
    | tuple l => simp [_build_map_merge_list, PyDict_Merge] at h
    | set l => simp [_build_map_merge_list, PyDict_Merge] at h

theorem merge_pair_other (M : PyDict) (v : PyObject) (hd : ∀ V, v ≠ .dict V)
    (hl : ∀ l, v ≠ .list l) : _build_map_pair M (.str "<<") v = .error .SyntaxError := by
  cases v with
  | dict V => exact absurd rfl (hd V)
  | list l => exact absurd rfl (hl l)
  | atom a => simp only [_build_map_pair, is_key_merge_str, if_true]
  | tuple l => simp only [_build_map_pair, is_key_merge_str, if_true]
  | set l => simp only [_build_map_pair, is_key_merge_str, if_true]

/-- C21 (amended). What a pair with the key `<<` accepts is decided on the
value built, not on the kind of node: a dictionary is merged, and a list is
merged item by item when all its items are dictionaries (the empty list
merges nothing); these are the only values accepted.  A list with an item
that is not a dictionary fails with the `AttributeError` of `PyDict_Merge`,
and any value that is neither a list nor a dictionary fails with
`SyntaxError`; a set is such a value, so a mapping node that was built as a
set is refused.  In the loop of `_build_map` the accepted value lets the
loop go on from the merged mapping, and the refused one ends it with the
error. -/
theorem merge_value_kinds (M : PyDict) :
    (∀ V, _build_map_pair M (.str "<<") (.dict V) = .ok (dict_merge_items M V))
    ∧ (∀ Vs : List PyDict, _build_map_pair M (.str "<<") (.list (Vs.map PyObject.dict))
        = .ok (Vs.foldl dict_merge_items M))
    ∧ (∀ v, (∃ M1, _build_map_pair M (.str "<<") v = .ok M1)
        ↔ ((∃ V, v = .dict V) ∨ (∃ Vs : List PyDict, v = .list (Vs.map PyObject.dict))))
    ∧ (∀ (Vs : List PyDict) (x : PyObject) (rest : List PyObject), (∀ V, x ≠ .dict V) →
        _build_map_pair M (.str "<<") (.list (Vs.map PyObject.dict ++ x :: rest))
          = .error .AttributeError)
    ∧ (∀ v, (∀ V, v ≠ .dict V) → (∀ l, v ≠ .list l) →
        _build_map_pair M (.str "<<") v = .error .SyntaxError)
    ∧ (∀ keys, _build_map_pair M (.str "<<") (.set keys) = .error .SyntaxError)
    ∧ (∀ (fuel : Nat) (st st1 : BuildState) (isSet : Bool) (event : yaml_event_t)
        (parser : yaml_parser_t) (v : PyObject),
        _parse_next st.parser .YAML_MAPPING_END_EVENT = .ok (.BLOCK_PROCEED, event, parser) →
        _build_value fuel event { st with parser := parser } = .ok (v, st1) →
        _build_map_loop (fuel + 1) st M (some (.str "<<")) isSet
          = match _build_map_pair M (.str "<<") v with
            | .error e => .error e
            | .ok M1 => _build_map_loop fuel st1 M1 none false) := by
  have hd : ∀ V, _build_map_pair M (.str "<<") (.dict V) = .ok (dict_merge_items M V) := by
    intro V
    simp only [_build_map_pair, is_key_merge_str, if_true, PyDict_Merge]
  have hl : ∀ Vs : List PyDict, _build_map_pair M (.str "<<") (.list (Vs.map PyObject.dict))
      = .ok (Vs.foldl dict_merge_items M) := by
    intro Vs
    simp only [_build_map_pair, is_key_merge_str, if_true, merge_list_dicts]
  refine ⟨hd, hl, ?_, ?_, merge_pair_other M, ?_, ?_⟩
  · intro v
    constructor
    · rintro ⟨M1, h⟩
      cases v with
      | dict V => exact Or.inl ⟨V, rfl⟩
      | list l =>
        simp only [_build_map_pair, is_key_merge_str, if_true] at h
        obtain ⟨Vs, hVs⟩ := merge_list_ok_dicts l M M1 h
        exact Or.inr ⟨Vs, by rw [hVs]⟩
      | atom a => simp [_build_map_pair, is_key_merge_str] at h
      | tuple l => simp [_build_map_pair, is_key_merge_str] at h
      | set l => simp [_build_map_pair, is_key_merge_str] at h
    · rintro (⟨V, rfl⟩ | ⟨Vs, rfl⟩)
      · exact ⟨_, hd V⟩
      · exact ⟨_, hl Vs⟩
  · intro Vs x rest hx
    simp only [_build_map_pair, is_key_merge_str, if_true, merge_list_not_dict Vs M x rest hx]
  · intro keys
    exact merge_pair_other M (.set keys) (fun V h => by cases h) (fun l h => by cases h)
  · intro fuel st st1 isSet event parser v hnext hval
    exact build_map_loop_merge M fuel st st1 isSet event parser v hnext hval

/-- C21, witness: the integer 1 as the value of `<<` is refused with
`SyntaxError`, the list made of the integer 1 with `AttributeError`; the step
of the loop on an empty mapping node, which is built as the empty set and
refused; and the documents `a: 0, <<: (b: 1)`, `a: 0, <<: []` and
`a: 0, <<: [(b: 1), (c: 2)]` are built by the core registry. -/
theorem merge_value_kinds_witness :
    _build_map_pair [] (.str "<<") (.int 1) = .error .SyntaxError
    ∧ _build_map_pair [] (.str "<<") (.list [.int 1]) = .error .AttributeError
    ∧ _build_map_loop 3 ⟨parser_of [ev_map_start none none, ev_map_end, ev_map_end], [], []⟩
        [] (some (.str "<<")) true = .error .SyntaxError
    ∧ result_value (_build_document (parser_of [ev_map_start none none, ev_plain "a", ev_plain "0",
        ev_plain "<<", ev_map_start none none, ev_plain "b", ev_plain "1", ev_map_end,
        ev_map_end, ev_mark .YAML_DOCUMENT_END_EVENT]) implicitBuilders)
      = .ok (.dict [(.str "a", .int 0), (.str "b", .int 1)])
    ∧ result_value (_build_document (parser_of [ev_map_start none none, ev_plain "a", ev_plain "0",
        ev_plain "<<", ev_seq_start none none, ev_seq_end,
        ev_map_end, ev_mark .YAML_DOCUMENT_END_EVENT]) implicitBuilders)
      = .ok (.dict [(.str "a", .int 0)])
    ∧ result_value (_build_document (parser_of [ev_map_start none none, ev_plain "a", ev_plain "0",
        ev_plain "<<", ev_seq_start none none, ev_map_start none none, ev_plain "b", ev_plain "1",
        ev_map_end, ev_map_start none none, ev_plain "c", ev_plain "2", ev_map_end, ev_seq_end,
        ev_map_end, ev_mark .YAML_DOCUMENT_END_EVENT]) implicitBuilders)
      = .ok (.dict [(.str "a", .int 0), (.str "b", .int 1), (.str "c", .int 2)]) :=
  ⟨(merge_value_kinds []).2.2.2.2.1 (.int 1) (fun V h => by cases h) (fun l h => by cases h),
   (merge_value_kinds []).2.2.2.1 [] (.int 1) [] (fun V h => by cases h),
   ((merge_value_kinds []).2.2.2.2.2.2 2
      ⟨parser_of [ev_map_start none none, ev_map_end, ev_map_end], [], []⟩
      ⟨parser_of [ev_map_end], [], []⟩ true (ev_map_start none none)
      (parser_of [ev_map_end, ev_map_end]) (.set []) rfl rfl).trans rfl,
   by decide!, by decide!, by decide!⟩

/-- C21, counterexample: the mapping nodes `()` (empty) and `k: ~` (its only
value is null) are built as sets, and as the value of a merge key they are
refused: the documents `a: 0, <<: ()` and `a: 0, <<: (k: ~)` fail with
`SyntaxError`; in a list, `a: 0, <<: [()]` fails with `AttributeError`; and
the document `a: 0, <<: [1]`, whose merge value is not a list of mappings,
fails with `AttributeError` and not with `SyntaxError`. -/
theorem merge_value_kinds_counterexample :
    result_value (_build_document (parser_of [ev_map_start none none, ev_map_end,
        ev_mark .YAML_DOCUMENT_END_EVENT]) implicitBuilders) = .ok (.set [])
    ∧ result_value (_build_document (parser_of [ev_map_start none none, ev_plain "a", ev_plain "0",
        ev_plain "<<", ev_map_start none none, ev_map_end,
        ev_map_end, ev_mark .YAML_DOCUMENT_END_EVENT]) implicitBuilders)
      = .error .SyntaxError
    ∧ result_value (_build_document (parser_of [ev_map_start none none, ev_plain "a", ev_plain "0",
        ev_plain "<<", ev_map_start none none, ev_plain "k", ev_plain "~", ev_map_end,
        ev_map_end, ev_mark .YAML_DOCUMENT_END_EVENT]) implicitBuilders)
      = .error .SyntaxError
    ∧ result_value (_build_document (parser_of [ev_map_start none none, ev_plain "a", ev_plain "0",
        ev_plain "<<", ev_seq_start none none, ev_map_start none none, ev_map_end, ev_seq_end,
        ev_map_end, ev_mark .YAML_DOCUMENT_END_EVENT]) implicitBuilders)
      = .error .AttributeError
    ∧ result_value (_build_document (parser_of [ev_map_start none none, ev_plain "a", ev_plain "0",
        ev_plain "<<", ev_seq_start none none, ev_plain "1", ev_seq_end,
        ev_map_end, ev_mark .YAML_DOCUMENT_END_EVENT]) implicitBuilders)
      = .error .AttributeError := by
  refine ⟨by decide!, by decide!, by decide!, by decide!, by decide!⟩

/-! ## Mappings: the empty mapping -/

/-- A mapping start with no tag, the tag of maps or the tag of sets is built
by `_build_map` and bound to its anchor. -/
theorem build_value_core_map (fuel : Nat) (ev : yaml_event_t) (st : BuildState)
    (hty : ev.type = .YAML_MAPPING_START_EVENT)
    (htag : ev.tag = none ∨ ev.tag = some YAML_TAG_MAP ∨ ev.tag = some YAML_TAG_SET) :
    _build_value (fuel + 1) ev st = _save_alias ev.anchor (_build_map fuel st) := by
  simp only [_build_value, hty, _build_map]
  rcases htag with h | h | h
  · simp only [h, true_or, if_true]
  · simp only [h, or_true, if_true]
  · simp only [h]
    split
    · rfl
    · simp only [if_true]

/-- C30. A mapping node without entries is built as the empty set: when the
mapping start has no tag, the tag of maps or the tag of sets and the next
event is a mapping end, the value built is the empty set, which is not the
empty dictionary, and the events that follow are left to be read. -/
theorem empty_mapping_is_set (fuel : Nat) (ev e : yaml_event_t) (rest : yaml_parser_t)
    (bs : List MinYamlBuilders) (al : PyDict)
    (hty : ev.type = .YAML_MAPPING_START_EVENT)
    (htag : ev.tag = none ∨ ev.tag = some YAML_TAG_MAP ∨ ev.tag = some YAML_TAG_SET)
    (he : e.type = .YAML_MAPPING_END_EVENT) :
    result_value (_build_value (fuel + 2) ev ⟨.ok e :: rest, bs, al⟩) = .ok (.set [])
    ∧ (∀ v st1, _build_value (fuel + 2) ev ⟨.ok e :: rest, bs, al⟩ = .ok (v, st1) →
        st1.parser = rest ∧ st1.builders = bs)
    ∧ PyObject.set [] ≠ PyObject.dict [] := by
  have hb : _build_map (fuel + 1) ⟨.ok e :: rest, bs, al⟩ = .ok (.set [], ⟨rest, bs, al⟩) := by
    simp only [_build_map, _build_map_loop, _parse_next, yaml_parser_parse, he, if_true,
      _build_map_end, PySet_New]
    rfl
  rw [build_value_core_map (fuel + 1) ev _ hty htag, hb]
  refine ⟨?_, ?_, (fun h => by cases h)⟩
  · cases ha : ev.anchor with
    | none => rfl
    | some a => rfl
  · intro v st1 h
    cases ha : ev.anchor with
    | none =>
      rw [ha] at h
      simp only [_save_alias, Except.ok.injEq, Prod.mk.injEq] at h
      obtain ⟨_, rfl⟩ := h
      exact ⟨rfl, rfl⟩
    | some a =>
      rw [ha] at h
      simp only [_save_alias, PyDict_SetItemString, PyDict_SetItem] at h
      split at h
      · cases h
      · simp only [Except.ok.injEq, Prod.mk.injEq] at h
        obtain ⟨_, rfl⟩ := h
        exact ⟨rfl, rfl⟩

/-- C30, witness: the events mapping start, mapping end give the empty set
for each of the three tags, with or without anchor, and the document made of
an empty mapping is the empty set. -/
theorem empty_mapping_is_set_witness :
    result_value (_build_value 2 (ev_map_start (some YAML_TAG_MAP) (some "x"))
        ⟨parser_of [ev_map_end, ev_plain "y"], implicitBuilders, []⟩) = .ok (.set [])
    ∧ result_value (_build_document (parser_of [ev_map_start (some YAML_TAG_MAP) none, ev_map_end,
        ev_mark .YAML_DOCUMENT_END_EVENT]) implicitBuilders) = .ok (.set [])
    ∧ result_value (_build_document (parser_of [ev_map_start (some YAML_TAG_SET) none, ev_map_end,
        ev_mark .YAML_DOCUMENT_END_EVENT]) implicitBuilders) = .ok (.set [])
    ∧ result_value (_build_document (parser_of [ev_map_start none none, ev_map_end,
        ev_mark .YAML_DOCUMENT_END_EVENT]) implicitBuilders) = .ok (.set []) :=
  ⟨(empty_mapping_is_set 0 (ev_map_start (some YAML_TAG_MAP) (some "x")) ev_map_end
      (parser_of [ev_plain "y"]) implicitBuilders [] rfl (Or.inr (Or.inl rfl)) rfl).1,
   by decide!, by decide!, by decide!⟩

/-! ## The registry while values are built -/

theorem match_builder_static (b b1 : MinYamlBuilders) (value : List Char) (r : Bool)
    (h : _match_builder b value = .ok (r, b1)) : builder_static b1 = builder_static b := by
  unfold _match_builder at h
  simp only at h
  split at h
  · split at h
    · cases h
    · simp only [Except.ok.injEq, Prod.mk.injEq] at h
      obtain ⟨_, rfl⟩ := h
      rfl
  · split at h
    · simp only [Except.ok.injEq, Prod.mk.injEq] at h
      obtain ⟨_, rfl⟩ := h
      rfl
    · simp only [Except.ok.injEq, Prod.mk.injEq] at h
      obtain ⟨_, rfl⟩ := h
      rfl

theorem action_static (b b1 : MinYamlBuilders) (value : List Char) (r : Bool)
    (h : _action_if_no_match b value = .ok (r, b1)) : builder_static b1 = builder_static b := by
  unfold _action_if_no_match at h
  split at h
  · cases h
  · rename_i valid self1 hm
    simp only [Except.ok.injEq, Prod.mk.injEq] at h
    obtain ⟨_, rfl⟩ := h
    exact match_builder_static _ _ _ _ hm

theorem rematch_static (self s : MinYamlBuilders) (value : List Char)
    (h : (if self.ncaptures < 0 then
            (match _action_if_no_match self value with
             | .error e => .error e
             | .ok (true, _) => .error .ValueError
             | .ok (false, self1) => .ok self1)
          else (.ok self : Except PyExc MinYamlBuilders)) = .ok s) :
    builder_static s = builder_static self := by
  split at h
  · split at h
    · cases h
    · cases h
    · rename_i self1 hm
      simp only [Except.ok.injEq] at h
      subst h
      exact action_static _ _ _ _ hm
  · simp only [Except.ok.injEq] at h
    subst h
    rfl

theorem to_int_static (self b1 : MinYamlBuilders) (value : List Char) (len : Nat) (v : PyObject)
    (h : _to_int self value len = .ok (v, b1)) : builder_static b1 = builder_static self := by
  unfold _to_int at h
  simp only [bind, Except.bind] at h
  split at h
  · cases h
  · rename_i s hs
    have hst := rematch_static self s value hs
    repeat' split at h
    all_goals first
      | (simp only [Except.ok.injEq, Prod.mk.injEq] at h; obtain ⟨_, rfl⟩ := h; exact hst)
      | (cases h)

theorem to_timestamp_static (self b1 : MinYamlBuilders) (value : List Char) (len : Nat)
    (v : PyObject) (h : _to_timestamp self value len = .ok (v, b1)) :
    builder_static b1 = builder_static self := by
  unfold _to_timestamp at h
  simp only [bind, Except.bind, pure, Except.pure] at h
  split at h
  · cases h
  · rename_i s hs
    have hst := rematch_static self s value hs
    repeat' split at h
    all_goals first
      | (simp only [Except.ok.injEq, Prod.mk.injEq] at h; obtain ⟨_, rfl⟩ := h; exact hst)
      | (cases h)

theorem to_float_static (self b1 : MinYamlBuilders) (value : List Char) (len : Nat)
    (v : PyObject) (h : _to_float self value len = .ok (v, b1)) :
    builder_static b1 = builder_static self := by
  unfold _to_float at h
  simp only at h
  repeat' split at h
  all_goals first
    | (cases h; done)
    | (simp only [Except.ok.injEq, Prod.mk.injEq] at h; obtain ⟨_, rfl⟩ := h; rfl)
    | (simp only [Except.ok.injEq, Prod.mk.injEq] at h; obtain ⟨_, rfl⟩ := h
       exact action_static _ _ _ _ (by assumption))

theorem c_constructor_static (c : MinYamlCConstructor) (self b1 : MinYamlBuilders)
    (value : List Char) (len : Nat) (v : PyObject)
    (h : c_constructor_call c self value len = .ok (v, b1)) :
    builder_static b1 = builder_static self := by
  have hp : ∀ r : PyResult, (match r with
      | .ok v => (.ok (v, self) : Except PyExc (PyObject × MinYamlBuilders))
      | .error e => .error e) = .ok (v, b1) → builder_static b1 = builder_static self := by
    intro r hr
    split at hr
    · simp only [Except.ok.injEq, Prod.mk.injEq] at hr
      obtain ⟨_, rfl⟩ := hr
      rfl
    · cases hr
  cases c with
  | _to_null => exact hp (_to_null value) h
  | _to_bool => exact hp (_to_bool value) h
  | _to_true => exact hp (_to_true value) h
  | _to_false => exact hp (_to_false value) h
  | _to_int => exact to_int_static _ _ _ _ _ h
  | _to_float => exact to_float_static _ _ _ _ _ h
  | _to_timestamp => exact to_timestamp_static self b1 value len v h
  | _to_binary => exact hp (_to_binary value len) h
  | _to_str => exact hp (_to_str value) h

theorem scalar_call_static (b b1 : MinYamlBuilders) (value : List Char) (len : Nat)
    (v : PyObject) (h : _build_scalar_call b value len = .ok (v, b1)) :
    builder_static b1 = builder_static b := by
  unfold _build_scalar_call at h
  split at h
  · split at h
    · simp only [Except.ok.injEq, Prod.mk.injEq] at h
      obtain ⟨_, rfl⟩ := h
      rfl
    · cases h
  · split at h
    · exact c_constructor_static _ _ _ _ _ _ h
    · simp only [Except.ok.injEq, Prod.mk.injEq] at h
      obtain ⟨_, rfl⟩ := h
      rfl

theorem scalar_loop_static (value : List Char) : ∀ (bs : List MinYamlBuilders) (i : Nat)
    (r : Option Nat) (bs1 : List MinYamlBuilders),
    _build_scalar_loop value i bs = .ok (r, bs1) →
    bs1.map builder_static = bs.map builder_static
  | [], _, _, _, h => by
    simp only [_build_scalar_loop, Except.ok.injEq, Prod.mk.injEq] at h
    obtain ⟨_, rfl⟩ := h
    rfl
  | b :: rest, i, r, bs1, h => by
    simp only [_build_scalar_loop] at h
    cases hm : _match_builder b value with
    | error e => rw [hm] at h; cases h
    | ok p =>
      obtain ⟨valid, b1⟩ := p
      have hb := match_builder_static _ _ _ _ hm
      rw [hm] at h
      cases valid with
      | true =>
        simp only [Except.ok.injEq, Prod.mk.injEq] at h
        obtain ⟨_, rfl⟩ := h
        simp only [List.map_cons, hb]
      | false =>
        simp only at h
        cases hl : _build_scalar_loop value (i + 1) rest with
        | error e => rw [hl] at h; cases h
        | ok q =>
          obtain ⟨r1, rest1⟩ := q
          rw [hl] at h
          simp only [Except.ok.injEq, Prod.mk.injEq] at h
          obtain ⟨_, rfl⟩ := h
          simp only [List.map_cons, hb, scalar_loop_static value rest (i + 1) r1 rest1 hl]

theorem map_set_static (bs : List MinYamlBuilders) (i : Nat) (b b1 : MinYamlBuilders)
    (hb : bs[i]? = some b) (h : builder_static b1 = builder_static b) :
    (bs.set i b1).map builder_static = bs.map builder_static := by
  induction bs generalizing i with
  | nil => rfl
  | cons x rest ih =>
    cases i with
    | zero =>
      simp only [List.getElem?_cons_zero, Option.some.injEq] at hb
      subst hb
      simp only [List.set_cons_zero, List.map_cons, h]
    | succ i =>
      simp only [List.getElem?_cons_succ] at hb
      simp only [List.set_cons_succ, List.map_cons, ih i hb]

theorem scalar_construct_static (value : List Char) (len : Nat) (bs bs1 : List MinYamlBuilders)
    (builder : Option Nat) (v : PyObject)
    (h : _build_scalar_construct value len bs builder = .ok (v, bs1)) :
    bs1.map builder_static = bs.map builder_static := by
  unfold _build_scalar_construct at h
  split at h
  · simp only [Except.ok.injEq, Prod.mk.injEq] at h
    obtain ⟨_, rfl⟩ := h
    rfl
  · rename_i b hb
    split at h
    · rename_i v1 b1 hc
      simp only [Except.ok.injEq, Prod.mk.injEq] at h
      obtain ⟨_, rfl⟩ := h
      cases builder with
      | none => simp at hb
      | some i =>
        simp only [Option.bind] at hb
        exact map_set_static bs i b b1 hb (scalar_call_static _ _ _ _ _ hc)
    · cases h

theorem map_modify_static (bs : List MinYamlBuilders) (i : Nat) (f : MinYamlBuilders → MinYamlBuilders)
    (hf : ∀ b, builder_static (f b) = builder_static b) :
    (bs.modify f i).map builder_static = bs.map builder_static := by
  induction bs generalizing i with
  | nil => cases i <;> rfl
  | cons x rest ih =>
    cases i with
    | zero => simp only [List.modify_zero_cons, List.map_cons, hf]
    | succ i => simp only [List.modify_succ_cons, List.map_cons, ih i]

/-- Building a scalar changes nothing in the registry but the state of the
last match of its entries. -/
theorem build_scalar_static (tag : Option String) (value : List Char)
    (bs bs1 : List MinYamlBuilders) (v : PyObject)
    (h : _build_scalar tag value bs = .ok (v, bs1)) :
    bs1.map builder_static = bs.map builder_static := by
  unfold _build_scalar at h
  split at h
  · split at h
    · cases h
    · split at h
      · cases h
      · rename_i r bs0 hl
        rw [scalar_construct_static _ _ _ _ _ _ h, scalar_loop_static _ _ _ _ _ hl]
  · simp only at h
    rw [scalar_construct_static _ _ _ _ _ _ h]
    exact map_modify_static _ _ _ (fun b => rfl)

theorem save_alias_reg (Q : List MinYamlBuilders → List MinYamlBuilders → Prop)
    (anchor : Option String) (r : Built) (v : PyObject) (st st1 : BuildState)
    (h : _save_alias anchor r = .ok (v, st1))
    (hr : ∀ st0, r = .ok (v, st0) → Q st.builders st0.builders) : Q st.builders st1.builders := by
  unfold _save_alias at h
  cases r with
  | error e => cases h
  | ok p =>
    obtain ⟨v0, st0⟩ := p
    cases anchor with
    | none =>
      simp only [Except.ok.injEq, Prod.mk.injEq] at h
      obtain ⟨rfl, rfl⟩ := h
      exact hr _ rfl
    | some a =>
      simp only [PyDict_SetItemString, PyDict_SetItem, PyObject_hashable, if_true,
        Except.ok.injEq, Prod.mk.injEq] at h
      obtain ⟨rfl, rfl⟩ := h
      exact hr st0 rfl

theorem reg_step_value (Q : List MinYamlBuilders → List MinYamlBuilders → Prop) (hrefl : ∀ a, Q a a)
    (hscalar : ∀ tag value bs v bs1, _build_scalar tag value bs = .ok (v, bs1) → Q bs bs1) (fuel : Nat)
    (hseq : ∀ st seq v st1, _build_seq fuel st seq = .ok (v, st1) → Q st.builders st1.builders)
    (hpairs : ∀ st seq key v st1, _build_pairs fuel st seq key = .ok (v, st1) →
      Q st.builders st1.builders)
    (hmap : ∀ st M key isSet q st1, _build_map_loop fuel st M key isSet = .ok (q, st1) →
      Q st.builders st1.builders) :
    ∀ ev st v st1, _build_value (fuel + 1) ev st = .ok (v, st1) → Q st.builders st1.builders := by
  intro ev st v st1 h
  have hsave := save_alias_reg Q ev.anchor
  have hmapend : ∀ st0, _build_map_end (_build_map_loop fuel st [] none true) = .ok (v, st0) →
      Q st.builders st0.builders := by
    intro st0 h0
    obtain ⟨q, hq⟩ := build_map_end_ok _ _ _ h0
    exact hmap _ _ _ _ _ _ hq
  have hmapcustom : ∀ st0, _build_custom ev.tag st.builders
      (_build_map_end (_build_map_loop fuel st [] none true)) = .ok (v, st0) →
      Q st.builders st0.builders := by
    intro st0 h0
    obtain ⟨v0, hv0⟩ := build_custom_ok _ _ _ _ _ h0
    obtain ⟨q, hq⟩ := build_map_end_ok _ _ _ hv0
    exact hmap _ _ _ _ _ _ hq
  have hseqcustom : ∀ st0, _build_custom ev.tag st.builders (_build_seq fuel st []) = .ok (v, st0) →
      Q st.builders st0.builders := by
    intro st0 h0
    obtain ⟨v0, hv0⟩ := build_custom_ok _ _ _ _ _ h0
    exact hseq _ _ _ _ hv0
  simp only [_build_value] at h
  split at h
  · split at h
    · exact hsave _ v st st1 h hmapend
    · split at h
      · exact hsave _ v st st1 h hmapend
      · exact hsave _ v st st1 h hmapcustom
  · split at h
    · exact hsave _ v st st1 h (fun st0 h0 => hseq _ _ _ _ h0)
    · split at h
      · exact hsave _ v st st1 h (fun st0 h0 => hpairs _ _ _ _ _ h0)
      · exact hsave _ v st st1 h hseqcustom
  · refine hsave _ v st st1 h ?_
    intro st0 h0
    split at h0
    · cases h0
    · rename_i v1 bs1 hs
      simp only [Except.ok.injEq, Prod.mk.injEq] at h0
      obtain ⟨_, rfl⟩ := h0
      exact hscalar _ _ _ _ _ hs
  · split at h
    · cases h
    · simp only [Except.ok.injEq, Prod.mk.injEq] at h
      obtain ⟨_, rfl⟩ := h
      exact hrefl _
  · cases h

theorem reg_step_seq (Q : List MinYamlBuilders → List MinYamlBuilders → Prop)
    (htrans : ∀ a b c, Q a b → Q b c → Q a c) (hrefl : ∀ a, Q a a) (fuel : Nat)
    (hval : ∀ ev st v st1, _build_value fuel ev st = .ok (v, st1) → Q st.builders st1.builders)
    (hseq : ∀ st seq v st1, _build_seq fuel st seq = .ok (v, st1) → Q st.builders st1.builders) :
    ∀ st seq v st1, _build_seq (fuel + 1) st seq = .ok (v, st1) → Q st.builders st1.builders := by
  intro st seq v st1 h
  simp only [_build_seq] at h
  cases hn : _parse_next st.parser .YAML_SEQUENCE_END_EVENT with
  | error e => rw [hn] at h; cases h
  | ok r =>
    obtain ⟨status, event, parser⟩ := r
    rw [hn] at h
    simp only at h
    split at h
    · cases hv : _build_value fuel event { st with parser := parser } with
      | error e => rw [hv] at h; cases h
      | ok r =>
        obtain ⟨value, st2⟩ := r
        rw [hv] at h
        exact htrans _ _ _ (hval _ { st with parser := parser } _ _ hv) (hseq _ _ _ _ h)
    · simp only [Except.ok.injEq, Prod.mk.injEq] at h
      obtain ⟨_, rfl⟩ := h
      exact hrefl _

theorem reg_step_map (Q : List MinYamlBuilders → List MinYamlBuilders → Prop)
    (htrans : ∀ a b c, Q a b → Q b c → Q a c) (hrefl : ∀ a, Q a a) (fuel : Nat)
    (hval : ∀ ev st v st1, _build_value fuel ev st = .ok (v, st1) → Q st.builders st1.builders)
    (hmap : ∀ st M key isSet q st1, _build_map_loop fuel st M key isSet = .ok (q, st1) →
      Q st.builders st1.builders) :
    ∀ st M key isSet q st1, _build_map_loop (fuel + 1) st M key isSet = .ok (q, st1) →
      Q st.builders st1.builders := by
  intro st M key isSet q st1 h
  simp only [_build_map_loop] at h
  cases hn : _parse_next st.parser .YAML_MAPPING_END_EVENT with
  | error e => rw [hn] at h; cases h
  | ok r =>
    obtain ⟨status, event, parser⟩ := r
    rw [hn] at h
    simp only at h
    split at h
    · cases hv : _build_value fuel event { st with parser := parser } with
      | error e => rw [hv] at h; cases key <;> cases h
      | ok r =>
        obtain ⟨value, st2⟩ := r
        rw [hv] at h
        have h2 : Q st.builders st2.builders := hval _ { st with parser := parser } _ _ hv
        cases key with
        | none => exact htrans _ _ _ h2 (hmap _ _ _ _ _ _ h)
        | some k =>
          simp only at h
          split at h
          · cases h
          · exact htrans _ _ _ h2 (hmap _ _ _ _ _ _ h)
    · simp only [Except.ok.injEq, Prod.mk.injEq] at h
      obtain ⟨_, rfl⟩ := h
      exact hrefl _

theorem reg_step_pairs (Q : List MinYamlBuilders → List MinYamlBuilders → Prop)
    (htrans : ∀ a b c, Q a b → Q b c → Q a c) (hrefl : ∀ a, Q a a) (fuel : Nat)
    (hval : ∀ ev st v st1, _build_value fuel ev st = .ok (v, st1) → Q st.builders st1.builders)
    (hpairs : ∀ st seq key v st1, _build_pairs fuel st seq key = .ok (v, st1) →
      Q st.builders st1.builders) :
    ∀ st seq key v st1, _build_pairs (fuel + 1) st seq key = .ok (v, st1) →
      Q st.builders st1.builders := by
  intro st seq key v st1 h
  simp only [_build_pairs] at h
  cases hn : _parse_next st.parser .YAML_SEQUENCE_END_EVENT with
  | error e => rw [hn] at h; cases h
  | ok r =>
    obtain ⟨status, event, parser⟩ := r
    rw [hn] at h
    simp only at h
    split at h
    · cases key with
      | none =>
        simp only at h
        split at h
        · cases h
        · cases hn1 : _parse_next parser .YAML_SEQUENCE_END_EVENT with
          | error e => rw [hn1] at h; cases h
          | ok r1 =>
            obtain ⟨status1, event1, parser1⟩ := r1
            rw [hn1] at h
            simp only at h
            split at h
            · cases hv : _build_value fuel event1 { st with parser := parser1 } with
              | error e => rw [hv] at h; cases h
              | ok r2 =>
                obtain ⟨key1, st2⟩ := r2
                rw [hv] at h
                exact htrans _ _ _ (hval _ { st with parser := parser1 } _ _ hv) (hpairs _ _ _ _ _ h)
            · simp only [Except.ok.injEq, Prod.mk.injEq] at h
              obtain ⟨_, rfl⟩ := h
              exact hrefl _
      | some k =>
        simp only at h
        cases hv : _build_value fuel event { st with parser := parser } with
        | error e => rw [hv] at h; cases h
        | ok r2 =>
          obtain ⟨value, st2⟩ := r2
          rw [hv] at h
          have h2 : Q st.builders st2.builders := hval _ { st with parser := parser } _ _ hv
          simp only at h
          cases hn2 : _parse_next st2.parser .YAML_SEQUENCE_END_EVENT with
          | error e => rw [hn2] at h; cases h
          | ok r3 =>
            obtain ⟨status2, event2, parser2⟩ := r3
            rw [hn2] at h
            simp only at h
            split at h
            · cases h
            · split at h
              · simp only [Except.ok.injEq, Prod.mk.injEq] at h
                obtain ⟨_, rfl⟩ := h
                exact h2
              · exact htrans _ _ _ h2 (hpairs { st2 with parser := parser2 } _ _ _ _ h)
    · simp only [Except.ok.injEq, Prod.mk.injEq] at h
      obtain ⟨_, rfl⟩ := h
      exact hrefl _

/-- Every relation between registries that is reflexive and transitive and
holds from a registry to the one a scalar built from it leaves holds from the
registry a builder starts with to the one it ends with. -/
theorem builders_registry_rel (Q : List MinYamlBuilders → List MinYamlBuilders → Prop) (hrefl : ∀ a, Q a a)
    (htrans : ∀ a b c, Q a b → Q b c → Q a c)
    (hscalar : ∀ tag value bs v bs1, _build_scalar tag value bs = .ok (v, bs1) → Q bs bs1) : ∀ fuel : Nat,
    (∀ ev st v st1, _build_value fuel ev st = .ok (v, st1) → Q st.builders st1.builders)
    ∧ (∀ st seq v st1, _build_seq fuel st seq = .ok (v, st1) → Q st.builders st1.builders)
    ∧ (∀ st seq key v st1, _build_pairs fuel st seq key = .ok (v, st1) →
      Q st.builders st1.builders)
    ∧ (∀ st M key isSet q st1, _build_map_loop fuel st M key isSet = .ok (q, st1) →
      Q st.builders st1.builders) := by
  intro fuel
  induction fuel with
  | zero =>
    refine ⟨?_, ?_, ?_, ?_⟩
    · intro ev st v st1 h; simp only [_build_value] at h; cases h
    · intro st seq v st1 h; simp only [_build_seq] at h; cases h
    · intro st seq key v st1 h; simp only [_build_pairs] at h; cases h
    · intro st M key isSet q st1 h; simp only [_build_map_loop] at h; cases h
  | succ fuel ih =>
    obtain ⟨hval, hseq, hpairs, hmap⟩ := ih
    exact ⟨reg_step_value Q hrefl hscalar fuel hseq hpairs hmap,
      reg_step_seq Q htrans hrefl fuel hval hseq, reg_step_pairs Q htrans hrefl fuel hval hpairs,
      reg_step_map Q htrans hrefl fuel hval hmap⟩




theorem builders_static_kept (fuel : Nat) :
    (∀ ev st v st1, _build_value fuel ev st = .ok (v, st1) →
      st1.builders.map builder_static = st.builders.map builder_static)
    ∧ (∀ st seq v st1, _build_seq fuel st seq = .ok (v, st1) →
      st1.builders.map builder_static = st.builders.map builder_static)
    ∧ (∀ st seq key v st1, _build_pairs fuel st seq key = .ok (v, st1) →
      st1.builders.map builder_static = st.builders.map builder_static)
    ∧ (∀ st M key isSet q st1, _build_map_loop fuel st M key isSet = .ok (q, st1) →
      st1.builders.map builder_static = st.builders.map builder_static) := by
  have h := builders_registry_rel
    (fun a b => b.map builder_static = a.map builder_static)
    (fun _ => rfl) (fun _ _ _ h1 h2 => h2.trans h1)
    (fun tag value bs v bs1 h => build_scalar_static tag value bs bs1 v h) fuel
  exact h

theorem registry_entry_cons (b : MinYamlBuilders) (rest : List MinYamlBuilders) (t : String) :
    registry_entry (b :: rest) (some t)
      = if (b.tag == t) = true then some b else registry_entry rest (some t) := by
  simp only [registry_entry, _match_tag, List.findIdx?_cons, List.findIdx?_succ, zero_add]
  split
  · simp
  · cases List.findIdx? (fun b => b.tag == t) rest <;> simp

/-- The entry that `_match_tag` finds for a tag has the same tag, resolvers
and constructors in two registries that differ by the state of the matches
only. -/
theorem registry_entry_static : ∀ (bs bs1 : List MinYamlBuilders) (tag : Option String),
    bs1.map builder_static = bs.map builder_static →
    (registry_entry bs1 tag).map builder_static = (registry_entry bs tag).map builder_static := by
  intro bs bs1 tag h
  cases tag with
  | none => rfl
  | some t =>
    induction bs generalizing bs1 with
    | nil =>
      cases bs1 with
      | nil => rfl
      | cons x r => simp at h
    | cons b rest ih =>
      cases bs1 with
      | nil => simp at h
      | cons b1 rest1 =>
        simp only [List.map_cons, List.cons.injEq] at h
        obtain ⟨hb, hrest⟩ := h
        have htag : b1.tag = b.tag := congrArg Prod.fst hb
        simp only [registry_entry_cons, htag]
        split
        · simp only [Option.map, hb]
        · exact ih rest1 hrest

/-! ## Custom-tagged collections -/

theorem build_custom_entry (tag : Option String) (bs : List MinYamlBuilders) (src : Built) :
    _build_custom tag bs src
      = match registry_entry (match src with
                              | .ok (_, st) => st.builders
                              | .error _ => bs) tag with
        | none => .error .ValueError
        | some builder =>
          match builder.py_constructor with
          | none => .error .ValueError
          | some f =>
            match src with
            | .error e => .error e
            | .ok (c, st) =>
              match f [c] with
              | .error e => .error e
              | .ok v => .ok (v, st) := rfl

/-- A start event with a tag that is not a core tag of its kind is built by
`_build_custom` from the collection under it. -/
theorem build_value_custom (fuel : Nat) (ev : yaml_event_t) (st : BuildState) (t : String)
    (htag : ev.tag = some t)
    (hkind : (ev.type = .YAML_MAPPING_START_EVENT ∧ t ≠ YAML_TAG_MAP ∧ t ≠ YAML_TAG_SET)
      ∨ (ev.type = .YAML_SEQUENCE_START_EVENT ∧ t ≠ YAML_TAG_SEQ ∧ t ≠ YAML_TAG_PAIRS)) :
    _build_value (fuel + 1) ev st
      = _save_alias ev.anchor (_build_custom (some t) st.builders (underlying_collection fuel ev st)) := by
  rcases hkind with ⟨hty, h1, h2⟩ | ⟨hty, h1, h2⟩
  · simp only [_build_value, underlying_collection, hty, htag, _build_map, Option.some.injEq,
      reduceCtorEq, false_or, h1, h2, if_false]
  · simp only [_build_value, underlying_collection, hty, htag, Option.some.injEq,
      reduceCtorEq, false_or, h1, h2, if_false]

theorem underlying_static (fuel : Nat) (ev : yaml_event_t) (st st1 : BuildState) (c : PyObject)
    (h : underlying_collection fuel ev st = .ok (c, st1)) :
    st1.builders.map builder_static = st.builders.map builder_static := by
  unfold underlying_collection at h
  split at h
  · obtain ⟨q, hq⟩ := build_map_end_ok _ _ _ h
    exact (builders_static_kept fuel).2.2.2 _ _ _ _ _ _ hq
  · exact (builders_static_kept fuel).2.1 _ _ _ _ h

/-- C24. Custom-tagged collections: a mapping start whose tag is not that of
maps or of sets, or a sequence start whose tag is not that of sequences or
of pair-lists, is built from the collection under it, the mapping built by
`_build_map` (merges and set promotion included) or the list built by
`_build_seq`.  When the registry the build starts with has an entry for the
tag with a Python constructor, the value is what the constructor gives for
the collection, bound to the anchor of the event, and a failure of the
collection is the failure of the node.  When the registry has no entry for
the tag, or the entry has no Python constructor, the node fails with
`ValueError`, whatever the collection was. -/
theorem custom_tagged_collection (fuel : Nat) (ev : yaml_event_t) (st : BuildState) (t : String)
    (htag : ev.tag = some t)
    (hkind : (ev.type = .YAML_MAPPING_START_EVENT ∧ t ≠ YAML_TAG_MAP ∧ t ≠ YAML_TAG_SET)
      ∨ (ev.type = .YAML_SEQUENCE_START_EVENT ∧ t ≠ YAML_TAG_SEQ ∧ t ≠ YAML_TAG_PAIRS)) :
    (∀ b f, registry_entry st.builders (some t) = some b → b.py_constructor = some f →
      (∀ c st1, underlying_collection fuel ev st = .ok (c, st1) →
        _build_value (fuel + 1) ev st
          = _save_alias ev.anchor (match f [c] with
                                   | .ok v => .ok (v, st1)
                                   | .error e => .error e))
      ∧ (∀ e, underlying_collection fuel ev st = .error e →
        _build_value (fuel + 1) ev st = .error e))
    ∧ ((registry_entry st.builders (some t) = none
        ∨ ∃ b, registry_entry st.builders (some t) = some b ∧ b.py_constructor = none) →
      _build_value (fuel + 1) ev st = .error .ValueError) := by
  rw [build_value_custom fuel ev st t htag hkind]
  constructor
  · intro b f hb hf
    constructor
    · intro c st1 hu
      have hs := registry_entry_static st.builders st1.builders (some t)
        (underlying_static fuel ev st st1 c hu)
      rw [hb] at hs
      cases h1 : registry_entry st1.builders (some t) with
      | none => rw [h1] at hs; cases hs
      | some b1 =>
        rw [h1] at hs
        simp only [Option.map, Option.some.injEq] at hs
        have hf1 : b1.py_constructor = some f := by
          have := congrArg (fun p => p.2.2.2.2) hs
          simp only [builder_static] at this
          rw [this, hf]
        rw [hu, build_custom_entry]
        simp only [h1, hf1]
        cases f [c] <;> rfl
    · intro e hu
      rw [hu, build_custom_entry]
      simp only [hb, hf]
      rfl
  · intro hno
    cases hu : underlying_collection fuel ev st with
    | error e =>
      rw [build_custom_entry]
      rcases hno with h | ⟨b, hb, hf⟩
      · simp only [h]; rfl
      · simp only [hb, hf]; rfl
    | ok r =>
      obtain ⟨c, st1⟩ := r
      have hs := registry_entry_static st.builders st1.builders (some t)
        (underlying_static fuel ev st st1 c hu)
      rw [build_custom_entry]
      rcases hno with h | ⟨b, hb, hf⟩
      · rw [h] at hs
        cases h1 : registry_entry st1.builders (some t) with
        | some b1 => rw [h1] at hs; cases hs
        | none => simp only [h1]; rfl
      · rw [hb] at hs
        cases h1 : registry_entry st1.builders (some t) with
        | none => simp only [h1]; rfl
        | some b1 =>
          rw [h1] at hs
          simp only [Option.map, Option.some.injEq] at hs
          have hf1 : b1.py_constructor = none := by
            have := congrArg (fun p => p.2.2.2.2) hs
            simp only [builder_static] at this
            rw [this, hf]
          simp only [h1, hf1]
          rfl

/-- C24, witness: with the one entry `!t` whose constructor wraps its
argument in a tuple, the sequence `!t [1, 2]` is built as the tuple of the
list; with the core registry, which has no entry `!t`, the same events fail
with `ValueError`; and with the core registry and the entry `!t`, the
mapping `!t (a: ~)` gives the tuple of the set of `a`, the mapping
`!t (a: 0, <<: (b: 1))` the tuple of the merged mapping, and a mapping
tagged `tag:yaml.org,2002:str`, an entry without Python constructor, fails
with `ValueError`. -/
theorem custom_tagged_collection_witness :
    _build_value 4 (ev_seq_start (some "!t") none)
        ⟨parser_of [ev_plain "1", ev_plain "2", ev_seq_end],
          [_new_py_builder "!t" none (some tuple_constructor)], []⟩
      = .ok (.tuple [.list [.str "1", .str "2"]],
          ⟨[], [_new_py_builder "!t" none (some tuple_constructor)], []⟩)
    ∧ _build_value 4 (ev_seq_start (some "!t") none)
        ⟨parser_of [ev_plain "1", ev_plain "2", ev_seq_end], implicitBuilders, []⟩
      = .error .ValueError
    ∧ result_value (_build_document (parser_of [ev_map_start (some "!t") none, ev_plain "a",
        ev_plain "~", ev_map_end, ev_mark .YAML_DOCUMENT_END_EVENT])
        (implicitBuilders ++ [_new_py_builder "!t" none (some tuple_constructor)]))
      = .ok (.tuple [.set [.str "a"]])
    ∧ result_value (_build_document (parser_of [ev_map_start (some "!t") none, ev_plain "a",
        ev_plain "0", ev_plain "<<", ev_map_start none none, ev_plain "b", ev_plain "1",
        ev_map_end, ev_map_end, ev_mark .YAML_DOCUMENT_END_EVENT])
        (implicitBuilders ++ [_new_py_builder "!t" none (some tuple_constructor)]))
      = .ok (.tuple [.dict [(.str "a", .int 0), (.str "b", .int 1)]])
    ∧ result_value (_build_document (parser_of [ev_map_start (some YAML_TAG_STR) none,
        ev_plain "a", ev_plain "1", ev_map_end, ev_mark .YAML_DOCUMENT_END_EVENT])
        implicitBuilders)
      = .error .ValueError :=
  ⟨((custom_tagged_collection 3 (ev_seq_start (some "!t") none)
      ⟨parser_of [ev_plain "1", ev_plain "2", ev_seq_end],
        [_new_py_builder "!t" none (some tuple_constructor)], []⟩ "!t" rfl
      (Or.inr ⟨rfl, by decide, by decide⟩)).1
      (_new_py_builder "!t" none (some tuple_constructor)) tuple_constructor rfl rfl).1
      (.list [.str "1", .str "2"]) ⟨[], [_new_py_builder "!t" none (some tuple_constructor)], []⟩
      rfl,
   (custom_tagged_collection 3 (ev_seq_start (some "!t") none)
      ⟨parser_of [ev_plain "1", ev_plain "2", ev_seq_end], implicitBuilders, []⟩ "!t" rfl
      (Or.inr ⟨rfl, by decide, by decide⟩)).2 (Or.inl rfl),
   by decide!, by decide!, by decide!⟩

/-! ## Timestamps: the minutes of the zone -/

/-- C28. Minute normalisation in `_to_timestamp`, for the captures of a full
timestamp with the minute `mi` in 0..59 and zone minutes `t` in 0..59 (0 when
the zone has none), whatever the hour `h` and the zone hours `o` and their
signs: the date and time is made with the minute `(mi - t) mod 60`, which is
in 0..59, and the hour and day that the two hour tests of the source give for
`h - 1 - o` when `mi < t` (one hour borrowed), and for `h - o` otherwise. -/
theorem minute_normalisation (self : MinYamlBuilders) (value : List Char) (len : Nat)
    (y mo d h mi s o t us : Int)
    (hn : 0 ≤ self.ncaptures) (h0 : _ovector_at self 0 = none)
    (hy : atoi_ptr (ptr_at value (_ovector_at self 3)) = .ok y)
    (hmo : atoi_ptr (ptr_at value (_ovector_at self 4)) = .ok mo)
    (hd : atoi_ptr (ptr_at value (_ovector_at self 5)) = .ok d)
    (hh : atoi_ptr (ptr_at value (_ovector_at self 6)) = .ok h)
    (hmi : atoi_ptr (ptr_at value (_ovector_at self 7)) = .ok mi)
    (hs : atoi_ptr (ptr_at value (_ovector_at self 8)) = .ok s)
    (hus : (match ptr_at value (_ovector_at self 9) with
      | some cur =>
        int_of_fp (float_mul (float_of_double (atof cur)) (float_of_double (double_of_int 1000000)))
      | none => 0) = us)
    (htz : (match ptr_at value (_ovector_at self 10) with
      | some cur => atoi cur
      | none => 0) = o)
    (htm : (match ptr_at value (_ovector_at self 11) with
      | some cur => atoi cur
      | none => 0) = t)
    (hmi0 : 0 ≤ mi ∧ mi ≤ 59) (ht0 : 0 ≤ t ∧ t ≤ 59) :
    result_value (_to_timestamp self value len)
      = PyDateTime_FromDateAndTime y mo
          (d + carried_day (h - (if mi < t then 1 else 0) - o))
          (carried_hour (h - (if mi < t then 1 else 0) - o)) ((mi - t) % 60) s us
    ∧ 0 ≤ (mi - t) % 60 ∧ (mi - t) % 60 ≤ 59 := by
  have hn1 : ¬ self.ncaptures < 0 := by omega
  have h0p : ptr_at value (_ovector_at self 0) = none := by rw [h0]; rfl
  refine ⟨?_, by omega, by omega⟩
  have hres : result_value (_to_timestamp self value len)
      = PyDateTime_FromDateAndTime y mo
          (if 24 < (if (if mi - t < 0 then h - 1 else h) - o < 0
                then (if mi - t < 0 then h - 1 else h) - o + 24
                else (if mi - t < 0 then h - 1 else h) - o)
            then (if (if mi - t < 0 then h - 1 else h) - o < 0 then d - 1 else d) + 1
            else (if (if mi - t < 0 then h - 1 else h) - o < 0 then d - 1 else d))
          (if 24 < (if (if mi - t < 0 then h - 1 else h) - o < 0
                then (if mi - t < 0 then h - 1 else h) - o + 24
                else (if mi - t < 0 then h - 1 else h) - o)
            then (if (if mi - t < 0 then h - 1 else h) - o < 0
                then (if mi - t < 0 then h - 1 else h) - o + 24
                else (if mi - t < 0 then h - 1 else h) - o) - 24
            else (if (if mi - t < 0 then h - 1 else h) - o < 0
                then (if mi - t < 0 then h - 1 else h) - o + 24
                else (if mi - t < 0 then h - 1 else h) - o))
          (if mi - t < 0 then mi - t + 60 else mi - t) s us := by
    have hm2 : ¬ (60 : Int) < (if mi - t < 0 then mi - t + 60 else mi - t) := by
      split <;> omega
    subst hus htz htm
    simp only [_to_timestamp, hn1, if_false, bind, Except.bind, pure, Except.pure, h0p,
      hy, hmo, hd, hh, hmi, hs, hm2]
    split
    · rename_i e he
      rw [he]
      rfl
    · rename_i v he
      rw [he]
      rfl
  rw [hres]
  by_cases hlt : mi < t
  · have h1 : mi - t < 0 := by omega
    have h2 : (mi - t) % 60 = mi - t + 60 := by omega
    simp only [hlt, h1, if_true, h2, carried_day, carried_hour]
    congr 1
    by_cases ha : h - 1 - o < 0
    · simp only [ha, if_true]
      split <;> omega
    · simp only [ha, if_false]
      split <;> omega
  · have h1 : ¬ mi - t < 0 := by omega
    have h2 : (mi - t) % 60 = mi - t := by omega
    simp only [hlt, h1, if_false, h2, carried_day, carried_hour, Int.sub_zero]
    congr 1
    by_cases ha : h - o < 0
    · simp only [ha, if_true]
      split <;> omega
    · simp only [ha, if_false]
      split <;> omega

/-- C28, witness: `2001-12-14T21:10:00+01:30` gives 19:40 (minute 10 - 30
borrows one hour, then one zone hour less), from the captures and as an
untagged scalar; `2001-12-14T21:10:00-01:30` gives 21:40 (the 30 minutes are
subtracted all the same, then one zone hour more); `21:40:00+01:30` gives
20:10 without borrow. -/
theorem minute_normalisation_witness :
    result_value (_to_timestamp
        (match _match_builder (implicitBuilders.getD 6 (_new_py_builder "" none none))
            "2001-12-14T21:10:00+01:30".data with
          | .ok (_, b) => b
          | .error _ => _new_py_builder "" none none)
        "2001-12-14T21:10:00+01:30".data 25) = .ok (.datetime 2001 12 14 19 40 0 0)
    ∧ result_value (_build_scalar none "2001-12-14T21:10:00+01:30".data implicitBuilders)
      = .ok (.datetime 2001 12 14 19 40 0 0)
    ∧ result_value (_build_scalar none "2001-12-14T21:10:00-01:30".data implicitBuilders)
      = .ok (.datetime 2001 12 14 21 40 0 0)
    ∧ result_value (_build_scalar none "2001-12-14T21:40:00+01:30".data implicitBuilders)
      = .ok (.datetime 2001 12 14 20 10 0 0) :=
  ⟨((minute_normalisation
      (match _match_builder (implicitBuilders.getD 6 (_new_py_builder "" none none))
          "2001-12-14T21:10:00+01:30".data with
        | .ok (_, b) => b
        | .error _ => _new_py_builder "" none none)
      "2001-12-14T21:10:00+01:30".data 25 2001 12 14 21 10 0 1 30 0
      (by decide) (by decide) (by decide) (by decide) (by decide) (by decide) (by decide)
      (by decide) (by decide) (by decide) (by decide) (by decide) (by decide)).1).trans
      (by decide),
   by decide!, by decide!, by decide!⟩

/-! ## The patterns of the core registry are disjoint -/

theorem int_groups_body (text : List Char) :
    (pcre_groups .int text).isSome = int_body (subject_body text) := by
  simp only [pcre_groups, int_body]
  repeat' split
  all_goals simp_all

theorem float_groups_body (text : List Char) :
    (pcre_groups .float text).isSome = float_body (subject_body text) := by
  simp only [pcre_groups, float_body]
  repeat' split
  all_goals simp_all

theorem timestamp_groups_body (text : List Char) (h : (pcre_groups .timestamp text).isSome = true) :
    (re_ymd (subject_body text)).isSome = true := by
  simp only [pcre_groups] at h
  split at h
  · cases h
  · rename_i heq
    rw [heq]
    rfl

/-- None of the literals of null, true and false is the body of an integer,
of a float or of a timestamp. -/
theorem literal_not_number :
    ∀ b ∈ null_literals ++ true_literals ++ false_literals,
      int_body b = false ∧ float_body b = false ∧ (re_ymd b).isSome = false := by
  decide

theorem strip_sign_cases (b : List Char) :
    strip_sign b = b ∨ b = '-' :: strip_sign b ∨ b = '+' :: strip_sign b := by
  cases b with
  | nil => exact Or.inl rfl
  | cons c r =>
    by_cases hm : c = '-'
    · subst hm; exact Or.inr (Or.inl rfl)
    · by_cases hp : c = '+'
      · subst hp; exact Or.inr (Or.inr rfl)
      · exact Or.inl (strip_sign_digit c r hp hm)

theorem mem_strip_sign {b : List Char} {x : Char} (h : x ∈ strip_sign b) : x ∈ b := by
  rcases strip_sign_cases b with h1 | h1 | h1
  · rw [← h1]; exact h
  · rw [h1]; exact List.mem_cons_of_mem _ h
  · rw [h1]; exact List.mem_cons_of_mem _ h

theorem mem_of_strip_sign {b : List Char} {x : Char} (h : x ∈ b) :
    x = '-' ∨ x = '+' ∨ x ∈ strip_sign b := by
  rcases strip_sign_cases b with h1 | h1 | h1
  · rw [h1]; exact Or.inr (Or.inr h)
  · rw [h1] at h
    rcases List.mem_cons.mp h with h2 | h2
    · exact Or.inl h2
    · exact Or.inr (Or.inr h2)
  · rw [h1] at h
    rcases List.mem_cons.mp h with h2 | h2
    · exact Or.inr (Or.inl h2)
    · exact Or.inr (Or.inr h2)

theorem first_mark_mem {b : List Char} {x : Char} (h : first_mark b = some x) :
    x ∈ strip_sign b := by
  unfold first_mark at h
  have : x ∈ (strip_sign b).dropWhile is_digit_us := List.mem_of_mem_head? h
  exact (List.dropWhile_sublist _).subset this

/-- A character of the class `[0-9a-fA-F_]`, or `b`, `x` or the colon, is
none of the point, the letter `I` and the minus sign. -/
theorem hex_us_plain {c : Char} (h : is_hex_us c = true) : c ≠ '.' ∧ c ≠ 'I' ∧ c ≠ '-' := by
  refine ⟨?_, ?_, ?_⟩ <;> (intro hc; subst hc; exact absurd h (by decide))

theorem all_hex_plain {r : List Char} {p : Char → Bool} (hp : ∀ c, p c = true → is_hex_us c = true)
    (h : r.all p = true) : ∀ x ∈ r, x ≠ '.' ∧ x ≠ 'I' ∧ x ≠ '-' := by
  intro x hx
  exact hex_us_plain (hp x (List.all_eq_true.mp h x hx))

theorem sexagesimal_groups_chars : ∀ (n : Nat) (s : List Char), s.length ≤ n →
    re_sexagesimal_groups s = true → ∀ x ∈ s, x = ':' ∨ isdigit x = true := by
  intro n
  induction n with
  | zero =>
    intro s hs _ x hx
    cases s with
    | nil => cases hx
    | cons a r => simp at hs
  | succ n ih =>
    intro s hs h x hx
    match s, hs, h, hx with
    | [], _, _, hx => cases hx
    | [_], _, h, _ => simp [re_sexagesimal_groups] at h
    | [c, a], _, h, hx =>
      simp only [re_sexagesimal_groups, Bool.and_eq_true, beq_iff_eq] at h
      simp only [List.mem_cons, List.mem_singleton, List.not_mem_nil, or_false] at hx
      rcases hx with rfl | rfl
      · exact Or.inl h.1
      · exact Or.inr h.2
    | c :: a :: b :: r, hs, h, hx =>
      simp only [re_sexagesimal_groups] at h
      simp only [List.length_cons] at hs
      split at h
      · rename_i hb
        simp only [Bool.and_eq_true, beq_iff_eq] at h
        obtain ⟨⟨hc, ha⟩, hrest⟩ := h
        rcases List.mem_cons.mp hx with rfl | hx1
        · exact Or.inl hc
        · rcases List.mem_cons.mp hx1 with rfl | hx2
          · exact Or.inr ha
          · exact ih (b :: r) (by simp only [List.length_cons]; omega) hrest x hx2
      · simp only [Bool.and_eq_true, beq_iff_eq] at h
        obtain ⟨⟨⟨hc, ha⟩, hb⟩, hrest⟩ := h
        rcases List.mem_cons.mp hx with rfl | hx1
        · exact Or.inl hc
        · rcases List.mem_cons.mp hx1 with rfl | hx2
          · refine Or.inr ?_
            revert ha
            simp only [is_digit_0_5, isdigit, decide_eq_true_eq]
            omega
          · rcases List.mem_cons.mp hx2 with rfl | hx3
            · exact Or.inr hb
            · exact ih r (by omega) hrest x hx3

theorem digit_plain {c : Char} (h : c = ':' ∨ isdigit c = true) : c ≠ '.' ∧ c ≠ 'I' ∧ c ≠ '-' := by
  rcases h with rfl | h
  · decide
  · refine ⟨?_, ?_, ?_⟩ <;> (intro hc; subst hc; exact absurd h (by decide))

/-- The text of a sexagesimal number: a head that is not empty once its sign
is taken off, and the rest, which starts with a colon. -/
theorem strip_sign_head_append (head rest : List Char) (c : Char) (r : List Char)
    (h : strip_sign head = c :: r) : strip_sign (head ++ rest) = c :: r ++ rest := by
  rcases strip_sign_cases head with h1 | h1 | h1
  · rw [h] at h1
    rw [← h1]
    have hc : c :: r = strip_sign (c :: r) := by rw [← h1] at h; exact h.symm
    by_cases hm : c = '-'
    · subst hm
      simp only [strip_sign] at hc
      have := congrArg List.length hc
      simp at this
    · by_cases hp : c = '+'
      · subst hp
        simp only [strip_sign] at hc
        have := congrArg List.length hc
        simp at this
      · exact strip_sign_digit c (r ++ rest) hp hm
  · rw [h1, h]; rfl
  · rw [h1, h]; rfl

theorem takeWhile_append_dropWhile_colon (b : List Char) :
    b = b.takeWhile (fun c => c != ':') ++ b.dropWhile (fun c => c != ':') :=
  (List.takeWhile_append_dropWhile _ _).symm

theorem dropWhile_head_colon (b : List Char) (h : b.dropWhile (fun c => c != ':') ≠ []) :
    ∃ t, b.dropWhile (fun c => c != ':') = ':' :: t := by
  cases hd : b.dropWhile (fun c => c != ':') with
  | nil => exact absurd hd h
  | cons x t =>
    have := List.head_dropWhile_not (fun c => c != ':') b (by rw [hd]; simp)
    simp only [hd, List.head_cons, bne_iff_ne, ne_eq, Bool.not_eq_true,
      Bool.decide_eq_false, Bool.not_eq_eq_eq_not, Bool.not_true] at this
    simp at this
    exact ⟨t, by rw [this]⟩

theorem digit_1_9_hex {c : Char} (h : is_digit_1_9 c = true) : is_hex_us c = true := by
  revert h
  simp only [is_digit_1_9, is_hex_us, isdigit, decide_eq_true_eq, Bool.or_eq_true]
  intro h
  exact Or.inl (Or.inl (Or.inl ⟨by omega, h.2⟩))

theorem digit_hex {c : Char} (h : isdigit c = true) : is_hex_us c = true := by
  simp only [is_hex_us, h, Bool.true_or]

/-- In the body of an integer no character behind the sign is a point, the
letter `I` or a minus sign. -/
theorem int_body_chars (b : List Char) (h : int_body b = true) :
    ∀ x ∈ strip_sign b, x ≠ '.' ∧ x ≠ 'I' ∧ x ≠ '-' := by
  simp only [int_body, Bool.or_eq_true] at h
  rcases h with (((h | h) | h) | h) | h
  · unfold re_int_base2 at h
    split at h
    · rename_i r heq
      simp only [Bool.and_eq_true] at h
      rw [heq]
      intro x hx
      rcases List.mem_cons.mp hx with rfl | hx
      · decide
      · rcases List.mem_cons.mp hx with rfl | hx
        · decide
        · exact all_hex_plain (fun c => hex_us_of_bin) h.2 x hx
    · cases h
  · unfold re_int_base8 at h
    split at h
    · rename_i r heq
      simp only [Bool.and_eq_true] at h
      rw [heq]
      intro x hx
      rcases List.mem_cons.mp hx with rfl | hx
      · decide
      · exact all_hex_plain (fun c => hex_us_of_oct) h.2 x hx
    · cases h
  · unfold re_int_base10 at h
    split at h
    · cases h
    · rename_i c r heq
      rw [heq]
      simp only [Bool.or_eq_true, Bool.and_eq_true, beq_iff_eq, List.isEmpty_iff] at h
      intro x hx
      rcases h with ⟨rfl, rfl⟩ | ⟨hc, hr⟩
      · simp only [List.mem_singleton] at hx
        subst hx
        decide
      · rcases List.mem_cons.mp hx with rfl | hx
        · exact hex_us_plain (digit_1_9_hex hc)
        · exact all_hex_plain (fun c => hex_us_of_digit_us) hr x hx
  · unfold re_int_base16 at h
    split at h
    · rename_i r heq
      simp only [Bool.and_eq_true] at h
      rw [heq]
      intro x hx
      rcases List.mem_cons.mp hx with rfl | hx
      · decide
      · rcases List.mem_cons.mp hx with rfl | hx
        · decide
        · exact all_hex_plain (fun c hc => hc) h.2 x hx
    · cases h
  · simp only [re_int_base60, Bool.and_eq_true] at h
    obtain ⟨⟨hhead, _⟩, hgroups⟩ := h
    unfold re_sexagesimal_head at hhead
    split at hhead
    · cases hhead
    · rename_i c r heq
      simp only [Bool.and_eq_true] at hhead
      have hb := takeWhile_append_dropWhile_colon b
      have hs := strip_sign_head_append _ (b.dropWhile (fun c => c != ':')) c r heq
      rw [← hb] at hs
      rw [hs]
      intro x hx
      rcases List.mem_append.mp hx with hx | hx
      · rcases List.mem_cons.mp hx with rfl | hx
        · exact hex_us_plain (digit_1_9_hex hhead.1)
        · exact all_hex_plain (fun c => hex_us_of_digit_us) hhead.2 x hx
      · exact digit_plain (sexagesimal_groups_chars _ _ (le_refl _) hgroups x hx)

theorem int_sig (b : List Char) (h : int_body b = true) :
    '.' ∉ b ∧ first_mark b ≠ some 'I' ∧ first_mark b ≠ some '-' := by
  have hc := int_body_chars b h
  refine ⟨?_, ?_, ?_⟩
  · intro hm
    rcases mem_of_strip_sign hm with h1 | h1 | h1
    · cases h1
    · cases h1
    · exact (hc _ h1).1 rfl
  · intro hm
    exact (hc _ (first_mark_mem hm)).2.1 rfl
  · intro hm
    exact (hc _ (first_mark_mem hm)).2.2 rfl

theorem drop_strip_sign (b : List Char) (n : Nat) :
    b.drop (b.length - (strip_sign b).length + n) = (strip_sign b).drop n := by
  rcases strip_sign_cases b with h1 | h1 | h1
  · rw [h1]; simp
  · have hl : b.length = (strip_sign b).length + 1 := by
      conv_lhs => rw [h1]
      simp
    rw [hl]
    conv_lhs => rw [h1]
    simp [Nat.add_comm]
  · have hl : b.length = (strip_sign b).length + 1 := by
      conv_lhs => rw [h1]
      simp
    rw [hl]
    conv_lhs => rw [h1]
    simp [Nat.add_comm]

theorem digit_us_of_digit {c : Char} (h : isdigit c = true) : is_digit_us c = true := by
  simp only [is_digit_us, h, Bool.true_or]

theorem dropWhile_digits_append (pre rest : List Char) (x : Char)
    (hpre : pre.all is_digit_us = true) (hx : is_digit_us x = false) :
    (pre ++ x :: rest).dropWhile is_digit_us = x :: rest := by
  induction pre with
  | nil => simp [List.dropWhile, hx]
  | cons c r ih =>
    simp only [List.all_cons, Bool.and_eq_true] at hpre
    simp only [List.cons_append, List.dropWhile, hpre.1]
    exact ih hpre.2

/-- The body of a timestamp has a minus sign behind the four digits of the
year. -/
theorem timestamp_sig (b : List Char) (h : (re_ymd b).isSome = true) :
    first_mark b = some '-' := by
  simp only [re_ymd, bind, Option.bind] at h
  cases hy : re_year b with
  | none => rw [hy] at h; cases h
  | some y =>
    rw [hy] at h
    simp only at h
    cases hc : re_char b y '-' with
    | none => rw [hc] at h; cases h
    | some p1 =>
      clear h
      unfold re_year at hy
      simp only at hy
      split at hy
      · rename_i hlen
        simp only [Option.some.injEq] at hy
        subst hy
        unfold re_char at hc
        split at hc
        · rename_i hhead
          rw [drop_strip_sign] at hhead
          unfold first_mark
          obtain ⟨hl, hd⟩ := hlen
          match hs : strip_sign b, hl, hd, hhead with
          | d0 :: d1 :: d2 :: d3 :: rest, _, hd, hhead =>
            simp only [List.take, List.all_cons, List.all_nil, Bool.and_true, Bool.and_eq_true] at hd
            obtain ⟨h0, h1, h2, h3⟩ := hd
            simp only [List.drop] at hhead
            cases rest with
            | nil => cases hhead
            | cons x t =>
              simp only [List.head?_cons, Option.some.injEq] at hhead
              subst hhead
              rw [show d0 :: d1 :: d2 :: d3 :: '-' :: t = [d0, d1, d2, d3] ++ '-' :: t from rfl,
                dropWhile_digits_append _ _ _ (by
                  simp only [List.all_cons, List.all_nil, Bool.and_true, digit_us_of_digit h0,
                    digit_us_of_digit h1, digit_us_of_digit h2, digit_us_of_digit h3]) (by decide)]
              rfl
        · cases hc
      · cases hy

theorem float_lists_sig :
    ∀ b ∈ [".inf".data, "-.inf".data, "+.inf".data, "Inf".data, "INF".data,
        ".nan".data, ".NaN".data, ".NAN".data],
      ('.' ∈ b ∨ first_mark b = some 'I') ∧ first_mark b ≠ some '-' := by
  decide

theorem float_base10_sig (b : List Char) (h : re_float_base10 b = true) :
    '.' ∈ b ∧ first_mark b = some '.' := by
  unfold re_float_base10 at h
  simp only at h
  split at h
  · rename_i f heq
    split at heq
    · have hm : '.' ∈ (strip_sign b).dropWhile is_digit_us := by rw [heq]; exact List.mem_cons_self _ _
      exact ⟨mem_strip_sign ((List.dropWhile_sublist _).subset hm), by unfold first_mark; rw [heq]; rfl⟩
    · refine ⟨mem_strip_sign (by rw [heq]; exact List.mem_cons_self _ _), ?_⟩
      unfold first_mark
      rw [heq]
      rfl
  · cases h

theorem float_base60_sig (b : List Char) (h : re_float_base60 b = true) :
    '.' ∈ b ∧ first_mark b = some ':' := by
  simp only [re_float_base60, Bool.and_eq_true, Bool.not_eq_true', List.isEmpty_eq_false] at h
  obtain ⟨⟨⟨⟨hhead, hg⟩, _⟩, hfrac⟩, _⟩ := h
  have hrest : b.dropWhile (fun c => c != ':') ≠ [] := by
    intro h0
    rw [h0] at hg
    simp at hg
  obtain ⟨t, ht⟩ := dropWhile_head_colon b hrest
  constructor
  · cases hf : (b.dropWhile (fun c => c != ':')).dropWhile (fun c => c != '.') with
    | nil => rw [hf] at hfrac; simp at hfrac
    | cons x u =>
      have hx := List.head_dropWhile_not (fun c => c != '.') (b.dropWhile (fun c => c != ':'))
        (by rw [hf]; simp)
      simp only [hf, List.head_cons] at hx
      have hx1 : x = '.' := by simpa using hx
      subst hx1
      have hm : '.' ∈ (b.dropWhile (fun c => c != ':')).dropWhile (fun c => c != '.') := by
        rw [hf]; exact List.mem_cons_self _ _
      exact (List.dropWhile_sublist _).subset ((List.dropWhile_sublist _).subset hm)
  · unfold re_float_head at hhead
    split at hhead
    · cases hhead
    · rename_i c r heq
      simp only [Bool.and_eq_true] at hhead
      have hb := takeWhile_append_dropWhile_colon b
      have hs := strip_sign_head_append _ (b.dropWhile (fun c => c != ':')) c r heq
      rw [← hb, ht] at hs
      unfold first_mark
      rw [hs, dropWhile_digits_append (c :: r) t ':' (by
        simp only [List.all_cons, Bool.and_eq_true]
        exact ⟨digit_us_of_digit hhead.1, hhead.2⟩) (by decide)]
      rfl

theorem float_sig (b : List Char) (h : float_body b = true) :
    ('.' ∈ b ∨ first_mark b = some 'I') ∧ first_mark b ≠ some '-' := by
  simp only [float_body, Bool.or_eq_true, decide_eq_true_eq] at h
  rcases h with ((h | h) | h) | h
  · obtain ⟨h1, h2⟩ := float_base10_sig b h
    exact ⟨Or.inl h1, by rw [h2]; decide⟩
  · obtain ⟨h1, h2⟩ := float_base60_sig b h
    exact ⟨Or.inl h1, by rw [h2]; decide⟩
  · exact float_lists_sig b (by
      simp only [List.mem_cons, List.mem_singleton, List.not_mem_nil, or_false] at h ⊢
      tauto)
  · exact float_lists_sig b (by
      simp only [List.mem_cons, List.mem_singleton, List.not_mem_nil, or_false] at h ⊢
      tauto)

/-- Two of the six patterns of the core registry never match the same text. -/
theorem groups_disjoint (text : List Char) (k1 k2 : pcre) (hne : k1 ≠ k2)
    (h1 : (pcre_groups k1 text).isSome = true) (h2 : (pcre_groups k2 text).isSome = true) :
    False := by
  have hlit := literal_not_number (subject_body text)
  have hnt := (literals_disjoint (subject_body text)).1
  have htf := (literals_disjoint (subject_body text)).2
  have lit_int : ∀ k, (k = pcre.null ∨ k = .true_ ∨ k = .false_) →
      (pcre_groups k text).isSome = true →
      int_body (subject_body text) = false ∧ float_body (subject_body text) = false
        ∧ (re_ymd (subject_body text)).isSome = false := by
    intro k hk h
    apply hlit
    simp only [List.mem_append]
    rcases hk with rfl | rfl | rfl
    · exact Or.inl (Or.inl ((null_groups_iff text).mp h))
    · exact Or.inl (Or.inr ((true_groups_iff text).mp h))
    · exact Or.inr ((false_groups_iff text).mp h)
  have num : ∀ k, (pcre_groups k text).isSome = true →
      (k = .int → int_body (subject_body text) = true)
      ∧ (k = .float → float_body (subject_body text) = true)
      ∧ (k = .timestamp → (re_ymd (subject_body text)).isSome = true) := by
    intro k h
    refine ⟨?_, ?_, ?_⟩
    · rintro rfl; rw [← int_groups_body]; exact h
    · rintro rfl; rw [← float_groups_body]; exact h
    · rintro rfl; exact timestamp_groups_body text h
  have lit_num : ∀ ka kb, (ka = pcre.null ∨ ka = .true_ ∨ ka = .false_) →
      (kb = pcre.int ∨ kb = .float ∨ kb = .timestamp) →
      (pcre_groups ka text).isSome = true → (pcre_groups kb text).isSome = true → False := by
    intro ka kb hka hkb ha hb
    obtain ⟨l1, l2, l3⟩ := lit_int ka hka ha
    obtain ⟨n1, n2, n3⟩ := num kb hb
    rcases hkb with rfl | rfl | rfl
    · rw [n1 rfl] at l1; cases l1
    · rw [n2 rfl] at l2; cases l2
    · rw [n3 rfl] at l3; cases l3
  have int_float : (pcre_groups .int text).isSome = true →
      (pcre_groups .float text).isSome = true → False := by
    intro ha hb
    obtain ⟨i1, i2, _⟩ := int_sig _ ((num _ ha).1 rfl)
    obtain ⟨f1, _⟩ := float_sig _ ((num _ hb).2.1 rfl)
    rcases f1 with f1 | f1
    · exact i1 f1
    · exact i2 f1
  have int_ts : (pcre_groups .int text).isSome = true →
      (pcre_groups .timestamp text).isSome = true → False := by
    intro ha hb
    obtain ⟨_, _, i3⟩ := int_sig _ ((num _ ha).1 rfl)
    exact i3 (timestamp_sig _ ((num _ hb).2.2 rfl))
  have float_ts : (pcre_groups .float text).isSome = true →
      (pcre_groups .timestamp text).isSome = true → False := by
    intro ha hb
    obtain ⟨_, f2⟩ := float_sig _ ((num _ ha).2.1 rfl)
    exact f2 (timestamp_sig _ ((num _ hb).2.2 rfl))
  have null_true : (pcre_groups .null text).isSome = true →
      (pcre_groups .true_ text).isSome = true → False := fun ha hb =>
    (hnt ((null_groups_iff text).mp ha)).1 ((true_groups_iff text).mp hb)
  have null_false : (pcre_groups .null text).isSome = true →
      (pcre_groups .false_ text).isSome = true → False := fun ha hb =>
    (hnt ((null_groups_iff text).mp ha)).2 ((false_groups_iff text).mp hb)
  have true_false : (pcre_groups .true_ text).isSome = true →
      (pcre_groups .false_ text).isSome = true → False := fun ha hb =>
    htf ((true_groups_iff text).mp ha) ((false_groups_iff text).mp hb)
  cases k1 <;> cases k2 <;>
    first
    | exact absurd rfl hne
    | exact null_true h1 h2
    | exact null_true h2 h1
    | exact null_false h1 h2
    | exact null_false h2 h1
    | exact true_false h1 h2
    | exact true_false h2 h1
    | exact int_float h1 h2
    | exact int_float h2 h1
    | exact int_ts h1 h2
    | exact int_ts h2 h1
    | exact float_ts h1 h2
    | exact float_ts h2 h1
    | (refine lit_num _ _ ?_ ?_ h1 h2 <;> decide)
    | (refine lit_num _ _ ?_ ?_ h2 h1 <;> decide)

/-! ## The order of the entries -/

/-- An untagged scalar, when every matcher answers: it is built by the first
entry whose matcher accepts the text, from the state that match leaves, and
it is the text as a string when no matcher accepts. -/
theorem scalar_by_first (builders : List MinYamlBuilders) (value : List Char)
    (hans : ∀ x ∈ builders, ∃ r, matcher_answer x value = .ok r) :
    result_value (_build_scalar none value builders)
      = match builders.find? (fun b => matcher_answer b value == .ok true) with
        | some b => result_value (_build_scalar_call (matched b value) value value.length)
        | none => .ok (PyUnicode_FromString value) := by
  have hrej : ∀ x ∈ builders, (matcher_answer x value == .ok true) = false →
      matcher_answer x value = .ok false := by
    intro x hx hn
    obtain ⟨r, hr⟩ := hans x hx
    cases r with
    | false => exact hr
    | true => rw [hr] at hn; simp at hn
  cases hf : builders.find? (fun b => matcher_answer b value == .ok true) with
  | some b =>
    have h : ∀ x ∈ builders.takeWhile (fun b => !(matcher_answer b value == .ok true)),
        matcher_answer x value = .ok false := by
      intro x hx
      have hp := List.mem_takeWhile_imp hx
      exact hrej x ((List.takeWhile_sublist _).subset hx) (by simpa using hp)
    obtain ⟨j, b1, bs, hl, hm, hg, _⟩ := build_scalar_loop_some value builders 0 b h hf
    simp only [Nat.sub_zero] at hg
    simp only [_build_scalar, match_tag_none, Option.isSome_none, Bool.false_eq_true, if_false, hl,
      _build_scalar_construct, Option.bind, hg, matched, hm]
    cases _build_scalar_call b1 value value.length with
    | error e => rfl
    | ok r => rfl
  | none =>
    have hall : ∀ x ∈ builders, matcher_answer x value = .ok false := by
      intro x hx
      have := List.find?_eq_none.mp hf x hx
      exact hrej x hx (by simpa using this)
    obtain ⟨bs, hbs⟩ := build_scalar_loop_none value builders 0 hall
    simp only [_build_scalar, match_tag_none, Option.isSome_none, Bool.false_eq_true, if_false, hbs,
      _build_scalar_construct, Option.bind, result_value]

theorem find_perm {α : Type} (p : α → Bool) (l1 l2 : List α) (hperm : l1.Perm l2)
    (huniq : ∀ x ∈ l2, ∀ y ∈ l2, p x = true → p y = true → x = y) :
    l1.find? p = l2.find? p := by
  cases h2 : l2.find? p with
  | none =>
    rw [List.find?_eq_none] at h2 ⊢
    intro x hx
    exact h2 x (hperm.subset hx)
  | some b =>
    have hb : b ∈ l2 := List.mem_of_find?_eq_some h2
    have hpb : p b = true := List.find?_some h2
    cases h1 : l1.find? p with
    | none =>
      rw [List.find?_eq_none] at h1
      exact absurd hpb (h1 b (hperm.symm.subset hb))
    | some a =>
      have ha : a ∈ l1 := List.mem_of_find?_eq_some h1
      have hpa : p a = true := List.find?_some h1
      rw [huniq a (hperm.subset ha) b hb hpa hpb]

/-- An entry of the core registry answers by its pattern, if it has one. -/
theorem core_entry_answer {bs : List MinYamlBuilders} (h : is_core_registry bs)
    (x : MinYamlBuilders) (hx : x ∈ bs) (text : List Char) :
    (x.c_resolver = none ∧ matcher_answer x text = .ok false)
    ∨ (∃ k, x.c_resolver = some k ∧ matcher_answer x text = .ok (pcre_groups k text).isSome) := by
  have hp : x.py_resolver = none := by
    have hm : builder_core x ∈ bs.map builder_core := List.mem_map_of_mem _ hx
    rw [h, implicit_cores] at hm
    cases hpr : x.py_resolver with
    | none => rfl
    | some f =>
      simp only [builder_core, hpr, Option.isSome_some, List.mem_cons, Prod.mk.injEq,
        Bool.true_eq_false, false_and, and_false, List.mem_singleton, List.not_mem_nil, or_false,
        or_self] at hm
  cases hc : x.c_resolver with
  | none => exact Or.inl ⟨rfl, matcher_answer_none x text hp hc⟩
  | some k => exact Or.inr ⟨k, rfl, matcher_answer_c x k text hp hc⟩

/-- The core registry has one entry for each pattern. -/
theorem core_entry_unique {bs : List MinYamlBuilders} (h : is_core_registry bs)
    (x y : MinYamlBuilders) (hx : x ∈ bs) (hy : y ∈ bs) (k : pcre)
    (hkx : x.c_resolver = some k) (hky : y.c_resolver = some k) : x = y := by
  obtain ⟨b0, b1, b2, b3, b4, b5, b6, b7, b8, rfl, h0, h1, h2, h3, h4, h5, h6, h7, h8⟩ :=
    core_registry_cases h
  obtain ⟨_, hc0, _⟩ := builder_core_eq h0
  obtain ⟨_, hc1, _⟩ := builder_core_eq h1
  obtain ⟨_, hc2, _⟩ := builder_core_eq h2
  obtain ⟨_, hc3, _⟩ := builder_core_eq h3
  obtain ⟨_, hc4, _⟩ := builder_core_eq h4
  obtain ⟨_, hc5, _⟩ := builder_core_eq h5
  obtain ⟨_, hc6, _⟩ := builder_core_eq h6
  obtain ⟨_, hc7, _⟩ := builder_core_eq h7
  obtain ⟨_, hc8, _⟩ := builder_core_eq h8
  have pick : ∀ z ∈ [b0, b1, b2, b3, b4, b5, b6, b7, b8], z.c_resolver = some k →
      z = (match k with
        | .null => b0
        | .true_ => b2
        | .false_ => b3
        | .int => b4
        | .float => b5
        | .timestamp => b6) := by
    intro z hz hk
    simp only [List.mem_cons, List.mem_singleton, List.not_mem_nil, or_false] at hz
    rcases hz with rfl | rfl | rfl | rfl | rfl | rfl | rfl | rfl | rfl
    · rw [hc0] at hk; cases hk; rfl
    · rw [hc1] at hk; cases hk
    · rw [hc2] at hk; cases hk; rfl
    · rw [hc3] at hk; cases hk; rfl
    · rw [hc4] at hk; cases hk; rfl
    · rw [hc5] at hk; cases hk; rfl
    · rw [hc6] at hk; cases hk; rfl
    · rw [hc7] at hk; cases hk
    · rw [hc8] at hk; cases hk
  exact (pick x hx hkx).trans (pick y hy hky).symm

/-- Every entry of the core registry answers when asked about a text. -/
theorem core_answers {bs : List MinYamlBuilders} (hcore : is_core_registry bs) (text : List Char) :
    ∀ x ∈ bs, ∃ r, matcher_answer x text = .ok r := by
  intro x hx
  rcases core_entry_answer hcore x hx text with ⟨_, h⟩ | ⟨k, _, h⟩
  · exact ⟨_, h⟩
  · exact ⟨_, h⟩

/-- At most one entry of the core registry accepts a text. -/
theorem core_accept_unique {bs : List MinYamlBuilders} (hcore : is_core_registry bs)
    (text : List Char) : ∀ x ∈ bs, ∀ y ∈ bs,
    (matcher_answer x text == .ok true) = true → (matcher_answer y text == .ok true) = true →
    x = y := by
  intro x hx y hy hax hay
  rcases core_entry_answer hcore x hx text with ⟨_, h⟩ | ⟨kx, hkx, hx1⟩
  · rw [h] at hax; simp at hax
  · rcases core_entry_answer hcore y hy text with ⟨_, h⟩ | ⟨ky, hky, hy1⟩
    · rw [h] at hay; simp at hay
    · rw [hx1] at hax
      rw [hy1] at hay
      have hsx : (pcre_groups kx text).isSome = true := by simpa using hax
      have hsy : (pcre_groups ky text).isSome = true := by simpa using hay
      have hk : kx = ky := by
        by_contra hne
        exact groups_disjoint text kx ky hne hsx hsy
      subst hk
      exact core_entry_unique hcore x y hx hy kx hkx hky

/-- The entry of the core registry whose pattern matches the text is the
first one that accepts it. -/
theorem core_find {bs : List MinYamlBuilders} (hcore : is_core_registry bs) (text : List Char)
    (x : MinYamlBuilders) (hx : x ∈ bs) (k : pcre) (hk : x.c_resolver = some k)
    (hg : (pcre_groups k text).isSome = true) :
    bs.find? (fun b => matcher_answer b text == .ok true) = some x := by
  have hax : (matcher_answer x text == .ok true) = true := by
    rcases core_entry_answer hcore x hx text with ⟨h0, _⟩ | ⟨k1, hk1, h1⟩
    · rw [h0] at hk; cases hk
    · rw [hk] at hk1
      cases hk1
      rw [h1, hg]
      rfl
  cases hf : bs.find? (fun b => matcher_answer b text == .ok true) with
  | none =>
    rw [List.find?_eq_none] at hf
    exact absurd hax (hf x hx)
  | some b =>
    have hab : (matcher_answer b text == .ok true) = true :=
      List.find?_some (p := fun b => matcher_answer b text == .ok true) hf
    rw [core_accept_unique hcore text b (List.mem_of_find?_eq_some hf) x hx hab hax]

/-- C29. The six patterns of the core registry (null, true, false, int,
float, timestamp) are disjoint two by two: no text is matched by two of
them.  So the order of the entries has no say: the core registry with its
entries in any other order builds from an untagged scalar the same object,
or fails with the same exception. -/
theorem implicit_matchers_disjoint :
    (∀ (text : List Char) (k1 k2 : pcre), k1 ≠ k2 →
      ¬ ((pcre_groups k1 text).isSome = true ∧ (pcre_groups k2 text).isSome = true))
    ∧ (∀ (bs bs1 : List MinYamlBuilders) (text : List Char), is_core_registry bs →
      bs1.Perm bs →
      result_value (_build_scalar none text bs1) = result_value (_build_scalar none text bs)) := by
  constructor
  · intro text k1 k2 hne h
    exact groups_disjoint text k1 k2 hne h.1 h.2
  · intro bs bs1 text hcore hperm
    rw [scalar_by_first bs1 text (fun x hx => core_answers hcore text x (hperm.subset hx)),
      scalar_by_first bs text (core_answers hcore text),
      find_perm (fun b => matcher_answer b text == .ok true) bs1 bs hperm
        (core_accept_unique hcore text)]

/-- C29, witness: the core registry in the reverse order builds from `12`
what the core registry builds, the integer 12, and it builds the date from
`2001-12-14` and `True` from `yes`. -/
theorem implicit_matchers_disjoint_witness :
    result_value (_build_scalar none "12".data implicitBuilders.reverse)
      = result_value (_build_scalar none "12".data implicitBuilders)
    ∧ result_value (_build_scalar none "12".data implicitBuilders.reverse) = .ok (.int 12)
    ∧ result_value (_build_scalar none "2001-12-14".data implicitBuilders.reverse)
      = .ok (.date 2001 12 14)
    ∧ result_value (_build_scalar none "yes".data implicitBuilders.reverse) = .ok (.bool true) :=
  ⟨implicit_matchers_disjoint.2 implicitBuilders implicitBuilders.reverse "12".data (by decide)
      (List.reverse_perm _),
   by decide!, by decide!, by decide!⟩

/-! ## Explicit tags of integers and timestamps -/

theorem to_int_rematch (self self1 : MinYamlBuilders) (text : List Char) (len : Nat)
    (hn : self.ncaptures < 0) (hm : _match_builder self text = .ok (true, self1))
    (hn1 : ¬ self1.ncaptures < 0) : _to_int self text len = _to_int self1 text len := by
  simp only [_to_int, hn, if_true, _action_if_no_match, hm, Bool.not_true, hn1, if_false]

theorem to_int_nomatch (self self1 : MinYamlBuilders) (text : List Char) (len : Nat)
    (hn : self.ncaptures < 0) (hm : _match_builder self text = .ok (false, self1)) :
    _to_int self text len = .error .ValueError := by
  simp only [_to_int, hn, if_true, _action_if_no_match, hm, Bool.not_false]
  rfl

theorem to_timestamp_rematch (self self1 : MinYamlBuilders) (text : List Char) (len : Nat)
    (hn : self.ncaptures < 0) (hm : _match_builder self text = .ok (true, self1))
    (hn1 : ¬ self1.ncaptures < 0) :
    _to_timestamp self text len = _to_timestamp self1 text len := by
  simp only [_to_timestamp, hn, if_true, _action_if_no_match, hm, Bool.not_true, hn1, if_false]

theorem to_timestamp_nomatch (self self1 : MinYamlBuilders) (text : List Char) (len : Nat)
    (hn : self.ncaptures < 0) (hm : _match_builder self text = .ok (false, self1)) :
    _to_timestamp self text len = .error .ValueError := by
  simp only [_to_timestamp, hn, if_true, _action_if_no_match, hm, Bool.not_false]
  rfl

/-- The match of a pattern on a text that it matches, and on one that it does
not match. -/
theorem match_builder_some (b : MinYamlBuilders) (re : pcre) (text : List Char)
    (gs : List (Option (Nat × Nat)))
    (hp : b.py_resolver = none) (hc : b.c_resolver = some re) (hg : pcre_groups re text = some gs) :
    _match_builder b text = .ok (true,
      { b with py_match := PyObject.none, ncaptures := pcre_rc gs,
               ovector := ovector_of_groups gs ++ b.ovector.drop (2 * gs.length) }) := by
  rw [match_builder_c b re text hp hc]
  simp only [pcre_exec, hg, pcre_rc_pos, decide_True]

theorem match_builder_reject (b : MinYamlBuilders) (re : pcre) (text : List Char)
    (hp : b.py_resolver = none) (hc : b.c_resolver = some re) (hg : pcre_groups re text = none) :
    _match_builder b text = .ok (false,
      { b with py_match := PyObject.none, ncaptures := -1 }) := by
  rw [match_builder_c b re text hp hc]
  simp only [pcre_exec, hg]
  rfl

/-- The position `_match_tag` finds depends on the tags only. -/
theorem match_tag_tags : ∀ (bs bs1 : List MinYamlBuilders) (t : String),
    bs1.map (fun b => b.tag) = bs.map (fun b => b.tag) →
    _match_tag bs1 (some t) = _match_tag bs (some t) := by
  intro bs
  induction bs with
  | nil =>
    intro bs1 t h
    cases bs1 with
    | nil => rfl
    | cons x r => simp at h
  | cons b rest ih =>
    intro bs1 t h
    cases bs1 with
    | nil => simp at h
    | cons b1 rest1 =>
      simp only [List.map_cons, List.cons.injEq] at h
      have := ih rest1 t h.2
      simp only [_match_tag] at this ⊢
      simp only [List.findIdx?_cons, List.findIdx?_succ, h.1, this]

theorem core_match_tag {bs : List MinYamlBuilders} (h : is_core_registry bs) (t : String) :
    _match_tag bs (some t) = _match_tag implicitBuilders (some t) := by
  apply match_tag_tags
  have := congrArg (List.map Prod.fst) h
  simpa [List.map_map, Function.comp_def, builder_core] using this

/-- C27. With the core registry (in any match state), a scalar tagged
`tag:yaml.org,2002:int` whose text the pattern of the integers matches is
built as the same text without tag is, and one whose text the pattern does
not match fails with `ValueError`; the same holds for the tag
`tag:yaml.org,2002:timestamp` and the pattern of the timestamps. -/
theorem explicit_tag_rederives (bs : List MinYamlBuilders) (hbs : is_core_registry bs)
    (text : List Char) :
    ((pcre_groups .int text).isSome = true →
      result_value (_build_scalar (some YAML_TAG_INT) text bs)
        = result_value (_build_scalar none text bs))
    ∧ (pcre_groups .int text = none →
      result_value (_build_scalar (some YAML_TAG_INT) text bs) = .error .ValueError)
    ∧ ((pcre_groups .timestamp text).isSome = true →
      result_value (_build_scalar (some YAML_TAG_TIMESTAMP) text bs)
        = result_value (_build_scalar none text bs))
    ∧ (pcre_groups .timestamp text = none →
      result_value (_build_scalar (some YAML_TAG_TIMESTAMP) text bs) = .error .ValueError) := by
  have hti : _match_tag bs (some YAML_TAG_INT) = some 4 := by
    rw [core_match_tag hbs]; decide
  have htt : _match_tag bs (some YAML_TAG_TIMESTAMP) = some 6 := by
    rw [core_match_tag hbs]; decide
  have hans := core_answers hbs text
  have hfind := fun x hx k hk hg => core_find hbs text x hx k hk hg
  obtain ⟨b0, b1, b2, b3, b4, b5, b6, b7, b8, rfl, _, _, _, _, h4, _, h6, _, _⟩ :=
    core_registry_cases hbs
  obtain ⟨_, hc4, hk4, hp4, hq4⟩ := builder_core_eq h4
  obtain ⟨_, hc6, hk6, hp6, hq6⟩ := builder_core_eq h6
  have hi4 := tagged_scalar [b0, b1, b2, b3, b4, b5, b6, b7, b8] YAML_TAG_INT text 4 b4 hti rfl
  have hi6 := tagged_scalar [b0, b1, b2, b3, b4, b5, b6, b7, b8] YAML_TAG_TIMESTAMP text 6 b6
    htt rfl
  have hcall4 : ∀ s : MinYamlBuilders, s.py_constructor = none → s.c_constructor = some ._to_int →
      _build_scalar_call s text text.length = _to_int s text text.length := by
    intro s h1 h2
    simp only [_build_scalar_call, h1, h2, c_constructor_call]
  have hcall6 : ∀ s : MinYamlBuilders, s.py_constructor = none →
      s.c_constructor = some ._to_timestamp →
      _build_scalar_call s text text.length = _to_timestamp s text text.length := by
    intro s h1 h2
    simp only [_build_scalar_call, h1, h2, c_constructor_call]
  refine ⟨?_, ?_, ?_, ?_⟩
  · intro hg
    obtain ⟨gs, hgs⟩ := Option.isSome_iff_exists.mp hg
    have hm := match_builder_some b4 .int text gs hp4 hc4 hgs
    have hm1 := match_builder_some { b4 with ncaptures := -1 } .int text gs hp4 hc4 hgs
    have hpos : ¬ pcre_rc gs < 0 := not_lt.mpr (pcre_rc_pos gs)
    have hneg : ({ b4 with ncaptures := -1 } : MinYamlBuilders).ncaptures < 0 := by
      show (-1 : Int) < 0
      decide
    have e1 := to_int_rematch _ _ text text.length hneg hm1 hpos
    have e2 : result_value (_build_scalar none text [b0, b1, b2, b3, b4, b5, b6, b7, b8])
        = result_value (_build_scalar_call (matched b4 text) text text.length) := by
      rw [scalar_by_first _ text hans, hfind b4 (by simp) .int hc4 hg]
    have e3 : matched b4 text
        = { b4 with
            py_match := PyObject.none, ncaptures := pcre_rc gs,
            ovector := ovector_of_groups gs ++ b4.ovector.drop (2 * gs.length) } := by
      simp only [matched, hm]
    rw [hi4, e2, e3, hcall4 { b4 with ncaptures := -1 } hq4 hk4, e1]
    refine Eq.trans ?_ (congrArg result_value
      (hcall4 { b4 with
          py_match := PyObject.none, ncaptures := pcre_rc gs,
          ovector := ovector_of_groups gs ++ b4.ovector.drop (2 * gs.length) } hq4 hk4).symm)
    rfl
  · intro hg
    have hm1 := match_builder_reject { b4 with ncaptures := -1 } .int text hp4 hc4 hg
    have hneg : ({ b4 with ncaptures := -1 } : MinYamlBuilders).ncaptures < 0 := by
      show (-1 : Int) < 0
      decide
    rw [hi4, hcall4 { b4 with ncaptures := -1 } hq4 hk4,
      to_int_nomatch _ _ text text.length hneg hm1]
    rfl
  · intro hg
    obtain ⟨gs, hgs⟩ := Option.isSome_iff_exists.mp hg
    have hm := match_builder_some b6 .timestamp text gs hp6 hc6 hgs
    have hm1 := match_builder_some { b6 with ncaptures := -1 } .timestamp text gs hp6 hc6 hgs
    have hpos : ¬ pcre_rc gs < 0 := not_lt.mpr (pcre_rc_pos gs)
    have hneg : ({ b6 with ncaptures := -1 } : MinYamlBuilders).ncaptures < 0 := by
      show (-1 : Int) < 0
      decide
    have e1 := to_timestamp_rematch _ _ text text.length hneg hm1 hpos
    have e2 : result_value (_build_scalar none text [b0, b1, b2, b3, b4, b5, b6, b7, b8])
        = result_value (_build_scalar_call (matched b6 text) text text.length) := by
      rw [scalar_by_first _ text hans, hfind b6 (by simp) .timestamp hc6 hg]
    have e3 : matched b6 text
        = { b6 with
            py_match := PyObject.none, ncaptures := pcre_rc gs,
            ovector := ovector_of_groups gs ++ b6.ovector.drop (2 * gs.length) } := by
      simp only [matched, hm]
    rw [hi6, e2, e3, hcall6 { b6 with ncaptures := -1 } hq6 hk6, e1]
    refine Eq.trans ?_ (congrArg result_value
      (hcall6 { b6 with
          py_match := PyObject.none, ncaptures := pcre_rc gs,
          ovector := ovector_of_groups gs ++ b6.ovector.drop (2 * gs.length) } hq6 hk6).symm)
    rfl
  · intro hg
    have hm1 := match_builder_reject { b6 with ncaptures := -1 } .timestamp text hp6 hc6 hg
    have hneg : ({ b6 with ncaptures := -1 } : MinYamlBuilders).ncaptures < 0 := by
      show (-1 : Int) < 0
      decide
    rw [hi6, hcall6 { b6 with ncaptures := -1 } hq6 hk6,
      to_timestamp_nomatch _ _ text text.length hneg hm1]
    rfl

/-- C27, witness: `0x1F` and `1:30` tagged as integers are the integers 31
and 90 they are without tag, and `abc` tagged as an integer fails with
`ValueError`; `2001-12-14T21:59:43+01` tagged as a timestamp is the date and
time it is without tag, and `yesterday` tagged as a timestamp fails with
`ValueError`. -/
theorem explicit_tag_rederives_witness :
    result_value (_build_scalar (some YAML_TAG_INT) "0x1F".data implicitBuilders)
      = result_value (_build_scalar none "0x1F".data implicitBuilders)
    ∧ result_value (_build_scalar (some YAML_TAG_INT) "0x1F".data implicitBuilders) = .ok (.int 31)
    ∧ result_value (_build_scalar (some YAML_TAG_INT) "1:30".data implicitBuilders) = .ok (.int 90)
    ∧ result_value (_build_scalar (some YAML_TAG_INT) "abc".data implicitBuilders)
      = .error .ValueError
    ∧ result_value (_build_scalar (some YAML_TAG_TIMESTAMP) "2001-12-14T21:59:43+01".data
        implicitBuilders)
      = result_value (_build_scalar none "2001-12-14T21:59:43+01".data implicitBuilders)
    ∧ result_value (_build_scalar (some YAML_TAG_TIMESTAMP) "2001-12-14T21:59:43+01".data
        implicitBuilders) = .ok (.datetime 2001 12 14 20 59 43 0)
    ∧ result_value (_build_scalar (some YAML_TAG_TIMESTAMP) "yesterday".data implicitBuilders)
      = .error .ValueError :=
  ⟨(explicit_tag_rederives implicitBuilders (by decide) "0x1F".data).1 (by decide),
   by decide!, by decide!,
   (explicit_tag_rederives implicitBuilders (by decide) "abc".data).2.1 (by decide),
   (explicit_tag_rederives implicitBuilders (by decide) "2001-12-14T21:59:43+01".data).2.2.1
     (by decide),
   by decide!,
   (explicit_tag_rederives implicitBuilders (by decide) "yesterday".data).2.2.2 (by decide)⟩

/-! ## Infinities -/

/-- An untagged scalar that none of the six patterns matches is built by the
core registry as the string of its text. -/
theorem core_scalar_none {bs : List MinYamlBuilders} (hbs : is_core_registry bs) (text : List Char)
    (hno : ∀ k, pcre_groups k text = none) :
    result_value (_build_scalar none text bs) = .ok (PyUnicode_FromString text) := by
  have hf : bs.find? (fun b => matcher_answer b text == .ok true) = none := by
    rw [List.find?_eq_none]
    intro x hx
    rcases core_entry_answer hbs x hx text with ⟨_, h⟩ | ⟨k, _, h⟩
    · rw [h]; simp
    · rw [h, hno k]; simp
  rw [scalar_by_first bs text (core_answers hbs text), hf]

/-- An untagged scalar that the pattern of the floats matches is built by
`_to_float`, from the captures of that match. -/
theorem core_scalar_float {bs : List MinYamlBuilders} (hbs : is_core_registry bs) (text : List Char)
    (gs : List (Option (Nat × Nat))) (hg : pcre_groups .float text = some gs) :
    ∃ self tail, self.ncaptures = pcre_rc gs ∧ self.ovector = ovector_of_groups gs ++ tail
      ∧ result_value (_build_scalar none text bs)
        = result_value (_to_float self text text.length) := by
  have hans := core_answers hbs text
  have hfind := fun x hx k hk hg => core_find hbs text x hx k hk hg
  obtain ⟨b0, b1, b2, b3, b4, b5, b6, b7, b8, rfl, _, _, _, _, _, h5, _, _, _⟩ :=
    core_registry_cases hbs
  obtain ⟨_, hc5, hk5, hp5, hq5⟩ := builder_core_eq h5
  have hm := match_builder_some b5 .float text gs hp5 hc5 hg
  refine ⟨{ b5 with
            py_match := PyObject.none, ncaptures := pcre_rc gs,
            ovector := ovector_of_groups gs ++ b5.ovector.drop (2 * gs.length) },
    b5.ovector.drop (2 * gs.length), rfl, rfl, ?_⟩
  rw [scalar_by_first _ text hans, hfind b5 (by simp) .float hc5 (by rw [hg]; rfl)]
  simp only [matched, hm, _build_scalar_call, hq5, hk5, c_constructor_call]

/-- The constructor of the floats on the captures of an infinity: the sign
is that of the first character of the text. -/
theorem to_float_inf (self : MinYamlBuilders) (text : List Char) (len : Nat) (n : Nat)
    (tail : List Int) (hn : self.ncaptures = 5) (hpos : 0 < n)
    (ho : self.ovector = [0, (n : Int), -1, -1, -1, -1, -1, -1, 0, (n : Int), -1, -1] ++ tail) :
    result_value (_to_float self text len)
      = .ok (.float (.inf (decide (text.head? = some '-')))) := by
  have hn0 : ¬ self.ncaptures < 0 := by omega
  have h0 : _ovector_at self 0 = none := by
    simp [_ovector_at, hn, ho]
  have h3 : (_ovector_at self 3).isSome = true := by
    simp [_ovector_at, hn, ho, hpos]
  simp only [_to_float, hn0, if_false, h0, h3, if_true, result_value]

/-- C25, what the code does.  With the core registry (in any match state) the
untagged texts `.inf` and `+.inf` are the float plus infinity and `-.inf` is
minus infinity, as are `Inf` and `INF` plus infinity; but `.Inf` and `.INF`,
with or without sign, are matched by no pattern and are built as strings. -/
theorem signed_infinity (bs : List MinYamlBuilders) (hbs : is_core_registry bs) :
    result_value (_build_scalar none ".inf".data bs) = .ok (.float (.inf false))
    ∧ result_value (_build_scalar none "+.inf".data bs) = .ok (.float (.inf false))
    ∧ result_value (_build_scalar none "-.inf".data bs) = .ok (.float (.inf true))
    ∧ result_value (_build_scalar none "Inf".data bs) = .ok (.float (.inf false))
    ∧ result_value (_build_scalar none "INF".data bs) = .ok (.float (.inf false))
    ∧ (∀ t ∈ [".Inf", "+.Inf", "-.Inf", ".INF", "+.INF", "-.INF"],
        result_value (_build_scalar none t.data bs) = .ok (.str t)) := by
  have inf : ∀ (text : List Char) (n : Nat), 0 < n →
      pcre_groups .float text = some [some (0, n), none, none, none, some (0, n), none] →
      result_value (_build_scalar none text bs)
        = .ok (.float (.inf (decide (text.head? = some '-')))) := by
    intro text n hpos hg
    obtain ⟨self, tail, hn, ho, hr⟩ := core_scalar_float hbs text _ hg
    rw [hr]
    exact to_float_inf self text text.length n tail (by rw [hn]; rfl) hpos (by rw [ho]; rfl)
  refine ⟨?_, ?_, ?_, ?_, ?_, ?_⟩
  · exact inf ".inf".data 4 (by decide) (by decide)
  · exact inf "+.inf".data 5 (by decide) (by decide)
  · exact inf "-.inf".data 5 (by decide) (by decide)
  · exact inf "Inf".data 3 (by decide) (by decide)
  · exact inf "INF".data 3 (by decide) (by decide)
  · intro t ht
    simp only [List.mem_cons, List.mem_singleton, List.not_mem_nil, or_false] at ht
    rcases ht with rfl | rfl | rfl | rfl | rfl | rfl <;>
      exact core_scalar_none hbs _ (fun k => by cases k <;> decide)

/-- C25, witness: with the core registry as it is first made, `-.inf` is
minus infinity and `.Inf`, `-.INF` are strings. -/
theorem signed_infinity_witness :
    result_value (_build_scalar none "-.inf".data implicitBuilders) = .ok (.float (.inf true))
    ∧ result_value (_build_scalar none ".Inf".data implicitBuilders) = .ok (.str ".Inf")
    ∧ result_value (_build_scalar none "-.INF".data implicitBuilders) = .ok (.str "-.INF") :=
  ⟨(signed_infinity implicitBuilders (by decide)).2.2.1,
   (signed_infinity implicitBuilders (by decide)).2.2.2.2.2 ".Inf" (by decide),
   (signed_infinity implicitBuilders (by decide)).2.2.2.2.2 "-.INF" (by decide)⟩

/-! ## The constructor of the bool tag -/

theorem to_bool_cases (text : List Char) :
    (c_str text ∈ bool_true_texts → _to_bool text = .ok (.bool true))
    ∧ (c_str text ∈ bool_false_texts → _to_bool text = .ok (.bool false))
    ∧ (c_str text ∉ bool_true_texts → c_str text ∉ bool_false_texts →
        _to_bool text = .error .RuntimeError) := by
  have hdis : ∀ b ∈ bool_false_texts, b ∉ bool_true_texts := by decide
  refine ⟨?_, ?_, ?_⟩
  · intro h
    simp only [bool_true_texts] at h
    simp only [_to_bool, h, if_true]
  · intro h
    have h1 := hdis _ h
    simp only [bool_true_texts, bool_false_texts] at h h1
    simp only [_to_bool, h, h1, if_true, if_false]
  · intro h1 h2
    simp only [bool_true_texts, bool_false_texts] at h1 h2
    simp only [_to_bool, h1, h2, if_false]

/-- C26 (amended). With the core registry (in any match state) a scalar
tagged `tag:yaml.org,2002:bool` is built by `_to_bool`, which compares the
text as a C string, that is up to its first NUL character: the result is
`True` when this string is one of y, Y, yes, Yes, YES, true, True, TRUE, on,
On, ON, `False` when it is one of n, N, no, No, NO, false, False, FALSE, off,
Off, OFF, and the exception `RuntimeError` for any other, the empty one
included.  For a text without NUL character the string is the text. -/
theorem explicit_bool (bs : List MinYamlBuilders) (hbs : is_core_registry bs) (text : List Char) :
    (c_str text ∈ bool_true_texts →
      result_value (_build_scalar (some YAML_TAG_BOOL) text bs) = .ok (.bool true))
    ∧ (c_str text ∈ bool_false_texts →
      result_value (_build_scalar (some YAML_TAG_BOOL) text bs) = .ok (.bool false))
    ∧ (c_str text ∉ bool_true_texts → c_str text ∉ bool_false_texts →
      result_value (_build_scalar (some YAML_TAG_BOOL) text bs) = .error .RuntimeError)
    ∧ ((∀ c ∈ text, c ≠ '\x00') → c_str text = text)
    ∧ c_str [] = [] := by
  have htb : _match_tag bs (some YAML_TAG_BOOL) = some 1 := by
    rw [core_match_tag hbs]; decide
  obtain ⟨b0, b1, b2, b3, b4, b5, b6, b7, b8, rfl, _, h1, _, _, _, _, _, _, _⟩ :=
    core_registry_cases hbs
  obtain ⟨_, _, hk1, _, hq1⟩ := builder_core_eq h1
  have hr : result_value (_build_scalar (some YAML_TAG_BOOL) text [b0, b1, b2, b3, b4, b5, b6, b7, b8])
      = _to_bool text := by
    rw [tagged_scalar _ YAML_TAG_BOOL text 1 b1 htb rfl]
    simp only [_build_scalar_call, hq1, hk1, c_constructor_call]
    cases _to_bool text <;> rfl
  rw [hr]
  obtain ⟨t1, t2, t3⟩ := to_bool_cases text
  exact ⟨t1, t2, t3, c_str_of_no_nul text, rfl⟩

/-- C26, witness: tagged as a bool, `Yes` is `True`, `off` is `False`, and
`maybe`, the empty text and `yes ` with a blank fail with `RuntimeError`. -/
theorem explicit_bool_witness :
    result_value (_build_scalar (some YAML_TAG_BOOL) "Yes".data implicitBuilders)
      = .ok (.bool true)
    ∧ result_value (_build_scalar (some YAML_TAG_BOOL) "off".data implicitBuilders)
      = .ok (.bool false)
    ∧ result_value (_build_scalar (some YAML_TAG_BOOL) "maybe".data implicitBuilders)
      = .error .RuntimeError
    ∧ result_value (_build_scalar (some YAML_TAG_BOOL) [] implicitBuilders)
      = .error .RuntimeError
    ∧ result_value (_build_scalar (some YAML_TAG_BOOL) "yes ".data implicitBuilders)
      = .error .RuntimeError :=
  ⟨(explicit_bool implicitBuilders (by decide) "Yes".data).1 (by decide),
   (explicit_bool implicitBuilders (by decide) "off".data).2.1 (by decide),
   (explicit_bool implicitBuilders (by decide) "maybe".data).2.2.1 (by decide) (by decide),
   (explicit_bool implicitBuilders (by decide) []).2.2.1 (by decide) (by decide),
   (explicit_bool implicitBuilders (by decide) "yes ".data).2.2.1 (by decide) (by decide)⟩

/-- C26, counterexample: the text `y`, NUL, `n` is none of the texts listed,
yet tagged as a bool it is built as `True`: the comparison stops at the NUL
character. -/
theorem explicit_bool_counterexample :
    ['y', '\x00', 'n'] ∉ bool_true_texts ∧ ['y', '\x00', 'n'] ∉ bool_false_texts
    ∧ result_value (_build_scalar (some YAML_TAG_BOOL) ['y', '\x00', 'n'] implicitBuilders)
      = .ok (.bool true) := by
  refine ⟨by decide, by decide, by decide!⟩

/-! ## Mappings: the tag of a mapping start -/

theorem untag_type (ev : yaml_event_t) : (untag ev).type = ev.type := by
  unfold untag; split <;> rfl

theorem untag_anchor (ev : yaml_event_t) : (untag ev).anchor = ev.anchor := by
  unfold untag; split <;> rfl

theorem untag_other (ev : yaml_event_t) (h : ev.type ≠ .YAML_MAPPING_START_EVENT) :
    untag ev = ev := by
  unfold untag
  rw [if_neg]
  exact fun hc => h hc.1

theorem parse_next_untag (p : yaml_parser_t) (done : yaml_event_type_t) :
    _parse_next (untag_events p) done
      = match _parse_next p done with
        | .error e => .error e
        | .ok (s, ev, rest) => .ok (s, untag ev, untag_events rest) := by
  cases p with
  | nil => rfl
  | cons item rest =>
    cases item with
    | error e => cases e <;> rfl
    | ok ev =>
      simp only [untag_events, List.map_cons, _parse_next, yaml_parser_parse, untag_type]

theorem save_alias_untag (anchor : Option String) (r : Built) :
    _save_alias anchor (untag_built r) = untag_built (_save_alias anchor r) := by
  cases r with
  | error e => rfl
  | ok p =>
    obtain ⟨v, st⟩ := p
    cases anchor with
    | none => rfl
    | some a =>
      simp only [untag_built, _save_alias, untag_state]
      cases PyDict_SetItemString st.aliases a v <;> rfl

theorem build_custom_untag (tag : Option String) (bs : List MinYamlBuilders) (r : Built) :
    _build_custom tag bs (untag_built r) = untag_built (_build_custom tag bs r) := by
  cases r with
  | error e =>
    show _build_custom tag bs (.error e) = untag_built (_build_custom tag bs (.error e))
    rw [build_custom_entry]
    simp only
    cases registry_entry bs tag with
    | none => rfl
    | some b =>
      simp only
      cases b.py_constructor <;> rfl
  | ok p =>
    obtain ⟨v, st⟩ := p
    show _build_custom tag bs (.ok (v, untag_state st))
      = untag_built (_build_custom tag bs (.ok (v, st)))
    rw [build_custom_entry, build_custom_entry]
    simp only
    show (match registry_entry st.builders tag with
      | none => (.error .ValueError : Built)
      | some builder =>
        match builder.py_constructor with
        | none => .error .ValueError
        | some f =>
          match f [v] with
          | .error e => .error e
          | .ok v1 => .ok (v1, untag_state st)) = _
    cases registry_entry st.builders tag with
    | none => rfl
    | some b =>
      simp only
      cases b.py_constructor with
      | none => rfl
      | some f =>
        simp only
        cases f [v] <;> rfl

theorem build_map_end_untag (r : Except PyExc ((PyDict × Bool) × BuildState)) :
    _build_map_end (untag_loop r) = untag_built (_build_map_end r) := by
  cases r with
  | error e => rfl
  | ok p =>
    obtain ⟨⟨M, s⟩, st⟩ := p
    cases s <;> rfl

theorem untag_core_tag (ev : yaml_event_t) (hty : ev.type = .YAML_MAPPING_START_EVENT)
    (htag : ev.tag = none ∨ ev.tag = some YAML_TAG_MAP ∨ ev.tag = some YAML_TAG_SET) :
    (untag ev).tag = none := by
  unfold untag
  split
  · rfl
  · rename_i h
    rcases htag with h1 | h1 | h1
    · exact h1
    · exact absurd ⟨hty, Or.inl h1⟩ h
    · exact absurd ⟨hty, Or.inr h1⟩ h

theorem untag_custom_tag (ev : yaml_event_t)
    (h1 : ev.tag ≠ some YAML_TAG_MAP) (h2 : ev.tag ≠ some YAML_TAG_SET) : untag ev = ev := by
  unfold untag
  rw [if_neg]
  rintro ⟨_, h | h⟩
  · exact h1 h
  · exact h2 h

theorem untag_step_value (fuel : Nat)
    (hseq : ∀ st seq, _build_seq fuel (untag_state st) seq = untag_built (_build_seq fuel st seq))
    (hpairs : ∀ st seq key,
      _build_pairs fuel (untag_state st) seq key = untag_built (_build_pairs fuel st seq key))
    (hmap : ∀ st M key isSet, _build_map_loop fuel (untag_state st) M key isSet
      = untag_loop (_build_map_loop fuel st M key isSet)) :
    ∀ ev st, _build_value (fuel + 1) (untag ev) (untag_state st)
      = untag_built (_build_value (fuel + 1) ev st) := by
  intro ev st
  have hA : _save_alias ev.anchor
      (_build_map_end (_build_map_loop fuel (untag_state st) [] none true))
      = untag_built (_save_alias ev.anchor (_build_map_end (_build_map_loop fuel st [] none true))) := by
    rw [hmap, build_map_end_untag, save_alias_untag]
  by_cases hm : ev.type = .YAML_MAPPING_START_EVENT
  · by_cases hc : ev.tag = none ∨ ev.tag = some YAML_TAG_MAP ∨ ev.tag = some YAML_TAG_SET
    · have hl := build_value_core_map fuel (untag ev) (untag_state st)
        (by rw [untag_type]; exact hm) (Or.inl (untag_core_tag ev hm hc))
      have hr := build_value_core_map fuel ev st hm hc
      rw [hl, hr, untag_anchor]
      exact hA
    · have h1 : ev.tag ≠ some YAML_TAG_MAP := fun h => hc (Or.inr (Or.inl h))
      have h2 : ev.tag ≠ some YAML_TAG_SET := fun h => hc (Or.inr (Or.inr h))
      have h0 : ev.tag ≠ none := fun h => hc (Or.inl h)
      rw [untag_custom_tag ev h1 h2]
      simp only [_build_value, hm, h0, h1, h2, false_or, if_false]
      show _save_alias ev.anchor (_build_custom ev.tag st.builders
        (_build_map_end (_build_map_loop fuel (untag_state st) [] none true))) = _
      rw [hmap, build_map_end_untag, build_custom_untag, save_alias_untag]
  · rw [untag_other ev hm]
    cases hty : ev.type with
    | YAML_MAPPING_START_EVENT => exact absurd hty hm
    | YAML_SEQUENCE_START_EVENT =>
      simp only [_build_value, hty]
      split
      · rw [hseq, save_alias_untag]
      · split
        · rw [hpairs, save_alias_untag]
        · show _save_alias ev.anchor (_build_custom ev.tag st.builders
            (_build_seq fuel (untag_state st) [])) = _
          rw [hseq, build_custom_untag, save_alias_untag]
    | YAML_SCALAR_EVENT =>
      simp only [_build_value, hty]
      rw [← save_alias_untag]
      congr 1
      show (match _build_scalar ev.tag ev.value.data st.builders with
        | .error e => (.error e : Built)
        | .ok (v, builders) => .ok (v, { untag_state st with builders := builders })) = _
      cases _build_scalar ev.tag ev.value.data st.builders with
      | error e => rfl
      | ok r => rfl
    | YAML_ALIAS_EVENT =>
      simp only [_build_value, hty]
      show (match _load_alias st.aliases (ev.anchor.getD "") with
        | .error e => (.error e : Built)
        | .ok v => .ok (v, untag_state st)) = _
      cases _load_alias st.aliases (ev.anchor.getD "") <;> rfl
    | YAML_NO_EVENT => simp only [_build_value, hty]; rfl
    | YAML_STREAM_START_EVENT => simp only [_build_value, hty]; rfl
    | YAML_STREAM_END_EVENT => simp only [_build_value, hty]; rfl
    | YAML_DOCUMENT_START_EVENT => simp only [_build_value, hty]; rfl
    | YAML_DOCUMENT_END_EVENT => simp only [_build_value, hty]; rfl
    | YAML_SEQUENCE_END_EVENT => simp only [_build_value, hty]; rfl
    | YAML_MAPPING_END_EVENT => simp only [_build_value, hty]; rfl

theorem untag_step_seq (fuel : Nat)
    (hval : ∀ ev st, _build_value fuel (untag ev) (untag_state st)
      = untag_built (_build_value fuel ev st))
    (hseq : ∀ st seq, _build_seq fuel (untag_state st) seq = untag_built (_build_seq fuel st seq)) :
    ∀ st seq, _build_seq (fuel + 1) (untag_state st) seq
      = untag_built (_build_seq (fuel + 1) st seq) := by
  intro st seq
  simp only [_build_seq]
  show (match _parse_next (untag_events st.parser) .YAML_SEQUENCE_END_EVENT with
    | .error e => (.error e : Built)
    | .ok (status, event, parser) =>
      if status = MinYamlParserStatus.BLOCK_PROCEED then
        match _build_value fuel event { untag_state st with parser := parser } with
        | .error e => .error e
        | .ok (value, st1) => _build_seq fuel st1 (seq ++ [value])
      else .ok (.list seq, { untag_state st with parser := parser })) = _
  rw [parse_next_untag]
  cases hn : _parse_next st.parser .YAML_SEQUENCE_END_EVENT with
  | error e => rfl
  | ok r =>
    obtain ⟨status, event, parser⟩ := r
    simp only
    by_cases hs : status = .BLOCK_PROCEED
    · simp only [hs, if_true]
      have h := hval event { st with parser := parser }
      rw [show ({ untag_state st with parser := untag_events parser } : BuildState)
        = untag_state { st with parser := parser } from rfl, h]
      cases _build_value fuel event { st with parser := parser } with
      | error e => rfl
      | ok r1 =>
        obtain ⟨value, st1⟩ := r1
        exact hseq st1 _
    · simp only [hs, if_false]
      rfl

theorem untag_step_map (fuel : Nat)
    (hval : ∀ ev st, _build_value fuel (untag ev) (untag_state st)
      = untag_built (_build_value fuel ev st))
    (hmap : ∀ st M key isSet, _build_map_loop fuel (untag_state st) M key isSet
      = untag_loop (_build_map_loop fuel st M key isSet)) :
    ∀ st M key isSet, _build_map_loop (fuel + 1) (untag_state st) M key isSet
      = untag_loop (_build_map_loop (fuel + 1) st M key isSet) := by
  intro st M key isSet
  simp only [_build_map_loop]
  show (match _parse_next (untag_events st.parser) .YAML_MAPPING_END_EVENT with
    | .error e => (.error e : Except PyExc ((PyDict × Bool) × BuildState))
    | .ok (status, event, parser) =>
      if status = MinYamlParserStatus.BLOCK_PROCEED then
        match key with
        | none =>
          match _build_value fuel event { untag_state st with parser := parser } with
          | .error e => .error e
          | .ok (key1, st1) => _build_map_loop fuel st1 M (some key1) isSet
        | some k =>
          match _build_value fuel event { untag_state st with parser := parser } with
          | .error e => .error e
          | .ok (value, st1) =>
            match _build_map_pair M k value with
            | .error e => .error e
            | .ok mapping1 =>
              _build_map_loop fuel st1 mapping1 none (isSet && decide (value = PyObject.none))
      else .ok ((M, isSet), { untag_state st with parser := parser })) = _
  rw [parse_next_untag]
  cases hn : _parse_next st.parser .YAML_MAPPING_END_EVENT with
  | error e => rfl
  | ok r =>
    obtain ⟨status, event, parser⟩ := r
    simp only
    by_cases hs : status = .BLOCK_PROCEED
    · simp only [hs, if_true]
      have h := hval event { st with parser := parser }
      rw [show ({ untag_state st with parser := untag_events parser } : BuildState)
        = untag_state { st with parser := parser } from rfl, h]
      cases key with
      | none =>
        simp only
        cases _build_value fuel event { st with parser := parser } with
        | error e => rfl
        | ok r1 =>
          obtain ⟨key1, st1⟩ := r1
          exact hmap st1 _ _ _
      | some k =>
        simp only
        cases _build_value fuel event { st with parser := parser } with
        | error e => rfl
        | ok r1 =>
          obtain ⟨value, st1⟩ := r1
          simp only [untag_built]
          cases _build_map_pair M k value with
          | error e => rfl
          | ok M1 => exact hmap st1 _ _ _
    · simp only [hs, if_false]
      rfl

theorem untag_state_events (st : BuildState) : (untag_state st).parser = untag_events st.parser :=
  rfl

theorem untag_state_with (st : BuildState) (p : yaml_parser_t) :
    ({ untag_state st with parser := untag_events p } : BuildState)
      = untag_state { st with parser := p } := rfl

theorem untag_step_pairs (fuel : Nat)
    (hval : ∀ ev st, _build_value fuel (untag ev) (untag_state st)
      = untag_built (_build_value fuel ev st))
    (hpairs : ∀ st seq key,
      _build_pairs fuel (untag_state st) seq key = untag_built (_build_pairs fuel st seq key)) :
    ∀ st seq key, _build_pairs (fuel + 1) (untag_state st) seq key
      = untag_built (_build_pairs (fuel + 1) st seq key) := by
  intro st seq key
  simp only [_build_pairs]
  rw [untag_state_events, parse_next_untag]
  cases hn : _parse_next st.parser .YAML_SEQUENCE_END_EVENT with
  | error e => rfl
  | ok r =>
    obtain ⟨status, event, parser⟩ := r
    simp only
    by_cases hs : status = .BLOCK_PROCEED
    · simp only [hs, if_true]
      cases key with
      | none =>
        simp only [untag_type]
        by_cases hty : event.type = .YAML_MAPPING_START_EVENT
        · simp only [hty, ne_eq, not_true_eq_false, if_false]
          rw [parse_next_untag]
          cases hn1 : _parse_next parser .YAML_SEQUENCE_END_EVENT with
          | error e => rfl
          | ok r1 =>
            obtain ⟨status1, event1, parser1⟩ := r1
            simp only
            by_cases hs1 : status1 = .BLOCK_PROCEED
            · simp only [hs1, if_true]
              rw [untag_state_with, hval event1 { st with parser := parser1 }]
              cases _build_value fuel event1 { st with parser := parser1 } with
              | error e => rfl
              | ok r2 =>
                obtain ⟨key1, st1⟩ := r2
                exact hpairs st1 _ _
            · simp only [hs1, if_false]
              rfl
        · simp only [hty, ne_eq, not_false_eq_true, if_true]
          rfl
      | some k =>
        simp only
        rw [untag_state_with, hval event { st with parser := parser }]
        cases _build_value fuel event { st with parser := parser } with
        | error e => rfl
        | ok r2 =>
          obtain ⟨value, st1⟩ := r2
          simp only [untag_built]
          rw [untag_state_events, parse_next_untag]
          cases hn2 : _parse_next st1.parser .YAML_SEQUENCE_END_EVENT with
          | error e => rfl
          | ok r3 =>
            obtain ⟨status2, event2, parser2⟩ := r3
            simp only [untag_type]
            by_cases hty2 : event2.type = .YAML_MAPPING_END_EVENT
            · simp only [hty2, ne_eq, not_true_eq_false, if_false]
              by_cases hs2 : status2 = .BLOCK_DONE
              · simp only [hs2, if_true]
                rfl
              · simp only [hs2, if_false]
                rw [untag_state_with]
                exact hpairs _ _ _
            · simp only [hty2, ne_eq, not_false_eq_true, if_true]
    · simp only [hs, if_false]
      rfl

/-- Building from the events without the tags of maps and of sets on their
mapping starts gives what building from the events gives, the events left
being changed alike. -/
theorem builders_untag : ∀ fuel : Nat,
    (∀ ev st, _build_value fuel (untag ev) (untag_state st)
      = untag_built (_build_value fuel ev st))
    ∧ (∀ st seq, _build_seq fuel (untag_state st) seq = untag_built (_build_seq fuel st seq))
    ∧ (∀ st seq key,
      _build_pairs fuel (untag_state st) seq key = untag_built (_build_pairs fuel st seq key))
    ∧ (∀ st M key isSet, _build_map_loop fuel (untag_state st) M key isSet
      = untag_loop (_build_map_loop fuel st M key isSet)) := by
  intro fuel
  induction fuel with
  | zero =>
    refine ⟨?_, ?_, ?_, ?_⟩
    · intro ev st; simp only [_build_value]; rfl
    · intro st seq; simp only [_build_seq]; rfl
    · intro st seq key; simp only [_build_pairs]; rfl
    · intro st M key isSet; simp only [_build_map_loop]; rfl
  | succ fuel ih =>
    obtain ⟨hval, hseq, hpairs, hmap⟩ := ih
    exact ⟨untag_step_value fuel hseq hpairs hmap, untag_step_seq fuel hval hseq,
      untag_step_pairs fuel hval hpairs, untag_step_map fuel hval hmap⟩

theorem build_fuel_untag (p : yaml_parser_t) : build_fuel (untag_events p) = build_fuel p := by
  simp only [build_fuel, untag_events, List.length_map]

/-- A document built from the events without the tags of maps and of sets on
their mapping starts is the document built from the events. -/
theorem build_document_untag (p : yaml_parser_t) (bs : List MinYamlBuilders) :
    result_value (_build_document (untag_events p) bs) = result_value (_build_document p bs) := by
  simp only [_build_document]
  rw [parse_next_untag]
  cases hn : _parse_next p .YAML_DOCUMENT_END_EVENT with
  | error e => rfl
  | ok r =>
    obtain ⟨status, event, parser1⟩ := r
    simp only
    by_cases hs : status = .BLOCK_PROCEED
    · simp only [hs, if_true, build_fuel_untag]
      have h := (builders_untag (build_fuel parser1)).1 event ⟨parser1, bs, []⟩
      rw [show (⟨untag_events parser1, bs, []⟩ : BuildState) = untag_state ⟨parser1, bs, []⟩ from rfl,
        h]
      cases _build_value (build_fuel parser1) event ⟨parser1, bs, []⟩ with
      | error e => rfl
      | ok r1 =>
        obtain ⟨document, st⟩ := r1
        simp only [untag_built]
        rw [untag_state_events, parse_next_untag]
        cases _parse_next st.parser .YAML_DOCUMENT_END_EVENT with
        | error e => rfl
        | ok r2 =>
          obtain ⟨status1, event1, parser2⟩ := r2
          simp only
          by_cases hd : status1 = .BLOCK_DONE
          · simp only [hd, ne_eq, not_true_eq_false, if_false]
            rfl
          · simp only [hd, ne_eq, not_false_eq_true, if_true]
    · simp only [hs, if_false]
      rw [parse_next_untag]
      cases _parse_next parser1 .YAML_DOCUMENT_END_EVENT with
      | error e => rfl
      | ok r2 =>
        obtain ⟨status1, event1, parser2⟩ := r2
        simp only
        by_cases hd : status1 = .BLOCK_DONE
        · simp only [hd, ne_eq, not_true_eq_false, if_false]
          rfl
        · simp only [hd, ne_eq, not_false_eq_true, if_true]

theorem untag_retag (ev : yaml_event_t) (t : Option String)
    (hty : ev.type = .YAML_MAPPING_START_EVENT)
    (ht : t = none ∨ t = some YAML_TAG_MAP ∨ t = some YAML_TAG_SET) :
    untag { ev with tag := t } = { ev with tag := none } := by
  unfold untag
  rcases ht with rfl | rfl | rfl
  · split <;> rfl
  · rw [if_pos ⟨hty, Or.inl rfl⟩]
  · rw [if_pos ⟨hty, Or.inr rfl⟩]

theorem untag_events_retag (pre rest : yaml_parser_t) (ev : yaml_event_t) (t : Option String)
    (hty : ev.type = .YAML_MAPPING_START_EVENT)
    (ht : t = none ∨ t = some YAML_TAG_MAP ∨ t = some YAML_TAG_SET) :
    untag_events (pre ++ .ok { ev with tag := t } :: rest)
      = untag_events (pre ++ .ok { ev with tag := none } :: rest) := by
  simp only [untag_events, List.map_append, List.map_cons, untag_retag ev t hty ht,
    untag_retag ev none hty (Or.inl rfl)]

/-- C23. The decision between set and mapping ignores the tag.  A mapping
start event gives the same result, whatever the fuel and the state (the
events that follow, the registry, the aliases), when its tag is absent, is
`tag:yaml.org,2002:map` or is `tag:yaml.org,2002:set`: each time the result
of `_build_map`, bound to the anchor of the event.  And for every stream of
events, with a mapping start anywhere in it, the document built is the same
(same value or same exception) whichever of the three its tag is. -/
theorem set_decision_ignores_tag (ev : yaml_event_t) (hty : ev.type = .YAML_MAPPING_START_EVENT) :
    (∀ (fuel : Nat) (st : BuildState),
      _build_value fuel { ev with tag := some YAML_TAG_MAP } st
        = _build_value fuel { ev with tag := none } st
      ∧ _build_value fuel { ev with tag := some YAML_TAG_SET } st
        = _build_value fuel { ev with tag := none } st
      ∧ _build_value (fuel + 1) { ev with tag := none } st
        = _save_alias ev.anchor (_build_map fuel st))
    ∧ (∀ (pre rest : yaml_parser_t) (bs : List MinYamlBuilders) (t1 t2 : Option String),
      t1 = none ∨ t1 = some YAML_TAG_MAP ∨ t1 = some YAML_TAG_SET →
      t2 = none ∨ t2 = some YAML_TAG_MAP ∨ t2 = some YAML_TAG_SET →
      result_value (_build_document (pre ++ .ok { ev with tag := t1 } :: rest) bs)
        = result_value (_build_document (pre ++ .ok { ev with tag := t2 } :: rest) bs)) := by
  constructor
  · intro fuel st
    have h0 : ∀ f, _build_value (f + 1) { ev with tag := none } st
        = _save_alias ev.anchor (_build_map f st) :=
      fun f => build_value_core_map f { ev with tag := none } st hty (Or.inl rfl)
    refine ⟨?_, ?_, h0 fuel⟩
    · cases fuel with
      | zero => rfl
      | succ f =>
        rw [h0 f]
        exact build_value_core_map f { ev with tag := some YAML_TAG_MAP } st hty (Or.inr (Or.inl rfl))
    · cases fuel with
      | zero => rfl
      | succ f =>
        rw [h0 f]
        exact build_value_core_map f { ev with tag := some YAML_TAG_SET } st hty (Or.inr (Or.inr rfl))
  · intro pre rest bs t1 t2 h1 h2
    rw [← build_document_untag (pre ++ .ok { ev with tag := t1 } :: rest),
      ← build_document_untag (pre ++ .ok { ev with tag := t2 } :: rest),
      untag_events_retag pre rest ev t1 hty h1, untag_events_retag pre rest ev t2 hty h2]

/-- C23, witness: the mapping `a: 1` and the mapping `a: ~` under the three
tags, built by the core registry: the first is a mapping and the second a
set each time; and the sequence `[x, (a: ~)]` gives the same document with
the tag of sets on its mapping as with the tag of maps. -/
theorem set_decision_ignores_tag_witness :
    (∀ t ∈ [none, some YAML_TAG_MAP, some YAML_TAG_SET],
      result_value (_build_document (parser_of [ev_map_start t none, ev_plain "a", ev_plain "1",
        ev_map_end, ev_mark .YAML_DOCUMENT_END_EVENT]) implicitBuilders)
        = .ok (.dict [(.str "a", .int 1)])
      ∧ result_value (_build_document (parser_of [ev_map_start t none, ev_plain "a", ev_plain "~",
        ev_map_end, ev_mark .YAML_DOCUMENT_END_EVENT]) implicitBuilders)
        = .ok (.set [.str "a"]))
    ∧ result_value (_build_document (parser_of [ev_seq_start none none, ev_plain "x",
        ev_map_start (some YAML_TAG_SET) none, ev_plain "a", ev_plain "~", ev_map_end,
        ev_seq_end, ev_mark .YAML_DOCUMENT_END_EVENT]) implicitBuilders)
      = result_value (_build_document (parser_of [ev_seq_start none none, ev_plain "x",
        ev_map_start (some YAML_TAG_MAP) none, ev_plain "a", ev_plain "~", ev_map_end,
        ev_seq_end, ev_mark .YAML_DOCUMENT_END_EVENT]) implicitBuilders)
    ∧ result_value (_build_document (parser_of [ev_seq_start none none, ev_plain "x",
        ev_map_start (some YAML_TAG_SET) none, ev_plain "a", ev_plain "~", ev_map_end,
        ev_seq_end, ev_mark .YAML_DOCUMENT_END_EVENT]) implicitBuilders)
      = .ok (.list [.str "x", .set [.str "a"]]) :=
  ⟨by decide!,
   (set_decision_ignores_tag (ev_map_start none none) rfl).2
      (parser_of [ev_seq_start none none, ev_plain "x"])
      (parser_of [ev_plain "a", ev_plain "~", ev_map_end, ev_seq_end,
        ev_mark .YAML_DOCUMENT_END_EVENT])
      implicitBuilders (some YAML_TAG_SET) (some YAML_TAG_MAP) (Or.inr (Or.inr rfl))
      (Or.inr (Or.inl rfl)),
   by decide!⟩

/-! ## Entries without constructor -/

/-- The call at the end of `_build_scalar` for a builder without
constructor: the text as a string. -/
theorem scalar_call_plain (b : MinYamlBuilders) (text : List Char) (len : Nat)
    (hc : b.c_constructor = none) (hp : b.py_constructor = none) :
    _build_scalar_call b text len = .ok (PyUnicode_FromString text, b) := by
  simp only [_build_scalar_call, hp, hc]

/-- C32 (amended). A selected entry without any constructor yields the text
as a string.  When the entry that `_match_tag` finds for the tag of a scalar
has neither a C constructor nor a Python constructor, and when the first
entry whose matcher accepts an untagged scalar has neither (the matchers
asked before it having answered), the scalar is built as the string
`PyUnicode_FromString` makes of the text, which is the text up to its first
NUL character and the whole text when it has none.  A tag that the registry
does not hold, registered with a resolver only, gives such an entry, behind
the last one. -/
theorem entry_without_constructor (builders : List MinYamlBuilders) (text : List Char) :
    (∀ (t : String) (i : Nat) (b : MinYamlBuilders),
      _match_tag builders (some t) = some i → builders[i]? = some b →
      b.c_constructor = none → b.py_constructor = none →
      result_value (_build_scalar (some t) text builders) = .ok (.str (String.mk (c_str text))))
    ∧ (∀ b : MinYamlBuilders,
      (∀ x ∈ builders.takeWhile (fun b => !(matcher_answer b text == .ok true)),
        matcher_answer x text = .ok false) →
      builders.find? (fun b => matcher_answer b text == .ok true) = some b →
      b.c_constructor = none → b.py_constructor = none →
      result_value (_build_scalar none text builders) = .ok (.str (String.mk (c_str text))))
    ∧ ((∀ c ∈ text, c ≠ '\x00') → c_str text = text)
    ∧ (∀ (t : String) (r : String → PyResult), builders ≠ [] → (∀ x ∈ builders, x.tag ≠ t) →
      _min_yaml_add_resolver builders t r = .ok (builders ++ [_new_py_builder t (some r) none])
      ∧ (_new_py_builder t (some r) none).c_constructor = none
      ∧ (_new_py_builder t (some r) none).py_constructor = none) := by
  refine ⟨?_, ?_, c_str_of_no_nul text, ?_⟩
  · intro t i b hi hb hc hp
    rw [tagged_scalar builders t text i b hi hb,
      scalar_call_plain { b with ncaptures := -1 } text text.length hc hp]
    rfl
  · intro b h hf hc hp
    obtain ⟨j, b1, bs, hl, hm, hg, _⟩ := build_scalar_loop_some text builders 0 b h hf
    have hs := match_builder_static _ _ _ _ hm
    have hc1 : b1.c_constructor = none := by
      have := congrArg (fun p => p.2.2.1) hs
      simp only [builder_static] at this
      rw [this, hc]
    have hp1 : b1.py_constructor = none := by
      have := congrArg (fun p => p.2.2.2.2) hs
      simp only [builder_static] at this
      rw [this, hp]
    simp only [Nat.sub_zero] at hg
    simp only [_build_scalar, match_tag_none, Option.isSome_none, Bool.false_eq_true, if_false, hl,
      _build_scalar_construct, Option.bind, hg, scalar_call_plain b1 text text.length hc1 hp1]
    rfl
  · intro t r hne hno
    have he : builders.isEmpty = false := by
      cases builders with
      | nil => exact absurd rfl hne
      | cons x r => rfl
    refine ⟨?_, rfl, rfl⟩
    simp only [_min_yaml_add_resolver, _add_resolver_constructor,
      add_loop_none t (some r) none builders hno, he, Bool.false_eq_true, if_false]

/-- C32, witness: the tag `!at` registered with a resolver only goes behind
the nine core entries; with that registry the text `hello` tagged `!at` and
the untagged text `@home`, which the resolver accepts, are built as the
strings `hello` and `@home`. -/
theorem entry_without_constructor_witness :
    _min_yaml_add_resolver implicitBuilders "!at" at_resolver
      = .ok (implicitBuilders ++ [_new_py_builder "!at" (some at_resolver) none])
    ∧ result_value (_build_scalar (some "!at") "hello".data
        (implicitBuilders ++ [_new_py_builder "!at" (some at_resolver) none]))
      = .ok (.str "hello")
    ∧ result_value (_build_scalar none "@home".data
        (implicitBuilders ++ [_new_py_builder "!at" (some at_resolver) none]))
      = .ok (.str "@home") :=
  ⟨((entry_without_constructor implicitBuilders []).2.2.2 "!at" at_resolver
      (List.ne_nil_of_length_pos (by decide)) (by decide)).1,
   (entry_without_constructor
      (implicitBuilders ++ [_new_py_builder "!at" (some at_resolver) none]) "hello".data).1
      "!at" 9 (_new_py_builder "!at" (some at_resolver) none) (by decide) rfl rfl rfl,
   (entry_without_constructor
      (implicitBuilders ++ [_new_py_builder "!at" (some at_resolver) none]) "@home".data).2.1
      (_new_py_builder "!at" (some at_resolver) none) (by decide) rfl rfl rfl⟩

/-- C32, counterexample: the text `a`, NUL, `b` tagged `!at`, an entry
without constructor, is built as the string `a`, which is not the text. -/
theorem entry_without_constructor_counterexample :
    result_value (_build_scalar (some "!at") ['a', '\x00', 'b']
        (implicitBuilders ++ [_new_py_builder "!at" (some at_resolver) none]))
      = .ok (.str "a")
    ∧ PyObject.str "a" ≠ PyObject.str (String.mk ['a', '\x00', 'b']) := by
  refine ⟨by decide!, by decide⟩

/-! ## What a value reads, and the bound on the recursion -/

theorem scan_nodes_cons (t : yaml_event_type_t) (s : List yaml_event_type_t) (e : yaml_event_t)
    (rest : yaml_parser_t) :
    scan_nodes (t :: s) (.ok e :: rest)
      = match node_opens e.type with
        | some o => scan_nodes (o ++ t :: s) rest
        | none => if e.type = t then scan_nodes s rest else none := by
  simp only [scan_nodes]

/-- Scanning goes over a list of nodes. -/
theorem scan_node_list (f : List yaml_event_t) (h : node_list f) :
    ∀ (t : yaml_event_type_t) (s : List yaml_event_type_t) (R : yaml_parser_t),
      scan_nodes (t :: s) (parser_of f ++ R) = scan_nodes (t :: s) R := by
  induction h with
  | nil => intro t s R; rfl
  | leaf e f he _ ih =>
    intro t s R
    show scan_nodes (t :: s) (.ok e :: (parser_of f ++ R)) = _
    rw [scan_nodes_cons]
    rcases he with he | he <;> simp only [he, node_opens, List.nil_append] <;> exact ih t s R
  | seq e c e1 f he _ he1 _ ihc ihf =>
    intro t s R
    have : parser_of (e :: c ++ e1 :: f) ++ R
        = .ok e :: (parser_of c ++ (.ok e1 :: (parser_of f ++ R))) := by
      simp [parser_of]
    rw [this, scan_nodes_cons]
    simp only [he, node_opens, List.singleton_append]
    rw [ihc, scan_nodes_cons]
    simp only [he1, node_opens, if_true]
    exact ihf t s R
  | map e c e1 f he _ he1 _ ihc ihf =>
    intro t s R
    have : parser_of (e :: c ++ e1 :: f) ++ R
        = .ok e :: (parser_of c ++ (.ok e1 :: (parser_of f ++ R))) := by
      simp [parser_of]
    rw [this, scan_nodes_cons]
    simp only [he, node_opens, List.singleton_append]
    rw [ihc, scan_nodes_cons]
    simp only [he1, node_opens, if_true]
    exact ihf t s R

/-- The events behind a well-nested node are what follows the node. -/
theorem node_rest_well_nested (n : List yaml_event_t) (h : well_nested n) (R : yaml_parser_t) :
    node_rest (parser_of n ++ R) = some R := by
  cases h with
  | of_scalar e he =>
    show (node_opens e.type).bind (fun o => scan_nodes o R) = some R
    rw [he]
    simp only [node_opens, Option.bind, scan_nodes]
  | of_alias e he =>
    show (node_opens e.type).bind (fun o => scan_nodes o R) = some R
    rw [he]
    simp only [node_opens, Option.bind, scan_nodes]
  | of_seq e c e1 he hc he1 =>
    have : parser_of (e :: c ++ [e1]) ++ R = .ok e :: (parser_of c ++ (.ok e1 :: R)) := by
      simp [parser_of]
    rw [this]
    show (node_opens e.type).bind (fun o => scan_nodes o _) = some R
    rw [he]
    show scan_nodes [.YAML_SEQUENCE_END_EVENT] _ = some R
    rw [scan_node_list c hc, scan_nodes_cons]
    simp only [he1, node_opens, if_true, scan_nodes]
  | of_map e c e1 he hc he1 =>
    have : parser_of (e :: c ++ [e1]) ++ R = .ok e :: (parser_of c ++ (.ok e1 :: R)) := by
      simp [parser_of]
    rw [this]
    show (node_opens e.type).bind (fun o => scan_nodes o _) = some R
    rw [he]
    show scan_nodes [.YAML_MAPPING_END_EVENT] _ = some R
    rw [scan_node_list c hc, scan_nodes_cons]
    simp only [he1, node_opens, if_true, scan_nodes]

/-- An event read while a collection is open and the scan goes through: it is
the first of the events, and the status tells whether it is the end event
asked for. -/
theorem parse_next_scan (p : yaml_parser_t) (done : yaml_event_type_t)
    (status : MinYamlParserStatus) (event : yaml_event_t) (parser : yaml_parser_t)
    (t : yaml_event_type_t) (s : List yaml_event_type_t) (R : yaml_parser_t)
    (h : _parse_next p done = .ok (status, event, parser))
    (hs : scan_nodes (t :: s) p = some R) :
    p = .ok event :: parser
      ∧ status = (if event.type = done then .BLOCK_DONE else .BLOCK_PROCEED) := by
  cases p with
  | nil => simp only [scan_nodes] at hs; cases hs
  | cons item rest =>
    cases item with
    | error e => simp only [scan_nodes] at hs; cases hs
    | ok e =>
      simp only [_parse_next, yaml_parser_parse, Except.ok.injEq, Prod.mk.injEq] at h
      obtain ⟨h1, rfl, rfl⟩ := h
      exact ⟨rfl, h1.symm⟩

theorem consume_value (fuel : Nat)
    (hseq : ∀ st seq v st1, _build_seq fuel st seq = .ok (v, st1) → ∀ s R,
      scan_nodes (.YAML_SEQUENCE_END_EVENT :: s) st.parser = some R →
      scan_nodes s st1.parser = some R)
    (hpairs : ∀ st seq v st1, _build_pairs fuel st seq none = .ok (v, st1) → ∀ s R,
      scan_nodes (.YAML_SEQUENCE_END_EVENT :: s) st.parser = some R →
      scan_nodes s st1.parser = some R)
    (hmap : ∀ st M key isSet q st1, _build_map_loop fuel st M key isSet = .ok (q, st1) → ∀ s R,
      scan_nodes (.YAML_MAPPING_END_EVENT :: s) st.parser = some R →
      scan_nodes s st1.parser = some R) :
    ∀ ev st v st1, _build_value (fuel + 1) ev st = .ok (v, st1) →
      ∃ o, node_opens ev.type = some o ∧ ∀ s R,
        scan_nodes (o ++ s) st.parser = some R → scan_nodes s st1.parser = some R := by
  intro ev st v st1 h
  have hsave : ∀ r, _save_alias ev.anchor r = .ok (v, st1) →
      ∃ st0, r = .ok (v, st0) ∧ st1.parser = st0.parser := by
    intro r hr
    obtain ⟨st0, h0, hp, _⟩ := save_alias_ok _ _ _ _ hr
    exact ⟨st0, h0, hp⟩
  have hmapend : ∀ v0 st0, _build_map_end (_build_map_loop fuel st [] none true) = .ok (v0, st0) →
      ∀ s R, scan_nodes (.YAML_MAPPING_END_EVENT :: s) st.parser = some R →
      scan_nodes s st0.parser = some R := by
    intro v0 st0 h0
    obtain ⟨q, hq⟩ := build_map_end_ok _ _ _ h0
    exact hmap _ _ _ _ _ _ hq
  simp only [_build_value] at h
  split at h
  · rename_i hty
    refine ⟨[.YAML_MAPPING_END_EVENT], by rw [hty]; rfl, ?_⟩
    intro s R hs
    split at h
    · obtain ⟨st0, h0, hp⟩ := hsave _ h
      rw [hp]
      exact hmapend _ _ h0 s R hs
    · split at h
      · obtain ⟨st0, h0, hp⟩ := hsave _ h
        rw [hp]
        exact hmapend _ _ h0 s R hs
      · obtain ⟨st0, h0, hp⟩ := hsave _ h
        obtain ⟨v0, hv0⟩ := build_custom_ok _ _ _ _ _ h0
        rw [hp]
        exact hmapend _ _ hv0 s R hs
  · rename_i hty
    refine ⟨[.YAML_SEQUENCE_END_EVENT], by rw [hty]; rfl, ?_⟩
    intro s R hs
    split at h
    · obtain ⟨st0, h0, hp⟩ := hsave _ h
      rw [hp]
      exact hseq _ _ _ _ h0 s R hs
    · split at h
      · obtain ⟨st0, h0, hp⟩ := hsave _ h
        rw [hp]
        exact hpairs _ _ _ _ h0 s R hs
      · obtain ⟨st0, h0, hp⟩ := hsave _ h
        obtain ⟨v0, hv0⟩ := build_custom_ok _ _ _ _ _ h0
        rw [hp]
        exact hseq _ _ _ _ hv0 s R hs
  · rename_i hty
    refine ⟨[], by rw [hty]; rfl, ?_⟩
    intro s R hs
    obtain ⟨st0, h0, hp⟩ := hsave _ h
    rw [hp]
    split at h0
    · cases h0
    · simp only [Except.ok.injEq, Prod.mk.injEq] at h0
      obtain ⟨_, rfl⟩ := h0
      exact hs
  · rename_i hty
    refine ⟨[], by rw [hty]; rfl, ?_⟩
    intro s R hs
    split at h
    · cases h
    · simp only [Except.ok.injEq, Prod.mk.injEq] at h
      obtain ⟨_, rfl⟩ := h
      exact hs
  · cases h

/-- The scan over an event that a builder has built as a value, followed by
what the builder left. -/
theorem scan_over_value (ev : yaml_event_t) (st st1 : BuildState) (parser : yaml_parser_t)
    (t : yaml_event_type_t) (s : List yaml_event_type_t) (R : yaml_parser_t)
    (hv : ∃ o, node_opens ev.type = some o ∧ ∀ s R,
      scan_nodes (o ++ s) ({ st with parser := parser } : BuildState).parser = some R →
      scan_nodes s st1.parser = some R)
    (hs : scan_nodes (t :: s) (.ok ev :: parser) = some R) :
    scan_nodes (t :: s) st1.parser = some R := by
  obtain ⟨o, ho, hscan⟩ := hv
  rw [scan_nodes_cons, ho] at hs
  exact hscan _ _ hs

/-- The scan over an end event. -/
theorem scan_over_end (ev : yaml_event_t) (parser : yaml_parser_t)
    (t : yaml_event_type_t) (s : List yaml_event_type_t) (R : yaml_parser_t)
    (hn : node_opens ev.type = none)
    (hs : scan_nodes (t :: s) (.ok ev :: parser) = some R) :
    ev.type = t ∧ scan_nodes s parser = some R := by
  rw [scan_nodes_cons, hn] at hs
  simp only at hs
  split at hs
  · rename_i h; exact ⟨h, hs⟩
  · cases hs

theorem consume_seq (fuel : Nat)
    (hval : ∀ ev st v st1, _build_value fuel ev st = .ok (v, st1) →
      ∃ o, node_opens ev.type = some o ∧ ∀ s R,
        scan_nodes (o ++ s) st.parser = some R → scan_nodes s st1.parser = some R)
    (hseq : ∀ st seq v st1, _build_seq fuel st seq = .ok (v, st1) → ∀ s R,
      scan_nodes (.YAML_SEQUENCE_END_EVENT :: s) st.parser = some R →
      scan_nodes s st1.parser = some R) :
    ∀ st seq v st1, _build_seq (fuel + 1) st seq = .ok (v, st1) → ∀ s R,
      scan_nodes (.YAML_SEQUENCE_END_EVENT :: s) st.parser = some R →
      scan_nodes s st1.parser = some R := by
  intro st seq v st1 h s R hs
  simp only [_build_seq] at h
  cases hn : _parse_next st.parser .YAML_SEQUENCE_END_EVENT with
  | error e => rw [hn] at h; cases h
  | ok r =>
    obtain ⟨status, event, parser⟩ := r
    obtain ⟨hp, hst⟩ := parse_next_scan _ _ _ _ _ _ _ _ hn hs
    rw [hn] at h
    rw [hp] at hs
    simp only at h
    split at h
    · cases hv : _build_value fuel event { st with parser := parser } with
      | error e => rw [hv] at h; cases h
      | ok r =>
        obtain ⟨value, st2⟩ := r
        rw [hv] at h
        exact hseq _ _ _ _ h s R (scan_over_value event st st2 parser _ s R (hval _ _ _ _ hv) hs)
    · rename_i hproceed
      simp only [Except.ok.injEq, Prod.mk.injEq] at h
      obtain ⟨_, rfl⟩ := h
      have hty : event.type = .YAML_SEQUENCE_END_EVENT := by
        by_contra hne
        rw [if_neg hne] at hst
        exact hproceed hst
      exact (scan_over_end event parser _ s R (by rw [hty]; rfl) hs).2

theorem consume_map (fuel : Nat)
    (hval : ∀ ev st v st1, _build_value fuel ev st = .ok (v, st1) →
      ∃ o, node_opens ev.type = some o ∧ ∀ s R,
        scan_nodes (o ++ s) st.parser = some R → scan_nodes s st1.parser = some R)
    (hmap : ∀ st M key isSet q st1, _build_map_loop fuel st M key isSet = .ok (q, st1) → ∀ s R,
      scan_nodes (.YAML_MAPPING_END_EVENT :: s) st.parser = some R →
      scan_nodes s st1.parser = some R) :
    ∀ st M key isSet q st1, _build_map_loop (fuel + 1) st M key isSet = .ok (q, st1) → ∀ s R,
      scan_nodes (.YAML_MAPPING_END_EVENT :: s) st.parser = some R →
      scan_nodes s st1.parser = some R := by
  intro st M key isSet q st1 h s R hs
  simp only [_build_map_loop] at h
  cases hn : _parse_next st.parser .YAML_MAPPING_END_EVENT with
  | error e => rw [hn] at h; cases h
  | ok r =>
    obtain ⟨status, event, parser⟩ := r
    obtain ⟨hp, hst⟩ := parse_next_scan _ _ _ _ _ _ _ _ hn hs
    rw [hn] at h
    rw [hp] at hs
    simp only at h
    split at h
    · cases hv : _build_value fuel event { st with parser := parser } with
      | error e => rw [hv] at h; cases key <;> cases h
      | ok r =>
        obtain ⟨value, st2⟩ := r
        rw [hv] at h
        have h2 := scan_over_value event st st2 parser _ s R (hval _ _ _ _ hv) hs
        cases key with
        | none => exact hmap _ _ _ _ _ _ h s R h2
        | some k =>
          simp only at h
          split at h
          · cases h
          · exact hmap _ _ _ _ _ _ h s R h2
    · rename_i hproceed
      simp only [Except.ok.injEq, Prod.mk.injEq] at h
      obtain ⟨_, rfl⟩ := h
      have hty : event.type = .YAML_MAPPING_END_EVENT := by
        by_contra hne
        rw [if_neg hne] at hst
        exact hproceed hst
      exact (scan_over_end event parser _ s R (by rw [hty]; rfl) hs).2

theorem consume_pairs (fuel : Nat)
    (hval : ∀ ev st v st1, _build_value fuel ev st = .ok (v, st1) →
      ∃ o, node_opens ev.type = some o ∧ ∀ s R,
        scan_nodes (o ++ s) st.parser = some R → scan_nodes s st1.parser = some R)
    (hpairs : ∀ st seq key v st1, _build_pairs fuel st seq key = .ok (v, st1) → ∀ s R,
      scan_nodes ((if key.isSome then [.YAML_MAPPING_END_EVENT] else [])
        ++ .YAML_SEQUENCE_END_EVENT :: s) st.parser = some R →
      scan_nodes s st1.parser = some R) :
    ∀ st seq key v st1, _build_pairs (fuel + 1) st seq key = .ok (v, st1) → ∀ s R,
      scan_nodes ((if key.isSome then [.YAML_MAPPING_END_EVENT] else [])
        ++ .YAML_SEQUENCE_END_EVENT :: s) st.parser = some R →
      scan_nodes s st1.parser = some R := by
  intro st seq key v st1 h s R hs
  simp only [_build_pairs] at h
  cases hn : _parse_next st.parser .YAML_SEQUENCE_END_EVENT with
  | error e => rw [hn] at h; cases h
  | ok r =>
    obtain ⟨status, event, parser⟩ := r
    rw [hn] at h
    simp only at h
    cases key with
    | none =>
      simp only [Option.isSome_none, Bool.false_eq_true, if_false, List.nil_append] at hs
      obtain ⟨hp, hst⟩ := parse_next_scan _ _ _ _ _ _ _ _ hn hs
      rw [hp] at hs
      split at h
      · simp only at h
        split at h
        · cases h
        · rename_i hty
          have hty : event.type = .YAML_MAPPING_START_EVENT := not_not.mp hty
          rw [scan_nodes_cons, hty] at hs
          simp only [node_opens, List.singleton_append] at hs
          cases hn1 : _parse_next parser .YAML_SEQUENCE_END_EVENT with
          | error e => rw [hn1] at h; cases h
          | ok r1 =>
            obtain ⟨status1, event1, parser1⟩ := r1
            obtain ⟨hp1, hst1⟩ := parse_next_scan _ _ _ _ _ _ _ _ hn1 hs
            rw [hn1] at h
            rw [hp1] at hs
            simp only at h
            split at h
            · cases hv : _build_value fuel event1 { st with parser := parser1 } with
              | error e => rw [hv] at h; cases h
              | ok r2 =>
                obtain ⟨key1, st2⟩ := r2
                rw [hv] at h
                have h2 := scan_over_value event1 st st2 parser1 _ _ R (hval _ _ _ _ hv) hs
                exact hpairs _ _ _ _ _ h s R h2
            · rename_i hproceed
              have hty1 : event1.type = .YAML_SEQUENCE_END_EVENT := by
                by_contra hne
                rw [if_neg hne] at hst1
                exact hproceed hst1
              have := (scan_over_end event1 parser1 _ _ R (by rw [hty1]; rfl) hs).1
              rw [hty1] at this
              cases this
      · rename_i hproceed
        simp only [Except.ok.injEq, Prod.mk.injEq] at h
        obtain ⟨_, rfl⟩ := h
        have hty : event.type = .YAML_SEQUENCE_END_EVENT := by
          by_contra hne
          rw [if_neg hne] at hst
          exact hproceed hst
        exact (scan_over_end event parser _ s R (by rw [hty]; rfl) hs).2
    | some k =>
      simp only [Option.isSome_some, if_true, List.singleton_append] at hs
      obtain ⟨hp, hst⟩ := parse_next_scan _ _ _ _ _ _ _ _ hn hs
      rw [hp] at hs
      split at h
      · simp only at h
        cases hv : _build_value fuel event { st with parser := parser } with
        | error e => rw [hv] at h; cases h
        | ok r2 =>
          obtain ⟨value, st2⟩ := r2
          rw [hv] at h
          have h2 := scan_over_value event st st2 parser _ _ R (hval _ _ _ _ hv) hs
          simp only at h
          cases hn2 : _parse_next st2.parser .YAML_SEQUENCE_END_EVENT with
          | error e => rw [hn2] at h; cases h
          | ok r3 =>
            obtain ⟨status2, event2, parser2⟩ := r3
            obtain ⟨hp2, hst2⟩ := parse_next_scan _ _ _ _ _ _ _ _ hn2 h2
            rw [hn2] at h
            rw [hp2] at h2
            simp only at h
            split at h
            · cases h
            · rename_i hty2
              have hty2 : event2.type = .YAML_MAPPING_END_EVENT := not_not.mp hty2
              have h3 := (scan_over_end event2 parser2 _ _ R (by rw [hty2]; rfl) h2).2
              split at h
              · rename_i hdone
                rw [hst2, hty2] at hdone
                simp at hdone
              · exact hpairs _ _ _ _ _ h s R h3
      · rename_i hproceed
        have hty : event.type = .YAML_SEQUENCE_END_EVENT := by
          by_contra hne
          rw [if_neg hne] at hst
          exact hproceed hst
        have := (scan_over_end event parser _ _ R (by rw [hty]; rfl) hs).1
        rw [hty] at this
        cases this

/-- What the four builders leave unread, told by the scan of the events:
a value built from an event is followed by the end events its first event
opens, a loop by the end event of its collection. -/
theorem builders_consume : ∀ fuel : Nat,
    (∀ ev st v st1, _build_value fuel ev st = .ok (v, st1) →
      ∃ o, node_opens ev.type = some o ∧ ∀ s R,
        scan_nodes (o ++ s) st.parser = some R → scan_nodes s st1.parser = some R)
    ∧ (∀ st seq v st1, _build_seq fuel st seq = .ok (v, st1) → ∀ s R,
      scan_nodes (.YAML_SEQUENCE_END_EVENT :: s) st.parser = some R →
      scan_nodes s st1.parser = some R)
    ∧ (∀ st seq key v st1, _build_pairs fuel st seq key = .ok (v, st1) → ∀ s R,
      scan_nodes ((if key.isSome then [.YAML_MAPPING_END_EVENT] else [])
        ++ .YAML_SEQUENCE_END_EVENT :: s) st.parser = some R →
      scan_nodes s st1.parser = some R)
    ∧ (∀ st M key isSet q st1, _build_map_loop fuel st M key isSet = .ok (q, st1) → ∀ s R,
      scan_nodes (.YAML_MAPPING_END_EVENT :: s) st.parser = some R →
      scan_nodes s st1.parser = some R) := by
  intro fuel
  induction fuel with
  | zero =>
    refine ⟨?_, ?_, ?_, ?_⟩
    · intro ev st v st1 h; simp only [_build_value] at h; cases h
    · intro st seq v st1 h; simp only [_build_seq] at h; cases h
    · intro st seq key v st1 h; simp only [_build_pairs] at h; cases h
    · intro st M key isSet q st1 h; simp only [_build_map_loop] at h; cases h
  | succ fuel ih =>
    obtain ⟨hval, hseq, hpairs, hmap⟩ := ih
    exact ⟨consume_value fuel hseq (fun st seq v st1 h s R hs => hpairs st seq none v st1 h s R hs)
      hmap, consume_seq fuel hval hseq, consume_pairs fuel hval hpairs, consume_map fuel hval hmap⟩

/-- Building the value of the first event of a well-nested node leaves what
follows the node. -/
theorem build_value_consumes (fuel : Nat) (e : yaml_event_t) (p R : yaml_parser_t)
    (st st1 : BuildState) (v : PyObject) (hp : st.parser = p)
    (hn : node_rest (.ok e :: p) = some R)
    (h : _build_value fuel e st = .ok (v, st1)) : st1.parser = R := by
  obtain ⟨o, ho, hscan⟩ := (builders_consume fuel).1 e st v st1 h
  have hn1 : scan_nodes o p = some R := by
    simp only [node_rest, ho, Option.bind] at hn
    exact hn
  have := hscan [] R (by rw [List.append_nil, hp]; exact hn1)
  simp only [scan_nodes, Option.some.injEq] at this
  exact this

theorem raises_static (b b1 : MinYamlBuilders) (hs : builder_static b1 = builder_static b)
    (h : raises_python_only b) : raises_python_only b1 := by
  simp only [builder_static, Prod.mk.injEq] at hs
  obtain ⟨_, _, _, hr, hc⟩ := hs
  exact ⟨fun r hr1 => h.1 r (by rw [← hr, hr1]), fun f hf => h.2 f (by rw [← hc, hf])⟩

theorem registry_raises_static (bs bs1 : List MinYamlBuilders)
    (hs : bs1.map builder_static = bs.map builder_static)
    (h : registry_raises_python_only bs) : registry_raises_python_only bs1 := by
  intro b1 hb1
  have hm : builder_static b1 ∈ bs.map builder_static := by
    rw [← hs]
    exact List.mem_map_of_mem _ hb1
  obtain ⟨b, hb, hbs⟩ := List.mem_map.mp hm
  exact raises_static b b1 hbs.symm (h b hb)

theorem match_builder_no_fuel (b : MinYamlBuilders) (value : List Char)
    (hq : raises_python_only b) : _match_builder b value ≠ .error .fuel := by
  intro h
  unfold _match_builder at h
  simp only at h
  split at h
  · rename_i r hr
    split at h
    · rename_i e he
      simp only [Except.error.injEq] at h
      subst h
      exact hq.1 r hr _ he
    · cases h
  · split at h <;> cases h

theorem action_no_fuel (b : MinYamlBuilders) (value : List Char)
    (hq : raises_python_only b) : _action_if_no_match b value ≠ .error .fuel := by
  intro h
  unfold _action_if_no_match at h
  split at h
  · rename_i e he
    simp only [Except.error.injEq] at h
    subst h
    exact match_builder_no_fuel b value hq he
  · cases h

theorem rematch_no_fuel (self : MinYamlBuilders) (value : List Char)
    (hq : raises_python_only self) :
    (if self.ncaptures < 0 then
        (match _action_if_no_match self value with
         | .error e => .error e
         | .ok (true, _) => .error .ValueError
         | .ok (false, self1) => .ok self1)
      else (.ok self : Except PyExc MinYamlBuilders)) ≠ .error .fuel := by
  intro h
  split at h
  · split at h
    · rename_i e he
      simp only [Except.error.injEq] at h
      subst h
      exact action_no_fuel self value hq he
    · cases h
    · cases h
  · cases h

theorem ite_ne_of {α : Type} {c : Prop} [Decidable c] {a b x : α} (ha : a ≠ x) (hb : b ≠ x) :
    (if c then a else b) ≠ x := by
  split <;> assumption

theorem PyLong_no_fuel (s : List Char) (base : Nat) : PyLong_FromString s base ≠ .error .fuel := by
  unfold PyLong_FromString
  refine ite_ne_of (fun h => by cases h) ?_
  generalize long_digits _ _ _ _ = r
  rcases r with _ | ⟨z, rest⟩
  · exact fun h => by cases h
  · exact ite_ne_of (fun h => by cases h) (ite_ne_of (fun h => by cases h)
      (ite_ne_of (fun h => by cases h) (ite_ne_of (fun h => by cases h) (fun h => by cases h))))

theorem PyFloat_no_fuel (s : List Char) : PyFloat_FromString s ≠ .error .fuel := by
  unfold PyFloat_FromString
  refine ite_ne_of (fun h => by cases h) (ite_ne_of (fun h => by cases h) ?_)
  generalize scan_decimal _ = r
  rcases r with _ | ⟨d, _ | ⟨c, t⟩⟩ <;> exact fun h => by cases h
theorem atoi_ptr_no_fuel (p : Option (List Char)) : atoi_ptr p ≠ .error .fuel := by
  cases p <;> intro h <;> cases h

theorem PyDate_no_fuel (y m d : Int) : PyDate_FromDate y m d ≠ .error .fuel := by
  intro h
  unfold PyDate_FromDate at h
  split at h <;> cases h

theorem PyDateTime_no_fuel (y m d hh mm ss us : Int) :
    PyDateTime_FromDateAndTime y m d hh mm ss us ≠ .error .fuel := by
  intro h
  unfold PyDateTime_FromDateAndTime at h
  split at h <;> cases h

theorem a2b_base64_no_fuel : ∀ (text : List Char) (quad_pos leftchar leftbits : Nat)
    (out : List Nat), a2b_base64_loop quad_pos leftchar leftbits out text ≠ .error .fuel
  | [], _, _, _, _ => by
    intro h
    simp only [a2b_base64_loop] at h
    split at h <;> cases h
  | c :: r, quad_pos, leftchar, leftbits, out => by
    intro h
    simp only [a2b_base64_loop] at h
    repeat' split at h
    all_goals first
      | exact a2b_base64_no_fuel r _ _ _ _ h
      | cases h

theorem to_binary_no_fuel (value : List Char) (len : Nat) : _to_binary value len ≠ .error .fuel := by
  intro h
  unfold _to_binary base64_decodebytes at h
  split at h
  · cases h
  · rename_i e he
    simp only [Except.error.injEq] at h
    subst h
    exact a2b_base64_no_fuel _ _ _ _ _ he

theorem to_bool_no_fuel (value : List Char) : _to_bool value ≠ .error .fuel := by
  intro h
  unfold _to_bool at h
  simp only at h
  repeat' split at h
  all_goals cases h

theorem to_int_no_fuel (self : MinYamlBuilders) (value : List Char) (len : Nat)
    (hq : raises_python_only self) : _to_int self value len ≠ .error .fuel := by
  intro h
  unfold _to_int at h
  simp only [bind, Except.bind] at h
  split at h
  · rename_i e he
    simp only [Except.error.injEq] at h
    subst h
    exact rematch_no_fuel self value hq he
  · repeat' split at h
    all_goals first
      | (cases h; done)
      | (simp only [Except.error.injEq] at h; subst h
         exact PyLong_no_fuel _ _ (by assumption))

theorem to_timestamp_no_fuel (self : MinYamlBuilders) (value : List Char) (len : Nat)
    (hq : raises_python_only self) : _to_timestamp self value len ≠ .error .fuel := by
  intro h
  unfold _to_timestamp at h
  simp only [bind, Except.bind, pure, Except.pure] at h
  split at h
  · rename_i e he
    simp only [Except.error.injEq] at h
    subst h
    exact rematch_no_fuel self value hq he
  · repeat' split at h
    all_goals first
      | (cases h; done)
      | (simp only [Except.error.injEq] at h; subst h
         exact atoi_ptr_no_fuel _ (by assumption))
      | (simp only [Except.error.injEq] at h; subst h
         exact PyDate_no_fuel _ _ _ (by assumption))
      | (simp only [Except.error.injEq] at h; subst h
         exact PyDateTime_no_fuel _ _ _ _ _ _ _ (by assumption))

theorem to_float_no_fuel (self : MinYamlBuilders) (value : List Char) (len : Nat)
    (hq : raises_python_only self) : _to_float self value len ≠ .error .fuel := by
  intro h
  unfold _to_float at h
  simp only at h
  repeat' split at h
  all_goals first
    | (cases h; done)
    | (simp only [Except.error.injEq] at h; subst h
       exact PyFloat_no_fuel _ (by assumption))
    | (simp only [Except.error.injEq] at h; subst h
       exact action_no_fuel self value hq (by assumption))

theorem c_constructor_no_fuel (c : MinYamlCConstructor) (self : MinYamlBuilders)
    (value : List Char) (len : Nat) (hq : raises_python_only self) :
    c_constructor_call c self value len ≠ .error .fuel := by
  have hp : ∀ r : PyResult, r ≠ .error .fuel →
      (match r with
       | .ok v => (.ok (v, self) : Except PyExc (PyObject × MinYamlBuilders))
       | .error e => .error e) ≠ .error .fuel := by
    intro r hr h
    split at h
    · cases h
    · simp only [Except.error.injEq] at h; subst h; exact hr rfl
  cases c
  · exact hp (_to_null value) (fun h => by cases h)
  · exact hp (_to_bool value) (to_bool_no_fuel value)
  · exact hp (_to_true value) (fun h => by cases h)
  · exact hp (_to_false value) (fun h => by cases h)
  · exact to_int_no_fuel self value len hq
  · exact to_float_no_fuel self value len hq
  · exact to_timestamp_no_fuel self value len hq
  · exact hp (_to_binary value len) (to_binary_no_fuel value len)
  · exact hp (_to_str value) (fun h => by cases h)

theorem scalar_call_no_fuel (b : MinYamlBuilders) (value : List Char) (len : Nat)
    (hq : raises_python_only b) : _build_scalar_call b value len ≠ .error .fuel := by
  intro h
  unfold _build_scalar_call at h
  split at h
  · rename_i f hf
    split at h
    · cases h
    · rename_i e he
      simp only [Except.error.injEq] at h
      subst h
      exact hq.2 f hf _ he
  · split at h
    · exact c_constructor_no_fuel _ b value len hq h
    · cases h

theorem scalar_loop_no_fuel (value : List Char) : ∀ (bs : List MinYamlBuilders) (i : Nat),
    registry_raises_python_only bs → _build_scalar_loop value i bs ≠ .error .fuel
  | [], _, _ => by intro h; cases h
  | b :: rest, i, hq => by
    intro h
    simp only [_build_scalar_loop] at h
    split at h
    · rename_i e he
      simp only [Except.error.injEq] at h
      subst h
      exact match_builder_no_fuel b value (hq b (List.mem_cons_self _ _)) he
    · cases h
    · split at h
      · rename_i e he
        simp only [Except.error.injEq] at h
        subst h
        exact scalar_loop_no_fuel value rest (i + 1)
          (fun x hx => hq x (List.mem_cons_of_mem _ hx)) he
      · cases h

theorem scalar_construct_no_fuel (value : List Char) (len : Nat) (bs : List MinYamlBuilders)
    (i : Option Nat) (hq : registry_raises_python_only bs) :
    _build_scalar_construct value len bs i ≠ .error .fuel := by
  intro h
  unfold _build_scalar_construct at h
  split at h
  · cases h
  · rename_i b hb
    split at h
    · cases h
    · rename_i e he
      simp only [Except.error.injEq] at h
      subst h
      cases i with
      | none => simp at hb
      | some j =>
        simp only [Option.bind] at hb
        exact scalar_call_no_fuel b value len (hq b (List.getElem?_mem hb)) he

theorem build_scalar_no_fuel (tag : Option String) (value : List Char)
    (bs : List MinYamlBuilders) (hq : registry_raises_python_only bs) :
    _build_scalar tag value bs ≠ .error .fuel := by
  intro h
  unfold _build_scalar at h
  split at h
  · split at h
    · cases h
    · split at h
      · rename_i e he
        simp only [Except.error.injEq] at h
        subst h
        exact scalar_loop_no_fuel value bs 0 hq he
      · rename_i r bs0 hl
        exact scalar_construct_no_fuel value value.length bs0 r
          (registry_raises_static bs bs0 (scalar_loop_static _ _ _ _ _ hl) hq) h
  · rename_i i hi
    simp only at h
    refine scalar_construct_no_fuel value value.length _ (some i)
      (registry_raises_static bs _ ?_ hq) h
    exact map_modify_static bs i _ (fun b => rfl)

theorem save_alias_no_fuel (anchor : Option String) (r : Built) (hr : r ≠ .error .fuel) :
    _save_alias anchor r ≠ .error .fuel := by
  intro h
  unfold _save_alias at h
  cases r with
  | error e =>
    simp only [Except.error.injEq] at h
    subst h
    exact hr rfl
  | ok p =>
    obtain ⟨v, st⟩ := p
    cases anchor with
    | none => cases h
    | some a =>
      simp only [PyDict_SetItemString, PyDict_SetItem, PyObject_hashable, if_true] at h
      cases h

theorem build_map_end_no_fuel (r : Except PyExc ((PyDict × Bool) × BuildState))
    (hr : r ≠ .error .fuel) : _build_map_end r ≠ .error .fuel := by
  intro h
  unfold _build_map_end at h
  split at h
  · simp only [Except.error.injEq] at h
    subst h
    exact hr rfl
  · split at h <;> cases h

theorem build_custom_no_fuel (tag : Option String) (bs : List MinYamlBuilders) (src : Built)
    (hsrc : src ≠ .error .fuel)
    (hq : ∀ v st, src = .ok (v, st) → registry_raises_python_only st.builders) :
    _build_custom tag bs src ≠ .error .fuel := by
  intro h
  unfold _build_custom at h
  simp only at h
  split at h
  · cases h
  · rename_i builder hb
    split at h
    · cases h
    · rename_i f hf
      split at h
      · simp only [Except.error.injEq] at h
        subst h
        exact hsrc rfl
      · rename_i v0 st0
        have hmem : builder ∈ st0.builders := by
          simp only at hb
          cases hi : _match_tag st0.builders tag with
          | none => rw [hi] at hb; cases hb
          | some i =>
            rw [hi] at hb
            exact List.getElem?_mem hb
        split at h
        · rename_i e he
          simp only [Except.error.injEq] at h
          subst h
          exact (hq v0 st0 rfl builder hmem).2 f hf _ he
        · cases h

theorem build_map_pair_no_fuel (M : PyDict) (k v : PyObject) :
    _build_map_pair M k v ≠ .error .fuel := by
  have hl : ∀ (items : List PyObject) (M : PyDict),
      _build_map_merge_list M items ≠ .error .fuel := by
    intro items
    induction items with
    | nil => intro M h; cases h
    | cons x rest ih =>
      intro M h
      simp only [_build_map_merge_list] at h
      cases x with
      | dict V => exact ih _ h
      | atom a => cases h
      | list l => cases h
      | tuple l => cases h
      | set l => cases h
  intro h
  unfold _build_map_pair at h
  split at h
  · cases v with
    | list l => exact hl _ _ h
    | dict V => cases h
    | atom a => cases h
    | tuple l => cases h
    | set l => cases h
  · unfold PyDict_SetItem at h
    split at h <;> cases h

theorem parse_next_no_fuel (p : yaml_parser_t) (done : yaml_event_type_t) :
    _parse_next p done ≠ .error .fuel := by
  intro h
  unfold _parse_next at h
  split at h <;> cases h

/-- Reading an event: it is the empty event of an exhausted parser, or the
parser has one event less. -/
theorem parse_next_length (p : yaml_parser_t) (done : yaml_event_type_t)
    (status : MinYamlParserStatus) (event : yaml_event_t) (parser : yaml_parser_t)
    (h : _parse_next p done = .ok (status, event, parser)) :
    (p = [] ∧ event = yaml_no_event ∧ parser = [])
      ∨ parser.length + 1 = p.length := by
  cases p with
  | nil =>
    simp only [_parse_next, yaml_parser_parse, Except.ok.injEq, Prod.mk.injEq] at h
    obtain ⟨_, rfl, rfl⟩ := h
    exact Or.inl ⟨rfl, rfl, rfl⟩
  | cons item rest =>
    cases item with
    | error e => cases e <;> cases h
    | ok e =>
      simp only [_parse_next, yaml_parser_parse, Except.ok.injEq, Prod.mk.injEq] at h
      obtain ⟨_, _, rfl⟩ := h
      exact Or.inr rfl

theorem build_value_no_event (fuel : Nat) (st : BuildState) :
    _build_value (fuel + 1) yaml_no_event st = .error .SyntaxError := by
  simp only [_build_value, yaml_no_event]

/-- What a value that has been built leaves: no more events than there were,
and a registry whose callables are the same. -/
theorem build_value_after (fuel : Nat) (ev : yaml_event_t) (st st1 : BuildState) (v : PyObject)
    (h : _build_value fuel ev st = .ok (v, st1))
    (hq : registry_raises_python_only st.builders) :
    st1.parser.length ≤ st.parser.length ∧ registry_raises_python_only st1.builders := by
  obtain ⟨n, hp, _⟩ := (builders_keep_anchor "" fuel).1 ev st v st1 h
  refine ⟨?_, registry_raises_static _ _ ((builders_static_kept fuel).1 ev st v st1 h) hq⟩
  rw [hp, List.length_drop]
  exact Nat.sub_le _ _

theorem no_fuel_value (fuel : Nat)
    (hseq : ∀ st seq, registry_raises_python_only st.builders →
      2 * st.parser.length + 2 ≤ fuel → _build_seq fuel st seq ≠ .error .fuel)
    (hpairs : ∀ st seq key, registry_raises_python_only st.builders →
      2 * st.parser.length + 2 ≤ fuel → _build_pairs fuel st seq key ≠ .error .fuel)
    (hmap : ∀ st M key isSet, registry_raises_python_only st.builders →
      2 * st.parser.length + 2 ≤ fuel → _build_map_loop fuel st M key isSet ≠ .error .fuel) :
    ∀ ev st, registry_raises_python_only st.builders →
      2 * st.parser.length + 3 ≤ fuel + 1 → _build_value (fuel + 1) ev st ≠ .error .fuel := by
  intro ev st hq hf
  have hf1 : 2 * st.parser.length + 2 ≤ fuel := by omega
  have hm : _build_map_end (_build_map_loop fuel st [] none true) ≠ .error .fuel :=
    build_map_end_no_fuel _ (hmap st [] none true hq hf1)
  have hs : _build_seq fuel st [] ≠ .error .fuel := hseq st [] hq hf1
  have hmq : ∀ v st0, _build_map_end (_build_map_loop fuel st [] none true) = .ok (v, st0) →
      registry_raises_python_only st0.builders := by
    intro v st0 h0
    obtain ⟨q, hq0⟩ := build_map_end_ok _ _ _ h0
    exact registry_raises_static _ _ ((builders_static_kept fuel).2.2.2 _ _ _ _ _ _ hq0) hq
  have hsq : ∀ v st0, _build_seq fuel st [] = .ok (v, st0) →
      registry_raises_python_only st0.builders := by
    intro v st0 h0
    exact registry_raises_static _ _ ((builders_static_kept fuel).2.1 _ _ _ _ h0) hq
  simp only [_build_value]
  split
  · exact ite_ne_of (save_alias_no_fuel _ _ hm) (ite_ne_of (save_alias_no_fuel _ _ hm)
      (save_alias_no_fuel _ _ (build_custom_no_fuel _ _ _ hm hmq)))
  · exact ite_ne_of (save_alias_no_fuel _ _ hs)
      (ite_ne_of (save_alias_no_fuel _ _ (hpairs st [] none hq hf1))
        (save_alias_no_fuel _ _ (build_custom_no_fuel _ _ _ hs hsq)))
  · refine save_alias_no_fuel _ _ ?_
    intro h
    split at h
    · rename_i e he
      simp only [Except.error.injEq] at h
      subst h
      exact build_scalar_no_fuel _ _ _ hq he
    · cases h
  · intro h
    unfold _load_alias at h
    split at h
    · rename_i e he
      split at he
      · simp only [Except.error.injEq] at he
        subst he
        cases h
      · cases he
    · cases h
  · intro h; cases h

theorem no_fuel_seq (fuel : Nat)
    (hval : ∀ ev st, registry_raises_python_only st.builders →
      2 * st.parser.length + 3 ≤ fuel → _build_value fuel ev st ≠ .error .fuel)
    (hseq : ∀ st seq, registry_raises_python_only st.builders →
      2 * st.parser.length + 2 ≤ fuel → _build_seq fuel st seq ≠ .error .fuel) :
    ∀ st seq, registry_raises_python_only st.builders →
      2 * st.parser.length + 2 ≤ fuel + 1 → _build_seq (fuel + 1) st seq ≠ .error .fuel := by
  intro st seq hq hf h
  simp only [_build_seq] at h
  cases hn : _parse_next st.parser .YAML_SEQUENCE_END_EVENT with
  | error e =>
    rw [hn] at h
    simp only [Except.error.injEq] at h
    subst h
    exact parse_next_no_fuel _ _ hn
  | ok r =>
    obtain ⟨status, event, parser⟩ := r
    rw [hn] at h
    simp only at h
    split at h
    · have hv : _build_value fuel event { st with parser := parser } ≠ .error .fuel := by
        rcases parse_next_length _ _ _ _ _ hn with ⟨_, he, _⟩ | hl
        · obtain ⟨f, rfl⟩ : ∃ f, fuel = f + 1 := ⟨fuel - 1, by omega⟩
          rw [he, build_value_no_event]
          exact fun h => by cases h
        · exact hval _ _ hq (by show 2 * parser.length + 3 ≤ fuel; omega)
      cases hb : _build_value fuel event { st with parser := parser } with
      | error e =>
        rw [hb] at h
        simp only [Except.error.injEq] at h
        subst h
        exact hv hb
      | ok r =>
        obtain ⟨value, st2⟩ := r
        rw [hb] at h
        obtain ⟨hl2, hq2⟩ := build_value_after fuel event _ st2 value hb hq
        have hl2 : st2.parser.length ≤ parser.length := hl2
        have hl : parser.length + 1 = st.parser.length := by
          rcases parse_next_length _ _ _ _ _ hn with ⟨_, he, _⟩ | hl
          · exfalso
            obtain ⟨f, rfl⟩ : ∃ f, fuel = f + 1 := ⟨fuel - 1, by omega⟩
            rw [he, build_value_no_event] at hb
            cases hb
          · exact hl
        exact hseq st2 _ hq2 (by omega) h
    · cases h

theorem no_fuel_map (fuel : Nat)
    (hval : ∀ ev st, registry_raises_python_only st.builders →
      2 * st.parser.length + 3 ≤ fuel → _build_value fuel ev st ≠ .error .fuel)
    (hmap : ∀ st M key isSet, registry_raises_python_only st.builders →
      2 * st.parser.length + 2 ≤ fuel → _build_map_loop fuel st M key isSet ≠ .error .fuel) :
    ∀ st M key isSet, registry_raises_python_only st.builders →
      2 * st.parser.length + 2 ≤ fuel + 1 →
      _build_map_loop (fuel + 1) st M key isSet ≠ .error .fuel := by
  intro st M key isSet hq hf h
  simp only [_build_map_loop] at h
  cases hn : _parse_next st.parser .YAML_MAPPING_END_EVENT with
  | error e =>
    rw [hn] at h
    simp only [Except.error.injEq] at h
    subst h
    exact parse_next_no_fuel _ _ hn
  | ok r =>
    obtain ⟨status, event, parser⟩ := r
    rw [hn] at h
    simp only at h
    split at h
    · have hv : _build_value fuel event { st with parser := parser } ≠ .error .fuel := by
        rcases parse_next_length _ _ _ _ _ hn with ⟨_, he, _⟩ | hl
        · obtain ⟨f, rfl⟩ : ∃ f, fuel = f + 1 := ⟨fuel - 1, by omega⟩
          rw [he, build_value_no_event]
          exact fun h => by cases h
        · exact hval _ _ hq (by show 2 * parser.length + 3 ≤ fuel; omega)
      cases hb : _build_value fuel event { st with parser := parser } with
      | error e =>
        rw [hb] at h
        cases key <;>
        · simp only [Except.error.injEq] at h
          subst h
          exact hv hb
      | ok r =>
        obtain ⟨value, st2⟩ := r
        rw [hb] at h
        obtain ⟨hl2, hq2⟩ := build_value_after fuel event _ st2 value hb hq
        have hl2 : st2.parser.length ≤ parser.length := hl2
        have hl : parser.length + 1 = st.parser.length := by
          rcases parse_next_length _ _ _ _ _ hn with ⟨_, he, _⟩ | hl
          · exfalso
            obtain ⟨f, rfl⟩ : ∃ f, fuel = f + 1 := ⟨fuel - 1, by omega⟩
            rw [he, build_value_no_event] at hb
            cases hb
          · exact hl
        have hf2 : 2 * st2.parser.length + 2 ≤ fuel := by omega
        cases key with
        | none => exact hmap st2 _ _ _ hq2 hf2 h
        | some k =>
          simp only at h
          split at h
          · rename_i e he
            simp only [Except.error.injEq] at h
            subst h
            exact build_map_pair_no_fuel _ _ _ he
          · exact hmap st2 _ _ _ hq2 hf2 h
    · cases h

theorem no_fuel_pairs (fuel : Nat)
    (hval : ∀ ev st, registry_raises_python_only st.builders →
      2 * st.parser.length + 3 ≤ fuel → _build_value fuel ev st ≠ .error .fuel)
    (hpairs : ∀ st seq key, registry_raises_python_only st.builders →
      2 * st.parser.length + 2 ≤ fuel → _build_pairs fuel st seq key ≠ .error .fuel) :
    ∀ st seq key, registry_raises_python_only st.builders →
      2 * st.parser.length + 2 ≤ fuel + 1 → _build_pairs (fuel + 1) st seq key ≠ .error .fuel := by
  intro st seq key hq hf h
  have hvalue : ∀ (p : yaml_parser_t) (done : yaml_event_type_t) (status : MinYamlParserStatus)
      (event : yaml_event_t) (parser : yaml_parser_t),
      _parse_next p done = .ok (status, event, parser) → p.length ≤ st.parser.length →
      _build_value fuel event { st with parser := parser } ≠ .error .fuel := by
    intro p done status event parser hn hle
    rcases parse_next_length _ _ _ _ _ hn with ⟨_, he, _⟩ | hl
    · obtain ⟨f, rfl⟩ : ∃ f, fuel = f + 1 := ⟨fuel - 1, by omega⟩
      rw [he, build_value_no_event]
      exact fun h => by cases h
    · exact hval _ _ hq (by show 2 * parser.length + 3 ≤ fuel; omega)
  simp only [_build_pairs] at h
  cases hn : _parse_next st.parser .YAML_SEQUENCE_END_EVENT with
  | error e =>
    rw [hn] at h
    simp only [Except.error.injEq] at h
    subst h
    exact parse_next_no_fuel _ _ hn
  | ok r =>
    obtain ⟨status, event, parser⟩ := r
    rw [hn] at h
    simp only at h
    have hlen : parser.length ≤ st.parser.length := by
      rcases parse_next_length _ _ _ _ _ hn with ⟨_, _, hp⟩ | hl
      · rw [hp]; exact Nat.zero_le _
      · omega
    split at h
    · cases key with
      | none =>
        simp only at h
        split at h
        · cases h
        · rename_i hty
          have hne : st.parser ≠ [] := by
            intro hnil
            rcases parse_next_length _ _ _ _ _ hn with ⟨_, he, _⟩ | hl
            · rw [he] at hty
              exact hty (by decide)
            · rw [hnil] at hl
              simp at hl
          have hlen1 : parser.length + 1 = st.parser.length := by
            rcases parse_next_length _ _ _ _ _ hn with ⟨hp, _, _⟩ | hl
            · exact absurd hp hne
            · exact hl
          cases hn1 : _parse_next parser .YAML_SEQUENCE_END_EVENT with
          | error e =>
            rw [hn1] at h
            simp only [Except.error.injEq] at h
            subst h
            exact parse_next_no_fuel _ _ hn1
          | ok r1 =>
            obtain ⟨status1, event1, parser1⟩ := r1
            rw [hn1] at h
            simp only at h
            split at h
            · cases hb : _build_value fuel event1 { st with parser := parser1 } with
              | error e =>
                rw [hb] at h
                simp only [Except.error.injEq] at h
                subst h
                exact hvalue _ _ _ _ _ hn1 hlen hb
              | ok r2 =>
                obtain ⟨key1, st2⟩ := r2
                rw [hb] at h
                obtain ⟨hl2, hq2⟩ := build_value_after fuel event1 _ st2 key1 hb hq
                have hl2 : st2.parser.length ≤ parser1.length := hl2
                refine hpairs st2 _ _ hq2 ?_ h
                rcases parse_next_length _ _ _ _ _ hn1 with ⟨_, _, hp⟩ | hl
                · rw [hp] at hl2
                  simp only [List.length_nil, Nat.le_zero] at hl2
                  omega
                · omega
            · cases h
      | some k =>
        simp only at h
        cases hb : _build_value fuel event { st with parser := parser } with
        | error e =>
          rw [hb] at h
          simp only [Except.error.injEq] at h
          subst h
          exact hvalue _ _ _ _ _ hn (Nat.le_refl _) hb
        | ok r2 =>
          obtain ⟨value, st2⟩ := r2
          rw [hb] at h
          obtain ⟨hl2, hq2⟩ := build_value_after fuel event _ st2 value hb hq
          have hl2 : st2.parser.length ≤ parser.length := hl2
          simp only at h
          cases hn2 : _parse_next st2.parser .YAML_SEQUENCE_END_EVENT with
          | error e =>
            rw [hn2] at h
            simp only [Except.error.injEq] at h
            subst h
            exact parse_next_no_fuel _ _ hn2
          | ok r3 =>
            obtain ⟨status2, event2, parser2⟩ := r3
            rw [hn2] at h
            simp only at h
            split at h
            · cases h
            · rename_i hty2
              split at h
              · cases h
              · have hne : st.parser ≠ [] := by
                  intro hnil
                  rcases parse_next_length _ _ _ _ _ hn with ⟨_, _, hp⟩ | hl
                  · rw [hp] at hl2
                    simp only [List.length_nil, Nat.le_zero, List.length_eq_zero] at hl2
                    rcases parse_next_length _ _ _ _ _ hn2 with ⟨_, he, _⟩ | hl
                    · rw [he] at hty2
                      exact hty2 (by decide)
                    · rw [hl2] at hl
                      simp at hl
                  · rw [hnil] at hl
                    simp at hl
                have hlen1 : parser.length + 1 = st.parser.length := by
                  rcases parse_next_length _ _ _ _ _ hn with ⟨hp, _, _⟩ | hl
                  · exact absurd hp hne
                  · exact hl
                have hlen2 : parser2.length ≤ st2.parser.length := by
                  rcases parse_next_length _ _ _ _ _ hn2 with ⟨_, _, hp⟩ | hl
                  · rw [hp]; exact Nat.zero_le _
                  · omega
                refine hpairs { st2 with parser := parser2 } _ _ hq2 ?_ h
                show 2 * parser2.length + 2 ≤ fuel
                omega
    · cases h

/-- The bound on the recursion is enough: with a registry whose callables
raise Python exceptions only, none of the four builders runs out of fuel
when it has twice the number of events left and two more (three more for
`_build_value`). -/
theorem builders_no_fuel : ∀ fuel : Nat,
    (∀ ev st, registry_raises_python_only st.builders →
      2 * st.parser.length + 3 ≤ fuel → _build_value fuel ev st ≠ .error .fuel)
    ∧ (∀ st seq, registry_raises_python_only st.builders →
      2 * st.parser.length + 2 ≤ fuel → _build_seq fuel st seq ≠ .error .fuel)
    ∧ (∀ st seq key, registry_raises_python_only st.builders →
      2 * st.parser.length + 2 ≤ fuel → _build_pairs fuel st seq key ≠ .error .fuel)
    ∧ (∀ st M key isSet, registry_raises_python_only st.builders →
      2 * st.parser.length + 2 ≤ fuel → _build_map_loop fuel st M key isSet ≠ .error .fuel) := by
  intro fuel
  induction fuel with
  | zero =>
    refine ⟨?_, ?_, ?_, ?_⟩
    · intro ev st _ h; omega
    · intro st seq _ h; omega
    · intro st seq key _ h; omega
    · intro st M key isSet _ h; omega
  | succ fuel ih =>
    obtain ⟨hval, hseq, hpairs, hmap⟩ := ih
    exact ⟨no_fuel_value fuel hseq hpairs hmap, no_fuel_seq fuel hval hseq,
      no_fuel_pairs fuel hval hpairs, no_fuel_map fuel hval hmap⟩

theorem stable_value (fuel : Nat)
    (hseq : ∀ st seq, registry_raises_python_only st.builders →
      2 * st.parser.length + 2 ≤ fuel → _build_seq (fuel + 1) st seq = _build_seq fuel st seq)
    (hpairs : ∀ st seq key, registry_raises_python_only st.builders →
      2 * st.parser.length + 2 ≤ fuel →
      _build_pairs (fuel + 1) st seq key = _build_pairs fuel st seq key)
    (hmap : ∀ st M key isSet, registry_raises_python_only st.builders →
      2 * st.parser.length + 2 ≤ fuel →
      _build_map_loop (fuel + 1) st M key isSet = _build_map_loop fuel st M key isSet) :
    ∀ ev st, registry_raises_python_only st.builders → 2 * st.parser.length + 3 ≤ fuel + 1 →
      _build_value (fuel + 1 + 1) ev st = _build_value (fuel + 1) ev st := by
  intro ev st hq hf
  have hf1 : 2 * st.parser.length + 2 ≤ fuel := by omega
  rw [_build_value, _build_value, hseq st [] hq hf1, hpairs st [] none hq hf1,
    hmap st [] none true hq hf1]

/-- The value of the event read next has the same result with one more unit
of fuel, once the loop that reads it has its bound. -/
theorem stable_next (fuel : Nat)
    (hval : ∀ ev st, registry_raises_python_only st.builders → 2 * st.parser.length + 3 ≤ fuel →
      _build_value (fuel + 1) ev st = _build_value fuel ev st)
    (st : BuildState) (hq : registry_raises_python_only st.builders)
    (p : yaml_parser_t) (done : yaml_event_type_t) (status : MinYamlParserStatus)
    (event : yaml_event_t) (parser : yaml_parser_t)
    (hn : _parse_next p done = .ok (status, event, parser))
    (hf : 2 * p.length + 1 ≤ fuel) :
    _build_value (fuel + 1) event { st with parser := parser }
      = _build_value fuel event { st with parser := parser } := by
  rcases parse_next_length _ _ _ _ _ hn with ⟨_, he, _⟩ | hl
  · obtain ⟨f, rfl⟩ : ∃ f, fuel = f + 1 := ⟨fuel - 1, by omega⟩
    rw [he, build_value_no_event, build_value_no_event]
  · exact hval _ _ hq (by show 2 * parser.length + 3 ≤ fuel; omega)

/-- After the value of the event read next has been built, fewer events are
left than before the event was read. -/
theorem after_next (fuel : Nat) (st st2 : BuildState)
    (hq : registry_raises_python_only st.builders)
    (p : yaml_parser_t) (done : yaml_event_type_t) (status : MinYamlParserStatus)
    (event : yaml_event_t) (parser : yaml_parser_t) (value : PyObject)
    (hn : _parse_next p done = .ok (status, event, parser))
    (hb : _build_value fuel event { st with parser := parser } = .ok (value, st2)) :
    st2.parser.length + 1 ≤ p.length ∧ registry_raises_python_only st2.builders := by
  obtain ⟨hl2, hq2⟩ := build_value_after fuel event _ st2 value hb hq
  have hl2 : st2.parser.length ≤ parser.length := hl2
  refine ⟨?_, hq2⟩
  rcases parse_next_length _ _ _ _ _ hn with ⟨_, he, _⟩ | hl
  · exfalso
    cases fuel with
    | zero => simp only [_build_value] at hb; cases hb
    | succ f =>
      rw [he, build_value_no_event] at hb
      cases hb
  · omega

theorem stable_seq (fuel : Nat)
    (hval : ∀ ev st, registry_raises_python_only st.builders → 2 * st.parser.length + 3 ≤ fuel →
      _build_value (fuel + 1) ev st = _build_value fuel ev st)
    (hseq : ∀ st seq, registry_raises_python_only st.builders →
      2 * st.parser.length + 2 ≤ fuel → _build_seq (fuel + 1) st seq = _build_seq fuel st seq) :
    ∀ st seq, registry_raises_python_only st.builders → 2 * st.parser.length + 2 ≤ fuel + 1 →
      _build_seq (fuel + 1 + 1) st seq = _build_seq (fuel + 1) st seq := by
  intro st seq hq hf
  rw [_build_seq, _build_seq]
  cases hn : _parse_next st.parser .YAML_SEQUENCE_END_EVENT with
  | error e => rfl
  | ok r =>
    obtain ⟨status, event, parser⟩ := r
    simp only
    rw [stable_next fuel hval st hq _ _ _ _ _ hn (by omega)]
    cases hb : _build_value fuel event { st with parser := parser } with
    | error e => rfl
    | ok r =>
      obtain ⟨value, st2⟩ := r
      obtain ⟨hl2, hq2⟩ := after_next fuel st st2 hq _ _ _ _ _ _ hn hb
      simp only
      rw [hseq st2 _ hq2 (by omega)]

theorem stable_map (fuel : Nat)
    (hval : ∀ ev st, registry_raises_python_only st.builders → 2 * st.parser.length + 3 ≤ fuel →
      _build_value (fuel + 1) ev st = _build_value fuel ev st)
    (hmap : ∀ st M key isSet, registry_raises_python_only st.builders →
      2 * st.parser.length + 2 ≤ fuel →
      _build_map_loop (fuel + 1) st M key isSet = _build_map_loop fuel st M key isSet) :
    ∀ st M key isSet, registry_raises_python_only st.builders →
      2 * st.parser.length + 2 ≤ fuel + 1 →
      _build_map_loop (fuel + 1 + 1) st M key isSet = _build_map_loop (fuel + 1) st M key isSet := by
  intro st M key isSet hq hf
  rw [_build_map_loop, _build_map_loop]
  cases hn : _parse_next st.parser .YAML_MAPPING_END_EVENT with
  | error e => rfl
  | ok r =>
    obtain ⟨status, event, parser⟩ := r
    simp only
    rw [stable_next fuel hval st hq _ _ _ _ _ hn (by omega)]
    cases hb : _build_value fuel event { st with parser := parser } with
    | error e => rfl
    | ok r =>
      obtain ⟨value, st2⟩ := r
      obtain ⟨hl2, hq2⟩ := after_next fuel st st2 hq _ _ _ _ _ _ hn hb
      simp only
      cases key with
      | none => simp only [hmap st2 _ _ _ hq2 (by omega)]
      | some k =>
        simp only
        cases _build_map_pair M k value with
        | error e => rfl
        | ok M1 => simp only [hmap st2 _ _ _ hq2 (by omega)]

theorem stable_pairs (fuel : Nat)
    (hval : ∀ ev st, registry_raises_python_only st.builders → 2 * st.parser.length + 3 ≤ fuel →
      _build_value (fuel + 1) ev st = _build_value fuel ev st)
    (hpairs : ∀ st seq key, registry_raises_python_only st.builders →
      2 * st.parser.length + 2 ≤ fuel →
      _build_pairs (fuel + 1) st seq key = _build_pairs fuel st seq key) :
    ∀ st seq key, registry_raises_python_only st.builders →
      2 * st.parser.length + 2 ≤ fuel + 1 →
      _build_pairs (fuel + 1 + 1) st seq key = _build_pairs (fuel + 1) st seq key := by
  intro st seq key hq hf
  rw [_build_pairs, _build_pairs]
  cases hn : _parse_next st.parser .YAML_SEQUENCE_END_EVENT with
  | error e => rfl
  | ok r =>
    obtain ⟨status, event, parser⟩ := r
    simp only
    have hlen : parser.length ≤ st.parser.length := by
      rcases parse_next_length _ _ _ _ _ hn with ⟨_, _, hp⟩ | hl
      · rw [hp]; exact Nat.zero_le _
      · omega
    cases key with
    | none =>
      simp only
      cases hn1 : _parse_next parser .YAML_SEQUENCE_END_EVENT with
      | error e => rfl
      | ok r1 =>
        obtain ⟨status1, event1, parser1⟩ := r1
        simp only
        rw [stable_next fuel hval st hq _ _ _ _ _ hn1 (by omega)]
        cases hb : _build_value fuel event1 { st with parser := parser1 } with
        | error e => rfl
        | ok r2 =>
          obtain ⟨key1, st2⟩ := r2
          obtain ⟨hl2, hq2⟩ := after_next fuel st st2 hq _ _ _ _ _ _ hn1 hb
          simp only [hpairs st2 _ _ hq2 (by omega)]
    | some k =>
      simp only
      rw [stable_next fuel hval st hq _ _ _ _ _ hn (by omega)]
      cases hb : _build_value fuel event { st with parser := parser } with
      | error e => rfl
      | ok r2 =>
        obtain ⟨value, st2⟩ := r2
        obtain ⟨hl2, hq2⟩ := after_next fuel st st2 hq _ _ _ _ _ _ hn hb
        simp only
        cases hn2 : _parse_next st2.parser .YAML_SEQUENCE_END_EVENT with
        | error e => rfl
        | ok r3 =>
          obtain ⟨status2, event2, parser2⟩ := r3
          have hlen2 : parser2.length ≤ st2.parser.length := by
            rcases parse_next_length _ _ _ _ _ hn2 with ⟨_, _, hp⟩ | hl
            · rw [hp]; exact Nat.zero_le _
            · omega
          simp only
          rw [hpairs { st2 with parser := parser2 } _ _ hq2
            (by show 2 * parser2.length + 2 ≤ fuel; omega)]

/-- More fuel than the bound changes nothing: with a registry whose callables
raise Python exceptions only, each of the four builders gives with one more
unit of fuel what it gives with twice the number of events left and two more
(three more for `_build_value`). -/
theorem builders_stable : ∀ fuel : Nat,
    (∀ ev st, registry_raises_python_only st.builders → 2 * st.parser.length + 3 ≤ fuel →
      _build_value (fuel + 1) ev st = _build_value fuel ev st)
    ∧ (∀ st seq, registry_raises_python_only st.builders → 2 * st.parser.length + 2 ≤ fuel →
      _build_seq (fuel + 1) st seq = _build_seq fuel st seq)
    ∧ (∀ st seq key, registry_raises_python_only st.builders → 2 * st.parser.length + 2 ≤ fuel →
      _build_pairs (fuel + 1) st seq key = _build_pairs fuel st seq key)
    ∧ (∀ st M key isSet, registry_raises_python_only st.builders →
      2 * st.parser.length + 2 ≤ fuel →
      _build_map_loop (fuel + 1) st M key isSet = _build_map_loop fuel st M key isSet) := by
  intro fuel
  induction fuel with
  | zero =>
    refine ⟨?_, ?_, ?_, ?_⟩
    · intro ev st _ h; omega
    · intro st seq _ h; omega
    · intro st seq key _ h; omega
    · intro st M key isSet _ h; omega
  | succ fuel ih =>
    obtain ⟨hval, hseq, hpairs, hmap⟩ := ih
    exact ⟨stable_value fuel hseq hpairs hmap, stable_seq fuel hval hseq,
      stable_pairs fuel hval hpairs, stable_map fuel hval hmap⟩

/-- With the bound of the entry points or any larger one, `_build_value`
gives the same result, and this result is not the mark of a used up bound. -/
theorem build_value_total (ev : yaml_event_t) (st : BuildState)
    (hq : registry_raises_python_only st.builders) (fuel : Nat)
    (hf : build_fuel st.parser ≤ fuel) :
    _build_value fuel ev st = _build_value (build_fuel st.parser) ev st
      ∧ _build_value fuel ev st ≠ .error .fuel := by
  refine ⟨?_, (builders_no_fuel fuel).1 ev st hq hf⟩
  induction hf with
  | refl => rfl
  | step hle ih => rw [(builders_stable _).1 ev st hq hle, ih]

/-- The core registry has no Python callable. -/
theorem core_raises_python_only (bs : List MinYamlBuilders) (hbs : is_core_registry bs) :
    registry_raises_python_only bs := by
  intro b hb
  have hm : builder_core b ∈ implicitBuilders.map builder_core := by
    rw [← hbs]
    exact List.mem_map_of_mem _ hb
  have hall : ∀ c ∈ implicitBuilders.map builder_core, c.2.2.2.1 = false ∧ c.2.2.2.2 = false := by
    decide
  obtain ⟨h1, h2⟩ := hall _ hm
  simp only [builder_core] at h1 h2
  refine ⟨fun r hr => ?_, fun f hf => ?_⟩
  · rw [hr] at h1; cases h1
  · rw [hf] at h2; cases h2

/-- The entry point never runs out of fuel: `_build_document` gives its
value the bound `build_fuel`, which is enough. -/
theorem build_document_no_fuel (p : yaml_parser_t) (bs : List MinYamlBuilders)
    (hq : registry_raises_python_only bs) : _build_document p bs ≠ .error .fuel := by
  intro h
  unfold _build_document at h
  cases hn : _parse_next p .YAML_DOCUMENT_END_EVENT with
  | error e =>
    rw [hn] at h
    simp only [Except.error.injEq] at h
    subst h
    exact parse_next_no_fuel _ _ hn
  | ok r =>
    obtain ⟨status, event, parser1⟩ := r
    rw [hn] at h
    simp only at h
    have hv := (builders_no_fuel (build_fuel parser1)).1 event ⟨parser1, bs, []⟩ hq (Nat.le_refl _)
    split at h
    · rename_i e he
      simp only [Except.error.injEq] at h
      subst h
      split at he
      · split at he
        · rename_i e1 he1
          simp only [Except.error.injEq] at he
          subst he
          exact hv he1
        · cases he
      · cases he
    · split at h
      · rename_i e he
        simp only [Except.error.injEq] at h
        subst h
        exact parse_next_no_fuel _ _ he
      · repeat' split at h
        all_goals cases h

/-- C31. Building a value consumes exactly its node, and the recursion
terminates.  For events that are the children and the end of a well-nested
node (a scalar, an alias, or a start event with its children and its matching
end event) followed by any remainder `R`: when `_build_value` succeeds on the
first event of the node, with any bound on the recursion, the events left
unread are exactly `R`.  On every list of events, with a registry whose
callables raise Python exceptions only, the bound `build_fuel` (twice the
number of events and three more) or any larger one gives `_build_value` the
same result, which is never the mark of a used up bound, and
`_build_document`, which takes this bound, never gives the mark.  The bound is
enough because each event read is taken off the list: `_parse_next` leaves
one event less, or finds the list empty and delivers the empty event, on
which `_build_value` fails. -/
theorem value_consumes_its_node :
    (∀ (e : yaml_event_t) (children : List yaml_event_t) (R : yaml_parser_t)
        (bs : List MinYamlBuilders) (al : PyDict) (fuel : Nat) (v : PyObject) (st1 : BuildState),
        well_nested (e :: children) →
        _build_value fuel e ⟨parser_of children ++ R, bs, al⟩ = .ok (v, st1) →
        st1.parser = R)
    ∧ (∀ (ev : yaml_event_t) (st : BuildState) (fuel : Nat),
        registry_raises_python_only st.builders → build_fuel st.parser ≤ fuel →
        _build_value fuel ev st = _build_value (build_fuel st.parser) ev st
          ∧ _build_value fuel ev st ≠ .error .fuel)
    ∧ (∀ (p : yaml_parser_t) (bs : List MinYamlBuilders),
        registry_raises_python_only bs → _build_document p bs ≠ .error .fuel)
    ∧ (∀ (p : yaml_parser_t) (done : yaml_event_type_t) (status : MinYamlParserStatus)
        (event : yaml_event_t) (parser : yaml_parser_t),
        _parse_next p done = .ok (status, event, parser) →
        (p = .ok event :: parser
          ∨ (p = [] ∧ parser = [] ∧ ∀ (fuel : Nat) (st : BuildState),
              _build_value (fuel + 1) event st = .error .SyntaxError))) := by
  refine ⟨?_, ?_, build_document_no_fuel, ?_⟩
  · intro e children R bs al fuel v st1 hn h
    exact build_value_consumes fuel e (parser_of children ++ R) R _ st1 v rfl
      (node_rest_well_nested (e :: children) hn R) h
  · intro ev st fuel hq hf
    exact build_value_total ev st hq fuel hf
  · intro p done status event parser h
    cases p with
    | nil =>
      simp only [_parse_next, yaml_parser_parse, Except.ok.injEq, Prod.mk.injEq] at h
      obtain ⟨_, rfl, rfl⟩ := h
      exact Or.inr ⟨rfl, rfl, fun fuel st => build_value_no_event fuel st⟩
    | cons item rest =>
      cases item with
      | error e => cases e <;> cases h
      | ok e =>
        simp only [_parse_next, yaml_parser_parse, Except.ok.injEq, Prod.mk.injEq] at h
        obtain ⟨_, rfl, rfl⟩ := h
        exact Or.inl rfl

/-- C31, witness: the node of the sequence `[a, (k: v)]` followed by the
scalar `z` and a failure of the parser: built with an empty registry, what is
left is the scalar and the failure; the mapping start of an unfinished
mapping built with the core registry does not run out of fuel with the bound
`build_fuel`, nor does the document; and the event read from `a`, `z` is
`a`. -/
theorem value_consumes_its_node_witness :
    well_nested [ev_seq_start none none, ev_plain "a", ev_map_start none none, ev_plain "k",
      ev_plain "v", ev_map_end, ev_seq_end]
    ∧ _build_value 19 (ev_seq_start none none)
        ⟨parser_of [ev_plain "a", ev_map_start none none, ev_plain "k", ev_plain "v", ev_map_end,
          ev_seq_end] ++ [.ok (ev_plain "z"), .error .YAML_PARSER_ERROR], [], []⟩
      = .ok (.list [.str "a", .dict [(.str "k", .str "v")]],
          ⟨[.ok (ev_plain "z"), .error .YAML_PARSER_ERROR], [], []⟩)
    ∧ (⟨[.ok (ev_plain "z"), .error .YAML_PARSER_ERROR], [], []⟩ : BuildState).parser
      = [.ok (ev_plain "z"), .error .YAML_PARSER_ERROR]
    ∧ _build_value 7 (ev_map_start none none) ⟨parser_of [ev_plain "k", ev_plain "v"],
        implicitBuilders, []⟩ ≠ .error .fuel
    ∧ _build_document (parser_of [ev_map_start none none, ev_plain "k"]) implicitBuilders
      ≠ .error .fuel
    ∧ (parser_of [ev_plain "a", ev_plain "z"] = .ok (ev_plain "a") :: parser_of [ev_plain "z"]
      ∨ (parser_of [ev_plain "a", ev_plain "z"] = [] ∧ parser_of [ev_plain "z"] = []
        ∧ ∀ (fuel : Nat) (st : BuildState),
          _build_value (fuel + 1) (ev_plain "a") st = .error .SyntaxError)) :=
  ⟨well_nested.of_seq _ [ev_plain "a", ev_map_start none none, ev_plain "k", ev_plain "v",
      ev_map_end] _ rfl
      (node_list.leaf _ _ (Or.inl rfl)
        (node_list.map _ [ev_plain "k", ev_plain "v"] _ [] rfl
          (node_list.leaf _ _ (Or.inl rfl) (node_list.leaf _ _ (Or.inl rfl) node_list.nil))
          rfl node_list.nil)) rfl,
   rfl,
   value_consumes_its_node.1 (ev_seq_start none none)
     [ev_plain "a", ev_map_start none none, ev_plain "k", ev_plain "v", ev_map_end, ev_seq_end]
     [.ok (ev_plain "z"), .error .YAML_PARSER_ERROR] [] [] 19
     (.list [.str "a", .dict [(.str "k", .str "v")]])
     ⟨[.ok (ev_plain "z"), .error .YAML_PARSER_ERROR], [], []⟩
     (well_nested.of_seq _ [ev_plain "a", ev_map_start none none, ev_plain "k", ev_plain "v",
      ev_map_end] _ rfl
      (node_list.leaf _ _ (Or.inl rfl)
        (node_list.map _ [ev_plain "k", ev_plain "v"] _ [] rfl
          (node_list.leaf _ _ (Or.inl rfl) (node_list.leaf _ _ (Or.inl rfl) node_list.nil))
          rfl node_list.nil)) rfl)
     rfl,
   (value_consumes_its_node.2.1 (ev_map_start none none)
     ⟨parser_of [ev_plain "k", ev_plain "v"], implicitBuilders, []⟩ 7
     (core_raises_python_only implicitBuilders rfl) (by decide)).2,
   value_consumes_its_node.2.2.1 _ implicitBuilders (core_raises_python_only implicitBuilders rfl),
   value_consumes_its_node.2.2.2 (parser_of [ev_plain "a", ev_plain "z"]) .YAML_SEQUENCE_END_EVENT
     .BLOCK_PROCEED (ev_plain "a") (parser_of [ev_plain "z"]) rfl⟩

/-! ## Deviations in a pair-list -/

end MinYaml
